import Mathlib

set_option linter.unusedVariables false
set_option linter.unusedTactic false
set_option linter.unreachableTactic false

/-!
# Segregated-list allocator (`malloclab-handout/mm.c`)

A shallow embedding of the allocator over a flat, byte-addressed memory.
Addresses and `size_t` values are natural numbers; `size_t` arithmetic is
reduced modulo `2 ^ 64` and stored words modulo `2 ^ 32` wherever the C code
can wrap or truncate.  The null pointer is the address `0`.
-/

namespace MM

/-! ## Machine state -/

/-- The allocator's world: byte memory, the break of the simulated heap
(`mem_brk`), its limit (`mem_max_addr`) and the two globals of `mm.c`. -/
structure Heap where
  mem : Nat → Nat
  brk : Nat
  max_addr : Nat
  heap_listp : Nat
  heap_basep : Nat

/-- Number of values of a 64-bit `size_t`. -/
abbrev SZ : Nat := 18446744073709551616

/-- Number of values of a 32-bit `unsigned int`. -/
abbrev WD : Nat := 4294967296

abbrev ALIGNMENT : Nat := 8
abbrev WSIZE : Nat := 4
abbrev DSIZE : Nat := 8
abbrev CHUNKSIZE : Nat := 512
abbrev LIST_NUM : Nat := 12

abbrev SIZE1 : Nat := 16
abbrev SIZE2 : Nat := 32
abbrev SIZE3 : Nat := 64
abbrev SIZE4 : Nat := 128
abbrev SIZE5 : Nat := 256
abbrev SIZE6 : Nat := 512
abbrev SIZE7 : Nat := 1024
abbrev SIZE8 : Nat := 2048
abbrev SIZE9 : Nat := 4096
abbrev SIZE10 : Nat := 8192
abbrev SIZE11 : Nat := 16384

/-- Subtraction of two `size_t` values (wraps around). -/
def sub64 (a b : Nat) : Nat := (a + SZ - b % SZ) % SZ

/-- `ALIGN(p)`: `((size_t)(p) + (DSIZE - 1)) & ~0x7`, the mask being the
sign-extended `int` constant. -/
def ALIGN (p : Nat) : Nat := ((p + (DSIZE - 1)) % SZ) &&& 18446744073709551608

/-- `PACK(size, next_alloc, prev_alloc, alloc)`. -/
def PACK (size next_alloc prev_alloc alloc : Nat) : Nat :=
  size ||| next_alloc ||| prev_alloc ||| alloc

/-- `GET(p)`: the little-endian 32-bit word stored at `p`. -/
def GET (s : Heap) (p : Nat) : Nat :=
  s.mem p % 256 + 256 * (s.mem (p + 1) % 256) + 65536 * (s.mem (p + 2) % 256)
    + 16777216 * (s.mem (p + 3) % 256)

/-- The byte at `a` after the word `val` (truncated to 32 bits) is stored at `p`. -/
def putByte (m : Nat → Nat) (p val a : Nat) : Nat :=
  if a = p then val % 256
  else if a = p + 1 then val / 256 % 256
  else if a = p + 2 then val / 65536 % 256
  else if a = p + 3 then val / 16777216 % 256
  else m a

/-- `PUT(p, val)`: stores the low 32 bits of `val` at `p`. -/
def PUT (s : Heap) (p val : Nat) : Heap :=
  { s with mem := putByte s.mem p val }

/-- `GET_SIZE(p)`: `GET(p) & ~0x7` in `unsigned int`. -/
def GET_SIZE (s : Heap) (p : Nat) : Nat := GET s p &&& 4294967288

/-- `GET_ALLOC(p)`. -/
def GET_ALLOC (s : Heap) (p : Nat) : Nat := GET s p &&& 1

/-- `HDRP(bp)`. -/
def HDRP (bp : Nat) : Nat := bp - WSIZE

/-- `FTRP(bp)`. -/
def FTRP (s : Heap) (bp : Nat) : Nat := bp + GET_SIZE s (HDRP bp) - DSIZE

/-- `NEXT_BLKP(bp)`. -/
def NEXT_BLKP (s : Heap) (bp : Nat) : Nat := bp + GET_SIZE s (bp - WSIZE)

/-- `PREV_BLKP(bp)`. -/
def PREV_BLKP (s : Heap) (bp : Nat) : Nat := bp - GET_SIZE s (bp - DSIZE)

/-- `GET_PREV_ALLOC(p)`. -/
def GET_PREV_ALLOC (s : Heap) (p : Nat) : Nat := GET s p &&& 2

/-- `SET_PREV_ALLOC(p)`. -/
def SET_PREV_ALLOC (s : Heap) (p : Nat) : Heap := PUT s p (GET s p ||| 2)

/-- `GET_NEXT_ALLOC(p)`. -/
def GET_NEXT_ALLOC (s : Heap) (p : Nat) : Nat := GET s p &&& 4

/-- `SET_PREV_FREE(p)`: clears bit 1 (`& ~0x2` in `unsigned int`). -/
def SET_PREV_FREE (s : Heap) (p : Nat) : Heap := PUT s p (GET s p &&& 4294967293)

/-- `NEXT_P(bp)`. -/
def NEXT_P (bp : Nat) : Nat := bp

/-- `PREV_P(bp)`. -/
def PREV_P (bp : Nat) : Nat := bp + WSIZE

/-- `NEXT_FREE_P(bp)`. -/
def NEXT_FREE_P (s : Heap) (bp : Nat) : Nat := s.heap_basep + GET s (NEXT_P bp)

/-- `PREV_FREE_P(bp)`. -/
def PREV_FREE_P (s : Heap) (bp : Nat) : Nat := s.heap_basep + GET s (PREV_P bp)

/-- Modelled from the spec: the heap-growth primitive `mem_sbrk` of `memlib.c`,
which is not part of the sources.  It hands back the old break and commits
`incr` more bytes right after it, or refuses with `(void *)-1` when the heap
cannot grow that far. -/
def mem_sbrk (s : Heap) (incr : Nat) : Nat × Heap :=
  if s.brk + incr ≤ s.max_addr then (s.brk, { s with brk := s.brk + incr })
  else (SZ - 1, s)

/-- The C library's `memcpy`: `n` bytes from `src` to `dst`. -/
def memcpy (s : Heap) (dst src n : Nat) : Heap :=
  { s with mem := fun a => if dst ≤ a ∧ a < dst + n then s.mem (src + (a - dst)) else s.mem a }

/-- The C library's `memset`: `n` bytes of value `c` from `dst` on.  A fill
that stores through the null pointer, or that runs past the last byte of the
memory that backs the heap (`max_addr`), is a fault, rendered as `none`. -/
def memset (s : Heap) (dst c n : Nat) : Option Heap :=
  if 0 < n ∧ (dst = 0 ∨ s.max_addr < dst + n) then none
  else some { s with mem := fun a => if dst ≤ a ∧ a < dst + n then c % 256 else s.mem a }

/-! ## Free lists -/

/-- `get_index`: the size class of a block size. -/
def get_index (size : Nat) : Nat :=
  if size ≤ SIZE1 then 0
  else if size ≤ SIZE2 then 1
  else if size ≤ SIZE3 then 2
  else if size ≤ SIZE4 then 3
  else if size ≤ SIZE5 then 4
  else if size ≤ SIZE6 then 5
  else if size ≤ SIZE7 then 6
  else if size ≤ SIZE8 then 7
  else if size ≤ SIZE9 then 8
  else if size ≤ SIZE10 then 9
  else if size ≤ SIZE11 then 10
  else 11

/-- `insert_block`: links `bp` right after the sentinel of list `index`. -/
def insert_block (s : Heap) (bp index : Nat) : Heap :=
  let s1 := PUT s (NEXT_P bp) (GET s (NEXT_P (s.heap_listp + index * DSIZE)))
  let s2 := PUT s1 (PREV_P bp) (GET s1 (PREV_P (NEXT_FREE_P s1 bp)))
  let s3 := PUT s2 (NEXT_P (s2.heap_listp + index * DSIZE)) ((bp - s2.heap_basep) % SZ)
  PUT s3 (PREV_P (NEXT_FREE_P s3 bp)) ((bp - s3.heap_basep) % SZ)

/-- `delete_block`: unlinks `bp` from the list it is in. -/
def delete_block (s : Heap) (bp : Nat) : Heap :=
  let s1 := PUT s (PREV_P (NEXT_FREE_P s bp)) (GET s (PREV_P bp))
  PUT s1 (NEXT_P (PREV_FREE_P s1 bp)) (GET s1 (NEXT_P bp))

/-- The inner loop of `find_fit`: walks one list from `nextFree` until it is
back at `cur`.  `none`: out of fuel; `some none`: list exhausted;
`some (some bp)`: first block that is large enough. -/
def find_fit_list (s : Heap) (size cur : Nat) : Nat → Nat → Option (Option Nat)
  | 0, _ => none
  | fuel + 1, nextFree =>
    if nextFree = cur then some none
    else if size ≤ GET_SIZE s (HDRP nextFree) then some (some nextFree)
    else find_fit_list s size cur fuel (NEXT_FREE_P s nextFree)

/-- The outer loop of `find_fit`: one list after the other, up to the prologue
footer.  `none`: out of fuel; `some 0`: `NULL`. -/
def find_fit_from (s : Heap) (size : Nat) : Nat → Nat → Option Nat
  | 0, _ => none
  | fuel + 1, cur =>
    if cur = FTRP s s.heap_listp then some 0
    else
      match find_fit_list s size cur fuel (NEXT_FREE_P s cur) with
      | none => none
      | some (some bp) => some bp
      | some none => find_fit_from s size fuel (cur + DSIZE)

/-- `find_fit`: first fit over the lists, starting at
`heap_basep + get_index(size) * DSIZE`. -/
def find_fit (fuel : Nat) (s : Heap) (size : Nat) : Option Nat :=
  find_fit_from s size fuel (s.heap_basep + get_index size * DSIZE)

/-! ## Placement and coalescing -/

/-- `place`: takes `bp` off its list and marks it allocated, splitting off the
remainder when it is at least 16 bytes. -/
def place (s : Heap) (bp size : Nat) : Heap :=
  let freeSize := GET_SIZE s (HDRP bp)
  let s := delete_block s bp
  if 2 * DSIZE ≤ sub64 freeSize size then
    let s := PUT s (HDRP bp) (PACK size 0 (GET_PREV_ALLOC s (HDRP bp)) 1)
    let s := PUT s (FTRP s bp) (PACK size 0 (GET_PREV_ALLOC s (HDRP bp)) 1)
    let s := PUT s (HDRP (NEXT_BLKP s bp)) (PACK (sub64 freeSize size) 0 2 1)
    let s := PUT s (FTRP s (NEXT_BLKP s bp)) (PACK (sub64 freeSize size) 0 2 1)
    insert_block s (NEXT_BLKP s bp) (get_index (sub64 freeSize size))
  else
    let s := PUT s (HDRP bp) (PACK freeSize 0 (GET_PREV_ALLOC s (HDRP bp)) 1)
    let s := PUT s (FTRP s bp) (PACK freeSize 0 (GET_PREV_ALLOC s (HDRP bp)) 1)
    SET_PREV_ALLOC s (HDRP (NEXT_BLKP s bp))

/-- `coalesce`: merges the free block `bp` with its free neighbours and puts
the result on the list of its size class. -/
def coalesce (s : Heap) (bp : Nat) : Nat × Heap :=
  let prevAlloc := GET_PREV_ALLOC s (HDRP bp)
  let nextAlloc := GET_ALLOC s (HDRP (NEXT_BLKP s bp))
  let asize := GET_SIZE s (HDRP bp)
  if prevAlloc ≠ 0 ∧ nextAlloc ≠ 0 then
    let s := SET_PREV_FREE s (HDRP (NEXT_BLKP s bp))
    (bp, insert_block s bp (get_index asize))
  else if prevAlloc ≠ 0 ∧ ¬ nextAlloc ≠ 0 then
    let asize := (asize + GET_SIZE s (HDRP (NEXT_BLKP s bp))) % SZ
    let s := delete_block s (NEXT_BLKP s bp)
    let s := PUT s (HDRP bp) (PACK asize 0 prevAlloc 0)
    let s := PUT s (FTRP s bp) (PACK asize 0 prevAlloc 0)
    (bp, insert_block s bp (get_index asize))
  else if ¬ prevAlloc ≠ 0 ∧ nextAlloc ≠ 0 then
    let asize := (asize + GET_SIZE s (HDRP (PREV_BLKP s bp))) % SZ
    let s := delete_block s (PREV_BLKP s bp)
    let s := SET_PREV_FREE s (HDRP (NEXT_BLKP s bp))
    let s := PUT s (FTRP s bp) (PACK asize 0 (GET_PREV_ALLOC s (HDRP (PREV_BLKP s bp))) 0)
    let s := PUT s (HDRP (PREV_BLKP s bp))
      (PACK asize 0 (GET_PREV_ALLOC s (HDRP (PREV_BLKP s bp))) 0)
    let bp := PREV_BLKP s bp
    (bp, insert_block s bp (get_index asize))
  else
    let asize := (asize + (GET_SIZE s (HDRP (PREV_BLKP s bp))
      + GET_SIZE s (FTRP s (NEXT_BLKP s bp))) % SZ) % SZ
    let s := delete_block s (NEXT_BLKP s bp)
    let s := delete_block s (PREV_BLKP s bp)
    let s := PUT s (HDRP (PREV_BLKP s bp))
      (PACK asize 0 (GET_PREV_ALLOC s (HDRP (PREV_BLKP s bp))) 0)
    let s := PUT s (FTRP s (NEXT_BLKP s bp))
      (PACK asize 0 (GET_PREV_ALLOC s (HDRP (PREV_BLKP s bp))) 0)
    let bp := PREV_BLKP s bp
    (bp, insert_block s bp (get_index asize))

/-- `extend_heap`: grows the heap by `words` words (rounded up to an even
count), formats the new space as a free block and coalesces it.  Returns
`NULL` (0) when `mem_sbrk` refuses. -/
def extend_heap (s : Heap) (words : Nat) : Nat × Heap :=
  let size := if words % 2 ≠ 0 then ((words + 1) * WSIZE) % SZ else (words * WSIZE) % SZ
  let r := mem_sbrk s size
  let bp := r.1
  let s := r.2
  if bp = SZ - 1 then (0, s)
  else
    let prev_alloc := GET_PREV_ALLOC s (HDRP bp)
    let s := PUT s (HDRP bp) (PACK size 0 prev_alloc 0)
    let s := PUT s (FTRP s bp) (PACK size 0 0 0)
    let s := PUT s (HDRP (NEXT_BLKP s bp)) (PACK 0 0 prev_alloc 1)
    coalesce s bp

/-! ## The allocator's interface -/

/-- `mm_init`: lays out the padding word, the prologue, the twelve list
sentinels and the epilogue, then extends the heap by 4096 bytes.  Returns
`-1` (as an `int`) on failure and `0` on success. -/
def mm_init (s : Heap) : Int × Heap :=
  let sizeForInit := (LIST_NUM * 2 + 4) * WSIZE
  let r := mem_sbrk s sizeForInit
  let s := { r.2 with heap_listp := r.1 }
  if s.heap_listp = SZ - 1 then (-1, s)
  else
    let s := PUT s s.heap_listp 0
    let s := PUT s (s.heap_listp + 1 * WSIZE) (PACK (sizeForInit - DSIZE) 0 2 1)
    let s := PUT s (s.heap_listp + sizeForInit - DSIZE) (PACK (sizeForInit - DSIZE) 0 2 1)
    let s := PUT s (s.heap_listp + sizeForInit - WSIZE) (PACK 0 0 2 1)
    let s := { s with heap_basep := s.heap_listp }
    let s := { s with heap_listp := s.heap_listp + DSIZE }
    let s := (List.range LIST_NUM).foldl
      (fun s i =>
        let s := PUT s (s.heap_listp + i * DSIZE) (PACK (i * DSIZE + DSIZE) 0 0 0)
        PUT s (s.heap_listp + i * DSIZE + WSIZE) (PACK (i * DSIZE + DSIZE) 0 0 0)) s
    let r := extend_heap s (CHUNKSIZE * 8 / WSIZE)
    if r.1 = 0 then (-1, r.2) else (0, r.2)

/-- The adjusted block size `malloc` computes for a request of `size` bytes. -/
def malloc_asize (size : Nat) : Nat :=
  if size ≤ DSIZE + WSIZE then DSIZE * 2
  else (DSIZE * (((size + DSIZE + (DSIZE - 1)) % SZ) / DSIZE)) % SZ

/-- `malloc`.  The result is `none` when the search runs out of fuel; the
pointer `0` is `NULL`. -/
def malloc (fuel : Nat) (s : Heap) (size : Nat) : Option (Nat × Heap) :=
  if size ≤ 0 then some (0, s)
  else
    let asize := malloc_asize size
    match find_fit fuel s asize with
    | none => none
    | some bp =>
      if bp ≠ 0 then some (bp, place s bp asize)
      else
        let extendsize := max asize CHUNKSIZE
        let r := extend_heap s (extendsize / WSIZE)
        if r.1 = 0 then some (0, r.2)
        else some (r.1, place r.2 r.1 asize)

/-- `free`. -/
def free (s : Heap) (ptr : Nat) : Heap :=
  if ptr = 0 then s
  else
    let size := GET_SIZE s (HDRP ptr)
    let prevAlloc := GET_PREV_ALLOC s (HDRP ptr)
    let s := PUT s (HDRP ptr) (PACK size 0 prevAlloc 0)
    let s := PUT s (FTRP s ptr) (PACK size 0 prevAlloc 0)
    (coalesce s ptr).2

/-- The target block size `realloc` computes for a request of `size` bytes. -/
def realloc_newSize (size : Nat) : Nat :=
  if size ≤ DSIZE + WSIZE then 2 * DSIZE else ALIGN ((size + WSIZE) % SZ)

/-- `realloc`.  The local `_asize` is still `0` when it is first compared
with `_newSize`. -/
def realloc (fuel : Nat) (s : Heap) (ptr size : Nat) : Option (Nat × Heap) :=
  if ptr = 0 then malloc fuel s size
  else if size = 0 then some (0, free s ptr)
  else
    let oldSize := GET_SIZE s (HDRP ptr)
    let prevAlloc := GET_PREV_ALLOC s (HDRP ptr)
    let newSize := realloc_newSize size
    if newSize ≤ oldSize then some (ptr, s)
    else
      let asize := 0
      if newSize ≤ asize ∧ 2 * DSIZE ≤ sub64 asize newSize then
        if GET_ALLOC s (HDRP (NEXT_BLKP s ptr)) = 0 then
          let asize := (oldSize + GET_SIZE s (HDRP (NEXT_BLKP s ptr))) % SZ
          let s := delete_block s (NEXT_BLKP s ptr)
          let s := PUT s (HDRP ptr) (PACK newSize 0 prevAlloc 1)
          let s := PUT s (HDRP (NEXT_BLKP s ptr)) (PACK (sub64 asize newSize) 0 2 0)
          let s := PUT s (FTRP s (NEXT_BLKP s ptr)) (PACK (sub64 asize newSize) 0 2 0)
          let s := SET_PREV_ALLOC s (HDRP (NEXT_BLKP s (NEXT_BLKP s ptr)))
          some (ptr, insert_block s (NEXT_BLKP s ptr) (get_index (sub64 asize newSize)))
        else
          let s := PUT s (HDRP ptr) (PACK asize 0 prevAlloc 1)
          some (ptr, SET_PREV_ALLOC s (HDRP (NEXT_BLKP s ptr)))
      else
        match malloc fuel s size with
        | none => none
        | some (p, s) =>
          if p = 0 then some (0, s)
          else
            let s := memcpy s p ptr oldSize
            some (p, free s ptr)

/-- `calloc`.  The result is `none` when `malloc` runs out of fuel or when
`memset` faults. -/
def calloc (fuel : Nat) (s : Heap) (nmemb size : Nat) : Option (Nat × Heap) :=
  let bytes := (nmemb * size) % SZ
  match malloc fuel s bytes with
  | none => none
  | some (newptr, s) =>
    match memset s newptr 0 bytes with
    | none => none
    | some s => some (newptr, s)


/-! ## Ghost state, heap invariant and reachable states -/

/-- Ghost description of a heap: which payload addresses start a block,
which blocks sit on a free list, the list each node sits on, and a rank that
decreases along the `next` links of every list. -/
structure Ghost where
  blk : Nat → Prop
  fr : Nat → Prop
  bkt : Nat → Nat
  rk : Nat → Nat

/-- The pointer `p` is handed out to the caller (`L` pairs every live pointer
with the number of bytes that were requested for it). -/
def isLive (L : List (Nat × Nat)) (p : Nat) : Prop := ∃ n, (p, n) ∈ L

/-- Size field of the block whose payload starts at `bp`. -/
def bsize (s : Heap) (bp : Nat) : Nat := GET_SIZE s (HDRP bp)

/-- The address `x` is one of the twelve list sentinels. -/
def isSent (s : Heap) (x : Nat) : Prop := ∃ i, i < 12 ∧ x = s.heap_basep + 8 + 8 * i

/-- Nodes of the free lists: sentinels and listed free blocks. -/
def isNode (s : Heap) (g : Ghost) (x : Nat) : Prop := isSent s x ∨ g.fr x

/-- The globals, the heap bounds and the fixed words in front of the lists. -/
structure Layout (s : Heap) : Prop where
  base_pos : 0 < s.heap_basep
  base_al : s.heap_basep % 8 = 0
  listp : s.heap_listp = s.heap_basep + 8
  brk_al : s.brk % 8 = 0
  brk_lo : s.heap_basep + 112 ≤ s.brk
  brk_max : s.brk ≤ s.max_addr
  max_hi : s.max_addr ≤ s.heap_basep + 4294967296
  pad : GET s s.heap_basep = 0
  prol : GET_SIZE s (s.heap_basep + 4) = 104

/-- The blocks tile the heap from the first block up to the epilogue, and the
header bits agree with the status of the blocks. -/
structure Blocks (s : Heap) (L : List (Nat × Nat)) (g : Ghost) : Prop where
  epi_size : GET_SIZE s (s.brk - 4) = 0
  epi_alloc : GET_ALLOC s (s.brk - 4) = 1
  first : g.blk (s.heap_basep + 112) ∨ s.heap_basep + 112 = s.brk
  first_pa : GET_PREV_ALLOC s (s.heap_basep + 108) = 2
  lo : ∀ bp, g.blk bp →
    s.heap_basep + 112 ≤ bp ∧ bp % 8 = 0 ∧ 16 ≤ bsize s bp ∧ bp + bsize s bp ≤ s.brk
  next : ∀ bp, g.blk bp → g.blk (bp + bsize s bp) ∨ bp + bsize s bp = s.brk
  prev : ∀ bp, g.blk bp ∨ bp = s.brk → bp ≠ s.heap_basep + 112 →
    ∃ q, g.blk q ∧ q + bsize s q = bp
  disj : ∀ p q, g.blk p → g.blk q → p < q → p + bsize s p ≤ q
  live_blk : ∀ p n, (p, n) ∈ L → g.blk p ∧ n + 4 ≤ bsize s p
  live_nodup : L.Pairwise (fun a b => a.1 ≠ b.1)
  live_hdr : ∀ p, isLive L p →
    GET_ALLOC s (HDRP p) = 1 ∧ GET_PREV_ALLOC s (HDRP (p + bsize s p)) = 2
  fr_blk : ∀ p, g.fr p → g.blk p ∧ ¬ isLive L p
  fr_hdr : ∀ p, g.fr p →
    GET_PREV_ALLOC s (HDRP (p + bsize s p)) = 0 ∧ GET_SIZE s (p + bsize s p - 8) = bsize s p
      ∧ get_index (bsize s p) = g.bkt p

/-- The free lists are circular and doubly linked, every node stays on the
list of its bucket, and the rank decreases along `next`. -/
structure Lists (s : Heap) (g : Ghost) : Prop where
  sent_bkt : ∀ i, i < 12 → g.bkt (s.heap_basep + 8 + 8 * i) = i
  fr_lo : ∀ x, g.fr x → s.heap_basep + 112 ≤ x ∧ x % 8 = 0 ∧ x < s.heap_basep + 4294967296
  fr_bkt : ∀ x, g.fr x → g.bkt x < 12
  next : ∀ x, isNode s g x →
    isNode s g (NEXT_FREE_P s x) ∧ PREV_FREE_P s (NEXT_FREE_P s x) = x
      ∧ g.bkt (NEXT_FREE_P s x) = g.bkt x
      ∧ (g.fr (NEXT_FREE_P s x) → g.rk (NEXT_FREE_P s x) < g.rk x)
  prev : ∀ x, isNode s g x →
    isNode s g (PREV_FREE_P s x) ∧ NEXT_FREE_P s (PREV_FREE_P s x) = x

/-- The invariant while the block `t` is in transit: every other block is
either live or on a free list. -/
structure InvT (s : Heap) (L : List (Nat × Nat)) (g : Ghost) (t : Nat) : Prop where
  lay : Layout s
  blocks : Blocks s L g
  lists : Lists s g
  full : ∀ x, g.blk x → x ≠ t → isLive L x ∨ g.fr x

/-- The heap invariant between two calls of the interface. -/
structure Inv (s : Heap) (L : List (Nat × Nat)) (g : Ghost) : Prop where
  lay : Layout s
  blocks : Blocks s L g
  lists : Lists s g
  full : ∀ x, g.blk x → isLive L x ∨ g.fr x

/-- The live table after a pointer was returned for a request of `n` bytes. -/
def allocLive (L : List (Nat × Nat)) (p n : Nat) : List (Nat × Nat) :=
  if p = 0 then L else (p, n) :: L

/-- The live table after `p` was released. -/
def freeLive (L : List (Nat × Nat)) (p : Nat) : List (Nat × Nat) :=
  L.filter (fun e => decide (e.1 ≠ p))

/-- The live table after `realloc(ptr, n)` returned `q`. -/
def reallocLive (L : List (Nat × Nat)) (ptr n q : Nat) : List (Nat × Nat) :=
  if ptr = 0 then allocLive L q n
  else if n = 0 then freeLive L ptr
  else if q = 0 then L
  else (q, n) :: freeLive L ptr

/-- A byte store by the caller. -/
def store (s : Heap) (a v : Nat) : Heap :=
  { s with mem := fun x => if x = a then v else s.mem x }

/-- States reachable through the interface, together with the table of live
pointers.  The heap starts at a non-null, 8-byte aligned break and may grow
to at most `2 ^ 32` bytes; requests are at most `2 ^ 64 - 16` bytes; `free`
and `realloc` are called on live pointers or on `NULL`; the caller stores
only into the bytes it asked for. -/
inductive Reach : Heap → List (Nat × Nat) → Prop
  | init (s0 s : Heap) : 0 < s0.brk → s0.brk % 8 = 0 → s0.max_addr ≤ s0.brk + 4294967296 →
      mm_init s0 = (0, s) → Reach s []
  | malloc (fuel : Nat) (s s' : Heap) (L : List (Nat × Nat)) (n p : Nat) :
      Reach s L → n + 15 < SZ → malloc fuel s n = some (p, s') → Reach s' (allocLive L p n)
  | free (s : Heap) (L : List (Nat × Nat)) (p : Nat) :
      Reach s L → (p = 0 ∨ isLive L p) → Reach (free s p) (freeLive L p)
  | realloc (fuel : Nat) (s s' : Heap) (L : List (Nat × Nat)) (ptr n q : Nat) :
      Reach s L → (ptr = 0 ∨ isLive L ptr) → n + 15 < SZ →
      realloc fuel s ptr n = some (q, s') → Reach s' (reallocLive L ptr n q)
  | calloc (fuel : Nat) (s s' : Heap) (L : List (Nat × Nat)) (nmemb size p : Nat) :
      Reach s L → nmemb * size % SZ + 15 < SZ →
      calloc fuel s nmemb size = some (p, s') → Reach s' (allocLive L p (nmemb * size % SZ))
  | store (s : Heap) (L : List (Nat × Nat)) (p n a v : Nat) :
      Reach s L → (p, n) ∈ L → p ≤ a → a < p + n → Reach (store s a v) L

/-- Ghost update: the block `bp` leaves its free list. -/
def Ghost.unlist (g : Ghost) (bp : Nat) : Ghost :=
  { g with fr := fun x => g.fr x ∧ x ≠ bp }

/-- Ghost update: the block `bp` becomes the head of list `i`, whose sentinel
is `S` and whose old head has rank `r`. -/
def Ghost.enlist (g : Ghost) (bp i S r : Nat) : Ghost :=
  { g with
    fr := fun x => g.fr x ∨ x = bp
    bkt := fun x => if x = bp then i else g.bkt x
    rk := fun x => if x = bp then r + 1 else if x = S then r + 2 else g.rk x }

/-- Ghost update: a block starts at `bp`. -/
def Ghost.addBlk (g : Ghost) (bp : Nat) : Ghost :=
  { g with blk := fun x => g.blk x ∨ x = bp }

/-- Ghost update: no block starts at `bp` any more. -/
def Ghost.delBlk (g : Ghost) (bp : Nat) : Ghost :=
  { g with blk := fun x => g.blk x ∧ x ≠ bp }

/-- The step from `s` to `s'` keeps the size and every payload byte of the
blocks that are live in `L`. -/
def Kept (s s' : Heap) (L : List (Nat × Nat)) : Prop :=
  ∀ p, isLive L p →
    bsize s' p = bsize s p ∧ ∀ a, p ≤ a → a + 4 < p + bsize s p → s'.mem a = s.mem a

/-- The step from `s` to `s'` keeps the break, its limit and the globals. -/
def SameGlobals (s s' : Heap) : Prop :=
  s'.brk = s.brk ∧ s'.max_addr = s.max_addr ∧ s'.heap_listp = s.heap_listp
    ∧ s'.heap_basep = s.heap_basep

/-- The byte at `a` belongs to the allocator's own data: the fixed words and
sentinels in front of the first block, the header of a block or the epilogue,
or the link words or the footer of a listed free block. -/
def isMeta (s : Heap) (g : Ghost) (a : Nat) : Prop :=
  (s.heap_basep ≤ a ∧ a < s.heap_basep + 108)
    ∨ (∃ x, (g.blk x ∨ x = s.brk) ∧ x ≤ a + 4 ∧ a < x)
    ∨ (∃ x, g.fr x ∧ ((x ≤ a ∧ a < x + 8) ∨ (x + bsize s x ≤ a + 8 ∧ a + 4 < x + bsize s x)))

/-! ## Concrete heaps used in the examples -/

/-- An untouched heap of one megabyte at address 8192, all bytes zero. -/
def heap0 : Heap :=
  { mem := fun _ => 0, brk := 8192, max_addr := 8192 + 1048576, heap_listp := 0, heap_basep := 0 }

/-- An untouched heap that has room for `mm_init` and nothing more. -/
def heapSmall : Heap :=
  { mem := fun _ => 0, brk := 8192, max_addr := 8192 + 4208, heap_listp := 0, heap_basep := 0 }

/-- State of a call that returned, `heap0` if it did not. -/
def stOf (r : Option (Nat × Heap)) : Heap :=
  match r with
  | some x => x.2
  | none => heap0

/-- Pointer returned by a call, `0` if it did not return. -/
def ptrOf (r : Option (Nat × Heap)) : Nat :=
  match r with
  | some x => x.1
  | none => 0

/-- The heap right after `mm_init`. -/
def heap1 : Heap := (mm_init heap0).2

/-- First of three requests of 100 bytes after `mm_init`. -/
def ex_a : Option (Nat × Heap) := malloc 20 heap1 100

/-- Second request of 100 bytes. -/
def ex_b : Option (Nat × Heap) := malloc 20 (stOf ex_a) 100

/-- Third request of 100 bytes. -/
def ex_c : Option (Nat × Heap) := malloc 20 (stOf ex_b) 100

/-- `init; a = malloc(100); free(a)`. -/
def heapAF : Heap := free (stOf ex_a) (ptrOf ex_a)

/-- `init; a = malloc(100); b = malloc(100); c = malloc(100); free(b)`. -/
def heapABC : Heap := free (stOf ex_c) (ptrOf ex_b)

/-- `init; a = malloc(100); b = malloc(100); free(a)`, then the caller stores
the byte 255 at `b[0]`. -/
def heapAB : Heap := store (free (stOf ex_b) (ptrOf ex_a)) (ptrOf ex_b) 255

/-- A heap that cannot grow any more, right after `mm_init`. -/
def heapFull : Heap := (mm_init heapSmall).2

end MM


set_option linter.unusedVariables false
set_option linter.unusedTactic false
set_option linter.unreachableTactic false

namespace MM

/-! ## The heap checker -/

/-- A line of diagnosis that the heap checker prints. -/
inductive Finding where
  | alignmentWord
  | prologueHeader
  | prologueFooter
  | numberOfLists
  | listAlign (blk lst : Nat)
  | listLinks (blk lst : Nat)
  | listHeaderFooter (blk lst : Nat)
  | listTooSmall (blk lst : Nat)
  | listOutOfRange (blk lst : Nat)
  | outOfHeap (bp : Nat)
  | blockAlign (bp : Nat)
  | shouldCoalesce (pv bp : Nat)
  | allocBits (bp : Nat)
  deriving DecidableEq

/-- `ALIGNED(p)`. -/
def ALIGNED (p : Nat) : Bool := decide (ALIGN p = p)

/-- Modelled from the spec: `in_heap` asks the memory system for the first and
the last byte of the heap; `lo` stands for `mem_heap_lo()`, and the last byte
is the one in front of the break. -/
def in_heap (lo : Nat) (s : Heap) (p : Nat) : Bool := decide (p ≤ s.brk - 1 ∧ lo ≤ p)

/-- `checkHeapStructure`: the lines it prints. -/
def checkHeapStructure (s : Heap) : List Finding :=
  (if GET s s.heap_basep ≠ 0 then [Finding.alignmentWord] else [])
  ++ (if GET_ALLOC s (HDRP s.heap_listp) = 0 ∨ GET_PREV_ALLOC s (HDRP s.heap_listp) = 0
      then [Finding.prologueHeader] else [])
  ++ (if GET_ALLOC s (FTRP s s.heap_listp) = 0 ∨ GET_PREV_ALLOC s (FTRP s s.heap_listp) = 0
      then [Finding.prologueFooter] else [])
  ++ (if GET_SIZE s (HDRP s.heap_listp) ≠ (LIST_NUM - 1) * DSIZE
      then [Finding.numberOfLists] else [])

/-- The checks of `checkEachFreeBlockInList` for one block of a list. -/
def checkFreeBlock (s : Heap) (listPtr nextBlock : Nat) : List Finding :=
  (if ALIGNED nextBlock = false then [Finding.listAlign nextBlock listPtr] else [])
  ++ (if PREV_FREE_P s (NEXT_FREE_P s nextBlock) ≠ nextBlock
      then [Finding.listLinks nextBlock listPtr] else [])
  ++ (if GET s (HDRP nextBlock) ≠ GET s (FTRP s nextBlock)
      then [Finding.listHeaderFooter nextBlock listPtr] else [])
  ++ (if GET_SIZE s (HDRP nextBlock) < DSIZE
      then [Finding.listTooSmall nextBlock listPtr] else [])
  ++ (if GET_SIZE s (HDRP listPtr) < GET_SIZE s (HDRP nextBlock)
        ∨ GET_SIZE s (HDRP nextBlock) < GET_SIZE s (HDRP listPtr) / 2
      then [Finding.listOutOfRange nextBlock listPtr] else [])

/-- The loop of `checkEachFreeBlockInList`.  `none`: out of fuel. -/
def checkListLoop (s : Heap) (listPtr : Nat) : Nat → Nat → Option (List Finding)
  | 0, _ => none
  | fuel + 1, nextBlock =>
    if nextBlock = listPtr then some []
    else
      match checkListLoop s listPtr fuel (NEXT_FREE_P s nextBlock) with
      | none => none
      | some r => some (checkFreeBlock s listPtr nextBlock ++ r)

/-- `checkEachFreeBlockInList`: the lines it prints. -/
def checkEachFreeBlockInList (fuel : Nat) (s : Heap) (listPtr : Nat) : Option (List Finding) :=
  checkListLoop s listPtr fuel (NEXT_FREE_P s listPtr)

/-- `checkEachBlockInPayload`: the lines it prints. -/
def checkEachBlockInPayload (lo : Nat) (s : Heap) (bp : Nat) : List Finding :=
  (if in_heap lo s bp = false then [Finding.outOfHeap bp] else [])
  ++ (if ALIGNED bp = false then [Finding.blockAlign bp] else [])
  ++ (if GET_ALLOC s (HDRP bp) ≠ 0 ∧ GET_PREV_ALLOC s (HDRP bp) ≠ 0
      then [Finding.shouldCoalesce (PREV_BLKP s bp) bp] else [])
  ++ (if GET_PREV_ALLOC s (HDRP bp) ≠ GET_ALLOC s (HDRP (PREV_BLKP s bp))
      then [Finding.allocBits bp] else [])

/-- The loop of `mm_checkheap` over the lists. -/
def checkLists (fuel : Nat) (s : Heap) (bp : Nat) : Nat → Nat → Option (List Finding)
  | 0, _ => some []
  | n + 1, i =>
    match checkEachFreeBlockInList fuel s (bp + i * DSIZE) with
    | none => none
    | some r =>
      match checkLists fuel s bp n (i + 1) with
      | none => none
      | some r2 => some (r ++ r2)

/-- The loop of `mm_checkheap` over the blocks, up to the first header of
size 0.  `none`: out of fuel. -/
def checkPayload (lo : Nat) (s : Heap) : Nat → Nat → Option (List Finding)
  | 0, _ => none
  | fuel + 1, p =>
    if GET_SIZE s (HDRP p) ≠ 0 then
      match checkPayload lo s fuel (NEXT_BLKP s p) with
      | none => none
      | some r => some (checkEachBlockInPayload lo s p ++ r)
    else some []

/-- `mm_checkheap`: the diagnostic lines it prints, in order (the line with
the heap address that `verbose` adds is not one of them).  `none`: out of
fuel. -/
def mm_checkheap (fuel : Nat) (lo : Nat) (s : Heap) : Option (List Finding) :=
  match checkLists fuel s s.heap_listp LIST_NUM 0 with
  | none => none
  | some r1 =>
    match checkPayload lo s fuel (NEXT_BLKP s s.heap_listp) with
    | none => none
    | some r2 => some (checkHeapStructure s ++ r1 ++ r2)

/-! ## First fit, as the specification words it -/

/-- Modelled from the spec: the blocks on the list of `cur`, in list order:
the walk along the `next` links from `x` until it is back at the sentinel
`cur`.  `none`: out of fuel. -/
def listWalk (s : Heap) (cur : Nat) : Nat → Nat → Option (List Nat)
  | 0, _ => none
  | fuel + 1, x =>
    if x = cur then some []
    else
      match listWalk s cur fuel (NEXT_FREE_P s x) with
      | none => none
      | some l => some (x :: l)

/-- Modelled from the spec: the blocks of size class `i`, in list order. -/
def listBlocks (fuel : Nat) (s : Heap) (i : Nat) : Option (List Nat) :=
  listWalk s (s.heap_listp + i * DSIZE) fuel (NEXT_FREE_P s (s.heap_listp + i * DSIZE))

/-- Second request after `ex_a`: 200 bytes. -/
def ex_b200 : Option (Nat × Heap) := malloc 20 (stOf ex_a) 200

/-- `init; a = malloc(100); b = malloc(200); free(a)`. -/
def heapA200 : Heap := free (stOf ex_b200) (ptrOf ex_a)

end MM

namespace Csim

/-! ## The cache simulator (`csim.c`) -/

/-- One cache line. -/
structure line where
  valid : Nat
  tag : Nat
  LRU : Nat

/-- A parsed address. -/
structure address where
  t : Nat
  s : Nat
  b : Nat

/-- The store `cache[i][j] = l`. -/
def setLine (cache : Nat → Nat → line) (i j : Nat) (l : line) : Nat → Nat → line :=
  fun i' j' => if i' = i ∧ j' = j then l else cache i' j'

/-- Result of the first loop of `goToCache`. -/
structure Scan where
  cache : Nat → Nat → line
  hit : Nat
  emptyLine : Int
  returnCode : Nat

/-- The first loop of `goToCache`, from line `j` on with `n` lines to go: it
notes the last invalid line it sees, stops at a hit after clearing the
counter of that line, and adds one (in 32 bits) to the counter of every valid
line with another tag that it passes. -/
def scanSet (setIndex t : Nat) : Nat → Nat → Int → (Nat → Nat → line) → Scan
  | 0, _, emptyLine, cache => ⟨cache, 0, emptyLine, 0⟩
  | n + 1, j, emptyLine, cache =>
    if (cache setIndex j).valid = 0 then scanSet setIndex t n (j + 1) (j : Int) cache
    else if (cache setIndex j).valid = 1 ∧ (cache setIndex j).tag = t then
      ⟨setLine cache setIndex j { cache setIndex j with LRU := 0 }, 1, emptyLine, 1⟩
    else if (cache setIndex j).valid = 1 ∧ (cache setIndex j).tag ≠ t then
      scanSet setIndex t n (j + 1) emptyLine
        (setLine cache setIndex j
          { cache setIndex j with LRU := ((cache setIndex j).LRU + 1) % 4294967296 })
    else scanSet setIndex t n (j + 1) emptyLine cache

/-- The second loop of `goToCache`: the last valid line among those whose
counter is at least every counter seen before (`whoHasMinLRU`; `-1` when no
line is valid). -/
def findVictim (cache : Nat → Nat → line) (setIndex : Nat) : Nat → Nat → Nat → Int → Int
  | 0, _, _, who => who
  | n + 1, k, maxLRU, who =>
    if maxLRU ≤ (cache setIndex k).LRU ∧ (cache setIndex k).valid ≠ 0 then
      findVictim cache setIndex n (k + 1) (cache setIndex k).LRU (k : Int)
    else findVictim cache setIndex n (k + 1) maxLRU who

/-- `goToCache`: 1 for a hit, 2 for a miss that fills an invalid line, 3 for
a miss with an eviction, together with the cache it leaves. -/
def goToCache (cache : Nat → Nat → line) (suchAddr : address) (S E : Nat) :
    Nat × (Nat → Nat → line) :=
  let sc := scanSet suchAddr.s suchAddr.t E 0 (-1) cache
  let r1 : Nat × (Nat → Nat → line) :=
    if sc.emptyLine ≠ -1 ∧ sc.hit = 0 then
      (2, setLine sc.cache suchAddr.s sc.emptyLine.toNat ⟨1, suchAddr.t, 0⟩)
    else (sc.returnCode, sc.cache)
  if sc.emptyLine = -1 ∧ sc.hit = 0 then
    (3, setLine r1.2 suchAddr.s (findVictim r1.2 suchAddr.s E 0 0 (-1)).toNat
      ⟨1, suchAddr.t, 0⟩)
  else r1

/-- The cache as `main` initialises it: every line invalid. -/
def emptyCache : Nat → Nat → line := fun _ _ => ⟨0, 0, 0⟩

/-- The return codes of `goToCache` for a sequence of tags that all go to
set 0. -/
def runSet (E : Nat) : (Nat → Nat → line) → List Nat → List Nat
  | _, [] => []
  | cache, t :: ts =>
    (goToCache cache ⟨t, 0, 0⟩ 1 E).1 :: runSet E (goToCache cache ⟨t, 0, 0⟩ 1 E).2 ts

/-- Modelled from the spec: one access to a least-recently-used cache of `E`
lines; `resident` lists the tags in the set, most recently used first. -/
def lruAccess (E : Nat) (resident : List Nat) (t : Nat) : Nat × List Nat :=
  if t ∈ resident then (1, t :: resident.erase t)
  else if resident.length < E then (2, t :: resident)
  else (3, t :: resident.dropLast)

/-- Modelled from the spec: the results of a sequence of accesses to a
least-recently-used cache of `E` lines. -/
def runLRU (E : Nat) : List Nat → List Nat → List Nat
  | _, [] => []
  | resident, t :: ts => (lruAccess E resident t).1 :: runLRU E (lruAccess E resident t).2 ts

end Csim

namespace Trans

/-! ## The matrix transpose (`trans.c`) -/

/-- The two arrays: `A` has `N` rows of `M` entries, `B` has `M` rows of `N`
entries. -/
structure Mats where
  A : Nat → Nat → Int
  B : Nat → Nat → Int

/-- The store `B[r][c] = v`. -/
def setB (m : Mats) (r c : Nat) (v : Int) : Mats :=
  { m with B := fun r' c' => if r' = r ∧ c' = c then v else m.B r' c' }

/-- `for (i = i0; i < hi; i += step) body`, with at most `fuel` rounds. -/
def forLoop (hi step : Nat) (body : Mats → Nat → Mats) : Nat → Nat → Mats → Mats
  | 0, _, m => m
  | fuel + 1, i, m => if i < hi then forLoop hi step body fuel (i + step) (body m i) else m

/-- Body of the first inner loop of `trans_NxM`: row `k` of the top half of
the block of `A`. -/
def topHalf (i : Nat) (m : Mats) (k : Nat) : Mats :=
  let a0 := m.A k i
  let a1 := m.A k (i + 1)
  let a2 := m.A k (i + 2)
  let a3 := m.A k (i + 3)
  let a4 := m.A k (i + 4)
  let a5 := m.A k (i + 5)
  let a6 := m.A k (i + 6)
  let a7 := m.A k (i + 7)
  let m := setB m i k a0
  let m := setB m (i + 1) k a1
  let m := setB m (i + 2) k a2
  let m := setB m (i + 3) k a3
  let m := setB m i (k + 4) a4
  let m := setB m (i + 1) (k + 4) a5
  let m := setB m (i + 2) (k + 4) a6
  setB m (i + 3) (k + 4) a7

/-- Body of the second inner loop of `trans_NxM`. -/
def moveParked (j : Nat) (m : Mats) (k : Nat) : Mats :=
  let a0 := m.B k (j + 4)
  let a1 := m.B k (j + 5)
  let a2 := m.B k (j + 6)
  let a3 := m.B k (j + 7)
  let a4 := m.A (j + 4) k
  let a5 := m.A (j + 5) k
  let a6 := m.A (j + 6) k
  let a7 := m.A (j + 7) k
  let m := setB m k (j + 4) a4
  let m := setB m k (j + 5) a5
  let m := setB m k (j + 6) a6
  let m := setB m k (j + 7) a7
  let m := setB m (k + 4) j a0
  let m := setB m (k + 4) (j + 1) a1
  let m := setB m (k + 4) (j + 2) a2
  setB m (k + 4) (j + 3) a3

/-- Body of the third inner loop of `trans_NxM`. -/
def lastQuarter (j : Nat) (m : Mats) (k : Nat) : Mats :=
  let a0 := m.A (j + 4) k
  let a1 := m.A (j + 5) k
  let a2 := m.A (j + 6) k
  let a3 := m.A (j + 7) k
  let m := setB m k (j + 4) a0
  let m := setB m k (j + 5) a1
  let m := setB m k (j + 6) a2
  setB m k (j + 7) a3

/-- One round of the loop over `j`: the three inner loops for the block at
`(i, j)`. -/
def block8 (i : Nat) (m : Mats) (j : Nat) : Mats :=
  let m := forLoop (j + 4) 1 (topHalf i) 4 j m
  let m := forLoop (i + 4) 1 (moveParked j) 4 i m
  forLoop (i + 8) 1 (lastQuarter j) 4 (i + 4) m

/-- Body of the loops over the part outside the square: `B[j][i] = A[i][j]`. -/
def copyOne (i : Nat) (m : Mats) (j : Nat) : Mats := setB m j i (m.A i j)

/-- `trans_NxM`. -/
def trans_NxM (M N : Nat) (m : Mats) : Mats :=
  let min := if N < M then N else M
  let min := 8 * (min / 8)
  let m := forLoop min 8 (fun m i => forLoop min 8 (block8 i) min 0 m) min 0 m
  if M ≠ N then
    let m := forLoop min 1 (fun m i => forLoop M 1 (copyOne i) M min m) min 0 m
    forLoop N 1 (fun m i => forLoop M 1 (copyOne i) M 0 m) N min m
  else m

/-- `is_transpose`. -/
def is_transpose (M N : Nat) (m : Mats) : Nat :=
  if (List.range N).all (fun i => (List.range M).all (fun j => decide (m.A i j = m.B j i)))
  then 1 else 0

/-- `transpose_submit`: the contract macros do not change the arrays. -/
def transpose_submit (M N : Nat) (m : Mats) : Mats := trans_NxM M N m

/-- The arrays of the smallest example: `A = [[7]]`, `B = [[0]]`. -/
def mats1 : Mats := ⟨fun _ _ => 7, fun _ _ => 0⟩

/-- An `8 x 8` example: `A[i][j] = 8 * i + j`, `B` all zero. -/
def mats8 : Mats := ⟨fun i j => ((8 * i + j : Nat) : Int), fun _ _ => 0⟩

end Trans

namespace Proxy

/-! ## URI parsing of the proxy (`proxy.c`) -/

/-- The four character arrays `parse_uri` works on. -/
structure Bufs where
  uri : Nat → Nat
  host : Nat → Nat
  port : Nat → Nat
  suffix : Nat → Nat

/-- A store of one byte into an array. -/
def setByte (a : Nat → Nat) (i v : Nat) : Nat → Nat := fun k => if k = i then v else a k

/-- The C library's `tolower` on ASCII. -/
def tolower (c : Nat) : Nat := if 65 ≤ c ∧ c ≤ 90 then c + 32 else c

/-- The C library's `strncasecmp(uri, "http://", 7)` is zero. -/
def startsWithHttp (uri : Nat → Nat) : Bool :=
  decide (tolower (uri 0) = 104 ∧ tolower (uri 1) = 116 ∧ tolower (uri 2) = 116
    ∧ tolower (uri 3) = 112 ∧ tolower (uri 4) = 58 ∧ tolower (uri 5) = 47
    ∧ tolower (uri 6) = 47)

/-- The first loop of `parse_uri`: copies to `host` up to a `':'` or up to
and with a `'/'`.  Returns the arrays and the two pointers. -/
def hostLoop : Nat → Bufs → Nat → Nat → Option (Bufs × Nat × Nat)
  | 0, _, _, _ => none
  | fuel + 1, b, ptr, host =>
    if b.uri ptr ≠ 58 then
      if b.uri ptr = 47 then some ({ b with host := setByte b.host host (b.uri ptr) }, ptr, host)
      else hostLoop fuel { b with host := setByte b.host host (b.uri ptr) } (ptr + 1) (host + 1)
    else some (b, ptr, host)

/-- The second loop of `parse_uri`: copies to `port` up to a `'/'`. -/
def portLoop : Nat → Bufs → Nat → Nat → Option (Bufs × Nat × Nat)
  | 0, _, _, _ => none
  | fuel + 1, b, ptr, port =>
    if b.uri ptr ≠ 47 then
      portLoop fuel { b with port := setByte b.port port (b.uri ptr) } (ptr + 1) (port + 1)
    else some (b, ptr, port)

/-- The C library's `strcpy(suffix, uri + ptr)`. -/
def strcpySuffix : Nat → Bufs → Nat → Nat → Option Bufs
  | 0, _, _, _ => none
  | fuel + 1, b, ptr, k =>
    if b.uri ptr = 0 then some { b with suffix := setByte b.suffix k 0 }
    else strcpySuffix fuel { b with suffix := setByte b.suffix k (b.uri ptr) } (ptr + 1) (k + 1)

/-- `parse_uri`: the return value and the arrays.  `none`: out of fuel. -/
def parse_uri (fuel : Nat) (b : Bufs) : Option (Int × Bufs) :=
  if startsWithHttp b.uri = false then some (-1, b)
  else
    let b := { b with port := setByte b.port 0 80 }
    match hostLoop fuel b 7 0 with
    | none => none
    | some (b, ptr, host) =>
      let b := { b with host := setByte b.host host 0 }
      if b.uri ptr = 58 then
        let b := { b with uri := setByte b.uri ptr 0 }
        match portLoop fuel b (ptr + 1) 0 with
        | none => none
        | some (b, ptr, port) =>
          let b := { b with port := setByte b.port port 0 }
          match strcpySuffix fuel b ptr 0 with
          | none => none
          | some b => some (0, b)
      else
        match strcpySuffix fuel b ptr 0 with
        | none => none
        | some b => some (0, b)

/-- An array that starts with the bytes of `l` and holds 0 after them. -/
def ofBytes (l : List Nat) : Nat → Nat := fun i => l.getD i 0

/-- The bytes of a C string: the array up to the first 0, at most `fuel`
bytes. -/
def cstr (a : Nat → Nat) : Nat → Nat → List Nat
  | 0, _ => []
  | fuel + 1, i => if a i = 0 then [] else a i :: cstr a fuel (i + 1)

/-- The arrays for `"http://h/x"` with zeroed result arrays. -/
def bufsNoPort : Bufs :=
  ⟨ofBytes [104, 116, 116, 112, 58, 47, 47, 104, 47, 120], fun _ => 0, fun _ => 0, fun _ => 0⟩

/-- The arrays for `"http://h:81/x"` with zeroed result arrays. -/
def bufsPort : Bufs :=
  ⟨ofBytes [104, 116, 116, 112, 58, 47, 47, 104, 58, 56, 49, 47, 120],
    fun _ => 0, fun _ => 0, fun _ => 0⟩

/-- Return value of a call that returned, `1` if it did not. -/
def retOf (r : Option (Int × Bufs)) : Int :=
  match r with
  | some x => x.1
  | none => 1

/-- Arrays after a call that returned, `bufsNoPort` if it did not. -/
def bufsOf (r : Option (Int × Bufs)) : Bufs :=
  match r with
  | some x => x.2
  | none => bufsNoPort

end Proxy


set_option linter.unusedVariables false
set_option linter.unusedTactic false
set_option linter.unreachableTactic false

namespace MM

/-! ## The blocks in address order -/

/-- Modelled from the spec: the walk over the blocks in address order, from
`bp` on, adding the size field of each header, up to the first header whose
size field is 0.  It returns the blocks it visits and the block pointer at
which it stops.  `none`: out of fuel. -/
def blockWalk (s : Heap) : Nat → Nat → Option (List Nat × Nat)
  | 0, _ => none
  | fuel + 1, bp =>
    if GET_SIZE s (HDRP bp) = 0 then some ([], bp)
    else
      match blockWalk s fuel (NEXT_BLKP s bp) with
      | none => none
      | some r => some (bp :: r.1, r.2)

/-- Modelled from the spec: the blocks of the heap in address order, from the
first block after the prologue, and where the walk ends. -/
def heapBlocks (fuel : Nat) (s : Heap) : Option (List Nat × Nat) :=
  blockWalk s fuel (NEXT_BLKP s s.heap_listp)

/-! ## The result of `free`, as the specification words it -/

/-- Modelled from the spec: the size of the block in front of `p` when the
predecessor bit of `p` is clear, else 0. -/
def mergedBefore (s : Heap) (p : Nat) : Nat :=
  if GET_PREV_ALLOC s (HDRP p) = 0 then bsize s (PREV_BLKP s p) else 0

/-- Modelled from the spec: the size of the block behind `p` when its
allocation bit is clear, else 0. -/
def mergedAfter (s : Heap) (p : Nat) : Nat :=
  if GET_ALLOC s (HDRP (NEXT_BLKP s p)) = 0 then bsize s (NEXT_BLKP s p) else 0

/-- Modelled from the spec: where the block that survives `free(p)` starts: at
the block in front of `p` when that one is merged in, else at `p`. -/
def survivor (s : Heap) (p : Nat) : Nat :=
  if 0 < mergedBefore s p then PREV_BLKP s p else p

/-- `init; a = malloc(100); b = malloc(100); c = malloc(100); free(a);
free(c)`. -/
def heapAC : Heap := free (free (stOf ex_c) (ptrOf ex_a)) (ptrOf ex_c)

/-! ## A request whose size wraps around, and a heap that cannot grow -/

/-- Right after `mm_init`: `malloc(2^64 - 15)`, whose adjusted size wraps
around to 0. -/
def exW : Option (Nat × Heap) := malloc 20 heap1 18446744073709551601

/-- After `init; p = malloc(2^64 - 15)` the caller stores the byte 125 at
`p[4096]` and the byte 20 at `p[10]`, both among the bytes it asked for. -/
def heapWrap : Heap := store (store (stOf exW) (ptrOf exW + 4096) 125) (ptrOf exW + 10) 20

end MM


set_option linter.unusedVariables false
set_option linter.unusedTactic false
set_option linter.unreachableTactic false
namespace MM

theorem land_split (a b m c : Nat) (hb : b < 8) (hc : c < 8) :
    (8 * a + b) &&& (8 * m + c) = 8 * (a &&& m) + (b &&& c) := by
  have hbc : b &&& c < 2 ^ 3 := Nat.and_lt_two_pow b (by simpa using hc)
  apply Nat.eq_of_testBit_eq
  intro j
  have e1 := Nat.testBit_mul_pow_two_add a (show b < 2 ^ 3 by simpa using hb) j
  have e2 := Nat.testBit_mul_pow_two_add m (show c < 2 ^ 3 by simpa using hc) j
  have e3 := Nat.testBit_mul_pow_two_add (a &&& m) hbc j
  simp only [Nat.reducePow] at e1 e2 e3
  rw [Nat.testBit_and, e1, e2, e3]
  by_cases hj : j < 3 <;> simp [hj, Nat.testBit_and]

theorem lor_split (a b m c : Nat) (hb : b < 8) (hc : c < 8) :
    (8 * a + b) ||| (8 * m + c) = 8 * (a ||| m) + (b ||| c) := by
  have hbc : b ||| c < 2 ^ 3 := Nat.or_lt_two_pow (by simpa using hb) (by simpa using hc)
  apply Nat.eq_of_testBit_eq
  intro j
  have e1 := Nat.testBit_mul_pow_two_add a (show b < 2 ^ 3 by simpa using hb) j
  have e2 := Nat.testBit_mul_pow_two_add m (show c < 2 ^ 3 by simpa using hc) j
  have e3 := Nat.testBit_mul_pow_two_add (a ||| m) hbc j
  simp only [Nat.reducePow] at e1 e2 e3
  rw [Nat.testBit_or, e1, e2, e3]
  by_cases hj : j < 3 <;> simp [hj, Nat.testBit_or]

theorem low_and (b c : Nat) (hb : b < 8) (hc : c < 8) :
    b &&& c = (if b % 2 = 1 ∧ c % 2 = 1 then 1 else 0) + (if b / 2 % 2 = 1 ∧ c / 2 % 2 = 1 then 2 else 0)
      + (if b / 4 % 2 = 1 ∧ c / 4 % 2 = 1 then 4 else 0) := by
  interval_cases b <;> interval_cases c <;> rfl

theorem low_or (b c : Nat) (hb : b < 8) (hc : c < 8) :
    b ||| c = (if b % 2 = 1 ∨ c % 2 = 1 then 1 else 0) + (if b / 2 % 2 = 1 ∨ c / 2 % 2 = 1 then 2 else 0)
      + (if b / 4 % 2 = 1 ∨ c / 4 % 2 = 1 then 4 else 0) := by
  interval_cases b <;> interval_cases c <;> rfl

/-- Masking with `~0x7` in 32 bits. -/
theorem and_mask8 (x : Nat) (h : x < 4294967296) : x &&& 4294967288 = 8 * (x / 8) := by
  have h1 := land_split (x / 8) (x % 8) 536870911 0 (Nat.mod_lt _ (by norm_num)) (by norm_num)
  have h2 : 8 * (x / 8) + x % 8 = x := Nat.div_add_mod x 8
  have h3 : (x / 8) &&& 536870911 = x / 8 := by
    have := Nat.and_pow_two_sub_one_eq_mod (x / 8) 29
    simp only [Nat.reducePow, Nat.reduceSub] at this
    rw [this]; apply Nat.mod_eq_of_lt; omega
  rw [h2] at h1
  simp only [Nat.mul_comm 8 536870911, Nat.reduceMul, Nat.add_zero, Nat.and_zero] at h1
  rw [h1, h3]

theorem and_mask8_64 (x : Nat) (h : x < 18446744073709551616) :
    x &&& 18446744073709551608 = 8 * (x / 8) := by
  have h1 := land_split (x / 8) (x % 8) 2305843009213693951 0 (Nat.mod_lt _ (by norm_num)) (by norm_num)
  have h2 : 8 * (x / 8) + x % 8 = x := Nat.div_add_mod x 8
  have h3 : (x / 8) &&& 2305843009213693951 = x / 8 := by
    have := Nat.and_pow_two_sub_one_eq_mod (x / 8) 61
    simp only [Nat.reducePow, Nat.reduceSub] at this
    rw [this]; apply Nat.mod_eq_of_lt; omega
  rw [h2] at h1
  simp only [Nat.reduceMul, Nat.add_zero, Nat.and_zero] at h1
  rw [h1, h3]

theorem and_two (x : Nat) : x &&& 2 = 2 * (x / 2 % 2) := by
  have h1 := land_split (x / 8) (x % 8) 0 2 (Nat.mod_lt _ (by norm_num)) (by norm_num)
  have h2 : 8 * (x / 8) + x % 8 = x := Nat.div_add_mod x 8
  rw [h2] at h1
  have h4 := low_and (x % 8) 2 (Nat.mod_lt _ (by norm_num)) (by norm_num)
  simp only [Nat.mul_zero, Nat.zero_add, Nat.and_zero] at h1
  rw [h1, h4]
  norm_num
  split <;> omega

theorem and_four (x : Nat) : x &&& 4 = 4 * (x / 4 % 2) := by
  have h1 := land_split (x / 8) (x % 8) 0 4 (Nat.mod_lt _ (by norm_num)) (by norm_num)
  have h2 : 8 * (x / 8) + x % 8 = x := Nat.div_add_mod x 8
  rw [h2] at h1
  have h4 := low_and (x % 8) 4 (Nat.mod_lt _ (by norm_num)) (by norm_num)
  simp only [Nat.mul_zero, Nat.zero_add, Nat.and_zero] at h1
  rw [h1, h4]
  norm_num
  split <;> omega

theorem or_two (x : Nat) : x ||| 2 = x + 2 - 2 * (x / 2 % 2) := by
  have h1 := lor_split (x / 8) (x % 8) 0 2 (Nat.mod_lt _ (by norm_num)) (by norm_num)
  have h2 : 8 * (x / 8) + x % 8 = x := Nat.div_add_mod x 8
  rw [h2] at h1
  have h4 := low_or (x % 8) 2 (Nat.mod_lt _ (by norm_num)) (by norm_num)
  simp only [Nat.mul_zero, Nat.zero_add, Nat.or_zero] at h1
  rw [h1, h4]
  norm_num
  split <;> split <;> omega

theorem and_clear2 (x : Nat) (h : x < 4294967296) : x &&& 4294967293 = x - 2 * (x / 2 % 2) := by
  have h1 := land_split (x / 8) (x % 8) 536870911 5 (Nat.mod_lt _ (by norm_num)) (by norm_num)
  have h2 : 8 * (x / 8) + x % 8 = x := Nat.div_add_mod x 8
  have h3 : (x / 8) &&& 536870911 = x / 8 := by
    have := Nat.and_pow_two_sub_one_eq_mod (x / 8) 29
    simp only [Nat.reducePow, Nat.reduceSub] at this
    rw [this]; apply Nat.mod_eq_of_lt; omega
  rw [h2] at h1
  have h4 := low_and (x % 8) 5 (Nat.mod_lt _ (by norm_num)) (by norm_num)
  simp only [Nat.reduceMul, Nat.reduceAdd] at h1
  rw [h1, h3, h4]
  norm_num
  split <;> split <;> omega

/-- A size that is a multiple of 8 and the flag bits do not overlap. -/
theorem or_flags (size f : Nat) (hs : size % 8 = 0) (hf : f < 8) : size ||| f = size + f := by
  have h1 := lor_split (size / 8) 0 0 f (by norm_num) hf
  have h2 : 8 * (size / 8) + 0 = size := by omega
  rw [h2] at h1
  simp only [Nat.mul_zero, Nat.zero_add, Nat.or_zero, Nat.zero_or] at h1
  rw [h1]; omega


/-! ## Reading and writing words -/

theorem GET_lt (s : Heap) (p : Nat) : GET s p < 4294967296 := by
  unfold GET; omega

theorem GET_PUT_same (s : Heap) (p v : Nat) : GET (PUT s p v) p = v % 4294967296 := by
  simp only [GET, PUT, putByte]
  have h1 : ¬ (p + 1 = p) := by omega
  have h2 : ¬ (p + 2 = p) := by omega
  have h3 : ¬ (p + 3 = p) := by omega
  have h4 : ¬ (p + 2 = p + 1) := by omega
  have h5 : ¬ (p + 3 = p + 1) := by omega
  have h6 : ¬ (p + 3 = p + 2) := by omega
  simp only [h1, h2, h3, h4, h5, h6, if_true, if_false]
  omega

theorem PUT_mem_other (s : Heap) (p v a : Nat) (h : a < p ∨ p + 4 ≤ a) :
    (PUT s p v).mem a = s.mem a := by
  simp only [PUT, putByte]
  have h1 : ¬ (a = p) := by omega
  have h2 : ¬ (a = p + 1) := by omega
  have h3 : ¬ (a = p + 2) := by omega
  have h4 : ¬ (a = p + 3) := by omega
  simp only [h1, h2, h3, h4, if_false]

theorem GET_PUT_other (s : Heap) (p v q : Nat) (h : q + 4 ≤ p ∨ p + 4 ≤ q) :
    GET (PUT s p v) q = GET s q := by
  unfold GET
  rw [PUT_mem_other s p v q (by omega), PUT_mem_other s p v (q + 1) (by omega),
    PUT_mem_other s p v (q + 2) (by omega), PUT_mem_other s p v (q + 3) (by omega)]

/-- Aligned words are either the same word or disjoint. -/
theorem GET_PUT (s : Heap) (p v q : Nat) (hp : p % 4 = 0) (hq : q % 4 = 0) :
    GET (PUT s p v) q = if q = p then v % 4294967296 else GET s q := by
  by_cases h : q = p
  · subst h; simp [GET_PUT_same]
  · simp only [h, if_false]; exact GET_PUT_other s p v q (by omega)

@[simp] theorem PUT_brk (s : Heap) (p v : Nat) : (PUT s p v).brk = s.brk := rfl
@[simp] theorem PUT_max_addr (s : Heap) (p v : Nat) : (PUT s p v).max_addr = s.max_addr := rfl
@[simp] theorem PUT_heap_listp (s : Heap) (p v : Nat) : (PUT s p v).heap_listp = s.heap_listp := rfl
@[simp] theorem PUT_heap_basep (s : Heap) (p v : Nat) : (PUT s p v).heap_basep = s.heap_basep := rfl

theorem GET_SIZE_eq (s : Heap) (p : Nat) : GET_SIZE s p = 8 * (GET s p / 8) :=
  and_mask8 _ (GET_lt s p)

theorem GET_ALLOC_eq (s : Heap) (p : Nat) : GET_ALLOC s p = GET s p % 2 :=
  Nat.and_one_is_mod _

theorem GET_PREV_ALLOC_eq (s : Heap) (p : Nat) : GET_PREV_ALLOC s p = 2 * (GET s p / 2 % 2) :=
  and_two _

theorem PACK_eq (size pa al : Nat) (hs : size % 8 = 0) (hpa : pa = 0 ∨ pa = 2) (hal : al ≤ 1) :
    PACK size 0 pa al = size + pa + al := by
  unfold PACK
  rw [Nat.or_zero, Nat.lor_assoc]
  have h : pa ||| al = pa + al := by
    rcases hpa with h | h <;> subst h <;> interval_cases al <;> rfl
  rw [h, or_flags size (pa + al) hs (by omega)]
  omega

theorem SET_PREV_ALLOC_eq (s : Heap) (p : Nat) :
    SET_PREV_ALLOC s p = PUT s p (GET s p + 2 - 2 * (GET s p / 2 % 2)) := by
  unfold SET_PREV_ALLOC; rw [or_two]

theorem SET_PREV_FREE_eq (s : Heap) (p : Nat) :
    SET_PREV_FREE s p = PUT s p (GET s p - 2 * (GET s p / 2 % 2)) := by
  unfold SET_PREV_FREE; rw [and_clear2 _ (GET_lt s p)]

theorem ite_lt_of {c : Prop} [Decidable c] {a b k : Nat} (ha : a < k) (hb : b < k) :
    (if c then a else b) < k := by
  split <;> assumption

theorem get_index_lt (n : Nat) : get_index n < 12 := by
  unfold get_index
  repeat' apply ite_lt_of
  all_goals decide

end MM


set_option linter.unusedVariables false
set_option linter.unusedTactic false
set_option linter.unreachableTactic false
namespace MM

/-! ## Free-list nodes -/

theorem NEXT_FREE_P_def (s : Heap) (x : Nat) : NEXT_FREE_P s x = s.heap_basep + GET s x := rfl

theorem PREV_FREE_P_def (s : Heap) (x : Nat) : PREV_FREE_P s x = s.heap_basep + GET s (x + 4) := rfl

theorem isSent_bounds {s : Heap} {x : Nat} (h : isSent s x) (hb : s.heap_basep % 8 = 0) :
    x % 8 = 0 ∧ s.heap_basep + 8 ≤ x ∧ x ≤ s.heap_basep + 96 := by
  obtain ⟨i, hi, rfl⟩ := h
  omega

theorem isNode_bounds {s : Heap} {g : Ghost} {x : Nat} (hl : Lists s g) (h : isNode s g x)
    (hb : s.heap_basep % 8 = 0) :
    x % 8 = 0 ∧ s.heap_basep + 8 ≤ x ∧ x < s.heap_basep + 4294967296 := by
  rcases h with h | h
  · have := isSent_bounds h hb; omega
  · have := hl.fr_lo x h; omega

theorem not_sent_of_fr {s : Heap} {g : Ghost} {x : Nat} (hl : Lists s g) (h : g.fr x)
    (hb : s.heap_basep % 8 = 0) : ¬ isSent s x := by
  intro hs
  have := isSent_bounds hs hb
  have := hl.fr_lo x h
  omega

@[simp] theorem delete_block_brk (s : Heap) (bp : Nat) : (delete_block s bp).brk = s.brk := rfl
@[simp] theorem delete_block_max_addr (s : Heap) (bp : Nat) :
    (delete_block s bp).max_addr = s.max_addr := rfl
@[simp] theorem delete_block_heap_listp (s : Heap) (bp : Nat) :
    (delete_block s bp).heap_listp = s.heap_listp := rfl
@[simp] theorem delete_block_heap_basep (s : Heap) (bp : Nat) :
    (delete_block s bp).heap_basep = s.heap_basep := rfl

@[simp] theorem insert_block_brk (s : Heap) (bp i : Nat) : (insert_block s bp i).brk = s.brk := rfl
@[simp] theorem insert_block_max_addr (s : Heap) (bp i : Nat) :
    (insert_block s bp i).max_addr = s.max_addr := rfl
@[simp] theorem insert_block_heap_listp (s : Heap) (bp i : Nat) :
    (insert_block s bp i).heap_listp = s.heap_listp := rfl
@[simp] theorem insert_block_heap_basep (s : Heap) (bp i : Nat) :
    (insert_block s bp i).heap_basep = s.heap_basep := rfl

/-- The next node of a listed block is another node. -/
theorem next_ne_self {s : Heap} {g : Ghost} {bp : Nat} (hl : Lists s g) (hbp : g.fr bp)
    (hb : s.heap_basep % 8 = 0) : NEXT_FREE_P s bp ≠ bp := by
  intro h
  have h1 := (hl.next bp (Or.inr hbp)).2.2.2
  rw [h] at h1
  exact Nat.lt_irrefl _ (h1 hbp)

/-- `delete_block` as two stores. -/
theorem delete_block_eq {s : Heap} {g : Ghost} {bp : Nat} (hl : Lists s g) (hbp : g.fr bp)
    (hb : s.heap_basep % 8 = 0) :
    delete_block s bp
      = PUT (PUT s (NEXT_FREE_P s bp + 4) (GET s (bp + 4))) (PREV_FREE_P s bp) (GET s bp) := by
  have hn := isNode_bounds hl (hl.next bp (Or.inr hbp)).1 hb
  have hne := next_ne_self hl hbp hb
  have hbl := hl.fr_lo bp hbp
  unfold delete_block
  simp only [PREV_P, NEXT_P, WSIZE]
  have e1 : GET (PUT s (NEXT_FREE_P s bp + 4) (GET s (bp + 4))) (bp + 4) = GET s (bp + 4) :=
    GET_PUT_other _ _ _ _ (by omega)
  have e2 : GET (PUT s (NEXT_FREE_P s bp + 4) (GET s (bp + 4))) bp = GET s bp :=
    GET_PUT_other _ _ _ _ (by omega)
  rw [PREV_FREE_P_def (PUT s (NEXT_FREE_P s bp + 4) (GET s (bp + 4))), e1, e2]
  rfl

theorem delete_block_GET {s : Heap} {g : Ghost} {bp : Nat} (hl : Lists s g) (hbp : g.fr bp)
    (hb : s.heap_basep % 8 = 0) (a : Nat) (ha : a % 4 = 0) :
    GET (delete_block s bp) a
      = if a = PREV_FREE_P s bp then GET s bp
        else if a = NEXT_FREE_P s bp + 4 then GET s (bp + 4) else GET s a := by
  have hn := isNode_bounds hl (hl.next bp (Or.inr hbp)).1 hb
  have hp := isNode_bounds hl (hl.prev bp (Or.inr hbp)).1 hb
  rw [delete_block_eq hl hbp hb, GET_PUT _ _ _ _ (by omega) ha,
    GET_PUT _ _ _ _ (by omega) ha, Nat.mod_eq_of_lt (GET_lt _ _), Nat.mod_eq_of_lt (GET_lt _ _)]

theorem delete_block_mem {s : Heap} {g : Ghost} {bp : Nat} (hl : Lists s g) (hbp : g.fr bp)
    (hb : s.heap_basep % 8 = 0) (a : Nat)
    (h1 : a < PREV_FREE_P s bp ∨ PREV_FREE_P s bp + 4 ≤ a)
    (h2 : a < NEXT_FREE_P s bp + 4 ∨ NEXT_FREE_P s bp + 8 ≤ a) :
    (delete_block s bp).mem a = s.mem a := by
  rw [delete_block_eq hl hbp hb, PUT_mem_other _ _ _ _ h1, PUT_mem_other _ _ _ _ (by omega)]

end MM


set_option linter.unusedVariables false
set_option linter.unusedTactic false
set_option linter.unreachableTactic false
namespace MM

theorem isSent_delete (s : Heap) (bp x : Nat) : isSent (delete_block s bp) x ↔ isSent s x := by
  unfold isSent; simp

theorem isSent_insert (s : Heap) (bp i x : Nat) : isSent (insert_block s bp i) x ↔ isSent s x := by
  unfold isSent; simp

/-- Unlinking a listed block keeps the lists well formed. -/
theorem delete_block_lists {s : Heap} {g : Ghost} {bp : Nat} (hl : Lists s g) (hbp : g.fr bp)
    (hb : s.heap_basep % 8 = 0) : Lists (delete_block s bp) (g.unlist bp) := by
  have hN := hl.next bp (Or.inr hbp)
  have hP := hl.prev bp (Or.inr hbp)
  have hPn := hl.next _ hP.1
  rw [hP.2] at hPn
  have hNp := hl.prev _ hN.1
  rw [hN.2.1] at hNp
  have hNb := isNode_bounds hl hN.1 hb
  have hPb := isNode_bounds hl hP.1 hb
  have hbl := hl.fr_lo bp hbp
  have hne := next_ne_self hl hbp hb
  have hnx : ∀ x, x % 8 = 0 → NEXT_FREE_P (delete_block s bp) x
      = if x = PREV_FREE_P s bp then NEXT_FREE_P s bp else NEXT_FREE_P s x := by
    intro x hx
    rw [NEXT_FREE_P_def, delete_block_GET hl hbp hb x (by omega), delete_block_heap_basep]
    by_cases h : x = PREV_FREE_P s bp
    · rw [if_pos h, if_pos h]; rfl
    · rw [if_neg h, if_neg h, if_neg (by omega)]; rfl
  have hpv : ∀ x, x % 8 = 0 → PREV_FREE_P (delete_block s bp) x
      = if x = NEXT_FREE_P s bp then PREV_FREE_P s bp else PREV_FREE_P s x := by
    intro x hx
    rw [PREV_FREE_P_def, delete_block_GET hl hbp hb (x + 4) (by omega), delete_block_heap_basep]
    have h1 : ¬ (x + 4 = PREV_FREE_P s bp) := by omega
    rw [if_neg h1]
    by_cases h : x = NEXT_FREE_P s bp
    · rw [if_pos h, if_pos (by rw [h])]; rfl
    · rw [if_neg h, if_neg (by omega)]; rfl
  have hnode : ∀ x, isNode (delete_block s bp) (g.unlist bp) x ↔ (isNode s g x ∧ x ≠ bp) := by
    intro x
    unfold isNode
    rw [isSent_delete]
    constructor
    · rintro (h | h)
      · refine ⟨Or.inl h, ?_⟩
        have := isSent_bounds h hb; omega
      · exact ⟨Or.inr h.1, h.2⟩
    · rintro ⟨h | h, h2⟩
      · exact Or.inl h
      · exact Or.inr ⟨h, h2⟩
  have hPne : PREV_FREE_P s bp ≠ bp := by
    intro h
    have := hPn.2.2.2 hbp
    rw [h] at this
    exact Nat.lt_irrefl _ this
  refine ⟨?_, ?_, ?_, ?_, ?_⟩
  · intro i hi
    have := hl.sent_bkt i hi
    simpa [Ghost.unlist] using this
  · intro x hx
    have := hl.fr_lo x hx.1
    simpa using this
  · intro x hx
    exact hl.fr_bkt x hx.1
  · intro x hx
    rw [hnode] at hx
    obtain ⟨hx, hxne⟩ := hx
    have hxb := isNode_bounds hl hx hb
    have hxn := hl.next x hx
    rw [hnx x hxb.1]
    by_cases h : x = PREV_FREE_P s bp
    · simp only [h, if_true]
      refine ⟨(hnode _).2 ⟨hN.1, hne⟩, ?_, ?_, ?_⟩
      · rw [hpv _ hNb.1]; simp
      · show g.bkt _ = g.bkt _
        rw [hN.2.2.1, hPn.2.2.1]
      · intro hfr
        have h1 := hN.2.2.2 hfr.1
        have h2 := hPn.2.2.2 hbp
        show g.rk _ < g.rk _
        omega
    · simp only [h, if_false]
      have hyne : NEXT_FREE_P s x ≠ bp := by
        intro hy
        rw [hy] at hxn
        exact h hxn.2.1.symm
      have hyN : NEXT_FREE_P s x ≠ NEXT_FREE_P s bp := by
        intro hy
        have := hxn.2.1
        rw [hy, hN.2.1] at this
        exact hxne this.symm
      refine ⟨(hnode _).2 ⟨hxn.1, hyne⟩, ?_, hxn.2.2.1, ?_⟩
      · rw [hpv _ (isNode_bounds hl hxn.1 hb).1]
        simp only [hyN, if_false]
        exact hxn.2.1
      · intro hfr
        exact hxn.2.2.2 hfr.1
  · intro x hx
    rw [hnode] at hx
    obtain ⟨hx, hxne⟩ := hx
    have hxb := isNode_bounds hl hx hb
    have hxp := hl.prev x hx
    rw [hpv x hxb.1]
    by_cases h : x = NEXT_FREE_P s bp
    · simp only [h, if_true]
      refine ⟨(hnode _).2 ⟨hP.1, hPne⟩, ?_⟩
      rw [hnx _ hPb.1]; simp
    · simp only [h, if_false]
      have hyne : PREV_FREE_P s x ≠ bp := by
        intro hy
        rw [hy] at hxp
        exact h hxp.2.symm
      have hyP : PREV_FREE_P s x ≠ PREV_FREE_P s bp := by
        intro hy
        have := hxp.2
        rw [hy, hP.2] at this
        exact hxne this.symm
      refine ⟨(hnode _).2 ⟨hxp.1, hyne⟩, ?_⟩
      rw [hnx _ (isNode_bounds hl hxp.1 hb).1]
      simp only [hyP, if_false]
      exact hxp.2

end MM


set_option linter.unusedVariables false
set_option linter.unusedTactic false
set_option linter.unreachableTactic false
namespace MM

/-- `insert_block` as four stores. -/
theorem insert_block_eq {s : Heap} {g : Ghost} {bp i : Nat} (hl : Lists s g)
    (hb : s.heap_basep % 8 = 0) (hlp : s.heap_listp = s.heap_basep + 8) (hi : i < 12)
    (hbp : bp % 8 = 0) (hlo : s.heap_basep + 112 ≤ bp) (hhi : bp < s.heap_basep + 4294967296) :
    insert_block s bp i
      = PUT (PUT (PUT (PUT s bp (GET s (s.heap_basep + 8 + 8 * i))) (bp + 4)
          (GET s (NEXT_FREE_P s (s.heap_basep + 8 + 8 * i) + 4))) (s.heap_basep + 8 + 8 * i)
          (bp - s.heap_basep)) (NEXT_FREE_P s (s.heap_basep + 8 + 8 * i) + 4)
          (bp - s.heap_basep) := by
  have hS : isNode s g (s.heap_basep + 8 + 8 * i) := Or.inl ⟨i, hi, rfl⟩
  have hH := isNode_bounds hl (hl.next _ hS).1 hb
  have eS : s.heap_listp + i * DSIZE = s.heap_basep + 8 + 8 * i := by
    rw [hlp]; simp only [DSIZE]; omega
  unfold insert_block
  simp only [PREV_P, NEXT_P, WSIZE, PUT_heap_listp, PUT_heap_basep, eS]
  have e0 : (bp - s.heap_basep) % SZ = bp - s.heap_basep := by
    apply Nat.mod_eq_of_lt
    simp only [SZ]; omega
  rw [e0]
  have e1 : NEXT_FREE_P (PUT s bp (GET s (s.heap_basep + 8 + 8 * i))) bp
      = NEXT_FREE_P s (s.heap_basep + 8 + 8 * i) := by
    rw [NEXT_FREE_P_def, NEXT_FREE_P_def, PUT_heap_basep, GET_PUT_same,
      Nat.mod_eq_of_lt (GET_lt _ _)]
  rw [e1]
  have e2 : GET (PUT s bp (GET s (s.heap_basep + 8 + 8 * i)))
      (NEXT_FREE_P s (s.heap_basep + 8 + 8 * i) + 4)
      = GET s (NEXT_FREE_P s (s.heap_basep + 8 + 8 * i) + 4) :=
    GET_PUT_other _ _ _ _ (by omega)
  rw [e2]
  have e3 : NEXT_FREE_P (PUT (PUT (PUT s bp (GET s (s.heap_basep + 8 + 8 * i))) (bp + 4)
      (GET s (NEXT_FREE_P s (s.heap_basep + 8 + 8 * i) + 4))) (s.heap_basep + 8 + 8 * i)
      (bp - s.heap_basep)) bp = NEXT_FREE_P s (s.heap_basep + 8 + 8 * i) := by
    rw [← e1]
    simp only [NEXT_FREE_P_def, PUT_heap_basep]
    rw [GET_PUT_other _ _ _ bp (by omega), GET_PUT_other _ _ _ bp (by omega)]
  rw [e3]


theorem insert_block_GET {s : Heap} {g : Ghost} {bp i : Nat} (hl : Lists s g)
    (hb : s.heap_basep % 8 = 0) (hlp : s.heap_listp = s.heap_basep + 8) (hi : i < 12)
    (hbp : bp % 8 = 0) (hlo : s.heap_basep + 112 ≤ bp) (hhi : bp < s.heap_basep + 4294967296)
    (a : Nat) (ha : a % 4 = 0) :
    GET (insert_block s bp i) a
      = if a = NEXT_FREE_P s (s.heap_basep + 8 + 8 * i) + 4 then bp - s.heap_basep
        else if a = s.heap_basep + 8 + 8 * i then bp - s.heap_basep
        else if a = bp + 4 then GET s (NEXT_FREE_P s (s.heap_basep + 8 + 8 * i) + 4)
        else if a = bp then GET s (s.heap_basep + 8 + 8 * i)
        else GET s a := by
  have hS : isNode s g (s.heap_basep + 8 + 8 * i) := Or.inl ⟨i, hi, rfl⟩
  have hH := isNode_bounds hl (hl.next _ hS).1 hb
  rw [insert_block_eq hl hb hlp hi hbp hlo hhi, GET_PUT _ _ _ _ (by omega) ha,
    GET_PUT _ _ _ _ (by omega) ha, GET_PUT _ _ _ _ (by omega) ha, GET_PUT _ _ _ _ (by omega) ha,
    Nat.mod_eq_of_lt (GET_lt _ _), Nat.mod_eq_of_lt (GET_lt _ _),
    Nat.mod_eq_of_lt (show bp - s.heap_basep < 4294967296 by omega)]

theorem insert_block_mem {s : Heap} {g : Ghost} {bp i : Nat} (hl : Lists s g)
    (hb : s.heap_basep % 8 = 0) (hlp : s.heap_listp = s.heap_basep + 8) (hi : i < 12)
    (hbp : bp % 8 = 0) (hlo : s.heap_basep + 112 ≤ bp) (hhi : bp < s.heap_basep + 4294967296)
    (a : Nat) (h1 : a < bp ∨ bp + 8 ≤ a)
    (h2 : a < s.heap_basep + 8 + 8 * i ∨ s.heap_basep + 8 + 8 * i + 4 ≤ a)
    (h3 : a < NEXT_FREE_P s (s.heap_basep + 8 + 8 * i) + 4
      ∨ NEXT_FREE_P s (s.heap_basep + 8 + 8 * i) + 8 ≤ a) :
    (insert_block s bp i).mem a = s.mem a := by
  rw [insert_block_eq hl hb hlp hi hbp hlo hhi, PUT_mem_other _ _ _ _ (by omega),
    PUT_mem_other _ _ _ _ (by omega), PUT_mem_other _ _ _ _ (by omega),
    PUT_mem_other _ _ _ _ (by omega)]


/-- Linking an unlisted block in front of list `i` keeps the lists well formed. -/
theorem insert_block_lists {s : Heap} {g : Ghost} {bp i : Nat} (hl : Lists s g)
    (hb : s.heap_basep % 8 = 0) (hlp : s.heap_listp = s.heap_basep + 8) (hi : i < 12)
    (hbp : bp % 8 = 0) (hlo : s.heap_basep + 112 ≤ bp) (hhi : bp < s.heap_basep + 4294967296)
    (hnew : ¬ g.fr bp) :
    Lists (insert_block s bp i)
      (g.enlist bp i (s.heap_basep + 8 + 8 * i)
        (g.rk (NEXT_FREE_P s (s.heap_basep + 8 + 8 * i)))) := by
  have hS : isNode s g (s.heap_basep + 8 + 8 * i) := Or.inl ⟨i, hi, rfl⟩
  have hSn := hl.next _ hS
  have hSb := hl.sent_bkt i hi
  have hHb := isNode_bounds hl hSn.1 hb
  generalize hSdef : s.heap_basep + 8 + 8 * i = S at *
  generalize hHdef : NEXT_FREE_P s S = H at *
  have hSlo : s.heap_basep + 8 ≤ S ∧ S ≤ s.heap_basep + 96 ∧ S % 8 = 0 := by omega
  have hnbp : ¬ isNode s g bp := by
    rintro (h | h)
    · have := isSent_bounds h hb; omega
    · exact hnew h
  have hHne : H ≠ bp := fun h => hnbp (h ▸ hSn.1)
  have hnx : ∀ x, x % 8 = 0 → NEXT_FREE_P (insert_block s bp i) x
      = if x = S then bp else if x = bp then H else NEXT_FREE_P s x := by
    intro x hx
    rw [NEXT_FREE_P_def, insert_block_GET hl hb hlp hi hbp hlo hhi x (by omega),
      insert_block_heap_basep, hSdef, hHdef, if_neg (by omega)]
    by_cases h1 : x = S
    · rw [if_pos h1, if_pos h1]; omega
    · rw [if_neg h1, if_neg h1, if_neg (by omega)]
      by_cases h2 : x = bp
      · rw [if_pos h2, if_pos h2, ← hHdef]; rfl
      · rw [if_neg h2, if_neg h2]; rfl
  have hpv : ∀ x, x % 8 = 0 → PREV_FREE_P (insert_block s bp i) x
      = if x = H then bp else if x = bp then S else PREV_FREE_P s x := by
    intro x hx
    rw [PREV_FREE_P_def, insert_block_GET hl hb hlp hi hbp hlo hhi (x + 4) (by omega),
      insert_block_heap_basep, hSdef, hHdef]
    by_cases h1 : x = H
    · rw [if_pos (by rw [h1]), if_pos h1]; omega
    · rw [if_neg (by omega), if_neg h1, if_neg (by omega)]
      by_cases h2 : x = bp
      · rw [if_pos (by rw [h2]), if_pos h2, ← hSn.2.1]; rfl
      · rw [if_neg (by omega), if_neg h2, if_neg (by omega)]; rfl
  have hnode : ∀ x, isNode (insert_block s bp i) (g.enlist bp i S (g.rk H)) x
      ↔ (isNode s g x ∨ x = bp) := by
    intro x
    unfold isNode
    rw [isSent_insert]
    show (isSent s x ∨ (g.fr x ∨ x = bp)) ↔ _
    tauto
  refine ⟨?_, ?_, ?_, ?_, ?_⟩
  · intro j hj
    show (if s.heap_basep + 8 + 8 * j = bp then i else g.bkt _) = j
    rw [if_neg (by omega)]
    exact hl.sent_bkt j hj
  · intro x hx
    rcases hx with hx | hx
    · simpa using hl.fr_lo x hx
    · subst hx; simp only [insert_block_heap_basep]; omega
  · intro x hx
    show (if x = bp then i else g.bkt x) < 12
    rcases hx with hx | hx
    · split
      · exact hi
      · exact hl.fr_bkt x hx
    · rw [if_pos hx]; exact hi
  · intro x hx
    rw [hnode] at hx
    have hxal : x % 8 = 0 := by
      rcases hx with hx | hx
      · exact (isNode_bounds hl hx hb).1
      · omega
    rw [hnx x hxal]
    by_cases h1 : x = S
    · subst h1
      rw [if_pos rfl]
      refine ⟨(hnode _).2 (Or.inr rfl), ?_, ?_, ?_⟩
      · rw [hpv bp hbp, if_neg hHne.symm, if_pos rfl]
      · show (if bp = bp then i else _) = (if x = bp then i else g.bkt x)
        rw [if_pos rfl, if_neg (by omega)]; omega
      · intro _
        show (if bp = bp then g.rk H + 1 else _) < (if x = bp then _ else if x = x then g.rk H + 2 else _)
        rw [if_pos rfl, if_neg (by omega), if_pos rfl]; omega
    · rw [if_neg h1]
      by_cases h2 : x = bp
      · subst h2
        rw [if_pos rfl]
        refine ⟨(hnode _).2 (Or.inl hSn.1), ?_, ?_, ?_⟩
        · rw [hpv H hHb.1, if_pos rfl]
        · show (if H = x then i else g.bkt H) = (if x = x then i else _)
          rw [if_neg hHne, if_pos rfl, hSn.2.2.1]; omega
        · intro hfr
          have hfrH : g.fr H := by
            rcases hfr with h | h
            · exact h
            · exact absurd h hHne
          have hHS : H ≠ S := by
            have := hl.fr_lo H hfrH; omega
          show (if H = x then _ else if H = S then _ else g.rk H) < (if x = x then g.rk H + 1 else _)
          rw [if_neg hHne, if_neg hHS, if_pos rfl]; omega
      · rw [if_neg h2]
        have hx' : isNode s g x := by
          rcases hx with hx | hx
          · exact hx
          · exact absurd hx h2
        have hxn := hl.next x hx'
        have hyb := isNode_bounds hl hxn.1 hb
        have hyne : NEXT_FREE_P s x ≠ bp := fun h => hnbp (h ▸ hxn.1)
        have hyH : NEXT_FREE_P s x ≠ H := by
          intro h
          have := hxn.2.1
          rw [h, hSn.2.1] at this
          exact h1 this.symm
        refine ⟨(hnode _).2 (Or.inl hxn.1), ?_, ?_, ?_⟩
        · rw [hpv _ hyb.1, if_neg hyH, if_neg hyne]; exact hxn.2.1
        · show (if NEXT_FREE_P s x = bp then i else g.bkt _) = (if x = bp then i else g.bkt x)
          rw [if_neg hyne, if_neg h2]; exact hxn.2.2.1
        · intro hfr
          have hfry : g.fr (NEXT_FREE_P s x) := by
            rcases hfr with h | h
            · exact h
            · exact absurd h hyne
          have hyS : NEXT_FREE_P s x ≠ S := by
            have := hl.fr_lo _ hfry; omega
          show (if NEXT_FREE_P s x = bp then _ else if NEXT_FREE_P s x = S then _ else g.rk _)
            < (if x = bp then _ else if x = S then _ else g.rk x)
          rw [if_neg hyne, if_neg hyS, if_neg h2, if_neg h1]
          exact hxn.2.2.2 hfry
  · intro x hx
    rw [hnode] at hx
    have hxal : x % 8 = 0 := by
      rcases hx with hx | hx
      · exact (isNode_bounds hl hx hb).1
      · omega
    rw [hpv x hxal]
    by_cases h1 : x = H
    · subst h1
      rw [if_pos rfl]
      refine ⟨(hnode _).2 (Or.inr rfl), ?_⟩
      rw [hnx bp hbp, if_neg (by omega), if_pos rfl]
    · rw [if_neg h1]
      by_cases h2 : x = bp
      · subst h2
        rw [if_pos rfl]
        refine ⟨(hnode _).2 (Or.inl hS), ?_⟩
        rw [hnx S hSlo.2.2, if_pos rfl]
      · rw [if_neg h2]
        have hx' : isNode s g x := by
          rcases hx with hx | hx
          · exact hx
          · exact absurd hx h2
        have hxp := hl.prev x hx'
        have hyb := isNode_bounds hl hxp.1 hb
        have hyne : PREV_FREE_P s x ≠ bp := fun h => hnbp (h ▸ hxp.1)
        have hyS : PREV_FREE_P s x ≠ S := by
          intro h
          have := hxp.2
          rw [h, hHdef] at this
          exact h1 this.symm
        refine ⟨(hnode _).2 (Or.inl hxp.1), ?_⟩
        rw [hnx _ hyb.1, if_neg hyS, if_neg hyne]; exact hxp.2

end MM


set_option linter.unusedVariables false
set_option linter.unusedTactic false
set_option linter.unreachableTactic false
namespace MM

/-! ## `find_fit` terminates and returns a listed block that is large enough -/

theorem exists_bound (f : Nat → Nat) (n : Nat) : ∃ B, ∀ j, j < n → f j ≤ B := by
  induction n with
  | zero => exact ⟨0, fun j hj => absurd hj (Nat.not_lt_zero _)⟩
  | succ n ih =>
    obtain ⟨B, hB⟩ := ih
    refine ⟨max B (f n), fun j hj => ?_⟩
    rcases Nat.lt_succ_iff_lt_or_eq.mp hj with h | h
    · exact le_trans (hB j h) (le_max_left _ _)
    · subst h; exact le_max_right _ _

theorem find_fit_list_spec {s : Heap} {g : Ghost} (hl : Lists s g)
    (size j : Nat) (hj : j < 12) :
    ∀ n x, isNode s g x → g.bkt x = j → (g.fr x → g.rk x < n) → ∀ fuel, n + 1 ≤ fuel →
      (find_fit_list s size (s.heap_basep + 8 + 8 * j) fuel x = some none
        ∨ ∃ r, find_fit_list s size (s.heap_basep + 8 + 8 * j) fuel x = some (some r)
            ∧ g.fr r ∧ size ≤ bsize s r) := by
  intro n
  induction n with
  | zero =>
    intro x hx hbk hrk fuel hfuel
    have hnf : ¬ g.fr x := fun h => absurd (hrk h) (Nat.not_lt_zero _)
    have hs : isSent s x := by
      rcases hx with h | h
      · exact h
      · exact absurd h hnf
    obtain ⟨k, hk, rfl⟩ := hs
    rw [hl.sent_bkt k hk] at hbk
    subst hbk
    obtain ⟨f, rfl⟩ : ∃ f, fuel = f + 1 := ⟨fuel - 1, by omega⟩
    left
    simp [find_fit_list]
  | succ n ih =>
    intro x hx hbk hrk fuel hfuel
    obtain ⟨f, rfl⟩ : ∃ f, fuel = f + 1 := ⟨fuel - 1, by omega⟩
    by_cases hxS : x = s.heap_basep + 8 + 8 * j
    · left; simp [find_fit_list, hxS]
    · have hfr : g.fr x := by
        rcases hx with h | h
        · obtain ⟨k, hk, rfl⟩ := h
          rw [hl.sent_bkt k hk] at hbk
          subst hbk
          exact absurd rfl hxS
        · exact h
      by_cases hsz : size ≤ GET_SIZE s (HDRP x)
      · right
        exact ⟨x, by simp [find_fit_list, hxS, hsz], hfr, hsz⟩
      · have hxn := hl.next x hx
        have := ih (NEXT_FREE_P s x) hxn.1 (by rw [hxn.2.2.1, hbk])
          (fun h => by have := hxn.2.2.2 h; have := hrk hfr; omega) f (by omega)
        simpa [find_fit_list, hxS, hsz] using this

theorem find_fit_from_spec {s : Heap} {g : Ghost} (lay : Layout s) (hl : Lists s g)
    (size B : Nat) (hB : ∀ j, j < 12 → g.rk (NEXT_FREE_P s (s.heap_basep + 8 + 8 * j)) ≤ B) :
    ∀ k m, k + m = 13 → ∀ fuel, B + k + 3 ≤ fuel →
      ∃ r, find_fit_from s size fuel (s.heap_basep + 8 * m) = some r
        ∧ (r = 0 ∨ (g.fr r ∧ size ≤ bsize s r)) := by
  have hF : FTRP s s.heap_listp = s.heap_basep + 104 := by
    unfold FTRP HDRP
    rw [lay.listp]
    simp only [WSIZE, DSIZE]
    rw [show s.heap_basep + 8 - 4 = s.heap_basep + 4 by omega, lay.prol]
    omega
  intro k
  induction k with
  | zero =>
    intro m hm fuel hfuel
    obtain ⟨f, rfl⟩ : ∃ f, fuel = f + 1 := ⟨fuel - 1, by omega⟩
    have : m = 13 := by omega
    subst this
    exact ⟨0, by simp [find_fit_from, hF], Or.inl rfl⟩
  | succ k ih =>
    intro m hm fuel hfuel
    obtain ⟨f, rfl⟩ : ∃ f, fuel = f + 1 := ⟨fuel - 1, by omega⟩
    have hne : s.heap_basep + 8 * m ≠ s.heap_basep + 104 := by omega
    have hrec := ih (m + 1) (by omega) f (by omega)
    have hcur : s.heap_basep + 8 * m + DSIZE = s.heap_basep + 8 * (m + 1) := by
      simp only [DSIZE]; omega
    by_cases hm0 : m = 0
    · subst hm0
      have hnx : NEXT_FREE_P s (s.heap_basep + 8 * 0) = s.heap_basep + 8 * 0 := by
        rw [NEXT_FREE_P_def]
        simp only [Nat.mul_zero, Nat.add_zero]
        rw [lay.pad]; rfl
      obtain ⟨f', rfl⟩ : ∃ f', f = f' + 1 := ⟨f - 1, by omega⟩
      obtain ⟨r, hr, hr2⟩ := hrec
      refine ⟨r, ?_, hr2⟩
      rw [find_fit_from, hF, if_neg hne, hnx]
      simp only [find_fit_list, if_true]
      rw [hcur]; exact hr
    · obtain ⟨j, rfl⟩ : ∃ j, m = j + 1 := ⟨m - 1, by omega⟩
      have hj : j < 12 := by omega
      have hS : isNode s g (s.heap_basep + 8 + 8 * j) := Or.inl ⟨j, hj, rfl⟩
      have hSn := hl.next _ hS
      have hcur2 : s.heap_basep + 8 * (j + 1) = s.heap_basep + 8 + 8 * j := by omega
      have hin := find_fit_list_spec hl size j hj (B + 1)
        (NEXT_FREE_P s (s.heap_basep + 8 + 8 * j)) hSn.1
        (by rw [hSn.2.2.1]; exact hl.sent_bkt j hj)
        (fun _ => by have := hB j hj; omega) f (by omega)
      rw [find_fit_from, hF, if_neg hne]
      rw [hcur2] at hcur ⊢
      rcases hin with hin | ⟨r, hin, hr⟩
      · rw [hin]
        simp only
        rw [hcur]
        exact hrec
      · rw [hin]
        exact ⟨r, rfl, Or.inr hr⟩

/-- With enough fuel `find_fit` returns `NULL` or a listed block of at least
the requested size. -/
theorem find_fit_spec {s : Heap} {g : Ghost} (lay : Layout s) (hl : Lists s g) (size : Nat) :
    ∃ N, ∀ fuel, N ≤ fuel →
      ∃ r, find_fit fuel s size = some r ∧ (r = 0 ∨ (g.fr r ∧ size ≤ bsize s r)) := by
  obtain ⟨B, hB⟩ := exists_bound
    (fun j => g.rk (NEXT_FREE_P s (s.heap_basep + 8 + 8 * j))) 12
  refine ⟨B + 16, fun fuel hfuel => ?_⟩
  have hidx := get_index_lt size
  have := find_fit_from_spec lay hl size B hB (13 - get_index size) (get_index size)
    (by omega) fuel (by omega)
  unfold find_fit
  rw [show get_index size * DSIZE = 8 * get_index size by simp only [DSIZE]; omega]
  exact this

theorem find_fit_list_sound {s : Heap} {g : Ghost} (hl : Lists s g)
    (size j : Nat) (hj : j < 12) :
    ∀ fuel x r, isNode s g x → g.bkt x = j →
      find_fit_list s size (s.heap_basep + 8 + 8 * j) fuel x = some (some r) →
      g.fr r ∧ size ≤ bsize s r := by
  intro fuel
  induction fuel with
  | zero => intro x r _ _ h; simp [find_fit_list] at h
  | succ f ih =>
    intro x r hx hbk h
    by_cases hxS : x = s.heap_basep + 8 + 8 * j
    · simp [find_fit_list, hxS] at h
    · have hfr : g.fr x := by
        rcases hx with h | h
        · obtain ⟨k, hk, rfl⟩ := h
          rw [hl.sent_bkt k hk] at hbk
          subst hbk
          exact absurd rfl hxS
        · exact h
      by_cases hsz : size ≤ GET_SIZE s (HDRP x)
      · simp [find_fit_list, hxS, hsz] at h
        subst h
        exact ⟨hfr, hsz⟩
      · have hxn := hl.next x hx
        simp only [find_fit_list, hxS, hsz, if_false] at h
        exact ih _ r hxn.1 (by rw [hxn.2.2.1, hbk]) h

theorem find_fit_from_sound {s : Heap} {g : Ghost} (lay : Layout s) (hl : Lists s g)
    (size : Nat) :
    ∀ fuel m r, m ≤ 13 → find_fit_from s size fuel (s.heap_basep + 8 * m) = some r →
      r = 0 ∨ (g.fr r ∧ size ≤ bsize s r) := by
  have hF : FTRP s s.heap_listp = s.heap_basep + 104 := by
    unfold FTRP HDRP
    rw [lay.listp]
    simp only [WSIZE, DSIZE]
    rw [show s.heap_basep + 8 - 4 = s.heap_basep + 4 by omega, lay.prol]
    omega
  intro fuel
  induction fuel with
  | zero => intro m r _ h; simp [find_fit_from] at h
  | succ f ih =>
    intro m r hm h
    rw [find_fit_from, hF] at h
    by_cases hm13 : m = 13
    · subst hm13
      simp at h
      exact Or.inl h.symm
    · rw [if_neg (by omega)] at h
      have hcur : s.heap_basep + 8 * m + DSIZE = s.heap_basep + 8 * (m + 1) := by
        simp only [DSIZE]; omega
      rw [hcur] at h
      by_cases hm0 : m = 0
      · subst hm0
        have hnx : NEXT_FREE_P s (s.heap_basep + 8 * 0) = s.heap_basep + 8 * 0 := by
          rw [NEXT_FREE_P_def]
          simp only [Nat.mul_zero, Nat.add_zero]
          rw [lay.pad]; rfl
        rw [hnx] at h
        cases f with
        | zero => simp [find_fit_list] at h
        | succ f' =>
          simp only [find_fit_list, if_true] at h
          exact ih 1 r (by omega) h
      · obtain ⟨j, rfl⟩ : ∃ j, m = j + 1 := ⟨m - 1, by omega⟩
        have hj : j < 12 := by omega
        have hS : isNode s g (s.heap_basep + 8 + 8 * j) := Or.inl ⟨j, hj, rfl⟩
        have hSn := hl.next _ hS
        have hcur2 : s.heap_basep + 8 * (j + 1) = s.heap_basep + 8 + 8 * j := by omega
        rw [hcur2] at h
        cases hin : find_fit_list s size (s.heap_basep + 8 + 8 * j) f
            (NEXT_FREE_P s (s.heap_basep + 8 + 8 * j)) with
        | none => simp [hin] at h
        | some o =>
          cases o with
          | none =>
            simp only [hin] at h
            exact ih _ r (by omega) h
          | some q =>
            simp only [hin, Option.some.injEq] at h
            subst h
            exact Or.inr (find_fit_list_sound hl size j hj f _ q hSn.1
              (by rw [hSn.2.2.1]; exact hl.sent_bkt j hj) hin)

/-- Whatever the fuel, a result of `find_fit` is `NULL` or a listed block of at
least the requested size. -/
theorem find_fit_sound {s : Heap} {g : Ghost} (lay : Layout s) (hl : Lists s g) (size : Nat)
    (fuel r : Nat) (h : find_fit fuel s size = some r) :
    r = 0 ∨ (g.fr r ∧ size ≤ bsize s r) := by
  have hidx := get_index_lt size
  unfold find_fit at h
  rw [show get_index size * DSIZE = 8 * get_index size by simp only [DSIZE]; omega] at h
  exact find_fit_from_sound lay hl size fuel _ r (by omega) h

end MM


set_option linter.unusedVariables false
set_option linter.unusedTactic false
set_option linter.unreachableTactic false
namespace MM

/-! ## Blocks: rewriting a window of the heap -/

theorem bsize_def (s : Heap) (x : Nat) : bsize s x = 8 * (GET s (x - 4) / 8) := by
  unfold bsize HDRP; exact GET_SIZE_eq s _

theorem bsize_mod (s : Heap) (x : Nat) : bsize s x % 8 = 0 := by
  rw [bsize_def]; omega

theorem bsize_lt (s : Heap) (x : Nat) : bsize s x < 4294967296 := by
  rw [bsize_def]; have := GET_lt s (x - 4); omega

theorem bsize_congr {s s' : Heap} {x : Nat} (h : GET s' (x - 4) = GET s (x - 4)) :
    bsize s' x = bsize s x := by
  rw [bsize_def, bsize_def, h]

theorem GET_ALLOC_congr {s s' : Heap} {a : Nat} (h : GET s' a = GET s a) :
    GET_ALLOC s' a = GET_ALLOC s a := by
  unfold GET_ALLOC; rw [h]

theorem GET_PREV_ALLOC_congr {s s' : Heap} {a : Nat} (h : GET s' a = GET s a) :
    GET_PREV_ALLOC s' a = GET_PREV_ALLOC s a := by
  unfold GET_PREV_ALLOC; rw [h]

theorem GET_SIZE_congr {s s' : Heap} {a : Nat} (h : GET s' a = GET s a) :
    GET_SIZE s' a = GET_SIZE s a := by
  unfold GET_SIZE; rw [h]

/-- Two different blocks do not overlap. -/
theorem Blocks.apart {s : Heap} {L : List (Nat × Nat)} {g : Ghost} (hB : Blocks s L g)
    {x y : Nat} (hx : g.blk x) (hy : g.blk y) (hne : x ≠ y) :
    x + bsize s x ≤ y ∨ y + bsize s y ≤ x := by
  rcases Nat.lt_or_gt_of_ne hne with h | h
  · exact Or.inl (hB.disj x y hx hy h)
  · exact Or.inr (hB.disj y x hy hx h)

end MM


set_option linter.unusedVariables false
set_option linter.unusedTactic false
set_option linter.unreachableTactic false
namespace MM

/-- Rewriting the blocks between `lo` and `hi`: if everything outside the
window is untouched (the header of `hi` may change its predecessor bit) and
the new blocks inside tile the window, the block structure is kept. -/
theorem Blocks_window {s s' : Heap} {L L' : List (Nat × Nat)} {g g' : Ghost} (lo hi : Nat)
    (hB : Blocks s L g) (hbrk : s'.brk = s.brk) (hbase : s'.heap_basep = s.heap_basep)
    (hlo : g.blk lo) (hhi : g.blk hi ∨ hi = s.brk) (hlohi : lo < hi)
    (hout_blk : ∀ x, (x < lo ∨ hi ≤ x) → (g'.blk x ↔ g.blk x))
    (hout_fr : ∀ x, (x < lo ∨ hi ≤ x) → g'.fr x → g.fr x ∧ g'.bkt x = g.bkt x)
    (hout_live : ∀ x n, (x < lo ∨ hi ≤ x) → ((x, n) ∈ L' ↔ (x, n) ∈ L))
    (hout_hdr : ∀ x, (g.blk x ∨ x = s.brk) → (x < lo ∨ hi < x) → GET s' (x - 4) = GET s (x - 4))
    (hout_ftr : ∀ x, g.fr x → (x < lo ∨ hi ≤ x) →
      GET s' (x + bsize s x - 8) = GET s (x + bsize s x - 8))
    (hhi_size : bsize s' hi = bsize s hi)
    (hhi_alloc : GET_ALLOC s' (hi - 4) = GET_ALLOC s (hi - 4))
    (hin_lo : g'.blk lo)
    (hlo_pa : GET_PREV_ALLOC s' (lo - 4) = GET_PREV_ALLOC s (lo - 4))
    (hin : ∀ x, g'.blk x → lo ≤ x → x < hi →
      x % 8 = 0 ∧ 16 ≤ bsize s' x ∧ x + bsize s' x ≤ hi
        ∧ (g'.blk (x + bsize s' x) ∨ x + bsize s' x = hi)
        ∧ (x = lo ∨ ∃ q, g'.blk q ∧ q + bsize s' q = x))
    (hin_last : ∃ q, g'.blk q ∧ q + bsize s' q = hi)
    (hin_disj : ∀ p q, g'.blk p → g'.blk q → lo ≤ p → p < q → q < hi → p + bsize s' p ≤ q)
    (hin_live : ∀ x n, lo ≤ x → x < hi → (x, n) ∈ L' →
      g'.blk x ∧ n + 4 ≤ bsize s' x ∧ GET_ALLOC s' (HDRP x) = 1
        ∧ GET_PREV_ALLOC s' (HDRP (x + bsize s' x)) = 2)
    (hin_fr : ∀ x, lo ≤ x → x < hi → g'.fr x →
      g'.blk x ∧ ¬ isLive L' x ∧ GET_PREV_ALLOC s' (HDRP (x + bsize s' x)) = 0
        ∧ GET_SIZE s' (x + bsize s' x - 8) = bsize s' x ∧ get_index (bsize s' x) = g'.bkt x)
    (hnodup : L'.Pairwise (fun a b => a.1 ≠ b.1)) :
    Blocks s' L' g' := by
  have hlo1 := hB.lo lo hlo
  have hhi_brk : hi ≤ s.brk := by
    rcases hhi with h | h
    · have := hB.lo hi h; omega
    · omega
  have hhi_lt : hi ≠ s.brk → hi + 16 ≤ s.brk := by
    intro hne
    rcases hhi with h | h
    · have := hB.lo hi h; omega
    · exact absurd h hne
  -- sizes outside the window
  have hsz : ∀ x, (g.blk x ∨ x = s.brk) → (x < lo ∨ hi ≤ x) → bsize s' x = bsize s x := by
    intro x hx hw
    by_cases h : x = hi
    · subst h; exact hhi_size
    · exact bsize_congr (hout_hdr x hx (by omega))
  -- old blocks left of the window end at or before `lo`
  have hleft : ∀ x, g.blk x → x < lo → x + bsize s x ≤ lo := fun x hx h => hB.disj x lo hx hlo h
  -- old blocks that start inside the window end inside
  have hlive : ∀ x, (x < lo ∨ hi ≤ x) → (isLive L' x ↔ isLive L x) := by
    intro x hw
    unfold isLive
    constructor
    · rintro ⟨n, hn⟩; exact ⟨n, (hout_live x n hw).1 hn⟩
    · rintro ⟨n, hn⟩; exact ⟨n, (hout_live x n hw).2 hn⟩
  -- header of the successor of an outside block
  have hsucc_pa : ∀ x, g.blk x → (x < lo ∨ hi ≤ x) →
      GET_PREV_ALLOC s' (HDRP (x + bsize s' x)) = GET_PREV_ALLOC s (HDRP (x + bsize s x)) := by
    intro x hx hw
    rw [hsz x (Or.inl hx) hw]
    have h1 := hB.lo x hx
    have h2 := hB.next x hx
    by_cases h : x + bsize s x = lo
    · rw [h]; exact hlo_pa
    · apply GET_PREV_ALLOC_congr
      unfold HDRP
      simp only [WSIZE]
      apply hout_hdr _ h2
      rcases hw with hw | hw
      · have := hleft x hx hw; omega
      · omega
  refine ⟨?_, ?_, ?_, ?_, ?_, ?_, ?_, ?_, ?_, hnodup, ?_, ?_, ?_⟩
  · -- epi_size
    rw [hbrk]
    have h1 := hsz s.brk (Or.inr rfl) (Or.inr hhi_brk)
    unfold bsize HDRP at h1
    simp only [WSIZE] at h1
    rw [h1]; exact hB.epi_size
  · rw [hbrk]
    by_cases h : hi = s.brk
    · rw [← h, hhi_alloc, h]; exact hB.epi_alloc
    · have := hhi_lt h
      rw [GET_ALLOC_congr (hout_hdr s.brk (Or.inr rfl) (by omega))]; exact hB.epi_alloc
  · -- first
    rw [hbase, hbrk]
    by_cases h : s.heap_basep + 112 = lo
    · rw [h]; exact Or.inl hin_lo
    · rcases hB.first with h1 | h1
      · exact Or.inl ((hout_blk _ (by omega)).2 h1)
      · omega
  · -- first_pa
    rw [hbase]
    by_cases h : s.heap_basep + 112 = lo
    · have e : s.heap_basep + 108 = lo - 4 := by omega
      rw [e, hlo_pa, ← e]; exact hB.first_pa
    · have e : s.heap_basep + 108 = s.heap_basep + 112 - 4 := by omega
      rw [e, GET_PREV_ALLOC_congr (hout_hdr _ hB.first (by omega)), ← e]
      exact hB.first_pa
  · -- lo
    intro x hx
    rw [hbase, hbrk]
    by_cases hw : x < lo ∨ hi ≤ x
    · have hx' := (hout_blk x hw).1 hx
      rw [hsz x (Or.inl hx') hw]
      exact hB.lo x hx'
    · have := hin x hx (by omega) (by omega)
      omega
  · -- next
    intro x hx
    rw [hbrk]
    by_cases hw : x < lo ∨ hi ≤ x
    · have hx' := (hout_blk x hw).1 hx
      rw [hsz x (Or.inl hx') hw]
      rcases hB.next x hx' with h | h
      · left
        by_cases hy : x + bsize s x = lo
        · rw [hy]; exact hin_lo
        · refine (hout_blk _ ?_).2 h
          rcases hw with hw | hw
          · have := hleft x hx' hw; omega
          · omega
      · exact Or.inr h
    · have h1 := hin x hx (by omega) (by omega)
      rcases h1.2.2.2.1 with h | h
      · exact Or.inl h
      · rw [h]
        rcases hhi with h2 | h2
        · exact Or.inl ((hout_blk hi (by omega)).2 h2)
        · exact Or.inr h2
  · -- prev
    intro y hy hyne
    rw [hbase] at hyne
    rw [hbrk] at hy
    by_cases hyhi : y = hi
    · rw [hyhi]; exact hin_last
    by_cases hw : y < lo ∨ hi ≤ y
    · have hy' : g.blk y ∨ y = s.brk := by
        rcases hy with h | h
        · exact Or.inl ((hout_blk y hw).1 h)
        · exact Or.inr h
      obtain ⟨q, hq, hqy⟩ := hB.prev y hy' hyne
      have hq1 := hB.lo q hq
      have hqw : q < lo ∨ hi ≤ q := by
        rcases hw with hw | hw
        · omega
        · by_cases hql : q < lo
          · exact Or.inl hql
          · right
            by_contra hcon
            have : q + bsize s q ≤ hi := by
              rcases hhi with h | h
              · exact hB.disj q hi hq h (by omega)
              · omega
            omega
      exact ⟨q, (hout_blk q hqw).2 hq, by rw [hsz q (Or.inl hq) hqw]; exact hqy⟩
    · have hyb : g'.blk y := by
        rcases hy with h | h
        · exact h
        · omega
      have h1 := hin y hyb (by omega) (by omega)
      rcases h1.2.2.2.2 with h | h
      · subst h
        obtain ⟨q, hq, hqy⟩ := hB.prev y (Or.inl hlo) hyne
        have hq1 := hB.lo q hq
        have hqw : q < y ∨ hi ≤ q := by omega
        exact ⟨q, (hout_blk q hqw).2 hq, by rw [hsz q (Or.inl hq) hqw]; exact hqy⟩
      · exact h
  · -- disj
    intro p q hp hq hpq
    by_cases hpw : p < lo ∨ hi ≤ p
    · have hp' := (hout_blk p hpw).1 hp
      rw [hsz p (Or.inl hp') hpw]
      by_cases hqw : q < lo ∨ hi ≤ q
      · exact hB.disj p q hp' ((hout_blk q hqw).1 hq) hpq
      · have := hleft p hp' (by omega); omega
    · have h1 := hin p hp (by omega) (by omega)
      by_cases hqw : q < lo ∨ hi ≤ q
      · omega
      · exact hin_disj p q hp hq (by omega) hpq (by omega)
  · -- live_blk
    intro p n hpn
    by_cases hw : p < lo ∨ hi ≤ p
    · have h1 := hB.live_blk p n ((hout_live p n hw).1 hpn)
      rw [hsz p (Or.inl h1.1) hw]
      exact ⟨(hout_blk p hw).2 h1.1, h1.2⟩
    · have := hin_live p n (by omega) (by omega) hpn
      exact ⟨this.1, this.2.1⟩
  · -- live_hdr
    intro p hp
    by_cases hw : p < lo ∨ hi ≤ p
    · have hp' := (hlive p hw).1 hp
      obtain ⟨n, hn⟩ := hp'
      have hb := (hB.live_blk p n hn).1
      have h1 := hB.live_hdr p ⟨n, hn⟩
      rw [hsucc_pa p hb hw]
      refine ⟨?_, h1.2⟩
      by_cases hph : p = hi
      · subst hph
        unfold HDRP; simp only [WSIZE]
        rw [hhi_alloc]; exact h1.1
      · rw [GET_ALLOC_congr (s := s)]
        · exact h1.1
        · unfold HDRP; simp only [WSIZE]
          exact hout_hdr p (Or.inl hb) (by omega)
    · obtain ⟨n, hn⟩ := hp
      have := hin_live p n (by omega) (by omega) hn
      exact ⟨this.2.2.1, this.2.2.2⟩
  · -- fr_blk
    intro p hp
    by_cases hw : p < lo ∨ hi ≤ p
    · have h1 := hB.fr_blk p (hout_fr p hw hp).1
      exact ⟨(hout_blk p hw).2 h1.1, fun h => h1.2 ((hlive p hw).1 h)⟩
    · have := hin_fr p (by omega) (by omega) hp
      exact ⟨this.1, this.2.1⟩
  · -- fr_hdr
    intro p hp
    by_cases hw : p < lo ∨ hi ≤ p
    · have hfr := hout_fr p hw hp
      have hb := (hB.fr_blk p hfr.1).1
      have h1 := hB.fr_hdr p hfr.1
      rw [hsucc_pa p hb hw, hsz p (Or.inl hb) hw, hfr.2]
      refine ⟨h1.1, ?_, h1.2.2⟩
      rw [GET_SIZE_congr (hout_ftr p hfr.1 hw)]
      exact h1.2.1
    · have := hin_fr p (by omega) (by omega) hp
      exact this.2.2

end MM


set_option linter.unusedVariables false
set_option linter.unusedTactic false
set_option linter.unreachableTactic false
namespace MM

/-! ## Frames -/

theorem GET_congr_mem {s s' : Heap} {a : Nat}
    (h : ∀ k, k < 4 → s'.mem (a + k) = s.mem (a + k)) : GET s' a = GET s a := by
  unfold GET
  have h0 := h 0 (by omega)
  rw [Nat.add_zero] at h0
  rw [h0, h 1 (by omega), h 2 (by omega), h 3 (by omega)]

theorem GET_PUT_eq (s : Heap) (p v q : Nat) (h : q = p) :
    GET (PUT s p v) q = v % 4294967296 := by
  subst h; exact GET_PUT_same s q v

theorem Lists_frame {s s' : Heap} {g : Ghost} (hl : Lists s g)
    (hbase : s'.heap_basep = s.heap_basep)
    (h : ∀ x, isNode s g x → GET s' x = GET s x ∧ GET s' (x + 4) = GET s (x + 4)) :
    Lists s' g := by
  have hnode : ∀ x, isNode s' g x ↔ isNode s g x := by
    intro x; unfold isNode isSent; rw [hbase]
  have hnx : ∀ x, isNode s g x → NEXT_FREE_P s' x = NEXT_FREE_P s x := by
    intro x hx; rw [NEXT_FREE_P_def, NEXT_FREE_P_def, hbase, (h x hx).1]
  have hpv : ∀ x, isNode s g x → PREV_FREE_P s' x = PREV_FREE_P s x := by
    intro x hx; rw [PREV_FREE_P_def, PREV_FREE_P_def, hbase, (h x hx).2]
  refine ⟨?_, ?_, hl.fr_bkt, ?_, ?_⟩
  · intro i hi; rw [hbase]; exact hl.sent_bkt i hi
  · intro x hx; rw [hbase]; exact hl.fr_lo x hx
  · intro x hx
    rw [hnode] at hx
    have h1 := hl.next x hx
    rw [hnx x hx, hnode, hpv _ h1.1]
    exact h1
  · intro x hx
    rw [hnode] at hx
    have h1 := hl.prev x hx
    rw [hpv x hx, hnode, hnx _ h1.1]
    exact h1

/-- A header word is not a link word of a node. -/
theorem hdr_not_link {s : Heap} {L : List (Nat × Nat)} {g : Ghost} (lay : Layout s)
    (hB : Blocks s L g) (hl : Lists s g) {x y : Nat} (hx : g.blk x ∨ x = s.brk)
    (hy : isNode s g y) : x ≤ y ∨ y + 16 ≤ x := by
  have hb := lay.base_al
  have hxlo : s.heap_basep + 112 ≤ x := by
    rcases hx with h | h
    · exact (hB.lo x h).1
    · have := lay.brk_lo; omega
  rcases hy with hy | hy
  · have := isSent_bounds hy hb; omega
  · have hyb := (hB.fr_blk y hy).1
    have hy1 := hB.lo y hyb
    rcases hx with h | h
    · by_cases hxy : x = y
      · omega
      · have := hB.apart h hyb hxy
        have := hB.lo x h
        omega
    · omega

/-- The footer word of a block is not a link word of a node. -/
theorem ftr_not_link {s : Heap} {L : List (Nat × Nat)} {g : Ghost} (lay : Layout s)
    (hB : Blocks s L g) (hl : Lists s g) {x y : Nat} (hx : g.blk x)
    (hy : isNode s g y) : x + bsize s x ≤ y + 4 ∨ y + 16 ≤ x + bsize s x := by
  have hb := lay.base_al
  have hx1 := hB.lo x hx
  have := bsize_mod s x
  rcases hy with hy | hy
  · have := isSent_bounds hy hb; omega
  · have hyb := (hB.fr_blk y hy).1
    have hy1 := hB.lo y hyb
    by_cases hxy : x = y
    · omega
    · have := hB.apart hx hyb hxy
      omega

end MM


set_option linter.unusedVariables false
set_option linter.unusedTactic false
set_option linter.unreachableTactic false
namespace MM

/-- The block structure only depends on the headers and on the footers of the
listed blocks. -/
theorem Blocks_mono {s s' : Heap} {L : List (Nat × Nat)} {g g' : Ghost} (hB : Blocks s L g)
    (hbrk : s'.brk = s.brk) (hbase : s'.heap_basep = s.heap_basep)
    (hblk : ∀ x, g'.blk x ↔ g.blk x)
    (hhdr : ∀ x, g.blk x ∨ x = s.brk → GET s' (x - 4) = GET s (x - 4))
    (hftr : ∀ x, g.blk x → GET s' (x + bsize s x - 8) = GET s (x + bsize s x - 8))
    (hfr : ∀ x, g'.fr x → g.blk x ∧ ¬ isLive L x
      ∧ GET_PREV_ALLOC s (HDRP (x + bsize s x)) = 0
      ∧ GET_SIZE s (x + bsize s x - 8) = bsize s x ∧ get_index (bsize s x) = g'.bkt x) :
    Blocks s' L g' := by
  have hsz : ∀ x, g.blk x → bsize s' x = bsize s x := fun x hx => bsize_congr (hhdr x (Or.inl hx))
  have hsucc : ∀ x, g.blk x →
      GET_PREV_ALLOC s' (HDRP (x + bsize s' x)) = GET_PREV_ALLOC s (HDRP (x + bsize s x)) := by
    intro x hx
    rw [hsz x hx]
    apply GET_PREV_ALLOC_congr
    unfold HDRP; simp only [WSIZE]
    exact hhdr _ (hB.next x hx)
  refine ⟨?_, ?_, ?_, ?_, ?_, ?_, ?_, ?_, ?_, hB.live_nodup, ?_, ?_, ?_⟩
  · rw [hbrk, GET_SIZE_congr (hhdr _ (Or.inr rfl))]; exact hB.epi_size
  · rw [hbrk, GET_ALLOC_congr (hhdr _ (Or.inr rfl))]; exact hB.epi_alloc
  · rw [hbase, hbrk, hblk]; exact hB.first
  · rw [hbase]
    have e : s.heap_basep + 108 = s.heap_basep + 112 - 4 := by omega
    rw [e, GET_PREV_ALLOC_congr (hhdr _ hB.first), ← e]
    exact hB.first_pa
  · intro x hx
    rw [hblk] at hx
    rw [hbase, hbrk, hsz x hx]; exact hB.lo x hx
  · intro x hx
    rw [hblk] at hx
    rw [hbrk, hsz x hx, hblk]; exact hB.next x hx
  · intro y hy hyne
    rw [hblk, hbrk] at hy
    rw [hbase] at hyne
    obtain ⟨q, hq, hqy⟩ := hB.prev y hy hyne
    exact ⟨q, (hblk q).2 hq, by rw [hsz q hq]; exact hqy⟩
  · intro p q hp hq hpq
    rw [hblk] at hp hq
    rw [hsz p hp]; exact hB.disj p q hp hq hpq
  · intro p n hpn
    have := hB.live_blk p n hpn
    rw [hblk, hsz p this.1]; exact this
  · intro p hp
    obtain ⟨n, hn⟩ := hp
    have hb := (hB.live_blk p n hn).1
    have h1 := hB.live_hdr p ⟨n, hn⟩
    rw [hsucc p hb]
    refine ⟨?_, h1.2⟩
    rw [GET_ALLOC_congr (s := s)]
    · exact h1.1
    · unfold HDRP; simp only [WSIZE]; exact hhdr p (Or.inl hb)
  · intro p hp
    have := hfr p hp
    exact ⟨(hblk p).2 this.1, this.2.1⟩
  · intro p hp
    have h := hfr p hp
    rw [hsucc p h.1, hsz p h.1, GET_SIZE_congr (hftr p h.1)]
    exact h.2.2

/-- What `delete_block` keeps: layout, block structure, every header and
footer, and every byte outside the link words of its two neighbours. -/
theorem delete_block_keeps {s : Heap} {L : List (Nat × Nat)} {g : Ghost} {bp : Nat}
    (lay : Layout s) (hB : Blocks s L g) (hl : Lists s g) (hbp : g.fr bp) :
    Layout (delete_block s bp) ∧ Blocks (delete_block s bp) L (g.unlist bp)
      ∧ Lists (delete_block s bp) (g.unlist bp)
      ∧ (∀ x, g.blk x ∨ x = s.brk → GET (delete_block s bp) (x - 4) = GET s (x - 4))
      ∧ (∀ x, g.blk x →
          GET (delete_block s bp) (x + bsize s x - 8) = GET s (x + bsize s x - 8))
      ∧ (∀ a, (∀ y, isNode s g y → a < y ∨ y + 8 ≤ a) → (delete_block s bp).mem a = s.mem a) := by
  have hb := lay.base_al
  have hN := (hl.next bp (Or.inr hbp)).1
  have hP := (hl.prev bp (Or.inr hbp)).1
  have hmem : ∀ a, (∀ y, isNode s g y → a < y ∨ y + 8 ≤ a) →
      (delete_block s bp).mem a = s.mem a := by
    intro a ha
    have h1 := ha _ hN
    have h2 := ha _ hP
    exact delete_block_mem hl hbp hb a (by omega) (by omega)
  have hhdr : ∀ x, g.blk x ∨ x = s.brk → GET (delete_block s bp) (x - 4) = GET s (x - 4) := by
    intro x hx
    apply GET_congr_mem
    intro k hk
    apply hmem
    intro y hy
    have := hdr_not_link lay hB hl hx hy
    have hxlo : s.heap_basep + 112 ≤ x := by
      rcases hx with h | h
      · exact (hB.lo x h).1
      · have := lay.brk_lo; omega
    omega
  have hftr : ∀ x, g.blk x →
      GET (delete_block s bp) (x + bsize s x - 8) = GET s (x + bsize s x - 8) := by
    intro x hx
    apply GET_congr_mem
    intro k hk
    apply hmem
    intro y hy
    have := ftr_not_link lay hB hl hx hy
    have := hB.lo x hx
    omega
  refine ⟨?_, ?_, delete_block_lists hl hbp hb, hhdr, hftr, hmem⟩
  · refine ⟨lay.base_pos, lay.base_al, lay.listp, lay.brk_al, lay.brk_lo, lay.brk_max,
      lay.max_hi, ?_, ?_⟩
    · show GET (delete_block s bp) s.heap_basep = 0
      rw [← lay.pad]
      apply GET_congr_mem
      intro k hk
      apply hmem
      intro y hy
      have := isNode_bounds hl hy hb
      omega
    · show GET_SIZE (delete_block s bp) (s.heap_basep + 4) = 104
      rw [← lay.prol]
      apply GET_SIZE_congr
      apply GET_congr_mem
      intro k hk
      apply hmem
      intro y hy
      have := isNode_bounds hl hy hb
      omega
  · refine Blocks_mono hB rfl rfl (fun x => Iff.rfl) hhdr hftr ?_
    intro x hx
    have h1 := hB.fr_blk x hx.1
    have h2 := hB.fr_hdr x hx.1
    exact ⟨h1.1, h1.2, h2.1, h2.2.1, h2.2.2⟩

end MM


set_option linter.unusedVariables false
set_option linter.unusedTactic false
set_option linter.unreachableTactic false
namespace MM

theorem hdr_not_blk {s : Heap} {L : List (Nat × Nat)} {g : Ghost} (lay : Layout s)
    (hB : Blocks s L g) {x y : Nat} (hx : g.blk x ∨ x = s.brk) (hy : g.blk y) :
    x ≤ y ∨ y + 16 ≤ x := by
  have hy1 := hB.lo y hy
  rcases hx with h | h
  · by_cases hxy : x = y
    · omega
    · have := hB.apart h hy hxy
      have := hB.lo x h
      omega
  · omega

theorem ftr_not_blk {s : Heap} {L : List (Nat × Nat)} {g : Ghost}
    (hB : Blocks s L g) {x y : Nat} (hx : g.blk x) (hy : g.blk y) :
    x + bsize s x ≤ y + 4 ∨ y + 16 ≤ x + bsize s x := by
  have hx1 := hB.lo x hx
  have hy1 := hB.lo y hy
  by_cases hxy : x = y
  · omega
  · have := hB.apart hx hy hxy
    omega

/-- What `insert_block` keeps when an unlisted free block with a valid footer
is put on the list of its size class. -/
theorem insert_block_keeps {s : Heap} {L : List (Nat × Nat)} {g : Ghost} {bp i : Nat}
    (lay : Layout s) (hB : Blocks s L g) (hl : Lists s g) (hblk : g.blk bp)
    (hnfr : ¬ g.fr bp) (hnl : ¬ isLive L bp) (hi : i = get_index (bsize s bp))
    (hpa : GET_PREV_ALLOC s (HDRP (bp + bsize s bp)) = 0)
    (hft : GET_SIZE s (bp + bsize s bp - 8) = bsize s bp) :
    Layout (insert_block s bp i)
      ∧ Blocks (insert_block s bp i) L
          (g.enlist bp i (s.heap_basep + 8 + 8 * i)
            (g.rk (NEXT_FREE_P s (s.heap_basep + 8 + 8 * i))))
      ∧ Lists (insert_block s bp i)
          (g.enlist bp i (s.heap_basep + 8 + 8 * i)
            (g.rk (NEXT_FREE_P s (s.heap_basep + 8 + 8 * i))))
      ∧ (∀ x, g.blk x ∨ x = s.brk → GET (insert_block s bp i) (x - 4) = GET s (x - 4))
      ∧ (∀ x, g.blk x →
          GET (insert_block s bp i) (x + bsize s x - 8) = GET s (x + bsize s x - 8))
      ∧ (∀ a, (∀ y, isNode s g y → a < y ∨ y + 8 ≤ a) → (a < bp ∨ bp + 8 ≤ a) →
          (insert_block s bp i).mem a = s.mem a) := by
  have hb := lay.base_al
  have hi12 : i < 12 := by rw [hi]; exact get_index_lt _
  have hbp1 := hB.lo bp hblk
  have hbphi : bp < s.heap_basep + 4294967296 := by
    have := lay.brk_max; have := lay.max_hi; omega
  have hS : isNode s g (s.heap_basep + 8 + 8 * i) := Or.inl ⟨i, hi12, rfl⟩
  have hH := (hl.next _ hS).1
  have hmem : ∀ a, (∀ y, isNode s g y → a < y ∨ y + 8 ≤ a) → (a < bp ∨ bp + 8 ≤ a) →
      (insert_block s bp i).mem a = s.mem a := by
    intro a ha ha2
    have h1 := ha _ hS
    have h2 := ha _ hH
    exact insert_block_mem hl hb lay.listp hi12 hbp1.2.1 hbp1.1 hbphi a ha2 (by omega) (by omega)
  have hhdr : ∀ x, g.blk x ∨ x = s.brk → GET (insert_block s bp i) (x - 4) = GET s (x - 4) := by
    intro x hx
    have hxlo : s.heap_basep + 112 ≤ x := by
      rcases hx with h | h
      · exact (hB.lo x h).1
      · have := lay.brk_lo; omega
    have h2 := hdr_not_blk lay hB hx hblk
    apply GET_congr_mem
    intro k hk
    apply hmem
    · intro y hy
      have := hdr_not_link lay hB hl hx hy
      omega
    · omega
  have hftr : ∀ x, g.blk x →
      GET (insert_block s bp i) (x + bsize s x - 8) = GET s (x + bsize s x - 8) := by
    intro x hx
    have h2 := ftr_not_blk hB hx hblk
    have := hB.lo x hx
    apply GET_congr_mem
    intro k hk
    apply hmem
    · intro y hy
      have := ftr_not_link lay hB hl hx hy
      omega
    · omega
  refine ⟨?_, ?_, insert_block_lists hl hb lay.listp hi12 hbp1.2.1 hbp1.1 hbphi hnfr,
    hhdr, hftr, hmem⟩
  · refine ⟨lay.base_pos, lay.base_al, lay.listp, lay.brk_al, lay.brk_lo, lay.brk_max,
      lay.max_hi, ?_, ?_⟩
    · show GET (insert_block s bp i) s.heap_basep = 0
      rw [← lay.pad]
      apply GET_congr_mem
      intro k hk
      apply hmem
      · intro y hy
        have := isNode_bounds hl hy hb
        omega
      · omega
    · show GET_SIZE (insert_block s bp i) (s.heap_basep + 4) = 104
      rw [← lay.prol]
      apply GET_SIZE_congr
      apply GET_congr_mem
      intro k hk
      apply hmem
      · intro y hy
        have := isNode_bounds hl hy hb
        omega
      · omega
  · refine Blocks_mono hB rfl rfl (fun x => Iff.rfl) hhdr hftr ?_
    intro x hx
    rcases hx with hx | hx
    · have h1 := hB.fr_blk x hx
      have h2 := hB.fr_hdr x hx
      have hne : x ≠ bp := fun h => hnfr (h ▸ hx)
      refine ⟨h1.1, h1.2, h2.1, h2.2.1, ?_⟩
      show _ = (if x = bp then i else g.bkt x)
      rw [if_neg hne]; exact h2.2.2
    · subst hx
      refine ⟨hblk, hnl, hpa, hft, ?_⟩
      show _ = (if x = x then i else g.bkt x)
      rw [if_pos rfl]; exact hi.symm

end MM


set_option linter.unusedVariables false
set_option linter.unusedTactic false
set_option linter.unreachableTactic false
namespace MM

/-! ## `place` -/

theorem sub64_eq (a b : Nat) (hb : b ≤ a) (ha : a < SZ) : sub64 a b = a - b := by
  unfold sub64
  simp only [SZ] at *
  rw [Nat.mod_eq_of_lt (show b < 18446744073709551616 by omega)]
  omega

theorem pa_cases (s : Heap) (a : Nat) : GET_PREV_ALLOC s a = 0 ∨ GET_PREV_ALLOC s a = 2 := by
  rw [GET_PREV_ALLOC_eq]; omega

/-- Decoding a header word that was assembled from its three fields. -/
theorem hdr_fields (s : Heap) (a size pa al : Nat) (hs : size % 8 = 0)
    (hpa : pa = 0 ∨ pa = 2) (hal : al ≤ 1) (h : GET s a = size + pa + al) :
    GET_SIZE s a = size ∧ GET_PREV_ALLOC s a = pa ∧ GET_ALLOC s a = al := by
  rw [GET_SIZE_eq, GET_PREV_ALLOC_eq, GET_ALLOC_eq, h]
  omega

end MM


set_option linter.unusedVariables false
set_option linter.unusedTactic false
set_option linter.unreachableTactic false
namespace MM

theorem Lists_ghost {s : Heap} {g g' : Ghost} (hl : Lists s g) (h1 : g'.fr = g.fr)
    (h2 : g'.bkt = g.bkt) (h3 : g'.rk = g.rk) : Lists s g' := by
  obtain ⟨b', f', k', r'⟩ := g'
  simp only at h1 h2 h3
  subst h1 h2 h3
  exact ⟨hl.sent_bkt, hl.fr_lo, hl.fr_bkt, hl.next, hl.prev⟩

/-- Stores inside a window that holds no listed block keep the layout and the
lists, and keep the block structure when the new blocks tile the window. -/
theorem window_step {s s' : Heap} {L L' : List (Nat × Nat)} {g g' : Ghost} (lo hi : Nat)
    (lay : Layout s) (hB : Blocks s L g) (hl : Lists s g)
    (hbrk : s'.brk = s.brk) (hmax : s'.max_addr = s.max_addr)
    (hlistp : s'.heap_listp = s.heap_listp) (hbase : s'.heap_basep = s.heap_basep)
    (hframe : ∀ a, (a + 4 < lo ∨ hi ≤ a) → s'.mem a = s.mem a)
    (hlo : g.blk lo) (hhi : g.blk hi ∨ hi = s.brk) (hlohi : lo < hi)
    (hnofr : ∀ x, g.fr x → x < lo ∨ hi ≤ x)
    (hgfr : g'.fr = g.fr) (hgbkt : g'.bkt = g.bkt) (hgrk : g'.rk = g.rk)
    (hout_blk : ∀ x, (x < lo ∨ hi ≤ x) → (g'.blk x ↔ g.blk x))
    (hout_live : ∀ x n, (x < lo ∨ hi ≤ x) → ((x, n) ∈ L' ↔ (x, n) ∈ L))
    (hhi_size : bsize s' hi = bsize s hi)
    (hhi_alloc : GET_ALLOC s' (hi - 4) = GET_ALLOC s (hi - 4))
    (hin_lo : g'.blk lo)
    (hlo_pa : GET_PREV_ALLOC s' (lo - 4) = GET_PREV_ALLOC s (lo - 4))
    (hin : ∀ x, g'.blk x → lo ≤ x → x < hi →
      x % 8 = 0 ∧ 16 ≤ bsize s' x ∧ x + bsize s' x ≤ hi
        ∧ (g'.blk (x + bsize s' x) ∨ x + bsize s' x = hi)
        ∧ (x = lo ∨ ∃ q, g'.blk q ∧ q + bsize s' q = x))
    (hin_last : ∃ q, g'.blk q ∧ q + bsize s' q = hi)
    (hin_disj : ∀ p q, g'.blk p → g'.blk q → lo ≤ p → p < q → q < hi → p + bsize s' p ≤ q)
    (hin_live : ∀ x n, lo ≤ x → x < hi → (x, n) ∈ L' →
      g'.blk x ∧ n + 4 ≤ bsize s' x ∧ GET_ALLOC s' (HDRP x) = 1
        ∧ GET_PREV_ALLOC s' (HDRP (x + bsize s' x)) = 2)
    (hnodup : L'.Pairwise (fun a b => a.1 ≠ b.1)) :
    Layout s' ∧ Lists s' g' ∧ Blocks s' L' g' := by
  have hb := lay.base_al
  have hlo1 := hB.lo lo hlo
  have hhib : hi ≤ s.brk := by
    rcases hhi with h | h
    · have := hB.lo hi h; omega
    · omega
  have hhi8 : hi % 8 = 0 := by
    rcases hhi with h | h
    · exact (hB.lo hi h).2.1
    · rw [h]; exact lay.brk_al
  have hw : ∀ a, (a + 8 ≤ lo ∨ hi ≤ a) → GET s' a = GET s a := by
    intro a ha
    apply GET_congr_mem
    intro k hk
    apply hframe
    omega
  refine ⟨?_, ?_, ?_⟩
  · refine ⟨by rw [hbase]; exact lay.base_pos, by rw [hbase]; exact lay.base_al,
      by rw [hlistp, hbase]; exact lay.listp, by rw [hbrk]; exact lay.brk_al,
      by rw [hbase, hbrk]; exact lay.brk_lo, by rw [hbrk, hmax]; exact lay.brk_max,
      by rw [hbase, hmax]; exact lay.max_hi, ?_, ?_⟩
    · rw [hbase, hw _ (by omega)]; exact lay.pad
    · rw [hbase, GET_SIZE_congr (hw _ (by omega))]; exact lay.prol
  · apply Lists_ghost _ hgfr hgbkt hgrk
    apply Lists_frame hl hbase
    intro y hy
    have hyw : y + 16 ≤ lo ∨ hi ≤ y := by
      rcases hy with hy | hy
      · have := isSent_bounds hy hb; omega
      · have hyb := (hB.fr_blk y hy).1
        have := hB.lo y hyb
        rcases hnofr y hy with h | h
        · have := hB.disj y lo hyb hlo h; omega
        · omega
    exact ⟨hw _ (by omega), hw _ (by omega)⟩
  · refine Blocks_window lo hi hB hbrk hbase hlo hhi hlohi hout_blk ?_ hout_live ?_ ?_
      hhi_size hhi_alloc hin_lo hlo_pa hin hin_last hin_disj hin_live ?_ hnodup
    · intro x _ hx
      rw [hgfr] at hx
      rw [hgbkt]
      exact ⟨hx, rfl⟩
    · intro x hx hxw
      have hxlo : s.heap_basep + 112 ≤ x := by
        rcases hx with h | h
        · exact (hB.lo x h).1
        · have := lay.brk_lo; omega
      have hx8 : x % 8 = 0 := by
        rcases hx with h | h
        · exact (hB.lo x h).2.1
        · rw [h]; exact lay.brk_al
      apply hw
      rcases hxw with h | h
      · left
        rcases hx with h2 | h2
        · have := hB.disj x lo h2 hlo h; have := hB.lo x h2; omega
        · omega
      · omega
    · intro x hx hxw
      have hxb := (hB.fr_blk x hx).1
      have := hB.lo x hxb
      apply hw
      rcases hxw with h | h
      · have := hB.disj x lo hxb hlo h; omega
      · omega
    · intro x h1 h2 hx
      rw [hgfr] at hx
      have := hnofr x hx
      omega

end MM


set_option linter.unusedVariables false
set_option linter.unusedTactic false
set_option linter.unreachableTactic false
namespace MM

theorem Kept.trans {s s1 s2 : Heap} {L : List (Nat × Nat)} (h1 : Kept s s1 L)
    (h2 : Kept s1 s2 L) : Kept s s2 L := by
  intro p hp
  have a1 := h1 p hp
  have a2 := h2 p hp
  refine ⟨by rw [a2.1, a1.1], fun a ha hb => ?_⟩
  rw [a2.2 a ha (by rw [a1.1]; exact hb), a1.2 a ha hb]

theorem Kept.refl (s : Heap) (L : List (Nat × Nat)) : Kept s s L :=
  fun _ _ => ⟨rfl, fun _ _ _ => rfl⟩

theorem Kept.mono {s s' : Heap} {L L' : List (Nat × Nat)} (h : Kept s s' L)
    (hsub : ∀ p, isLive L' p → isLive L p) : Kept s s' L' :=
  fun p hp => h p (hsub p hp)

/-- The payload of a live block contains no link word of a node. -/
theorem live_not_node {s : Heap} {L : List (Nat × Nat)} {g : Ghost} (lay : Layout s)
    (hB : Blocks s L g) (hl : Lists s g) {p a y : Nat} (hp : isLive L p)
    (ha : p ≤ a) (ha2 : a + 4 < p + bsize s p) (hy : isNode s g y) : a < y ∨ y + 8 ≤ a := by
  obtain ⟨n, hn⟩ := hp
  have hpb := (hB.live_blk p n hn).1
  have hp1 := hB.lo p hpb
  rcases hy with hy | hy
  · have := isSent_bounds hy lay.base_al; omega
  · have hyb := hB.fr_blk y hy
    have hne : p ≠ y := by
      intro h; subst h; exact hyb.2 ⟨n, hn⟩
    have := hB.apart hpb hyb.1 hne
    have := hB.lo y hyb.1
    omega

theorem delete_block_kept {s : Heap} {L : List (Nat × Nat)} {g : Ghost} {bp : Nat}
    (lay : Layout s) (hB : Blocks s L g) (hl : Lists s g) (hbp : g.fr bp) :
    Kept s (delete_block s bp) L := by
  have hk := delete_block_keeps lay hB hl hbp
  intro p hp
  obtain ⟨n, hn⟩ := hp
  have hpb := (hB.live_blk p n hn).1
  refine ⟨bsize_congr (hk.2.2.2.1 p (Or.inl hpb)), fun a ha ha2 => ?_⟩
  exact hk.2.2.2.2.2 a (fun y hy => live_not_node lay hB hl ⟨n, hn⟩ ha ha2 hy)

theorem insert_block_kept {s : Heap} {L : List (Nat × Nat)} {g : Ghost} {bp i : Nat}
    (lay : Layout s) (hB : Blocks s L g) (hl : Lists s g) (hblk : g.blk bp)
    (hnfr : ¬ g.fr bp) (hnl : ¬ isLive L bp) (hi : i = get_index (bsize s bp))
    (hpa : GET_PREV_ALLOC s (HDRP (bp + bsize s bp)) = 0)
    (hft : GET_SIZE s (bp + bsize s bp - 8) = bsize s bp) :
    Kept s (insert_block s bp i) L := by
  have hk := insert_block_keeps lay hB hl hblk hnfr hnl hi hpa hft
  intro p hp
  obtain ⟨n, hn⟩ := hp
  have hpb := (hB.live_blk p n hn).1
  refine ⟨bsize_congr (hk.2.2.2.1 p (Or.inl hpb)), fun a ha ha2 => ?_⟩
  refine hk.2.2.2.2.2 a (fun y hy => live_not_node lay hB hl ⟨n, hn⟩ ha ha2 hy) ?_
  have hne : p ≠ bp := by
    intro h; subst h; exact hnl ⟨n, hn⟩
  have := hB.apart hpb hblk hne
  have := hB.lo bp hblk
  omega

/-- Blocks outside a rewritten window keep their size and their payload. -/
theorem window_kept {s s' : Heap} {L : List (Nat × Nat)} {g : Ghost} (lo hi : Nat)
    (hB : Blocks s L g)
    (hframe : ∀ a, (a + 4 < lo ∨ hi ≤ a) → s'.mem a = s.mem a)
    (hlo : g.blk lo) (hhi8 : hi % 8 = 0) (hhi_size : bsize s' hi = bsize s hi) :
    ∀ x, g.blk x → (x < lo ∨ hi ≤ x) →
      bsize s' x = bsize s x ∧ ∀ a, x ≤ a → a + 4 < x + bsize s x → s'.mem a = s.mem a := by
  intro x hx hw
  have hx1 := hB.lo x hx
  have hlo1 := hB.lo lo hlo
  refine ⟨?_, fun a ha ha2 => ?_⟩
  · by_cases h : x = hi
    · subst h; exact hhi_size
    · apply bsize_congr
      apply GET_congr_mem
      intro k hk
      apply hframe
      rcases hw with hw | hw
      · have := hB.disj x lo hx hlo hw; omega
      · omega
  · apply hframe
    rcases hw with hw | hw
    · have := hB.disj x lo hx hlo hw; omega
    · omega

end MM


set_option linter.unusedVariables false
set_option linter.unusedTactic false
set_option linter.unreachableTactic false

namespace MM

/-! ## `place` -/

/-- The four stores of `place` when it splits. -/
theorem chain_place_split (s1 s5 : Heap) (bp asize F pa : Nat)
    (hs5 : s5 = PUT (PUT (PUT (PUT s1 (bp - 4) (asize + pa + 1)) (bp + asize - 8)
      (asize + pa + 1)) (bp + asize - 4) (F - asize + 3)) (bp + F - 8) (F - asize + 3))
    (hbp : 4 ≤ bp) (ha16 : 16 ≤ asize) (hsp : asize + 16 ≤ F) (hFlt : F < 4294967290)
    (hpa : pa = 0 ∨ pa = 2) :
    (∀ a, (a + 4 < bp ∨ bp + F - 4 ≤ a) → s5.mem a = s1.mem a)
    ∧ GET s5 (bp - 4) = asize + pa + 1
    ∧ GET s5 (bp + asize - 4) = F - asize + 2 + 1
    ∧ GET s5 (bp + F - 8) = F - asize + 2 + 1
    ∧ SameGlobals s1 s5 := by
  subst hs5
  refine ⟨?_, ?_, ?_, ?_, ⟨rfl, rfl, rfl, rfl⟩⟩
  · intro a ha
    rw [PUT_mem_other _ _ _ _ (by omega), PUT_mem_other _ _ _ _ (by omega),
      PUT_mem_other _ _ _ _ (by omega), PUT_mem_other _ _ _ _ (by omega)]
  · rw [GET_PUT_other _ _ _ _ (by omega), GET_PUT_other _ _ _ _ (by omega),
      GET_PUT_other _ _ _ _ (by omega), GET_PUT_same]
    omega
  · rw [GET_PUT_other _ _ _ _ (by omega), GET_PUT_same]
    omega
  · rw [GET_PUT_same]
    omega

theorem place_split_eq (s : Heap) (bp asize F pa : Nat)
    (hF : bsize s bp = F) (hpa : GET_PREV_ALLOC s (bp - 4) = pa)
    (hh1 : GET (delete_block s bp) (bp - 4) = GET s (bp - 4))
    (hbp : 4 ≤ bp) (ha8 : asize % 8 = 0) (ha16 : 16 ≤ asize) (hsp : asize + 16 ≤ F)
    (hF8 : F % 8 = 0) (hFlt : F < 4294967290) :
    place s bp asize
      = insert_block
          (PUT (PUT (PUT (PUT (delete_block s bp) (bp - 4) (asize + pa + 1)) (bp + asize - 8)
            (asize + pa + 1)) (bp + asize - 4) (F - asize + 3)) (bp + F - 8) (F - asize + 3))
          (bp + asize) (get_index (F - asize)) := by
  have hpac : pa = 0 ∨ pa = 2 := hpa ▸ pa_cases s (bp - 4)
  have hsub : sub64 F asize = F - asize := sub64_eq _ _ (by omega) (by simp only [SZ]; omega)
  have e0 : GET_SIZE s (HDRP bp) = F := hF
  unfold place
  lift_lets
  extract_lets fs s1 a1 b1 c1 d1 a2 b2
  have hfs : fs = F := e0
  clear_value fs
  subst fs
  rw [if_pos (by rw [hsub]; simp only [DSIZE]; omega)]
  have hpa1 : GET_PREV_ALLOC s1 (HDRP bp) = pa := by
    show GET_PREV_ALLOC (delete_block s bp) (bp - 4) = pa
    rw [GET_PREV_ALLOC_congr hh1, hpa]
  have ha1 : a1 = PUT s1 (bp - 4) (asize + pa + 1) := by
    show PUT s1 (HDRP bp) (PACK asize 0 (GET_PREV_ALLOC s1 (HDRP bp)) 1) = _
    rw [hpa1, PACK_eq asize pa 1 ha8 hpac (by omega)]; rfl
  clear_value a1
  have f1 := hdr_fields a1 (bp - 4) asize pa 1 ha8 hpac (by omega)
    (by rw [ha1, GET_PUT_same]; omega)
  have hb1 : b1 = PUT a1 (bp + asize - 8) (asize + pa + 1) := by
    show PUT a1 (FTRP a1 bp) (PACK asize 0 (GET_PREV_ALLOC a1 (HDRP bp)) 1) = _
    unfold FTRP HDRP; simp only [WSIZE, DSIZE]
    rw [f1.1, f1.2.1, PACK_eq asize pa 1 ha8 hpac (by omega)]
  clear_value b1
  have g1 : GET_SIZE b1 (bp - 4) = asize := by
    rw [hb1, GET_SIZE_congr (GET_PUT_other _ _ _ _ (by omega))]; exact f1.1
  have hc1 : c1 = PUT b1 (bp + asize - 4) (F - asize + 3) := by
    show PUT b1 (HDRP (NEXT_BLKP b1 bp)) (PACK (sub64 F asize) 0 2 1) = _
    unfold NEXT_BLKP HDRP; simp only [WSIZE]
    rw [g1, hsub, PACK_eq (F - asize) 2 1 (by omega) (Or.inr rfl) (by omega)]
  clear_value c1
  have k1 : GET_SIZE c1 (bp - 4) = asize := by
    rw [hc1, GET_SIZE_congr (GET_PUT_other _ _ _ _ (by omega))]; exact g1
  have k2 : GET_SIZE c1 (bp + asize - 4) = F - asize := by
    rw [hc1, GET_SIZE_eq, GET_PUT_same]; omega
  have hd1 : d1 = PUT c1 (bp + F - 8) (F - asize + 3) := by
    show PUT c1 (FTRP c1 (NEXT_BLKP c1 bp)) (PACK (sub64 F asize) 0 2 1) = _
    unfold FTRP NEXT_BLKP HDRP; simp only [WSIZE, DSIZE]
    rw [k1, k2, hsub, PACK_eq (F - asize) 2 1 (by omega) (Or.inr rfl) (by omega),
      show bp + asize + (F - asize) - 8 = bp + F - 8 by omega]
  clear_value d1
  have l1 : GET_SIZE d1 (bp - 4) = asize := by
    rw [hd1, GET_SIZE_congr (GET_PUT_other _ _ _ _ (by omega))]; exact k1
  show insert_block d1 (NEXT_BLKP d1 bp) (get_index (sub64 F asize)) = _
  unfold NEXT_BLKP; simp only [WSIZE]
  rw [l1, hsub, hd1, hc1, hb1, ha1]

end MM


set_option linter.unusedVariables false
set_option linter.unusedTactic false
set_option linter.unreachableTactic false

namespace MM

theorem isLive_cons (L : List (Nat × Nat)) (p n x : Nat) :
    isLive ((p, n) :: L) x ↔ (x = p ∨ isLive L x) := by
  unfold isLive
  constructor
  · rintro ⟨m, hm⟩
    rcases List.mem_cons.mp hm with h | h
    · left; exact (Prod.mk.inj h).1
    · right; exact ⟨m, h⟩
  · rintro (h | ⟨m, hm⟩)
    · exact ⟨n, by rw [h]; exact List.mem_cons_self _ _⟩
    · exact ⟨m, List.mem_cons_of_mem _ hm⟩

theorem nodup_cons {L : List (Nat × Nat)} {p n : Nat}
    (h : L.Pairwise (fun a b => a.1 ≠ b.1)) (hp : ¬ isLive L p) :
    ((p, n) :: L).Pairwise (fun a b => a.1 ≠ b.1) := by
  refine List.Pairwise.cons ?_ h
  intro e he heq
  apply hp
  have h1 : p = e.1 := heq
  exact ⟨e.2, by rw [h1]; exact he⟩

theorem mem_cons_outside {L : List (Nat × Nat)} {p n x m : Nat} (hx : x ≠ p) :
    (x, m) ∈ (p, n) :: L ↔ (x, m) ∈ L := by
  constructor
  · intro h
    rcases List.mem_cons.mp h with h | h
    · exact absurd (Prod.mk.inj h).1 hx
    · exact h
  · exact List.mem_cons_of_mem _

/-- A block that starts inside another block's extent is that block. -/
theorem Blocks.inside {s : Heap} {L : List (Nat × Nat)} {g : Ghost} (hB : Blocks s L g)
    {x bp : Nat} (hx : g.blk x) (hbp : g.blk bp) (h1 : bp ≤ x) (h2 : x < bp + bsize s bp) :
    x = bp := by
  by_contra hne
  have h3 := hB.apart hx hbp hne
  have h4 := (hB.lo x hx).2.2.1
  omega

/-- A block other than `bp` lies outside the extent of `bp`. -/
theorem Blocks.outside {s : Heap} {L : List (Nat × Nat)} {g : Ghost} (hB : Blocks s L g)
    {x bp : Nat} (hx : g.blk x) (hbp : g.blk bp) (hne : x ≠ bp) :
    x < bp ∨ bp + bsize s bp ≤ x := by
  have h3 := hB.apart hx hbp hne
  have h4 := (hB.lo x hx).2.2.1
  omega

/-- A live block other than `bp` keeps its size and payload when only the
extent of `bp` is written. -/
theorem kept_outside {s s' : Heap} {L : List (Nat × Nat)} {g : Ghost} {bp : Nat}
    (hB : Blocks s L g) (hblk : g.blk bp) (hnl : ¬ isLive L bp)
    (hframe : ∀ a, (a + 4 < bp ∨ bp + bsize s bp ≤ a) → s'.mem a = s.mem a)
    (hhi : bsize s' (bp + bsize s bp) = bsize s (bp + bsize s bp)) : Kept s s' L := by
  intro p hp
  obtain ⟨m, hm⟩ := hp
  have hpb := (hB.live_blk p m hm).1
  have hne : p ≠ bp := fun h => hnl ⟨m, h ▸ hm⟩
  have h8 : (bp + bsize s bp) % 8 = 0 := by
    have h1 := (hB.lo bp hblk).2.1
    have h2 := bsize_mod s bp
    omega
  exact window_kept bp (bp + bsize s bp) hB hframe hblk h8 hhi p hpb (hB.outside hpb hblk hne)

end MM


set_option linter.unusedVariables false
set_option linter.unusedTactic false
set_option linter.unreachableTactic false

namespace MM

theorem heap_size_lt {s : Heap} {L : List (Nat × Nat)} {g : Ghost} (lay : Layout s)
    (hB : Blocks s L g) {x : Nat} (hx : g.blk x) : x + bsize s x < s.heap_basep + 4294967297
      ∧ s.heap_basep + 112 ≤ x := by
  have h1 := lay.brk_max
  have h2 := lay.max_hi
  have h3 := hB.lo x hx
  omega

/-- `place` when the remainder is split off. -/
theorem place_split_spec {s : Heap} {L : List (Nat × Nat)} {g : Ghost} {bp asize n : Nat}
    (hI : Inv s L g) (hfr : g.fr bp) (ha8 : asize % 8 = 0) (ha16 : 16 ≤ asize)
    (hsp : asize + 16 ≤ bsize s bp) (hn : n + 4 ≤ asize) :
    ∃ g', Inv (place s bp asize) ((bp, n) :: L) g' ∧ bsize (place s bp asize) bp = asize
      ∧ Kept s (place s bp asize) L ∧ SameGlobals s (place s bp asize) := by
  obtain ⟨lay, hB, hl, full⟩ := hI
  have hblk := (hB.fr_blk bp hfr).1
  have hnl := (hB.fr_blk bp hfr).2
  have hlo := hB.lo bp hblk
  have hF8 := bsize_mod s bp
  have hsz := heap_size_lt lay hB hblk
  have hbp4 : 4 ≤ bp := by clear * - hsz; omega
  have hFlt : bsize s bp < 4294967290 := by clear * - hsz; omega
  have hfrh := hB.fr_hdr bp hfr
  have hnext := hB.next bp hblk
  have hpac := pa_cases s (bp - 4)
  obtain ⟨lay1, hB1, hl1, hdr1, ftr1, mem1⟩ := delete_block_keeps lay hB hl hfr
  have hK1 := delete_block_kept lay hB hl hfr
  rw [place_split_eq s bp asize (bsize s bp) (GET_PREV_ALLOC s (bp - 4)) rfl rfl
    (hdr1 bp (Or.inl hblk)) hbp4 ha8 ha16 hsp hF8 hFlt]
  obtain ⟨s1, hs1⟩ : ∃ s1, s1 = delete_block s bp := ⟨_, rfl⟩
  have hG1 : SameGlobals s s1 := by rw [hs1]; exact ⟨rfl, rfl, rfl, rfl⟩
  rw [← hs1] at lay1 hB1 hl1 hdr1 hK1 ⊢
  clear ftr1 mem1 hs1
  obtain ⟨s5, hs5⟩ : ∃ s5, s5 = PUT (PUT (PUT (PUT s1 (bp - 4)
      (asize + GET_PREV_ALLOC s (bp - 4) + 1)) (bp + asize - 8)
      (asize + GET_PREV_ALLOC s (bp - 4) + 1)) (bp + asize - 4) (bsize s bp - asize + 3))
      (bp + bsize s bp - 8) (bsize s bp - asize + 3) := ⟨_, rfl⟩
  rw [← hs5]
  obtain ⟨m5, w1, w2, w3, hG5⟩ := chain_place_split s1 s5 bp asize (bsize s bp)
    (GET_PREV_ALLOC s (bp - 4)) hs5 hbp4 ha16 hsp hFlt hpac
  clear hs5
  have hF1 : bsize s1 bp = bsize s bp := bsize_congr (hdr1 bp (Or.inl hblk))
  have w4 : GET s5 (bp + bsize s bp - 4) = GET s1 (bp + bsize s bp - 4) :=
    GET_congr_mem (fun k _ => m5 _ (by clear * - hsp; omega))
  have f1 := hdr_fields s5 (bp - 4) asize _ 1 ha8 hpac (by omega) w1
  have f2 := hdr_fields s5 (bp + asize - 4) (bsize s bp - asize) 2 1
    (by clear * - ha8 hF8; omega) (Or.inr rfl) (by omega) w2
  have f3 := hdr_fields s5 (bp + bsize s bp - 8) (bsize s bp - asize) 2 1
    (by clear * - ha8 hF8; omega) (Or.inr rfl) (by omega) w3
  have b1 : bsize s5 bp = asize := f1.1
  have b2 : bsize s5 (bp + asize) = bsize s bp - asize := f2.1
  have hnofr : ∀ x, (g.unlist bp).fr x → x < bp ∨ bp + bsize s bp ≤ x :=
    fun x hx => hB.outside (hB.fr_blk x hx.1).1 hblk hx.2
  have hinw : ∀ x, g.blk x → bp ≤ x → x < bp + bsize s bp → x = bp :=
    fun x hx h1 h2 => hB.inside hx hblk h1 h2
  have hne2 : bp + asize ≠ bp := by clear * - ha16; omega
  have hin2 : bp ≤ bp + asize ∧ bp + asize < bp + bsize s bp := by clear * - hsp; omega
  have hnb2 : ¬ g.blk (bp + asize) := fun h => hne2 (hinw _ h hin2.1 hin2.2)
  have hW := @window_step s1 s5 L ((bp, n) :: L) (g.unlist bp)
    ((g.unlist bp).addBlk (bp + asize)) bp (bp + bsize s bp) lay1 hB1 hl1
    hG5.1 hG5.2.1 hG5.2.2.1 hG5.2.2.2 (fun a ha => m5 a (by clear * - ha hsp; omega)) hblk
    (by rw [hG1.1]; exact hnext) (by clear * - hsp; omega) hnofr rfl rfl rfl
    (by
      intro x hx
      show (g.blk x ∨ x = bp + asize) ↔ g.blk x
      constructor
      · rintro (h | h)
        · exact h
        · exact absurd h (by clear * - hx hin2; omega)
      · exact Or.inl)
    (fun x m hx => mem_cons_outside (by clear * - hx hsp; omega))
    (bsize_congr w4)
    (GET_ALLOC_congr w4) (Or.inl hblk)
    (by rw [f1.2.1]; exact (GET_PREV_ALLOC_congr (hdr1 bp (Or.inl hblk))).symm)
    (by
      intro x hx h1 h2
      rcases hx with h | h
      · have hx' := hinw x h h1 h2
        subst hx'
        rw [b1]
        exact ⟨hlo.2.1, ha16, by clear * - hsp; omega, Or.inl (Or.inr rfl), Or.inl rfl⟩
      · subst h
        rw [b2]
        refine ⟨by clear * - hlo ha8; omega, by clear * - hsp; omega,
          by clear * - hsp; omega, Or.inr (by clear * - hsp; omega),
          Or.inr ⟨bp, Or.inl hblk, by rw [b1]⟩⟩)
    ⟨bp + asize, Or.inr rfl, by rw [b2]; clear * - hsp; omega⟩
    (by
      intro p q hp hq h1 h2 h3
      have hp' : p = bp := by
        rcases hp with h | h
        · exact hinw p h h1 (by clear * - h2 h3; omega)
        · rcases hq with h' | h'
          · have := hinw q h' (by clear * - h1 h2; omega) h3
            clear * - h h2 this ha16; omega
          · clear * - h h' h2; omega
      have hq' : q = bp + asize := by
        rcases hq with h | h
        · have := hinw q h (by clear * - h1 h2; omega) h3
          clear * - this hp' h2; omega
        · exact h
      rw [hp', hq', b1])
    (by
      intro x m h1 h2 hx
      have hxbp : x = bp := by
        rcases List.mem_cons.mp hx with h | h
        · exact (Prod.mk.inj h).1
        · exact hinw x (hB.live_blk x m h).1 h1 h2
      have hm : m = n := by
        rcases List.mem_cons.mp hx with h | h
        · exact (Prod.mk.inj h).2
        · exact absurd ⟨m, hxbp ▸ h⟩ hnl
      subst hxbp hm
      refine ⟨Or.inl hblk, by rw [b1]; exact hn, f1.2.2, ?_⟩
      rw [b1]; exact f2.2.1)
    (nodup_cons hB.live_nodup hnl)
  obtain ⟨lay5, hl5, hB5⟩ := hW
  have hnl5 : ¬ isLive ((bp, n) :: L) (bp + asize) := by
    rw [isLive_cons]
    rintro (h | ⟨m, hm⟩)
    · exact hne2 h
    · exact hnb2 (hB.live_blk _ m hm).1
  have hnfr5 : ¬ ((g.unlist bp).addBlk (bp + asize)).fr (bp + asize) :=
    fun h => hnb2 (hB.fr_blk _ h.1).1
  have hpa5 : GET_PREV_ALLOC s5 (HDRP (bp + asize + bsize s5 (bp + asize))) = 0 := by
    rw [b2]
    unfold HDRP
    simp only [WSIZE]
    rw [show bp + asize + (bsize s bp - asize) - 4 = bp + bsize s bp - 4 by
        clear * - hsp; omega, GET_PREV_ALLOC_congr w4,
      GET_PREV_ALLOC_congr (hdr1 (bp + bsize s bp) hnext)]
    exact hfrh.1
  have hft5 : GET_SIZE s5 (bp + asize + bsize s5 (bp + asize) - 8) = bsize s5 (bp + asize) := by
    rw [b2, show bp + asize + (bsize s bp - asize) - 8 = bp + bsize s bp - 8 by
      clear * - hsp; omega]
    exact f3.1
  have hidx : get_index (bsize s bp - asize) = get_index (bsize s5 (bp + asize)) := by rw [b2]
  have hK56 := insert_block_kept lay5 hB5 hl5 (Or.inr rfl) hnfr5 hnl5 hidx hpa5 hft5
  obtain ⟨lay6, hB6, hl6, hdr6, ftr6, mem6⟩ := insert_block_keeps lay5 hB5 hl5 (Or.inr rfl)
    hnfr5 hnl5 hidx hpa5 hft5
  refine ⟨_, ⟨lay6, hB6, hl6, ?_⟩, ?_, ?_, ?_⟩
  · intro x hx
    rw [isLive_cons]
    rcases hx with hx | hx
    · by_cases hxbp : x = bp
      · exact Or.inl (Or.inl hxbp)
      · rcases full x hx with h | h
        · exact Or.inl (Or.inr h)
        · exact Or.inr (Or.inl ⟨h, hxbp⟩)
    · exact Or.inr (Or.inr hx)
  · rw [bsize_congr (hdr6 bp (Or.inl (Or.inl hblk)))]; exact b1
  · refine hK1.trans (Kept.trans ?_ (hK56.mono ?_))
    · exact kept_outside hB1 hblk hnl (by rw [hF1]; exact fun a ha => m5 a (by
        clear * - ha; omega)) (by rw [hF1]; exact bsize_congr w4)
    · intro p hp
      rw [isLive_cons]; exact Or.inr hp
  · exact ⟨by rw [insert_block_brk, hG5.1, hG1.1], by rw [insert_block_max_addr, hG5.2.1, hG1.2.1],
      by rw [insert_block_heap_listp, hG5.2.2.1, hG1.2.2.1],
      by rw [insert_block_heap_basep, hG5.2.2.2, hG1.2.2.2]⟩

end MM


set_option linter.unusedVariables false
set_option linter.unusedTactic false
set_option linter.unreachableTactic false
namespace MM

theorem place_whole_eq {s : Heap} {L : List (Nat × Nat)} {g : Ghost} {bp asize : Nat}
    (lay : Layout s) (hB : Blocks s L g) (hl : Lists s g) (hfr : g.fr bp)
    (hle : asize ≤ bsize s bp) (hsp : bsize s bp < asize + 16) :
    place s bp asize
      = PUT (PUT (PUT (delete_block s bp) (bp - 4)
            (bsize s bp + GET_PREV_ALLOC s (bp - 4) + 1)) (bp + bsize s bp - 8)
            (bsize s bp + GET_PREV_ALLOC s (bp - 4) + 1)) (bp + bsize s bp - 4)
            (GET s (bp + bsize s bp - 4) + 2) := by
  have hblk := (hB.fr_blk bp hfr).1
  have hlo := hB.lo bp hblk
  have hF8 := bsize_mod s bp
  have hFlt := bsize_lt s bp
  have hfrh := hB.fr_hdr bp hfr
  have hk := delete_block_keeps lay hB hl hfr
  have hh1 : GET (delete_block s bp) (bp - 4) = GET s (bp - 4) := hk.2.2.2.1 bp (Or.inl hblk)
  have hh2 : GET (delete_block s bp) (bp + bsize s bp - 4) = GET s (bp + bsize s bp - 4) :=
    hk.2.2.2.1 (bp + bsize s bp) (hB.next bp hblk)
  have hpa := pa_cases s (bp - 4)
  have hsub : sub64 (bsize s bp) asize = bsize s bp - asize :=
    sub64_eq _ _ (by omega) (by simp only [SZ]; omega)
  have hpa0 : GET s (bp + bsize s bp - 4) / 2 % 2 = 0 := by
    have := hfrh.1
    unfold HDRP at this
    simp only [WSIZE] at this
    rw [GET_PREV_ALLOC_eq] at this
    omega
  unfold place
  simp only [HDRP, FTRP, NEXT_BLKP, WSIZE, DSIZE]
  have e0 : GET_SIZE s (bp - 4) = bsize s bp := rfl
  rw [e0, hsub, if_neg (by omega)]
  rw [GET_PREV_ALLOC_congr hh1]
  generalize hpadef : GET_PREV_ALLOC s (bp - 4) = pa at *
  generalize hFdef : bsize s bp = F at *
  rw [PACK_eq F pa 1 hF8 hpa (by omega)]
  generalize hs1 : delete_block s bp = s1 at *
  have f2 := hdr_fields (PUT s1 (bp - 4) (F + pa + 1)) (bp - 4) F pa 1 hF8 hpa (by omega)
    (by rw [GET_PUT_same]; omega)
  rw [f2.1, f2.2.1, PACK_eq F pa 1 hF8 hpa (by omega)]
  have f3 : GET_SIZE (PUT (PUT s1 (bp - 4) (F + pa + 1)) (bp + F - 8) (F + pa + 1))
      (bp - 4) = F := by
    rw [GET_SIZE_congr (GET_PUT_other _ _ _ _ (by omega))]; exact f2.1
  rw [f3, SET_PREV_ALLOC_eq]
  have f4 : GET (PUT (PUT s1 (bp - 4) (F + pa + 1)) (bp + F - 8) (F + pa + 1)) (bp + F - 4)
      = GET s (bp + F - 4) := by
    rw [GET_PUT_other _ _ _ _ (by omega), GET_PUT_other _ _ _ _ (by omega)]; exact hh2
  rw [f4, hpa0]
  rfl

/-- `place` when the whole block is handed out. -/
theorem place_whole_spec {s : Heap} {L : List (Nat × Nat)} {g : Ghost} {bp asize n : Nat}
    (hI : Inv s L g) (hfr : g.fr bp)
    (hle : asize ≤ bsize s bp) (hsp : bsize s bp < asize + 16) (hn : n + 4 ≤ asize) :
    ∃ g', Inv (place s bp asize) ((bp, n) :: L) g' ∧ asize ≤ bsize (place s bp asize) bp
      ∧ Kept s (place s bp asize) L ∧ SameGlobals s (place s bp asize) := by
  obtain ⟨lay, hB, hl, full⟩ := hI
  have hblk := (hB.fr_blk bp hfr).1
  have hnl := (hB.fr_blk bp hfr).2
  have hlo := hB.lo bp hblk
  have hF8 := bsize_mod s bp
  have hFlt := bsize_lt s bp
  have hfrh := hB.fr_hdr bp hfr
  have hnext := hB.next bp hblk
  have hpa0 : GET s (bp + bsize s bp - 4) / 2 % 2 = 0 := by
    have := hfrh.1
    unfold HDRP at this
    simp only [WSIZE] at this
    rw [GET_PREV_ALLOC_eq] at this
    omega
  have hhlt := GET_lt s (bp + bsize s bp - 4)
  rw [place_whole_eq lay hB hl hfr hle hsp]
  obtain ⟨lay1, hB1, hl1, hdr1, ftr1, mem1⟩ := delete_block_keeps lay hB hl hfr
  have hK1 := delete_block_kept lay hB hl hfr
  have hG1 : SameGlobals s (delete_block s bp) := ⟨rfl, rfl, rfl, rfl⟩
  have hpa := pa_cases s (bp - 4)
  generalize hpadef : GET_PREV_ALLOC s (bp - 4) = pa at *
  generalize hFdef : bsize s bp = F at *
  generalize hhdef : GET s (bp + F - 4) = h at *
  generalize hs1 : delete_block s bp = s1 at *
  obtain ⟨hbrk1, hmax1, hlistp1, hbase1⟩ := hG1
  have hsz1 : ∀ x, g.blk x → bsize s1 x = bsize s x := fun x hx => bsize_congr (hdr1 x (Or.inl hx))
  have hF1 : bsize s1 bp = F := by rw [hsz1 bp hblk, hFdef]
  have hh1 : GET s1 (bp + F - 4) = h := by rw [hdr1 (bp + F) hnext, hhdef]
  generalize hs5 : PUT (PUT (PUT s1 (bp - 4) (F + pa + 1)) (bp + F - 8) (F + pa + 1))
    (bp + F - 4) (h + 2) = s5
  have m5 : ∀ a, (a + 4 < bp ∨ bp + F ≤ a) → s5.mem a = s1.mem a := by
    intro a ha
    rw [← hs5, PUT_mem_other _ _ _ _ (by omega), PUT_mem_other _ _ _ _ (by omega),
      PUT_mem_other _ _ _ _ (by omega)]
  have w1 : GET s5 (bp - 4) = F + pa + 1 := by
    rw [← hs5, GET_PUT_other _ _ _ _ (by omega), GET_PUT_other _ _ _ _ (by omega), GET_PUT_same]
    omega
  have w4 : GET s5 (bp + F - 4) = h + 2 := by
    rw [← hs5, GET_PUT_same]
    omega
  have g5 : s5.brk = s1.brk ∧ s5.max_addr = s1.max_addr ∧ s5.heap_listp = s1.heap_listp
      ∧ s5.heap_basep = s1.heap_basep := by
    rw [← hs5]; exact ⟨rfl, rfl, rfl, rfl⟩
  have f1 := hdr_fields s5 (bp - 4) F pa 1 hF8 hpa (by omega) w1
  have b1 : bsize s5 bp = F := f1.1
  have bhi : bsize s5 (bp + F) = bsize s1 (bp + F) := by
    rw [bsize_def, bsize_def, w4, hh1]; omega
  have ahi : GET_ALLOC s5 (bp + F - 4) = GET_ALLOC s1 (bp + F - 4) := by
    rw [GET_ALLOC_eq, GET_ALLOC_eq, w4, hh1]; omega
  have pahi : GET_PREV_ALLOC s5 (bp + F - 4) = 2 := by
    rw [GET_PREV_ALLOC_eq, w4]; omega
  have hnofr : ∀ x, (g.unlist bp).fr x → x < bp ∨ bp + F ≤ x := by
    intro x hx
    have hxb := (hB.fr_blk x hx.1).1
    have := hB.apart hxb hblk hx.2
    have := hB.lo x hxb
    omega
  have hinw : ∀ x, g.blk x → bp ≤ x → x < bp + F → x = bp := by
    intro x hx h1 h2
    by_contra hne
    have := hB.apart hx hblk hne
    have := hB.lo x hx
    omega
  have hW := @window_step s1 s5 L ((bp, n) :: L) (g.unlist bp) (g.unlist bp)
    bp (bp + F) lay1 hB1 hl1
    g5.1 g5.2.1 g5.2.2.1 g5.2.2.2 m5 hblk
    (by rw [hbrk1]; exact hnext) (by omega) hnofr rfl rfl rfl
    (fun x _ => Iff.rfl)
    (by
      intro x m hx
      constructor
      · intro h
        rcases List.mem_cons.mp h with h | h
        · have := (Prod.mk.inj h).1; omega
        · exact h
      · exact List.mem_cons_of_mem _)
    bhi ahi hblk
    (by rw [f1.2.1, GET_PREV_ALLOC_congr (hdr1 bp (Or.inl hblk)), hpadef])
    (by
      intro x hx h1 h2
      have hx' : x = bp := hinw x hx h1 h2
      subst hx'
      rw [b1]
      refine ⟨hlo.2.1, by omega, by omega, ?_, Or.inl rfl⟩
      rcases hnext with h | h
      · exact Or.inl h
      · exact Or.inr rfl)
    ⟨bp, hblk, by rw [b1]⟩
    (by
      intro p q hp hq h1 h2 h3
      have := hinw p hp h1 (by omega)
      have := hinw q hq (by omega) h3
      omega)
    (by
      intro x m h1 h2 hx
      have hxbp : x = bp := by
        rcases List.mem_cons.mp hx with h | h
        · exact (Prod.mk.inj h).1
        · exact hinw x (hB.live_blk x m h).1 h1 h2
      have hm : m = n := by
        rcases List.mem_cons.mp hx with h | h
        · exact (Prod.mk.inj h).2
        · exact absurd ⟨m, hxbp ▸ h⟩ hnl
      subst hxbp hm
      refine ⟨hblk, by rw [b1]; omega, f1.2.2, ?_⟩
      rw [b1]; exact pahi)
    (nodup_cons hB.live_nodup hnl)
  obtain ⟨lay5, hl5, hB5⟩ := hW
  refine ⟨_, ⟨lay5, hB5, hl5, ?_⟩, ?_, ?_, ?_⟩
  · intro x hx
    rw [isLive_cons]
    by_cases hxbp : x = bp
    · exact Or.inl (Or.inl hxbp)
    · rcases full x hx with h | h
      · exact Or.inl (Or.inr h)
      · exact Or.inr ⟨h, hxbp⟩
  · rw [b1]; exact hle
  · refine hK1.trans ?_
    intro p hp
    obtain ⟨m, hm⟩ := hp
    have hpb := (hB.live_blk p m hm).1
    have hne : p ≠ bp := fun h => hnl ⟨m, h ▸ hm⟩
    refine window_kept bp (bp + F) hB1 m5 hblk (by omega) bhi p hpb ?_
    have := hB.apart hpb hblk hne
    have := hB.lo p hpb
    omega
  · exact ⟨by rw [g5.1, hbrk1], by rw [g5.2.1, hmax1], by rw [g5.2.2.1, hlistp1],
      by rw [g5.2.2.2, hbase1]⟩

/-- `place` turns a listed block of at least the adjusted size into a live
block and keeps the invariant. -/
theorem place_spec {s : Heap} {L : List (Nat × Nat)} {g : Ghost} {bp asize n : Nat}
    (hI : Inv s L g) (hfr : g.fr bp) (ha8 : asize % 8 = 0) (ha16 : 16 ≤ asize)
    (hle : asize ≤ bsize s bp) (hn : n + 4 ≤ asize) :
    ∃ g', Inv (place s bp asize) ((bp, n) :: L) g' ∧ asize ≤ bsize (place s bp asize) bp
      ∧ Kept s (place s bp asize) L ∧ SameGlobals s (place s bp asize) := by
  by_cases hsp : asize + 16 ≤ bsize s bp
  · obtain ⟨g', h1, h2, h3, h4⟩ := place_split_spec hI hfr ha8 ha16 hsp hn
    exact ⟨g', h1, by rw [h2], h3, h4⟩
  · exact place_whole_spec hI hfr hle (by omega) hn

end MM


set_option linter.unusedVariables false
set_option linter.unusedTactic false
set_option linter.unreachableTactic false
namespace MM

/-! ## Coalescing -/

/-- The common last phase of `coalesce`, with the header word of the merged block
that it leaves in place. -/
theorem finish_merge_full {s s' : Heap} {L : List (Nat × Nat)} {g : Ghost} (lo hi : Nat)
    (lay : Layout s) (hB : Blocks s L g) (hl : Lists s g) (hG : SameGlobals s s')
    (hframe : ∀ a, (a + 4 < lo ∨ hi ≤ a) → s'.mem a = s.mem a)
    (hlo : g.blk lo) (hhi : g.blk hi ∨ hi = s.brk) (hlohi : lo + 16 ≤ hi)
    (hnofr : ∀ x, g.fr x → x < lo ∨ hi ≤ x)
    (hnolive : ∀ x, isLive L x → x < lo ∨ hi ≤ x)
    (hfull : ∀ x, g.blk x → (x < lo ∨ hi ≤ x) → isLive L x ∨ g.fr x)
    (hsz : bsize s' lo = hi - lo)
    (hlo_pa : GET_PREV_ALLOC s' (lo - 4) = GET_PREV_ALLOC s (lo - 4))
    (hftr : GET_SIZE s' (hi - 8) = hi - lo)
    (hhi_size : bsize s' hi = bsize s hi)
    (hhi_alloc : GET_ALLOC s' (hi - 4) = GET_ALLOC s (hi - 4))
    (hhi_pa : GET_PREV_ALLOC s' (hi - 4) = 0) :
    ∃ g', Inv (insert_block s' lo (get_index (hi - lo))) L g' ∧ g'.fr lo
      ∧ bsize (insert_block s' lo (get_index (hi - lo))) lo = hi - lo
      ∧ Kept s (insert_block s' lo (get_index (hi - lo))) L
      ∧ SameGlobals s (insert_block s' lo (get_index (hi - lo)))
      ∧ GET (insert_block s' lo (get_index (hi - lo))) (lo - 4) = GET s' (lo - 4) := by
  obtain ⟨hbrk, hmax, hlistp, hbase⟩ := hG
  have hlo1 := hB.lo lo hlo
  have hhi8 : hi % 8 = 0 := by
    rcases hhi with h | h
    · exact (hB.lo hi h).2.1
    · rw [h]; exact lay.brk_al
  have hW := @window_step s s' L L g
    { g with blk := fun x => g.blk x ∧ (x ≤ lo ∨ hi ≤ x) }
    lo hi lay hB hl hbrk hmax hlistp hbase hframe hlo hhi (by omega) hnofr rfl rfl rfl
    (by
      intro x hx
      show (g.blk x ∧ (x ≤ lo ∨ hi ≤ x)) ↔ g.blk x
      constructor
      · exact fun h => h.1
      · exact fun h => ⟨h, by omega⟩)
    (fun x n _ => Iff.rfl) hhi_size hhi_alloc ⟨hlo, Or.inl (le_refl _)⟩ hlo_pa
    (by
      intro x hx h1 h2
      have hx' : x = lo := by
        have := hx.2; omega
      subst hx'
      rw [hsz]
      refine ⟨hlo1.2.1, by omega, by omega, ?_, Or.inl rfl⟩
      rw [show x + (hi - x) = hi by omega]
      rcases hhi with h | h
      · exact Or.inl ⟨h, Or.inr (le_refl _)⟩
      · exact Or.inr rfl)
    ⟨lo, ⟨hlo, Or.inl (le_refl _)⟩, by rw [hsz]; omega⟩
    (by
      intro p q _ hq _ h2 h3
      have := hq.2; omega)
    (by
      intro x n h1 h2 hx
      have := hnolive x ⟨n, hx⟩
      omega)
    hB.live_nodup
  obtain ⟨lay5, hl5, hB5⟩ := hW
  have hblk5 : g.blk lo ∧ (lo ≤ lo ∨ hi ≤ lo) := ⟨hlo, Or.inl (le_refl _)⟩
  have hnfr5 : ¬ g.fr lo := by
    intro h
    have := hnofr lo h
    omega
  have hnl5 : ¬ isLive L lo := by
    intro h
    have := hnolive lo h
    omega
  have hpa5 : GET_PREV_ALLOC s' (HDRP (lo + bsize s' lo)) = 0 := by
    rw [hsz]
    unfold HDRP
    simp only [WSIZE]
    rw [show lo + (hi - lo) - 4 = hi - 4 by omega]
    exact hhi_pa
  have hft5 : GET_SIZE s' (lo + bsize s' lo - 8) = bsize s' lo := by
    rw [hsz, show lo + (hi - lo) - 8 = hi - 8 by omega]
    exact hftr
  have hK56 := insert_block_kept lay5 hB5 hl5 hblk5 hnfr5 hnl5
    (show get_index (hi - lo) = get_index (bsize s' lo) by rw [hsz]) hpa5 hft5
  obtain ⟨lay6, hB6, hl6, hdr6, ftr6, mem6⟩ := insert_block_keeps lay5 hB5 hl5 hblk5
    hnfr5 hnl5 (show get_index (hi - lo) = get_index (bsize s' lo) by rw [hsz]) hpa5 hft5
  refine ⟨_, ⟨lay6, hB6, hl6, ?_⟩, Or.inr rfl, ?_, ?_, ?_, hdr6 lo (Or.inl hblk5)⟩
  · intro x hx
    by_cases hxlo : x = lo
    · exact Or.inr (Or.inr hxlo)
    · have hx1 : g.blk x ∧ (x ≤ lo ∨ hi ≤ x) := hx
      rcases hfull x hx1.1 (by omega) with h | h
      · exact Or.inl h
      · exact Or.inr (Or.inl h)
  · rw [bsize_congr (hdr6 lo (Or.inl hblk5))]; exact hsz
  · refine Kept.trans ?_ hK56
    intro p hp
    obtain ⟨m, hm⟩ := hp
    have hpb := (hB.live_blk p m hm).1
    exact window_kept lo hi hB hframe hlo hhi8 hhi_size p hpb (hnolive p ⟨m, hm⟩)
  · exact ⟨by rw [insert_block_brk, hbrk], by rw [insert_block_max_addr, hmax],
      by rw [insert_block_heap_listp, hlistp], by rw [insert_block_heap_basep, hbase]⟩

/-- The common last phase of `coalesce`: the window from `lo` to `hi` holds no
live and no listed block, its header and footer already describe one block,
and that block is put on the list of its size class. -/
theorem finish_merge {s s' : Heap} {L : List (Nat × Nat)} {g : Ghost} (lo hi : Nat)
    (lay : Layout s) (hB : Blocks s L g) (hl : Lists s g) (hG : SameGlobals s s')
    (hframe : ∀ a, (a + 4 < lo ∨ hi ≤ a) → s'.mem a = s.mem a)
    (hlo : g.blk lo) (hhi : g.blk hi ∨ hi = s.brk) (hlohi : lo + 16 ≤ hi)
    (hnofr : ∀ x, g.fr x → x < lo ∨ hi ≤ x)
    (hnolive : ∀ x, isLive L x → x < lo ∨ hi ≤ x)
    (hfull : ∀ x, g.blk x → (x < lo ∨ hi ≤ x) → isLive L x ∨ g.fr x)
    (hsz : bsize s' lo = hi - lo)
    (hlo_pa : GET_PREV_ALLOC s' (lo - 4) = GET_PREV_ALLOC s (lo - 4))
    (hftr : GET_SIZE s' (hi - 8) = hi - lo)
    (hhi_size : bsize s' hi = bsize s hi)
    (hhi_alloc : GET_ALLOC s' (hi - 4) = GET_ALLOC s (hi - 4))
    (hhi_pa : GET_PREV_ALLOC s' (hi - 4) = 0) :
    ∃ g', Inv (insert_block s' lo (get_index (hi - lo))) L g' ∧ g'.fr lo
      ∧ bsize (insert_block s' lo (get_index (hi - lo))) lo = hi - lo
      ∧ Kept s (insert_block s' lo (get_index (hi - lo))) L
      ∧ SameGlobals s (insert_block s' lo (get_index (hi - lo))) := by
  obtain ⟨g', h1, h2, h3, h4, h5, -⟩ := finish_merge_full lo hi lay hB hl hG hframe hlo hhi
    hlohi hnofr hnolive hfull hsz hlo_pa hftr hhi_size hhi_alloc hhi_pa
  exact ⟨g', h1, h2, h3, h4, h5⟩

end MM


set_option linter.unusedVariables false
set_option linter.unusedTactic false
set_option linter.unreachableTactic false
namespace MM

theorem NEXT_BLKP_eq (s : Heap) (bp : Nat) : NEXT_BLKP s bp = bp + bsize s bp := rfl

theorem transit_outside {s : Heap} {L : List (Nat × Nat)} {g : Ghost} {bp : Nat}
    (hB : Blocks s L g) (hblk : g.blk bp) {x : Nat} (hx : g.blk x) (hne : x ≠ bp) :
    x + bsize s x ≤ bp ∨ bp + bsize s bp ≤ x :=
  hB.apart hx hblk hne

/-- `coalesce`, case 1, with the block it returns, its size and its allocation
bit. -/
theorem coalesce_case1_full {s : Heap} {L : List (Nat × Nat)} {g : Ghost} {bp : Nat}
    (hT : InvT s L g bp) (hblk : g.blk bp) (hnl : ¬ isLive L bp) (hnfr : ¬ g.fr bp)
    (hft : GET_SIZE s (bp + bsize s bp - 8) = bsize s bp)
    (hpa : GET_PREV_ALLOC s (HDRP bp) ≠ 0)
    (hna : GET_ALLOC s (HDRP (NEXT_BLKP s bp)) ≠ 0) :
    ∃ g', Inv (coalesce s bp).2 L g' ∧ g'.fr (coalesce s bp).1
      ∧ bsize s bp ≤ bsize (coalesce s bp).2 (coalesce s bp).1
      ∧ Kept s (coalesce s bp).2 L ∧ SameGlobals s (coalesce s bp).2
      ∧ (coalesce s bp).1 = bp
      ∧ bsize (coalesce s bp).2 (coalesce s bp).1 = bsize s bp
      ∧ GET_ALLOC (coalesce s bp).2 ((coalesce s bp).1 - 4) = GET_ALLOC s (bp - 4) := by
  obtain ⟨lay, hB, hl, full⟩ := hT
  have hlo := hB.lo bp hblk
  have hnext := hB.next bp hblk
  have hF8 := bsize_mod s bp
  have hc : coalesce s bp
      = (bp, insert_block (SET_PREV_FREE s (HDRP (NEXT_BLKP s bp))) bp (get_index (bsize s bp))) := by
    unfold coalesce
    simp only []
    rw [if_pos ⟨hpa, hna⟩]
    rfl
  rw [hc, NEXT_BLKP_eq, SET_PREV_FREE_eq]
  unfold HDRP
  simp only [WSIZE]
  generalize hFdef : bsize s bp = F at *
  have hhlt := GET_lt s (bp + F - 4)
  generalize hhdef : GET s (bp + F - 4) = h at *
  generalize hs1 : PUT s (bp + F - 4) (h - 2 * (h / 2 % 2)) = s1
  have m1 : ∀ a, (a + 4 < bp + F ∨ bp + F ≤ a) → s1.mem a = s.mem a := by
    intro a ha
    rw [← hs1, PUT_mem_other _ _ _ _ (by omega)]
  have w1 : GET s1 (bp + F - 4) = h - 2 * (h / 2 % 2) := by
    rw [← hs1, GET_PUT_same]; omega
  have hG : SameGlobals s s1 := by rw [← hs1]; exact ⟨rfl, rfl, rfl, rfl⟩
  have e1 : GET s1 (bp - 4) = GET s (bp - 4) := GET_congr_mem (fun k _ => m1 _ (by omega))
  have e2 : GET s1 (bp + F - 8) = GET s (bp + F - 8) := GET_congr_mem (fun k _ => m1 _ (by omega))
  have hfm := finish_merge_full bp (bp + F) lay hB hl hG (fun a ha => m1 a (by omega)) hblk hnext
    (by omega)
    (by
      intro x hx
      have hxb := (hB.fr_blk x hx).1
      have hne : x ≠ bp := fun h => hnfr (h ▸ hx)
      have := hB.apart hxb hblk hne
      have := hB.lo x hxb
      omega)
    (by
      intro x hx
      obtain ⟨m, hm⟩ := hx
      have hxb := (hB.live_blk x m hm).1
      have hne : x ≠ bp := fun h => hnl ⟨m, h ▸ hm⟩
      have := hB.apart hxb hblk hne
      have := hB.lo x hxb
      omega)
    (by
      intro x hx hw
      exact full x hx (by omega))
    (by rw [bsize_congr e1, hFdef]; omega)
    (GET_PREV_ALLOC_congr e1)
    (by rw [GET_SIZE_congr e2, show bp + F - bp = F by omega]; exact hft)
    (by rw [bsize_def, bsize_def, w1, hhdef]; omega)
    (by rw [GET_ALLOC_eq, GET_ALLOC_eq, w1, hhdef]; omega)
    (by rw [GET_PREV_ALLOC_eq, w1]; omega)
  rw [show bp + F - bp = F by omega] at hfm
  obtain ⟨g', h1, h2, h3, h4, h5, h6⟩ := hfm
  exact ⟨g', h1, h2, by show F ≤ _; rw [h3], h4, h5, trivial, h3,
    GET_ALLOC_congr (h6.trans e1)⟩

/-- `coalesce`, case 1: both neighbours are allocated. -/
theorem coalesce_case1 {s : Heap} {L : List (Nat × Nat)} {g : Ghost} {bp : Nat}
    (hT : InvT s L g bp) (hblk : g.blk bp) (hnl : ¬ isLive L bp) (hnfr : ¬ g.fr bp)
    (hft : GET_SIZE s (bp + bsize s bp - 8) = bsize s bp)
    (hpa : GET_PREV_ALLOC s (HDRP bp) ≠ 0)
    (hna : GET_ALLOC s (HDRP (NEXT_BLKP s bp)) ≠ 0) :
    ∃ g', Inv (coalesce s bp).2 L g' ∧ g'.fr (coalesce s bp).1
      ∧ bsize s bp ≤ bsize (coalesce s bp).2 (coalesce s bp).1
      ∧ Kept s (coalesce s bp).2 L ∧ SameGlobals s (coalesce s bp).2 := by
  obtain ⟨g', h1, h2, h3, h4, h5, -⟩ := coalesce_case1_full hT hblk hnl hnfr hft hpa hna
  exact ⟨g', h1, h2, h3, h4, h5⟩

end MM


set_option linter.unusedVariables false
set_option linter.unusedTactic false
set_option linter.unreachableTactic false
namespace MM

/-- When the header behind `bp` has its allocation bit clear, the next block is
a listed free block. -/
theorem next_free_facts {s : Heap} {L : List (Nat × Nat)} {g : Ghost} {bp : Nat}
    (hT : InvT s L g bp) (hblk : g.blk bp)
    (hna : ¬ GET_ALLOC s (HDRP (NEXT_BLKP s bp)) ≠ 0) :
    g.fr (bp + bsize s bp) := by
  obtain ⟨lay, hB, hl, full⟩ := hT
  have hlo := hB.lo bp hblk
  rw [NEXT_BLKP_eq] at hna
  have hna0 : GET_ALLOC s (HDRP (bp + bsize s bp)) = 0 := by omega
  rcases hB.next bp hblk with h | h
  · rcases full _ h (by omega) with h2 | h2
    · have := (hB.live_hdr _ h2).1
      omega
    · exact h2
  · have := hB.epi_alloc
    rw [h] at hna0
    unfold HDRP at hna0
    simp only [WSIZE] at hna0
    omega

/-- When the header of `bp` has its predecessor bit clear, the block in front
is a listed free block, and `PREV_BLKP` finds it through its footer. -/
theorem prev_free_facts {s : Heap} {L : List (Nat × Nat)} {g : Ghost} {bp : Nat}
    (hT : InvT s L g bp) (hblk : g.blk bp)
    (hpa : ¬ GET_PREV_ALLOC s (HDRP bp) ≠ 0) :
    ∃ q, g.fr q ∧ q + bsize s q = bp ∧ GET_SIZE s (bp - 8) = bsize s q := by
  obtain ⟨lay, hB, hl, full⟩ := hT
  have hlo := hB.lo bp hblk
  have hpa0 : GET_PREV_ALLOC s (HDRP bp) = 0 := by omega
  have hne : bp ≠ s.heap_basep + 112 := by
    intro h
    have := hB.first_pa
    rw [h] at hpa0
    unfold HDRP at hpa0
    simp only [WSIZE] at hpa0
    rw [show s.heap_basep + 112 - 4 = s.heap_basep + 108 by omega] at hpa0
    omega
  obtain ⟨q, hq, hqbp⟩ := hB.prev bp (Or.inl hblk) hne
  have hq1 := hB.lo q hq
  have hfrq : g.fr q := by
    rcases full q hq (by omega) with h | h
    · have := (hB.live_hdr q h).2
      rw [hqbp] at this
      omega
    · exact h
  refine ⟨q, hfrq, hqbp, ?_⟩
  have := (hB.fr_hdr q hfrq).2.1
  rw [hqbp] at this
  exact this

end MM


set_option linter.unusedVariables false
set_option linter.unusedTactic false
set_option linter.unreachableTactic false
namespace MM

/-- The code of `coalesce` in case 3, given what it reads. -/
theorem coalesce3_eq (s s1 : Heap) (bp q F Fq paq h : Nat)
    (hs1 : s1 = delete_block s q)
    (hF : bsize s bp = F) (hFq : bsize s q = Fq)
    (hqbp : q + Fq = bp) (hqf : GET_SIZE s (bp - 8) = Fq)
    (hpaq : GET_PREV_ALLOC s (q - 4) = paq) (hh : GET s (bp + F - 4) = h)
    (hpa : ¬ GET_PREV_ALLOC s (HDRP bp) ≠ 0)
    (hna : GET_ALLOC s (HDRP (NEXT_BLKP s bp)) ≠ 0)
    (a1 : GET s1 (bp - 4) = GET s (bp - 4))
    (a2 : GET s1 (bp + F - 4) = GET s (bp + F - 4))
    (a3 : GET s1 (bp - 8) = GET s (bp - 8))
    (a4 : GET s1 (q - 4) = GET s (q - 4))
    (hq4 : 4 ≤ q) (hF16 : 16 ≤ F) (hFq16 : 16 ≤ Fq)
    (hF8 : F % 8 = 0) (hFq8 : Fq % 8 = 0) (hlt : F + Fq < 4294967290) :
    coalesce s bp
      = (q, insert_block
          (PUT (PUT (PUT s1 (bp + F - 4) (h - 2 * (h / 2 % 2))) (bp + F - 8) (F + Fq + paq))
            (q - 4) (F + Fq + paq))
          q (get_index (F + Fq))) := by
  have hpac : paq = 0 ∨ paq = 2 := hpaq ▸ pa_cases s (q - 4)
  have e0 : GET_SIZE s (bp - 4) = F := hF
  have e1 : GET_SIZE s (q - 4) = Fq := hFq
  have eQ : bp - Fq = q := by omega
  have hv : PACK (F + Fq) 0 paq 0 = F + Fq + paq := by
    rw [PACK_eq (F + Fq) paq 0 (by omega) hpac (by omega)]; omega
  have b1 : GET (PUT s1 (bp + F - 4) (h - 2 * (h / 2 % 2))) (bp - 4) = GET s (bp - 4) := by
    rw [GET_PUT_other _ _ _ _ (by omega), a1]
  have b3 : GET (PUT s1 (bp + F - 4) (h - 2 * (h / 2 % 2))) (bp - 8) = GET s (bp - 8) := by
    rw [GET_PUT_other _ _ _ _ (by omega), a3]
  have b4 : GET (PUT s1 (bp + F - 4) (h - 2 * (h / 2 % 2))) (q - 4) = GET s (q - 4) := by
    rw [GET_PUT_other _ _ _ _ (by omega), a4]
  have c3 : GET (PUT (PUT s1 (bp + F - 4) (h - 2 * (h / 2 % 2))) (bp + F - 8) (F + Fq + paq))
      (bp - 8) = GET s (bp - 8) := by
    rw [GET_PUT_other _ _ _ _ (by omega), b3]
  have c4 : GET (PUT (PUT s1 (bp + F - 4) (h - 2 * (h / 2 % 2))) (bp + F - 8) (F + Fq + paq))
      (q - 4) = GET s (q - 4) := by
    rw [GET_PUT_other _ _ _ _ (by omega), b4]
  have d3 : GET (PUT (PUT (PUT s1 (bp + F - 4) (h - 2 * (h / 2 % 2))) (bp + F - 8)
      (F + Fq + paq)) (q - 4) (F + Fq + paq)) (bp - 8) = GET s (bp - 8) := by
    rw [GET_PUT_other _ _ _ _ (by omega), c3]
  unfold coalesce
  simp only []
  rw [if_neg (fun h => hpa h.1), if_neg (fun h => hpa h.1), if_pos ⟨hpa, hna⟩]
  simp only [NEXT_BLKP, PREV_BLKP, HDRP, FTRP, WSIZE, DSIZE]
  rw [e0, hqf, eQ, e1, Nat.mod_eq_of_lt (by simp only [SZ]; omega), ← hs1, SET_PREV_FREE_eq,
    GET_SIZE_congr a1, e0, a2, hh, GET_SIZE_congr b1, e0, GET_SIZE_congr b3, hqf, eQ,
    GET_PREV_ALLOC_congr b4, hpaq, hv, GET_SIZE_congr c3, hqf, eQ, GET_PREV_ALLOC_congr c4, hpaq,
    hv, GET_SIZE_congr d3, hqf, eQ]

theorem coalesce_case3_eq {s : Heap} {L : List (Nat × Nat)} {g : Ghost} {bp q : Nat}
    (hT : InvT s L g bp) (hblk : g.blk bp)
    (hq : g.fr q) (hqbp : q + bsize s q = bp) (hqf : GET_SIZE s (bp - 8) = bsize s q)
    (hpa : ¬ GET_PREV_ALLOC s (HDRP bp) ≠ 0)
    (hna : GET_ALLOC s (HDRP (NEXT_BLKP s bp)) ≠ 0) :
    coalesce s bp
      = (q, insert_block
          (PUT (PUT (PUT (delete_block s q) (bp + bsize s bp - 4)
            (GET s (bp + bsize s bp - 4) - 2 * (GET s (bp + bsize s bp - 4) / 2 % 2)))
            (bp + bsize s bp - 8) (bsize s bp + bsize s q + GET_PREV_ALLOC s (q - 4)))
            (q - 4) (bsize s bp + bsize s q + GET_PREV_ALLOC s (q - 4)))
          q (get_index (bsize s bp + bsize s q))) := by
  obtain ⟨lay, hB, hl, full⟩ := hT
  have hlo := hB.lo bp hblk
  have hqb := (hB.fr_blk q hq).1
  have hq1 := hB.lo q hqb
  have hsz := heap_size_lt lay hB hblk
  obtain ⟨-, -, -, hdr1, ftr1, -⟩ := delete_block_keeps lay hB hl hq
  have a3 : GET (delete_block s q) (bp - 8) = GET s (bp - 8) := by
    have := ftr1 q hqb
    rw [hqbp] at this
    exact this
  exact coalesce3_eq s _ bp q _ _ _ _ rfl rfl rfl hqbp hqf rfl rfl hpa hna
    (hdr1 bp (Or.inl hblk)) (hdr1 _ (hB.next bp hblk)) a3 (hdr1 q (Or.inl hqb))
    (by clear * - hq1; omega) hlo.2.2.1 hq1.2.2.1 (bsize_mod s bp) (bsize_mod s q)
    (by clear * - hsz hqbp hq1; omega)

end MM


set_option linter.unusedVariables false
set_option linter.unusedTactic false
set_option linter.unreachableTactic false
namespace MM

/-- The header and footer stores of a merge. -/
theorem chain_merge (s2 s4 : Heap) (lo hi v : Nat)
    (hs4 : s4 = PUT (PUT s2 (lo - 4) v) (hi - 8) v)
    (hlo : 4 ≤ lo) (hlohi : lo + 16 ≤ hi) (hv : v < 4294967296) :
    (∀ a, (a + 4 < lo ∨ hi - 4 ≤ a) → s4.mem a = s2.mem a)
    ∧ GET s4 (lo - 4) = v + 0 ∧ GET s4 (hi - 8) = v + 0 ∧ SameGlobals s2 s4 := by
  subst hs4
  refine ⟨?_, ?_, ?_, ⟨rfl, rfl, rfl, rfl⟩⟩
  · intro a ha
    rw [PUT_mem_other _ _ _ _ (by omega), PUT_mem_other _ _ _ _ (by omega)]
  · rw [GET_PUT_other _ _ _ _ (by omega), GET_PUT_same]
    omega
  · rw [GET_PUT_same]
    omega

/-- The stores of a merge that also clears the predecessor bit of the next
header. -/
theorem chain_merge3 (s1 s4 : Heap) (lo hi v h : Nat)
    (hs4 : s4 = PUT (PUT (PUT s1 (hi - 4) (h - 2 * (h / 2 % 2))) (hi - 8) v) (lo - 4) v)
    (hlo : 4 ≤ lo) (hlohi : lo + 16 ≤ hi) (hv : v < 4294967296) (hh : h < 4294967296) :
    (∀ a, (a + 4 < lo ∨ hi ≤ a) → s4.mem a = s1.mem a)
    ∧ GET s4 (lo - 4) = v + 0 ∧ GET s4 (hi - 8) = v + 0
    ∧ GET s4 (hi - 4) = h - 2 * (h / 2 % 2) ∧ SameGlobals s1 s4 := by
  subst hs4
  refine ⟨?_, ?_, ?_, ?_, ⟨rfl, rfl, rfl, rfl⟩⟩
  · intro a ha
    rw [PUT_mem_other _ _ _ _ (by omega), PUT_mem_other _ _ _ _ (by omega),
      PUT_mem_other _ _ _ _ (by omega)]
  · rw [GET_PUT_same]
    omega
  · rw [GET_PUT_other _ _ _ _ (by omega), GET_PUT_same]
    omega
  · rw [GET_PUT_other _ _ _ _ (by omega), GET_PUT_other _ _ _ _ (by omega), GET_PUT_same]
    omega

/-- Clearing the predecessor bit of a header word keeps its other fields. -/
theorem clear_pa_fields (s s' : Heap) (a a' : Nat)
    (h : GET s' a' = GET s a - 2 * (GET s a / 2 % 2)) :
    GET_SIZE s' a' = GET_SIZE s a ∧ GET_ALLOC s' a' = GET_ALLOC s a
      ∧ GET_PREV_ALLOC s' a' = 0 := by
  rw [GET_SIZE_eq, GET_SIZE_eq, GET_ALLOC_eq, GET_ALLOC_eq, GET_PREV_ALLOC_eq, h]
  omega

/-- A block other than three adjacent blocks lies outside their extent. -/
theorem Blocks.outside3 {s : Heap} {L : List (Nat × Nat)} {g : Ghost} (hB : Blocks s L g)
    {a b c x : Nat} (ha : g.blk a) (hb : g.blk b) (hc : g.blk c)
    (hab : a + bsize s a = b) (hbc : b + bsize s b = c) (hx : g.blk x)
    (h1 : x ≠ a) (h2 : x ≠ b) (h3 : x ≠ c) : x < a ∨ c + bsize s c ≤ x := by
  have e1 := hB.outside hx ha h1
  have e2 := hB.outside hx hb h2
  have e3 := hB.outside hx hc h3
  omega

/-- A block other than two adjacent blocks lies outside their extent. -/
theorem Blocks.outside2 {s : Heap} {L : List (Nat × Nat)} {g : Ghost} (hB : Blocks s L g)
    {a b x : Nat} (ha : g.blk a) (hb : g.blk b)
    (hab : a + bsize s a = b) (hx : g.blk x)
    (h1 : x ≠ a) (h2 : x ≠ b) : x < a ∨ b + bsize s b ≤ x := by
  have e1 := hB.outside hx ha h1
  have e2 := hB.outside hx hb h2
  omega

end MM


set_option linter.unusedVariables false
set_option linter.unusedTactic false
set_option linter.unreachableTactic false
namespace MM

/-- The code of `coalesce` in case 2, given what it reads. -/
theorem coalesce2_eq (s s1 : Heap) (bp F Fn pa : Nat)
    (hs1 : s1 = delete_block s (bp + F))
    (hF : bsize s bp = F) (hFn : bsize s (bp + F) = Fn)
    (hpav : GET_PREV_ALLOC s (bp - 4) = pa)
    (hpa : GET_PREV_ALLOC s (HDRP bp) ≠ 0)
    (hna : ¬ GET_ALLOC s (HDRP (NEXT_BLKP s bp)) ≠ 0)
    (hb4 : 4 ≤ bp) (hF16 : 16 ≤ F) (hFn16 : 16 ≤ Fn)
    (hF8 : F % 8 = 0) (hFn8 : Fn % 8 = 0) (hlt : F + Fn < 4294967290) :
    coalesce s bp
      = (bp, insert_block
          (PUT (PUT s1 (bp - 4) (F + Fn + pa)) (bp + F + Fn - 8) (F + Fn + pa))
          bp (get_index (F + Fn))) := by
  have hpac : pa = 0 ∨ pa = 2 := hpav ▸ pa_cases s (bp - 4)
  have e0 : GET_SIZE s (bp - 4) = F := hF
  have e1 : GET_SIZE s (bp + F - 4) = Fn := hFn
  have hv : PACK (F + Fn) 0 pa 0 = F + Fn + pa := by
    rw [PACK_eq (F + Fn) pa 0 (by omega) hpac (by omega)]; omega
  have c4 : GET (PUT s1 (bp - 4) (F + Fn + pa)) (bp - 4) = F + Fn + pa + 0 := by
    rw [GET_PUT_same]; omega
  have f4 := hdr_fields _ (bp - 4) (F + Fn) pa 0 (by omega) hpac (by omega) c4
  unfold coalesce
  simp only []
  rw [if_neg (fun h => hna h.2), if_pos ⟨hpa, hna⟩]
  simp only [NEXT_BLKP, HDRP, FTRP, WSIZE, DSIZE]
  rw [e0, e1, Nat.mod_eq_of_lt (by simp only [SZ]; omega), ← hs1, hpav, hv, f4.1,
    ← Nat.add_assoc]

/-- `coalesce`, case 2, with the block it returns, its size and its allocation
bit. -/
theorem coalesce_case2_full {s : Heap} {L : List (Nat × Nat)} {g : Ghost} {bp : Nat}
    (hT : InvT s L g bp) (hblk : g.blk bp) (hnl : ¬ isLive L bp) (hnfr : ¬ g.fr bp)
    (hpa : GET_PREV_ALLOC s (HDRP bp) ≠ 0)
    (hna : ¬ GET_ALLOC s (HDRP (NEXT_BLKP s bp)) ≠ 0) :
    ∃ g', Inv (coalesce s bp).2 L g' ∧ g'.fr (coalesce s bp).1
      ∧ bsize s bp ≤ bsize (coalesce s bp).2 (coalesce s bp).1
      ∧ Kept s (coalesce s bp).2 L ∧ SameGlobals s (coalesce s bp).2
      ∧ (coalesce s bp).1 = bp
      ∧ bsize (coalesce s bp).2 (coalesce s bp).1 = bsize s bp + bsize s (bp + bsize s bp)
      ∧ GET_ALLOC (coalesce s bp).2 ((coalesce s bp).1 - 4) = 0 := by
  have hN := next_free_facts hT hblk hna
  obtain ⟨lay, hB, hl, full⟩ := hT
  have hlo := hB.lo bp hblk
  have hF8 := bsize_mod s bp
  have hNb := (hB.fr_blk _ hN).1
  have hNnl := (hB.fr_blk _ hN).2
  have hN1 := hB.lo _ hNb
  have hNh := hB.fr_hdr _ hN
  have hNnext := hB.next _ hNb
  have hFn8 := bsize_mod s (bp + bsize s bp)
  have hsz := heap_size_lt lay hB hNb
  have hpac := pa_cases s (bp - 4)
  rw [coalesce2_eq s _ bp _ _ _ rfl rfl rfl rfl hpa hna (by clear * - hlo; omega) hlo.2.2.1
    hN1.2.2.1 hF8 hFn8 (by clear * - hsz hlo; omega)]
  obtain ⟨lay1, hB1, hl1, hdr1, -, -⟩ := delete_block_keeps lay hB hl hN
  have hK1 := delete_block_kept lay hB hl hN
  have b4 : GET (delete_block s (bp + bsize s bp)) (bp - 4) = GET s (bp - 4) :=
    hdr1 bp (Or.inl hblk)
  have b5 : GET (delete_block s (bp + bsize s bp))
      (bp + bsize s bp + bsize s (bp + bsize s bp) - 4)
      = GET s (bp + bsize s bp + bsize s (bp + bsize s bp) - 4) := hdr1 _ hNnext
  have hpaNN : GET_PREV_ALLOC s (bp + bsize s bp + bsize s (bp + bsize s bp) - 4) = 0 := hNh.1
  clear hdr1
  obtain ⟨s1, hs1⟩ : ∃ s1, s1 = delete_block s (bp + bsize s bp) := ⟨_, rfl⟩
  have hG1 : SameGlobals s s1 := by rw [hs1]; exact ⟨rfl, rfl, rfl, rfl⟩
  rw [← hs1] at lay1 hB1 hl1 hK1 b4 b5 ⊢
  clear hs1
  obtain ⟨s3, hs3⟩ : ∃ s3, s3 = PUT (PUT s1 (bp - 4)
      (bsize s bp + bsize s (bp + bsize s bp) + GET_PREV_ALLOC s (bp - 4)))
      (bp + bsize s bp + bsize s (bp + bsize s bp) - 8)
      (bsize s bp + bsize s (bp + bsize s bp) + GET_PREV_ALLOC s (bp - 4)) := ⟨_, rfl⟩
  rw [← hs3]
  obtain ⟨m3, w1, w2, hG3⟩ := chain_merge s1 s3 bp (bp + bsize s bp + bsize s (bp + bsize s bp))
    _ hs3 (by clear * - hlo; omega) (by clear * - hlo; omega)
    (by clear * - hsz hlo hpac; omega)
  clear hs3
  have w4 : GET s3 (bp + bsize s bp + bsize s (bp + bsize s bp) - 4)
      = GET s1 (bp + bsize s bp + bsize s (bp + bsize s bp) - 4) :=
    GET_congr_mem (fun k _ => m3 _ (by clear * - hN1; omega))
  have f1 := hdr_fields s3 (bp - 4) (bsize s bp + bsize s (bp + bsize s bp))
    _ 0 (by clear * - hF8 hFn8; omega) hpac (by omega) w1
  have f2 := hdr_fields s3 (bp + bsize s bp + bsize s (bp + bsize s bp) - 8)
    (bsize s bp + bsize s (bp + bsize s bp))
    _ 0 (by clear * - hF8 hFn8; omega) hpac (by omega) w2
  have hlen : bp + bsize s bp + bsize s (bp + bsize s bp) - bp
      = bsize s bp + bsize s (bp + bsize s bp) := by clear * -; omega
  have hfm := finish_merge_full bp (bp + bsize s bp + bsize s (bp + bsize s bp)) lay1 hB1 hl1 hG3
    (fun a ha => m3 a (by clear * - ha hN1; omega))
    hblk (by rw [hG1.1]; exact hNnext) (by clear * - hlo; omega)
    (fun x hx => hB.outside2 hblk hNb rfl (hB.fr_blk x hx.1).1
      (fun h => hnfr (h ▸ hx.1)) hx.2)
    (fun x ⟨m, hm⟩ => hB.outside2 hblk hNb rfl (hB.live_blk x m hm).1
      (fun h => hnl ⟨m, h ▸ hm⟩) (fun h => hNnl ⟨m, h ▸ hm⟩))
    (by
      intro x hx hw
      rcases full x hx (by clear * - hw hlo; omega) with h | h
      · exact Or.inl h
      · exact Or.inr ⟨h, by clear * - hw hlo hN1; omega⟩)
    (by rw [hlen]; exact f1.1)
    (by rw [f1.2.1, GET_PREV_ALLOC_congr b4])
    (by rw [hlen]; exact f2.1)
    (bsize_congr w4) (GET_ALLOC_congr w4)
    (by rw [GET_PREV_ALLOC_congr w4, GET_PREV_ALLOC_congr b5]; exact hpaNN)
  rw [hlen] at hfm
  obtain ⟨g', h1, h2, h3, h4, h5, h6⟩ := hfm
  refine ⟨g', h1, h2, by rw [h3]; clear * -; omega, hK1.trans h4, ?_, rfl, h3,
    (GET_ALLOC_congr h6).trans f1.2.2⟩
  exact ⟨by rw [h5.1, hG1.1], by rw [h5.2.1, hG1.2.1], by rw [h5.2.2.1, hG1.2.2.1],
    by rw [h5.2.2.2, hG1.2.2.2]⟩

/-- `coalesce`, case 2: only the next block is free. -/
theorem coalesce_case2 {s : Heap} {L : List (Nat × Nat)} {g : Ghost} {bp : Nat}
    (hT : InvT s L g bp) (hblk : g.blk bp) (hnl : ¬ isLive L bp) (hnfr : ¬ g.fr bp)
    (hpa : GET_PREV_ALLOC s (HDRP bp) ≠ 0)
    (hna : ¬ GET_ALLOC s (HDRP (NEXT_BLKP s bp)) ≠ 0) :
    ∃ g', Inv (coalesce s bp).2 L g' ∧ g'.fr (coalesce s bp).1
      ∧ bsize s bp ≤ bsize (coalesce s bp).2 (coalesce s bp).1
      ∧ Kept s (coalesce s bp).2 L ∧ SameGlobals s (coalesce s bp).2 := by
  obtain ⟨g', h1, h2, h3, h4, h5, -⟩ := coalesce_case2_full hT hblk hnl hnfr hpa hna
  exact ⟨g', h1, h2, h3, h4, h5⟩

end MM


set_option linter.unusedVariables false
set_option linter.unusedTactic false
set_option linter.unreachableTactic false
namespace MM

/-- `coalesce`, case 3, with the block it returns, its size and its allocation
bit. -/
theorem coalesce_case3_full {s : Heap} {L : List (Nat × Nat)} {g : Ghost} {bp : Nat}
    (hT : InvT s L g bp) (hblk : g.blk bp) (hnl : ¬ isLive L bp) (hnfr : ¬ g.fr bp)
    (hpa : ¬ GET_PREV_ALLOC s (HDRP bp) ≠ 0)
    (hna : GET_ALLOC s (HDRP (NEXT_BLKP s bp)) ≠ 0) :
    ∃ g', Inv (coalesce s bp).2 L g' ∧ g'.fr (coalesce s bp).1
      ∧ bsize s bp ≤ bsize (coalesce s bp).2 (coalesce s bp).1
      ∧ Kept s (coalesce s bp).2 L ∧ SameGlobals s (coalesce s bp).2
      ∧ (coalesce s bp).1 = PREV_BLKP s bp
      ∧ bsize (coalesce s bp).2 (coalesce s bp).1 = bsize s (PREV_BLKP s bp) + bsize s bp
      ∧ GET_ALLOC (coalesce s bp).2 ((coalesce s bp).1 - 4) = 0 := by
  obtain ⟨q, hq, hqbp, hqf⟩ := prev_free_facts hT hblk hpa
  have hPq : PREV_BLKP s bp = q := by
    unfold PREV_BLKP
    simp only [DSIZE]
    rw [hqf]
    clear * - hqbp
    omega
  rw [hPq]
  rw [coalesce_case3_eq hT hblk hq hqbp hqf hpa hna]
  obtain ⟨lay, hB, hl, full⟩ := hT
  have hlo := hB.lo bp hblk
  have hF8 := bsize_mod s bp
  have hqb := (hB.fr_blk q hq).1
  have hqnl := (hB.fr_blk q hq).2
  have hq1 := hB.lo q hqb
  have hFq8 := bsize_mod s q
  have hnext := hB.next bp hblk
  have hsz := heap_size_lt lay hB hblk
  have hneqb : q ≠ bp := by clear * - hqbp hq1; omega
  obtain ⟨lay1, hB1, hl1, hdr1, -, -⟩ := delete_block_keeps lay hB hl hq
  have hK1 := delete_block_kept lay hB hl hq
  have hpac := pa_cases s (q - 4)
  have hhlt := GET_lt s (bp + bsize s bp - 4)
  have a2 : GET (delete_block s q) (bp + bsize s bp - 4) = GET s (bp + bsize s bp - 4) :=
    hdr1 _ hnext
  have a4 : GET (delete_block s q) (q - 4) = GET s (q - 4) := hdr1 q (Or.inl hqb)
  clear hdr1
  obtain ⟨s1, hs1⟩ : ∃ s1, s1 = delete_block s q := ⟨_, rfl⟩
  have hG1 : SameGlobals s s1 := by rw [hs1]; exact ⟨rfl, rfl, rfl, rfl⟩
  rw [← hs1] at lay1 hB1 hl1 hK1 a2 a4 ⊢
  clear hs1
  obtain ⟨s4, hs4⟩ : ∃ s4, s4 = PUT (PUT (PUT s1 (bp + bsize s bp - 4)
      (GET s (bp + bsize s bp - 4) - 2 * (GET s (bp + bsize s bp - 4) / 2 % 2)))
      (bp + bsize s bp - 8) (bsize s bp + bsize s q + GET_PREV_ALLOC s (q - 4)))
      (q - 4) (bsize s bp + bsize s q + GET_PREV_ALLOC s (q - 4)) := ⟨_, rfl⟩
  rw [← hs4]
  obtain ⟨m4, w1, w2, w4, hG4⟩ := chain_merge3 s1 s4 q (bp + bsize s bp) _ _ hs4
    (by clear * - hq1; omega) (by clear * - hqbp hlo; omega)
    (by clear * - hsz hqbp hq1 hpac; omega) hhlt
  clear hs4
  rw [← a2] at w4
  have f0 := clear_pa_fields s1 s4 _ _ w4
  have f1 := hdr_fields s4 (q - 4) (bsize s bp + bsize s q)
    _ 0 (by clear * - hF8 hFq8; omega) hpac (by omega) w1
  have f2 := hdr_fields s4 (bp + bsize s bp - 8) (bsize s bp + bsize s q)
    _ 0 (by clear * - hF8 hFq8; omega) hpac (by omega) w2
  have hlen : bp + bsize s bp - q = bsize s bp + bsize s q := by clear * - hqbp; omega
  have hfm := finish_merge_full q (bp + bsize s bp) lay1 hB1 hl1 hG4 m4
    hqb (by rw [hG1.1]; exact hnext) (by clear * - hqbp hlo; omega)
    (fun x hx => hB.outside2 hqb hblk hqbp (hB.fr_blk x hx.1).1 hx.2
      (fun h => hnfr (h ▸ hx.1)))
    (fun x ⟨m, hm⟩ => hB.outside2 hqb hblk hqbp (hB.live_blk x m hm).1
      (fun h => hqnl ⟨m, h ▸ hm⟩) (fun h => hnl ⟨m, h ▸ hm⟩))
    (by
      intro x hx hw
      rcases full x hx (by clear * - hw hqbp hlo; omega) with h | h
      · exact Or.inl h
      · exact Or.inr ⟨h, by clear * - hw hqbp hlo; omega⟩)
    (by rw [hlen]; exact f1.1)
    (by rw [f1.2.1, GET_PREV_ALLOC_congr a4])
    (by rw [hlen]; exact f2.1)
    f0.1 f0.2.1 f0.2.2
  rw [hlen] at hfm
  obtain ⟨g', h1, h2, h3, h4, h5, h6⟩ := hfm
  refine ⟨g', h1, h2, by rw [h3]; clear * -; omega, hK1.trans h4, ?_, rfl,
    h3.trans (Nat.add_comm _ _), (GET_ALLOC_congr h6).trans f1.2.2⟩
  exact ⟨by rw [h5.1, hG1.1], by rw [h5.2.1, hG1.2.1], by rw [h5.2.2.1, hG1.2.2.1],
    by rw [h5.2.2.2, hG1.2.2.2]⟩

/-- `coalesce`, case 3: only the previous block is free. -/
theorem coalesce_case3 {s : Heap} {L : List (Nat × Nat)} {g : Ghost} {bp : Nat}
    (hT : InvT s L g bp) (hblk : g.blk bp) (hnl : ¬ isLive L bp) (hnfr : ¬ g.fr bp)
    (hpa : ¬ GET_PREV_ALLOC s (HDRP bp) ≠ 0)
    (hna : GET_ALLOC s (HDRP (NEXT_BLKP s bp)) ≠ 0) :
    ∃ g', Inv (coalesce s bp).2 L g' ∧ g'.fr (coalesce s bp).1
      ∧ bsize s bp ≤ bsize (coalesce s bp).2 (coalesce s bp).1
      ∧ Kept s (coalesce s bp).2 L ∧ SameGlobals s (coalesce s bp).2 := by
  obtain ⟨g', h1, h2, h3, h4, h5, -⟩ := coalesce_case3_full hT hblk hnl hnfr hpa hna
  exact ⟨g', h1, h2, h3, h4, h5⟩

end MM


set_option linter.unusedVariables false
set_option linter.unusedTactic false
set_option linter.unreachableTactic false
namespace MM

/-- The code of `coalesce` in case 4, given what it reads. -/
theorem coalesce4_eq (s s2 : Heap) (bp q F Fq Fn paq : Nat)
    (hs2 : s2 = delete_block (delete_block s (bp + F)) q)
    (hF : bsize s bp = F) (hFq : bsize s q = Fq) (hFn : bsize s (bp + F) = Fn)
    (hqbp : q + Fq = bp) (hqf : GET_SIZE s (bp - 8) = Fq)
    (hNf : GET_SIZE s (bp + F + Fn - 8) = Fn)
    (hpaq : GET_PREV_ALLOC s (q - 4) = paq)
    (hpa : ¬ GET_PREV_ALLOC s (HDRP bp) ≠ 0)
    (hna : ¬ GET_ALLOC s (HDRP (NEXT_BLKP s bp)) ≠ 0)
    (a3 : GET (delete_block s (bp + F)) (bp - 8) = GET s (bp - 8))
    (b1 : GET s2 (bp - 4) = GET s (bp - 4))
    (b2 : GET s2 (bp + F - 4) = GET s (bp + F - 4))
    (b3 : GET s2 (bp - 8) = GET s (bp - 8))
    (b4 : GET s2 (q - 4) = GET s (q - 4))
    (hq4 : 4 ≤ q) (hF16 : 16 ≤ F) (hFq16 : 16 ≤ Fq) (hFn16 : 16 ≤ Fn)
    (hF8 : F % 8 = 0) (hFq8 : Fq % 8 = 0) (hFn8 : Fn % 8 = 0)
    (hlt : F + Fq + Fn < 4294967290) :
    coalesce s bp
      = (q, insert_block
          (PUT (PUT s2 (q - 4) (F + Fq + Fn + paq)) (bp + F + Fn - 8) (F + Fq + Fn + paq))
          q (get_index (F + Fq + Fn))) := by
  have hpac : paq = 0 ∨ paq = 2 := hpaq ▸ pa_cases s (q - 4)
  have e0 : GET_SIZE s (bp - 4) = F := hF
  have e1 : GET_SIZE s (q - 4) = Fq := hFq
  have e2 : GET_SIZE s (bp + F - 4) = Fn := hFn
  have eQ : bp - Fq = q := by omega
  have hv : PACK (F + (Fq + Fn)) 0 paq 0 = F + Fq + Fn + paq := by
    rw [PACK_eq (F + (Fq + Fn)) paq 0 (by omega) hpac (by omega)]; omega
  have c1 : GET (PUT s2 (q - 4) (F + Fq + Fn + paq)) (bp - 4) = GET s (bp - 4) := by
    rw [GET_PUT_other _ _ _ _ (by omega), b1]
  have c2 : GET (PUT s2 (q - 4) (F + Fq + Fn + paq)) (bp + F - 4) = GET s (bp + F - 4) := by
    rw [GET_PUT_other _ _ _ _ (by omega), b2]
  have c3 : GET (PUT s2 (q - 4) (F + Fq + Fn + paq)) (bp - 8) = GET s (bp - 8) := by
    rw [GET_PUT_other _ _ _ _ (by omega), b3]
  have c4 : GET (PUT s2 (q - 4) (F + Fq + Fn + paq)) (q - 4) = F + (Fq + Fn) + paq + 0 := by
    rw [GET_PUT_same]; omega
  have f4 := hdr_fields _ (q - 4) (F + (Fq + Fn)) paq 0 (by omega) hpac (by omega) c4
  have d3 : GET (PUT (PUT s2 (q - 4) (F + Fq + Fn + paq)) (bp + F + Fn - 8)
      (F + Fq + Fn + paq)) (bp - 8) = GET s (bp - 8) := by
    rw [GET_PUT_other _ _ _ _ (by omega), c3]
  unfold coalesce
  simp only []
  rw [if_neg (fun h => hpa h.1), if_neg (fun h => hpa h.1), if_neg (fun h => hna h.2)]
  simp only [NEXT_BLKP, PREV_BLKP, HDRP, FTRP, WSIZE, DSIZE]
  rw [e0, hqf, eQ, e1, e2, hNf, Nat.mod_eq_of_lt (by simp only [SZ]; omega),
    Nat.mod_eq_of_lt (by simp only [SZ]; omega), GET_SIZE_congr a3, hqf, eQ, ← hs2,
    GET_SIZE_congr b3, hqf, eQ, GET_PREV_ALLOC_congr b4, hpaq, hv,
    GET_SIZE_congr c1, e0, GET_SIZE_congr c2, e2, GET_SIZE_congr c3, hqf, eQ, f4.2.1, hv,
    GET_SIZE_congr d3, hqf, eQ, show F + (Fq + Fn) = F + Fq + Fn by omega]

theorem coalesce_case4_eq {s : Heap} {L : List (Nat × Nat)} {g : Ghost} {bp q : Nat}
    (hT : InvT s L g bp) (hblk : g.blk bp)
    (hq : g.fr q) (hqbp : q + bsize s q = bp) (hqf : GET_SIZE s (bp - 8) = bsize s q)
    (hN : g.fr (bp + bsize s bp))
    (hpa : ¬ GET_PREV_ALLOC s (HDRP bp) ≠ 0)
    (hna : ¬ GET_ALLOC s (HDRP (NEXT_BLKP s bp)) ≠ 0) :
    coalesce s bp
      = (q, insert_block
          (PUT (PUT (delete_block (delete_block s (bp + bsize s bp)) q) (q - 4)
            (bsize s bp + bsize s q + bsize s (bp + bsize s bp) + GET_PREV_ALLOC s (q - 4)))
            (bp + bsize s bp + bsize s (bp + bsize s bp) - 8)
            (bsize s bp + bsize s q + bsize s (bp + bsize s bp) + GET_PREV_ALLOC s (q - 4)))
          q (get_index (bsize s bp + bsize s q + bsize s (bp + bsize s bp)))) := by
  obtain ⟨lay, hB, hl, full⟩ := hT
  have hlo := hB.lo bp hblk
  have hqb := (hB.fr_blk q hq).1
  have hq1 := hB.lo q hqb
  have hNb := (hB.fr_blk _ hN).1
  have hN1 := hB.lo _ hNb
  have hNh := hB.fr_hdr _ hN
  have hsz := heap_size_lt lay hB hNb
  obtain ⟨lay1, hB1, hl1, hdr1, ftr1, -⟩ := delete_block_keeps lay hB hl hN
  have hq1fr : (g.unlist (bp + bsize s bp)).fr q := ⟨hq, by clear * - hqbp hq1 hlo; omega⟩
  obtain ⟨-, -, -, hdr2, ftr2, -⟩ := delete_block_keeps lay1 hB1 hl1 hq1fr
  have a3 : GET (delete_block s (bp + bsize s bp)) (bp - 8) = GET s (bp - 8) := by
    have := ftr1 q hqb
    rw [hqbp] at this
    exact this
  have hsq1 : bsize (delete_block s (bp + bsize s bp)) q = bsize s q :=
    bsize_congr (hdr1 q (Or.inl hqb))
  have b3 : GET (delete_block (delete_block s (bp + bsize s bp)) q) (bp - 8) = GET s (bp - 8) := by
    have := ftr2 q hqb
    rw [hsq1, hqbp] at this
    rw [this, a3]
  exact coalesce4_eq s _ bp q _ _ _ _ rfl rfl rfl rfl hqbp hqf hNh.2.1 rfl hpa hna a3
    (by rw [hdr2 bp (Or.inl hblk), hdr1 bp (Or.inl hblk)])
    (by rw [hdr2 _ (Or.inl hNb), hdr1 _ (Or.inl hNb)]) b3
    (by rw [hdr2 q (Or.inl hqb), hdr1 q (Or.inl hqb)])
    (by clear * - hq1; omega) hlo.2.2.1 hq1.2.2.1 hN1.2.2.1 (bsize_mod s bp) (bsize_mod s q)
    (bsize_mod s _) (by clear * - hsz hqbp hq1; omega)

end MM


set_option linter.unusedVariables false
set_option linter.unusedTactic false
set_option linter.unreachableTactic false
namespace MM

/-- `coalesce`, case 4, with the block it returns, its size and its allocation
bit. -/
theorem coalesce_case4_full {s : Heap} {L : List (Nat × Nat)} {g : Ghost} {bp : Nat}
    (hT : InvT s L g bp) (hblk : g.blk bp) (hnl : ¬ isLive L bp) (hnfr : ¬ g.fr bp)
    (hpa : ¬ GET_PREV_ALLOC s (HDRP bp) ≠ 0)
    (hna : ¬ GET_ALLOC s (HDRP (NEXT_BLKP s bp)) ≠ 0) :
    ∃ g', Inv (coalesce s bp).2 L g' ∧ g'.fr (coalesce s bp).1
      ∧ bsize s bp ≤ bsize (coalesce s bp).2 (coalesce s bp).1
      ∧ Kept s (coalesce s bp).2 L ∧ SameGlobals s (coalesce s bp).2
      ∧ (coalesce s bp).1 = PREV_BLKP s bp
      ∧ bsize (coalesce s bp).2 (coalesce s bp).1
          = bsize s (PREV_BLKP s bp) + bsize s bp + bsize s (bp + bsize s bp)
      ∧ GET_ALLOC (coalesce s bp).2 ((coalesce s bp).1 - 4) = 0 := by
  obtain ⟨q, hq, hqbp, hqf⟩ := prev_free_facts hT hblk hpa
  have hPq : PREV_BLKP s bp = q := by
    unfold PREV_BLKP
    simp only [DSIZE]
    rw [hqf]
    clear * - hqbp
    omega
  rw [hPq]
  have hN := next_free_facts hT hblk hna
  rw [coalesce_case4_eq hT hblk hq hqbp hqf hN hpa hna]
  obtain ⟨lay, hB, hl, full⟩ := hT
  have hlo := hB.lo bp hblk
  have hF8 := bsize_mod s bp
  have hqb := (hB.fr_blk q hq).1
  have hqnl := (hB.fr_blk q hq).2
  have hq1 := hB.lo q hqb
  have hFq8 := bsize_mod s q
  have hNb := (hB.fr_blk _ hN).1
  have hNnl := (hB.fr_blk _ hN).2
  have hN1 := hB.lo _ hNb
  have hNh := hB.fr_hdr _ hN
  have hNnext := hB.next _ hNb
  have hFn8 := bsize_mod s (bp + bsize s bp)
  have hsz := heap_size_lt lay hB hNb
  have hneqN : q ≠ bp + bsize s bp := by clear * - hqbp hq1 hlo; omega
  have hneqb : q ≠ bp := by clear * - hqbp hq1; omega
  have hnebN : bp ≠ bp + bsize s bp := by clear * - hlo; omega
  obtain ⟨lay1, hB1, hl1, hdr1, -, -⟩ := delete_block_keeps lay hB hl hN
  have hK1 := delete_block_kept lay hB hl hN
  have hq1fr : (g.unlist (bp + bsize s bp)).fr q := ⟨hq, hneqN⟩
  obtain ⟨lay2, hB2, hl2, hdr2, -, -⟩ := delete_block_keeps lay1 hB1 hl1 hq1fr
  have hK2 := delete_block_kept lay1 hB1 hl1 hq1fr
  have hpac := pa_cases s (q - 4)
  have b4 : GET (delete_block (delete_block s (bp + bsize s bp)) q) (q - 4) = GET s (q - 4) := by
    rw [hdr2 q (Or.inl hqb), hdr1 q (Or.inl hqb)]
  have b5 : GET (delete_block (delete_block s (bp + bsize s bp)) q)
      (bp + bsize s bp + bsize s (bp + bsize s bp) - 4)
      = GET s (bp + bsize s bp + bsize s (bp + bsize s bp) - 4) := by
    rw [hdr2 _ hNnext, hdr1 _ hNnext]
  have hpaNN : GET_PREV_ALLOC s (bp + bsize s bp + bsize s (bp + bsize s bp) - 4) = 0 := hNh.1
  clear hdr1 hdr2 lay1 hB1 hl1
  obtain ⟨s2, hs2⟩ : ∃ s2, s2 = delete_block (delete_block s (bp + bsize s bp)) q := ⟨_, rfl⟩
  have hG2 : SameGlobals s s2 := by rw [hs2]; exact ⟨rfl, rfl, rfl, rfl⟩
  rw [← hs2] at lay2 hB2 hl2 hK2 b4 b5 ⊢
  clear hs2
  obtain ⟨s4, hs4⟩ : ∃ s4, s4 = PUT (PUT s2 (q - 4)
      (bsize s bp + bsize s q + bsize s (bp + bsize s bp) + GET_PREV_ALLOC s (q - 4)))
      (bp + bsize s bp + bsize s (bp + bsize s bp) - 8)
      (bsize s bp + bsize s q + bsize s (bp + bsize s bp) + GET_PREV_ALLOC s (q - 4)) :=
    ⟨_, rfl⟩
  rw [← hs4]
  obtain ⟨m4, w1, w2, hG4⟩ := chain_merge s2 s4 q (bp + bsize s bp + bsize s (bp + bsize s bp))
    _ hs4 (by clear * - hq1; omega) (by clear * - hqbp hlo hN1; omega)
    (by clear * - hsz hqbp hq1 hpac; omega)
  clear hs4
  have w4 : GET s4 (bp + bsize s bp + bsize s (bp + bsize s bp) - 4)
      = GET s2 (bp + bsize s bp + bsize s (bp + bsize s bp) - 4) :=
    GET_congr_mem (fun k _ => m4 _ (by clear * - hN1; omega))
  have f1 := hdr_fields s4 (q - 4) (bsize s bp + bsize s q + bsize s (bp + bsize s bp))
    _ 0 (by clear * - hF8 hFq8 hFn8; omega) hpac (by omega) w1
  have f2 := hdr_fields s4 (bp + bsize s bp + bsize s (bp + bsize s bp) - 8)
    (bsize s bp + bsize s q + bsize s (bp + bsize s bp))
    _ 0 (by clear * - hF8 hFq8 hFn8; omega) hpac (by omega) w2
  have hlen : bp + bsize s bp + bsize s (bp + bsize s bp) - q
      = bsize s bp + bsize s q + bsize s (bp + bsize s bp) := by clear * - hqbp; omega
  have hfm := finish_merge_full q (bp + bsize s bp + bsize s (bp + bsize s bp)) lay2 hB2 hl2 hG4
    (fun a ha => m4 a (by clear * - ha hN1; omega))
    hqb (by rw [hG2.1]; exact hNnext) (by clear * - hqbp hlo; omega)
    (fun x hx => hB.outside3 hqb hblk hNb hqbp rfl (hB.fr_blk x hx.1.1).1 hx.2
      (fun h => hnfr (h ▸ hx.1.1)) hx.1.2)
    (fun x ⟨m, hm⟩ => hB.outside3 hqb hblk hNb hqbp rfl (hB.live_blk x m hm).1
      (fun h => hqnl ⟨m, h ▸ hm⟩) (fun h => hnl ⟨m, h ▸ hm⟩) (fun h => hNnl ⟨m, h ▸ hm⟩))
    (by
      intro x hx hw
      rcases full x hx (by clear * - hw hqbp hlo; omega) with h | h
      · exact Or.inl h
      · exact Or.inr ⟨⟨h, by clear * - hw hqbp hq1 hN1; omega⟩, by clear * - hw hqbp hlo; omega⟩)
    (by rw [hlen]; exact f1.1)
    (by rw [f1.2.1, GET_PREV_ALLOC_congr b4])
    (by rw [hlen]; exact f2.1)
    (bsize_congr w4) (GET_ALLOC_congr w4)
    (by rw [GET_PREV_ALLOC_congr w4, GET_PREV_ALLOC_congr b5]; exact hpaNN)
  rw [hlen] at hfm
  obtain ⟨g', h1, h2, h3, h4, h5, h6⟩ := hfm
  refine ⟨g', h1, h2, by rw [h3]; clear * -; omega, hK1.trans (hK2.trans h4), ?_, rfl,
    h3.trans (by clear * -; omega), (GET_ALLOC_congr h6).trans f1.2.2⟩
  exact ⟨by rw [h5.1, hG2.1], by rw [h5.2.1, hG2.2.1], by rw [h5.2.2.1, hG2.2.2.1],
    by rw [h5.2.2.2, hG2.2.2.2]⟩

/-- `coalesce`, case 4: both neighbours are free. -/
theorem coalesce_case4 {s : Heap} {L : List (Nat × Nat)} {g : Ghost} {bp : Nat}
    (hT : InvT s L g bp) (hblk : g.blk bp) (hnl : ¬ isLive L bp) (hnfr : ¬ g.fr bp)
    (hpa : ¬ GET_PREV_ALLOC s (HDRP bp) ≠ 0)
    (hna : ¬ GET_ALLOC s (HDRP (NEXT_BLKP s bp)) ≠ 0) :
    ∃ g', Inv (coalesce s bp).2 L g' ∧ g'.fr (coalesce s bp).1
      ∧ bsize s bp ≤ bsize (coalesce s bp).2 (coalesce s bp).1
      ∧ Kept s (coalesce s bp).2 L ∧ SameGlobals s (coalesce s bp).2 := by
  obtain ⟨g', h1, h2, h3, h4, h5, -⟩ := coalesce_case4_full hT hblk hnl hnfr hpa hna
  exact ⟨g', h1, h2, h3, h4, h5⟩

/-- `coalesce` of an unlisted free block with a valid footer restores the
invariant and returns a listed block that contains it. -/
theorem coalesce_spec {s : Heap} {L : List (Nat × Nat)} {g : Ghost} {bp : Nat}
    (hT : InvT s L g bp) (hblk : g.blk bp) (hnl : ¬ isLive L bp) (hnfr : ¬ g.fr bp)
    (hft : GET_SIZE s (bp + bsize s bp - 8) = bsize s bp) :
    ∃ g', Inv (coalesce s bp).2 L g' ∧ g'.fr (coalesce s bp).1
      ∧ bsize s bp ≤ bsize (coalesce s bp).2 (coalesce s bp).1
      ∧ Kept s (coalesce s bp).2 L ∧ SameGlobals s (coalesce s bp).2 := by
  by_cases hpa : GET_PREV_ALLOC s (HDRP bp) ≠ 0
  · by_cases hna : GET_ALLOC s (HDRP (NEXT_BLKP s bp)) ≠ 0
    · exact coalesce_case1 hT hblk hnl hnfr hft hpa hna
    · exact coalesce_case2 hT hblk hnl hnfr hpa hna
  · by_cases hna : GET_ALLOC s (HDRP (NEXT_BLKP s bp)) ≠ 0
    · exact coalesce_case3 hT hblk hnl hnfr hpa hna
    · exact coalesce_case4 hT hblk hnl hnfr hpa hna

/-- `coalesce` with its result spelled out: the block it returns is the
previous block when the predecessor bit of `bp` is clear and `bp` otherwise;
its size is the size of `bp` plus the sizes of the neighbours that were merged
in; and its allocation bit is clear when that of `bp` was. -/
theorem coalesce_spec_full {s : Heap} {L : List (Nat × Nat)} {g : Ghost} {bp : Nat}
    (hT : InvT s L g bp) (hblk : g.blk bp) (hnl : ¬ isLive L bp) (hnfr : ¬ g.fr bp)
    (hft : GET_SIZE s (bp + bsize s bp - 8) = bsize s bp)
    (hal : GET_ALLOC s (bp - 4) = 0) :
    ∃ g', Inv (coalesce s bp).2 L g' ∧ g'.fr (coalesce s bp).1
      ∧ (coalesce s bp).1
          = (if GET_PREV_ALLOC s (HDRP bp) = 0 then PREV_BLKP s bp else bp)
      ∧ bsize (coalesce s bp).2 (coalesce s bp).1
          = (if GET_PREV_ALLOC s (HDRP bp) = 0 then bsize s (PREV_BLKP s bp) else 0)
            + bsize s bp
            + (if GET_ALLOC s (HDRP (NEXT_BLKP s bp)) = 0 then bsize s (NEXT_BLKP s bp)
                else 0)
      ∧ GET_ALLOC (coalesce s bp).2 ((coalesce s bp).1 - 4) = 0 := by
  by_cases hpa : GET_PREV_ALLOC s (HDRP bp) ≠ 0
  · by_cases hna : GET_ALLOC s (HDRP (NEXT_BLKP s bp)) ≠ 0
    · obtain ⟨g', h1, h2, -, -, -, h6, h7, h8⟩ := coalesce_case1_full hT hblk hnl hnfr hft hpa hna
      refine ⟨g', h1, h2, ?_, ?_, ?_⟩
      · rw [if_neg hpa]; exact h6
      · rw [if_neg hpa, if_neg hna, h7]; omega
      · rw [h8]; exact hal
    · obtain ⟨g', h1, h2, -, -, -, h6, h7, h8⟩ := coalesce_case2_full hT hblk hnl hnfr hpa hna
      refine ⟨g', h1, h2, ?_, ?_, h8⟩
      · rw [if_neg hpa]; exact h6
      · rw [if_neg hpa, if_pos (by omega), h7, NEXT_BLKP_eq]; omega
  · by_cases hna : GET_ALLOC s (HDRP (NEXT_BLKP s bp)) ≠ 0
    · obtain ⟨g', h1, h2, -, -, -, h6, h7, h8⟩ := coalesce_case3_full hT hblk hnl hnfr hpa hna
      refine ⟨g', h1, h2, ?_, ?_, h8⟩
      · rw [if_pos (by omega)]; exact h6
      · rw [if_pos (by omega), if_neg hna, h7]; omega
    · obtain ⟨g', h1, h2, -, -, -, h6, h7, h8⟩ := coalesce_case4_full hT hblk hnl hnfr hpa hna
      refine ⟨g', h1, h2, ?_, ?_, h8⟩
      · rw [if_pos (by omega)]; exact h6
      · rw [if_pos (by omega), if_pos (by omega), h7, NEXT_BLKP_eq]

end MM


set_option linter.unusedVariables false
set_option linter.unusedTactic false
set_option linter.unreachableTactic false

namespace MM

/-! ## `extend_heap` -/

/-- The three stores of `extend_heap`. -/
theorem chain_extend (s0 s3 : Heap) (b size pa : Nat)
    (hs3 : s3 = PUT (PUT (PUT s0 (b - 4) (size + pa)) (b + size - 8) size)
      (b + size - 4) (pa + 1))
    (hb : 4 ≤ b) (hs16 : 16 ≤ size) (hlt : size < 4294967290) (hpa : pa = 0 ∨ pa = 2) :
    (∀ a, a + 4 < b → s3.mem a = s0.mem a)
    ∧ GET s3 (b - 4) = size + pa + 0
    ∧ GET s3 (b + size - 8) = size + 0 + 0
    ∧ GET s3 (b + size - 4) = 0 + pa + 1
    ∧ SameGlobals s0 s3 := by
  subst hs3
  refine ⟨?_, ?_, ?_, ?_, ⟨rfl, rfl, rfl, rfl⟩⟩
  · intro a ha
    rw [PUT_mem_other _ _ _ _ (by omega), PUT_mem_other _ _ _ _ (by omega),
      PUT_mem_other _ _ _ _ (by omega)]
  · rw [GET_PUT_other _ _ _ _ (by omega), GET_PUT_other _ _ _ _ (by omega), GET_PUT_same]
    omega
  · rw [GET_PUT_other _ _ _ _ (by omega), GET_PUT_same]
    omega
  · rw [GET_PUT_same]
    omega

theorem extend_heap_fail (s : Heap) (words size : Nat)
    (hsize : (if words % 2 ≠ 0 then ((words + 1) * WSIZE) % SZ else (words * WSIZE) % SZ) = size)
    (hfit : ¬ s.brk + size ≤ s.max_addr) : extend_heap s words = (0, s) := by
  unfold extend_heap
  lift_lets
  extract_lets sz r bp s0 pav s1 s2 s3
  have hsz : sz = size := hsize
  clear_value sz
  subst sz
  have hr : r = (SZ - 1, s) := by
    show mem_sbrk s size = _
    unfold mem_sbrk
    rw [if_neg hfit]
  have hbp : bp = SZ - 1 := by show r.1 = _; rw [hr]
  have hs0 : s0 = s := by show r.2 = _; rw [hr]
  rw [if_pos hbp, hs0]

theorem extend_heap_eq (s : Heap) (words size pa : Nat)
    (hsize : (if words % 2 ≠ 0 then ((words + 1) * WSIZE) % SZ else (words * WSIZE) % SZ) = size)
    (hfit : s.brk + size ≤ s.max_addr) (hbrk8 : s.brk % 8 = 0) (hbrk4 : 4 ≤ s.brk)
    (hpa : GET_PREV_ALLOC s (s.brk - 4) = pa)
    (hs8 : size % 8 = 0) (hs16 : 16 ≤ size) (hlt : size < 4294967290) :
    extend_heap s words
      = coalesce (PUT (PUT (PUT { s with brk := s.brk + size } (s.brk - 4) (size + pa))
          (s.brk + size - 8) size) (s.brk + size - 4) (pa + 1)) s.brk := by
  have hpac : pa = 0 ∨ pa = 2 := hpa ▸ pa_cases s (s.brk - 4)
  unfold extend_heap
  lift_lets
  extract_lets sz r bp s0 pav s1 s2 s3
  have hsz : sz = size := hsize
  clear_value sz
  subst sz
  have hr : r = (s.brk, { s with brk := s.brk + size }) := by
    show mem_sbrk s size = _
    unfold mem_sbrk
    rw [if_pos hfit]
  have hbp : bp = s.brk := by show r.1 = _; rw [hr]
  have hs0 : s0 = { s with brk := s.brk + size } := by show r.2 = _; rw [hr]
  clear_value r bp s0
  subst bp s0
  rw [if_neg (by simp only [SZ]; omega)]
  have hpav : pav = pa := hpa
  clear_value pav
  subst pav
  have h1 : s1 = PUT { s with brk := s.brk + size } (s.brk - 4) (size + pa) := by
    show PUT _ (HDRP s.brk) (PACK size 0 pa 0) = _
    rw [PACK_eq size pa 0 hs8 hpac (by omega)]; rfl
  have hg1 : GET_SIZE s1 (HDRP s.brk) = size := by
    rw [h1]
    exact (hdr_fields _ _ size pa 0 hs8 hpac (by omega)
      (by show GET (PUT _ (s.brk - 4) _) (s.brk - 4) = _; rw [GET_PUT_same]; omega)).1
  have h2 : s2 = PUT s1 (s.brk + size - 8) size := by
    show PUT s1 (FTRP s1 s.brk) (PACK size 0 0 0) = _
    rw [PACK_eq size 0 0 hs8 (Or.inl rfl) (by omega)]
    unfold FTRP
    rw [hg1]
    rfl
  have hg2 : GET_SIZE s2 (HDRP s.brk) = size := by
    rw [h2, GET_SIZE_congr (GET_PUT_other _ _ _ _ (by unfold HDRP; simp only [WSIZE]; omega))]
    exact hg1
  have h3 : s3 = PUT s2 (s.brk + size - 4) (pa + 1) := by
    show PUT s2 (HDRP (NEXT_BLKP s2 s.brk)) (PACK 0 0 pa 1) = _
    rw [PACK_eq 0 pa 1 (by omega) hpac (by omega)]
    have e : NEXT_BLKP s2 s.brk = s.brk + size := by
      show s.brk + GET_SIZE s2 (HDRP s.brk) = _
      rw [hg2]
    rw [e, Nat.zero_add]
    rfl
  rw [h3, h2, h1]

end MM


set_option linter.unusedVariables false
set_option linter.unusedTactic false
set_option linter.unreachableTactic false

namespace MM

/-- Growing the heap by one block in transit right after the old break. -/
theorem extend_step {s s' : Heap} {L : List (Nat × Nat)} {g : Ghost} (size pa : Nat)
    (lay : Layout s) (hB : Blocks s L g) (hl : Lists s g)
    (hbrk : s'.brk = s.brk + size) (hmax : s'.max_addr = s.max_addr)
    (hlistp : s'.heap_listp = s.heap_listp) (hbase : s'.heap_basep = s.heap_basep)
    (hfit : s.brk + size ≤ s.max_addr) (hs8 : size % 8 = 0) (hs16 : 16 ≤ size)
    (hpa : GET_PREV_ALLOC s (s.brk - 4) = pa)
    (hframe : ∀ a, a + 4 < s.brk → s'.mem a = s.mem a)
    (w1 : GET s' (s.brk - 4) = size + pa + 0)
    (w3 : GET s' (s.brk + size - 4) = 0 + pa + 1) :
    Layout s' ∧ Lists s' g ∧ Blocks s' L (g.addBlk s.brk) ∧ Kept s s' L := by
  have hpac : pa = 0 ∨ pa = 2 := hpa ▸ pa_cases s (s.brk - 4)
  have hlo0 := lay.brk_lo
  have hb8 := lay.brk_al
  have hw : ∀ a, a + 8 ≤ s.brk → GET s' a = GET s a := fun a ha =>
    GET_congr_mem (fun k hk => hframe _ (by clear * - ha hk; omega))
  have f1 := hdr_fields s' (s.brk - 4) size pa 0 hs8 hpac (by omega) w1
  have f3 := hdr_fields s' (s.brk + size - 4) 0 pa 1 (by omega) hpac (by omega) w3
  have bnew : bsize s' s.brk = size := f1.1
  have hhdr : ∀ x, g.blk x → GET s' (x - 4) = GET s (x - 4) := fun x hx =>
    hw _ (by have := hB.lo x hx; clear * - this; omega)
  have hsz : ∀ x, g.blk x → bsize s' x = bsize s x := fun x hx => bsize_congr (hhdr x hx)
  have hnb : ¬ g.blk s.brk := fun h => by have := hB.lo _ h; clear * - this; omega
  have hpa' : ∀ x, g.blk x ∨ x = s.brk →
      GET_PREV_ALLOC s' (x - 4) = GET_PREV_ALLOC s (x - 4) := by
    rintro x (h | h)
    · exact GET_PREV_ALLOC_congr (hhdr x h)
    · rw [h, f1.2.1, hpa]
  have hsucc : ∀ x, g.blk x →
      GET_PREV_ALLOC s' (HDRP (x + bsize s' x)) = GET_PREV_ALLOC s (HDRP (x + bsize s x)) := by
    intro x hx
    rw [hsz x hx]
    exact hpa' _ (hB.next x hx)
  have hftr : ∀ x, g.blk x → GET s' (x + bsize s x - 8) = GET s (x + bsize s x - 8) :=
    fun x hx => hw _ (by have := hB.lo x hx; clear * - this; omega)
  refine ⟨?_, ?_, ?_, ?_⟩
  · exact ⟨by rw [hbase]; exact lay.base_pos, by rw [hbase]; exact lay.base_al,
      by rw [hlistp, hbase]; exact lay.listp, by rw [hbrk]; clear * - hb8 hs8; omega,
      by rw [hbase, hbrk]; clear * - hlo0; omega, by rw [hbrk, hmax]; exact hfit,
      by rw [hbase, hmax]; exact lay.max_hi,
      by rw [hbase, hw _ (by clear * - hlo0; omega)]; exact lay.pad,
      by rw [hbase, GET_SIZE_congr (hw _ (by clear * - hlo0; omega))]; exact lay.prol⟩
  · refine Lists_frame hl hbase ?_
    rintro x (hx | hx)
    · have := isSent_bounds hx lay.base_al
      exact ⟨hw _ (by clear * - this hlo0; omega), hw _ (by clear * - this hlo0; omega)⟩
    · have := hB.lo x (hB.fr_blk x hx).1
      exact ⟨hw _ (by clear * - this; omega), hw _ (by clear * - this; omega)⟩
  · refine ⟨?_, ?_, ?_, ?_, ?_, ?_, ?_, ?_, ?_, hB.live_nodup, ?_, ?_, ?_⟩
    · rw [hbrk]; exact f3.1
    · rw [hbrk]; exact f3.2.2
    · rw [hbase]
      rcases hB.first with h | h
      · exact Or.inl (Or.inl h)
      · exact Or.inl (Or.inr h)
    · rw [hbase]
      have e : s.heap_basep + 108 = s.heap_basep + 112 - 4 := rfl
      rw [e, hpa' _ hB.first, ← e]
      exact hB.first_pa
    · rintro x (hx | hx)
      · have := hB.lo x hx
        rw [hsz x hx, hbase, hbrk]
        clear * - this; omega
      · rw [hx, bnew, hbase, hbrk]
        clear * - hlo0 hb8 hs16; omega
    · rintro x (hx | hx)
      · rw [hsz x hx]
        rcases hB.next x hx with h | h
        · exact Or.inl (Or.inl h)
        · exact Or.inl (Or.inr h)
      · rw [hx, bnew]; exact Or.inr hbrk.symm
    · rintro x hx hne
      rw [hbase] at hne
      rcases hx with (hx | hx) | hx
      · obtain ⟨q, hq, e⟩ := hB.prev x (Or.inl hx) hne
        exact ⟨q, Or.inl hq, by rw [hsz q hq]; exact e⟩
      · obtain ⟨q, hq, e⟩ := hB.prev x (Or.inr hx) hne
        exact ⟨q, Or.inl hq, by rw [hsz q hq]; exact e⟩
      · exact ⟨s.brk, Or.inr rfl, by rw [bnew, hx, hbrk]⟩
    · rintro p q hp hq hpq
      rcases hp with hp | hp
      · rw [hsz p hp]
        rcases hq with hq | hq
        · exact hB.disj p q hp hq hpq
        · rw [hq]; exact (hB.lo p hp).2.2.2
      · rcases hq with hq | hq
        · have := hB.lo q hq
          clear * - this hp hpq; omega
        · clear * - hp hq hpq; omega
    · intro p n hpn
      have := hB.live_blk p n hpn
      exact ⟨Or.inl this.1, by rw [hsz p this.1]; exact this.2⟩
    · rintro p ⟨n, hpn⟩
      have hb := (hB.live_blk p n hpn).1
      have := hB.live_hdr p ⟨n, hpn⟩
      exact ⟨by rw [← this.1]; exact GET_ALLOC_congr (hhdr p hb), by rw [hsucc p hb]; exact this.2⟩
    · intro p hp
      exact ⟨Or.inl (hB.fr_blk p hp).1, (hB.fr_blk p hp).2⟩
    · intro p hp
      have hb := (hB.fr_blk p hp).1
      have := hB.fr_hdr p hp
      rw [hsucc p hb, hsz p hb, GET_SIZE_congr (hftr p hb)]
      exact this
  · rintro p ⟨n, hpn⟩
    have hb := (hB.live_blk p n hpn).1
    have := hB.lo p hb
    exact ⟨hsz p hb, fun a h1 h2 => hframe a (by clear * - this h2; omega)⟩

end MM


set_option linter.unusedVariables false
set_option linter.unusedTactic false
set_option linter.unreachableTactic false

namespace MM

/-- `extend_heap` when the memory system grants the request: the new space
becomes (part of) a listed free block of at least `size` bytes. -/
theorem extend_heap_spec {s : Heap} {L : List (Nat × Nat)} {g : Ghost} (words size : Nat)
    (hI : Inv s L g)
    (hsize : (if words % 2 ≠ 0 then ((words + 1) * WSIZE) % SZ else (words * WSIZE) % SZ) = size)
    (hs8 : size % 8 = 0) (hs16 : 16 ≤ size) (hfit : s.brk + size ≤ s.max_addr) :
    ∃ g', Inv (extend_heap s words).2 L g' ∧ g'.fr (extend_heap s words).1
      ∧ size ≤ bsize (extend_heap s words).2 (extend_heap s words).1
      ∧ Kept s (extend_heap s words).2 L
      ∧ (extend_heap s words).2.brk = s.brk + size
      ∧ (extend_heap s words).2.max_addr = s.max_addr
      ∧ (extend_heap s words).2.heap_listp = s.heap_listp
      ∧ (extend_heap s words).2.heap_basep = s.heap_basep := by
  obtain ⟨lay, hB, hl, full⟩ := hI
  have hlo0 := lay.brk_lo
  have hb8 := lay.brk_al
  have hmx := lay.max_hi
  have hlt : size < 4294967290 := by clear * - hlo0 hmx hfit; omega
  have hb4 : 4 ≤ s.brk := by clear * - hlo0; omega
  have hpac := pa_cases s (s.brk - 4)
  rw [extend_heap_eq s words size (GET_PREV_ALLOC s (s.brk - 4)) hsize hfit hb8 hb4 rfl
    hs8 hs16 hlt]
  obtain ⟨s3, hs3⟩ : ∃ s3, s3 = PUT (PUT (PUT { s with brk := s.brk + size } (s.brk - 4)
      (size + GET_PREV_ALLOC s (s.brk - 4))) (s.brk + size - 8) size) (s.brk + size - 4)
      (GET_PREV_ALLOC s (s.brk - 4) + 1) := ⟨_, rfl⟩
  rw [← hs3]
  obtain ⟨m3, w1, w2, w3, hG3⟩ := chain_extend _ s3 s.brk size _ hs3 hb4 hs16 hlt hpac
  clear hs3
  obtain ⟨hbrk3, hmax3, hlistp3, hbase3⟩ := hG3
  obtain ⟨lay3, hl3, hB3, hK3⟩ := extend_step size _ lay hB hl hbrk3 hmax3 hlistp3 hbase3
    hfit hs8 hs16 rfl m3 w1 w3
  have f1 := hdr_fields s3 (s.brk - 4) size _ 0 hs8 hpac (by omega) w1
  have f2 := hdr_fields s3 (s.brk + size - 8) size 0 0 hs8 (Or.inl rfl) (by omega) w2
  have bnew : bsize s3 s.brk = size := f1.1
  have hnb : ¬ g.blk s.brk := fun h => by have := hB.lo _ h; clear * - this; omega
  have hT : InvT s3 L (g.addBlk s.brk) s.brk := by
    refine ⟨lay3, hB3, Lists_ghost hl3 rfl rfl rfl, ?_⟩
    rintro x (hx | hx) hne
    · exact full x hx
    · exact absurd hx hne
  obtain ⟨g', hI', hfr', hsz', hK', hG'⟩ := coalesce_spec hT (Or.inr rfl)
    (fun ⟨n, hn⟩ => hnb (hB.live_blk _ n hn).1) (fun h => hnb (hB.fr_blk _ h).1)
    (by rw [bnew]; exact f2.1)
  rw [bnew] at hsz'
  exact ⟨g', hI', hfr', hsz', hK3.trans hK', by rw [hG'.1, hbrk3], by rw [hG'.2.1, hmax3],
    by rw [hG'.2.2.1, hlistp3], by rw [hG'.2.2.2, hbase3]⟩

end MM


set_option linter.unusedVariables false
set_option linter.unusedTactic false
set_option linter.unreachableTactic false

namespace MM

/-! ## `free` -/

theorem mem_freeLive (L : List (Nat × Nat)) (p x n : Nat) :
    (x, n) ∈ freeLive L p ↔ ((x, n) ∈ L ∧ x ≠ p) := by
  unfold freeLive
  rw [List.mem_filter]
  simp

theorem isLive_freeLive (L : List (Nat × Nat)) (p x : Nat) :
    isLive (freeLive L p) x ↔ (isLive L x ∧ x ≠ p) := by
  unfold isLive
  constructor
  · rintro ⟨n, hn⟩
    exact ⟨⟨n, ((mem_freeLive L p x n).mp hn).1⟩, ((mem_freeLive L p x n).mp hn).2⟩
  · rintro ⟨⟨n, hn⟩, hne⟩
    exact ⟨n, (mem_freeLive L p x n).mpr ⟨hn, hne⟩⟩

theorem nodup_freeLive {L : List (Nat × Nat)} (p : Nat)
    (h : L.Pairwise (fun a b => a.1 ≠ b.1)) : (freeLive L p).Pairwise (fun a b => a.1 ≠ b.1) :=
  List.Pairwise.sublist (List.filter_sublist L) h

/-- The two stores of `free`. -/
theorem chain_free (s s2 : Heap) (p F pa : Nat)
    (hs2 : s2 = PUT (PUT s (p - 4) (F + pa)) (p + F - 8) (F + pa))
    (hp : 4 ≤ p) (hF16 : 16 ≤ F) (hFlt : F < 4294967290) (hpa : pa = 0 ∨ pa = 2) :
    (∀ a, (a + 4 < p ∨ p + F - 4 ≤ a) → s2.mem a = s.mem a)
    ∧ (∀ a, p ≤ a → a + 8 < p + F → s2.mem a = s.mem a)
    ∧ GET s2 (p - 4) = F + pa + 0
    ∧ GET s2 (p + F - 8) = F + pa + 0
    ∧ SameGlobals s s2 := by
  subst hs2
  refine ⟨?_, ?_, ?_, ?_, ⟨rfl, rfl, rfl, rfl⟩⟩
  · intro a ha
    rw [PUT_mem_other _ _ _ _ (by omega), PUT_mem_other _ _ _ _ (by omega)]
  · intro a h1 h2
    rw [PUT_mem_other _ _ _ _ (by omega), PUT_mem_other _ _ _ _ (by omega)]
  · rw [GET_PUT_other _ _ _ _ (by omega), GET_PUT_same]
    omega
  · rw [GET_PUT_same]
    omega

theorem free_eq (s : Heap) (p F pa : Nat) (hp0 : p ≠ 0) (hp : 4 ≤ p)
    (hF : bsize s p = F) (hpa : GET_PREV_ALLOC s (p - 4) = pa) (hF16 : 16 ≤ F)
    (hFlt : F < 4294967290) :
    free s p = (coalesce (PUT (PUT s (p - 4) (F + pa)) (p + F - 8) (F + pa)) p).2 := by
  have hpac : pa = 0 ∨ pa = 2 := hpa ▸ pa_cases s (p - 4)
  have hF8 : F % 8 = 0 := hF ▸ bsize_mod s p
  unfold free
  rw [if_neg hp0]
  lift_lets
  extract_lets sz pav s1 s2
  have hsz : sz = F := hF
  have hpav : pav = pa := hpa
  clear_value sz pav
  subst sz pav
  have h1 : s1 = PUT s (p - 4) (F + pa) := by
    show PUT s (HDRP p) (PACK F 0 pa 0) = _
    rw [PACK_eq F pa 0 hF8 hpac (by omega)]; rfl
  have hg1 : GET_SIZE s1 (HDRP p) = F := by
    rw [h1]
    exact (hdr_fields _ _ F pa 0 hF8 hpac (by omega)
      (by show GET (PUT _ (p - 4) _) (p - 4) = _; rw [GET_PUT_same]; omega)).1
  have h2 : s2 = PUT s1 (p + F - 8) (F + pa) := by
    show PUT s1 (FTRP s1 p) (PACK F 0 pa 0) = _
    rw [PACK_eq F pa 0 hF8 hpac (by omega)]
    unfold FTRP
    rw [hg1]
    rfl
  rw [h2, h1]

end MM


set_option linter.unusedVariables false
set_option linter.unusedTactic false
set_option linter.unreachableTactic false

namespace MM

/-- `free` of a live pointer, with the block that survives the merge: it starts
at the previous block when the predecessor bit of `p` is clear and at `p`
otherwise, it is listed, its size is the size of `p` plus the sizes of the
neighbours that were merged in, and its allocation bit is clear. -/
theorem free_spec_full {s : Heap} {L : List (Nat × Nat)} {g : Ghost} {p : Nat}
    (hI : Inv s L g) (hp : isLive L p) :
    ∃ g', Inv (free s p) (freeLive L p) g' ∧ Kept s (free s p) (freeLive L p)
      ∧ SameGlobals s (free s p)
      ∧ g'.fr (if GET_PREV_ALLOC s (HDRP p) = 0 then PREV_BLKP s p else p)
      ∧ bsize (free s p) (if GET_PREV_ALLOC s (HDRP p) = 0 then PREV_BLKP s p else p)
          = (if GET_PREV_ALLOC s (HDRP p) = 0 then bsize s (PREV_BLKP s p) else 0)
            + bsize s p
            + (if GET_ALLOC s (HDRP (NEXT_BLKP s p)) = 0 then bsize s (NEXT_BLKP s p)
                else 0)
      ∧ GET_ALLOC (free s p)
          ((if GET_PREV_ALLOC s (HDRP p) = 0 then PREV_BLKP s p else p) - 4) = 0 := by
  have hI0 := hI
  obtain ⟨lay, hB, hl, full⟩ := hI
  obtain ⟨n, hn⟩ := hp
  have hblk := (hB.live_blk p n hn).1
  have hlo := hB.lo p hblk
  have hF8 := bsize_mod s p
  have hsz := heap_size_lt lay hB hblk
  have hbp4 : 4 ≤ p := by clear * - hsz; omega
  have hp0 : p ≠ 0 := by clear * - hsz; omega
  have hFlt : bsize s p < 4294967290 := by clear * - hsz; omega
  have hnfr : ¬ g.fr p := fun h => (hB.fr_blk p h).2 ⟨n, hn⟩
  have hnext := hB.next p hblk
  have hpac := pa_cases s (p - 4)
  rw [free_eq s p (bsize s p) (GET_PREV_ALLOC s (p - 4)) hp0 hbp4 rfl rfl hlo.2.2.1 hFlt]
  obtain ⟨s2, hs2⟩ : ∃ s2, s2 = PUT (PUT s (p - 4) (bsize s p + GET_PREV_ALLOC s (p - 4)))
      (p + bsize s p - 8) (bsize s p + GET_PREV_ALLOC s (p - 4)) := ⟨_, rfl⟩
  rw [← hs2]
  obtain ⟨m2, -, w1, w2, hG2⟩ := chain_free s s2 p (bsize s p) _ hs2 hbp4 hlo.2.2.1 hFlt hpac
  clear hs2
  have w4 : GET s2 (p + bsize s p - 4) = GET s (p + bsize s p - 4) :=
    GET_congr_mem (fun k _ => m2 _ (by clear * - hlo; omega))
  have f1 := hdr_fields s2 (p - 4) (bsize s p) _ 0 hF8 hpac (by omega) w1
  have f2 := hdr_fields s2 (p + bsize s p - 8) (bsize s p) _ 0 hF8 hpac (by omega) w2
  have b1 : bsize s2 p = bsize s p := f1.1
  have hframe : ∀ a, (a + 4 < p ∨ p + bsize s p ≤ a) → s2.mem a = s.mem a :=
    fun a ha => m2 a (by clear * - ha hlo; omega)
  have hinw : ∀ x, g.blk x → p ≤ x → x < p + bsize s p → x = p :=
    fun x hx h1 h2 => hB.inside hx hblk h1 h2
  have hW := @window_step s s2 L (freeLive L p) g g p (p + bsize s p) lay hB hl
    hG2.1 hG2.2.1 hG2.2.2.1 hG2.2.2.2 hframe hblk hnext (by clear * - hlo; omega)
    (fun x hx => hB.outside (hB.fr_blk x hx).1 hblk (fun h => hnfr (h ▸ hx)))
    rfl rfl rfl (fun x _ => Iff.rfl)
    (fun x m hx => by
      rw [mem_freeLive]
      exact ⟨fun h => h.1, fun h => ⟨h, by clear * - hx hlo; omega⟩⟩)
    (bsize_congr w4) (GET_ALLOC_congr w4) hblk f1.2.1
    (by
      intro x hx h1 h2
      have hx' := hinw x hx h1 h2
      subst hx'
      rw [b1]
      exact ⟨hlo.2.1, hlo.2.2.1, le_refl _, Or.inr rfl, Or.inl rfl⟩)
    ⟨p, hblk, by rw [b1]⟩
    (by
      intro a b ha hb h1 h2 h3
      have e1 := hinw a ha h1 (by clear * - h2 h3; omega)
      have e2 := hinw b hb (by clear * - h1 h2; omega) h3
      clear * - e1 e2 h2; omega)
    (by
      intro x m h1 h2 hx
      rw [mem_freeLive] at hx
      exact absurd (hinw x (hB.live_blk x m hx.1).1 h1 h2) hx.2)
    (nodup_freeLive p hB.live_nodup)
  obtain ⟨lay2, hl2, hB2⟩ := hW
  have hT : InvT s2 (freeLive L p) g p := by
    refine ⟨lay2, hB2, hl2, ?_⟩
    intro x hx hne
    rcases full x hx with h | h
    · exact Or.inl ((isLive_freeLive L p x).mpr ⟨h, hne⟩)
    · exact Or.inr h
  obtain ⟨-, -, -, -, hK', hG'⟩ := coalesce_spec hT hblk
    (fun h => ((isLive_freeLive L p p).mp h).2 rfl) hnfr (by rw [b1]; exact f2.1)
  obtain ⟨g', hI', hfr', hr', hsz', hal'⟩ := coalesce_spec_full hT hblk
    (fun h => ((isLive_freeLive L p p).mp h).2 rfl) hnfr (by rw [b1]; exact f2.1) f1.2.2
  have e_pa : GET_PREV_ALLOC s2 (HDRP p) = GET_PREV_ALLOC s (HDRP p) := f1.2.1
  have e_prev : PREV_BLKP s2 p = PREV_BLKP s p := by
    unfold PREV_BLKP
    simp only [DSIZE]
    rw [GET_SIZE_congr (GET_congr_mem (fun k hk => m2 _ (by clear * - hlo hk; omega)))]
  have e_next : NEXT_BLKP s2 p = NEXT_BLKP s p := by
    rw [NEXT_BLKP_eq, NEXT_BLKP_eq, b1]
  have e_na : GET_ALLOC s2 (HDRP (NEXT_BLKP s p)) = GET_ALLOC s (HDRP (NEXT_BLKP s p)) := by
    rw [NEXT_BLKP_eq]
    exact GET_ALLOC_congr w4
  have e_nb : bsize s2 (NEXT_BLKP s p) = bsize s (NEXT_BLKP s p) := by
    rw [NEXT_BLKP_eq]
    exact bsize_congr w4
  have e_pb : GET_PREV_ALLOC s (HDRP p) = 0 →
      bsize s2 (PREV_BLKP s p) = bsize s (PREV_BLKP s p) := by
    intro h0
    obtain ⟨q, hq, hqp, hqf⟩ := prev_free_facts
      (⟨hI0.lay, hI0.blocks, hI0.lists, fun x hx _ => hI0.full x hx⟩ : InvT s L g p) hblk
      (by clear * - h0; omega)
    have hq1 := hB.lo q (hB.fr_blk q hq).1
    have hPq : PREV_BLKP s p = q := by
      unfold PREV_BLKP
      simp only [DSIZE]
      rw [hqf]
      clear * - hqp
      omega
    rw [hPq]
    exact bsize_congr (GET_congr_mem (fun k hk => m2 _ (by clear * - hqp hq1 hk; omega)))
  rw [e_pa, e_prev] at hr'
  rw [e_pa, e_next, e_na, e_nb, b1, e_prev] at hsz'
  rw [hr'] at hfr' hsz' hal'
  refine ⟨g', hI', Kept.trans ?_ hK', ⟨by rw [hG'.1, hG2.1], by rw [hG'.2.1, hG2.2.1],
    by rw [hG'.2.2.1, hG2.2.2.1], by rw [hG'.2.2.2, hG2.2.2.2]⟩, hfr', ?_, hal'⟩
  rotate_left
  · rw [hsz']
    by_cases h0 : GET_PREV_ALLOC s (HDRP p) = 0
    · rw [if_pos h0, if_pos h0, e_pb h0]
    · rw [if_neg h0, if_neg h0]
  intro x hx
  obtain ⟨⟨m, hm⟩, hne⟩ := (isLive_freeLive L p x).mp hx
  have hxb := (hB.live_blk x m hm).1
  exact window_kept p (p + bsize s p) hB hframe hblk (by clear * - hlo hF8; omega)
    (bsize_congr w4) x hxb (hB.outside hxb hblk hne)

/-- `free` of a live pointer keeps the invariant, drops the pointer from the
live table and keeps every other live block. -/
theorem free_spec {s : Heap} {L : List (Nat × Nat)} {g : Ghost} {p : Nat}
    (hI : Inv s L g) (hp : isLive L p) :
    ∃ g', Inv (free s p) (freeLive L p) g' ∧ Kept s (free s p) (freeLive L p)
      ∧ SameGlobals s (free s p) := by
  obtain ⟨g', h1, h2, h3, -⟩ := free_spec_full hI hp
  exact ⟨g', h1, h2, h3⟩

/-- `free(NULL)` does nothing. -/
theorem free_null (s : Heap) : free s 0 = s := by
  unfold free
  rw [if_pos rfl]

end MM


set_option linter.unusedVariables false
set_option linter.unusedTactic false
set_option linter.unreachableTactic false

namespace MM

/-! ## `malloc` -/

theorem malloc_asize_val (n : Nat) (h : n + 15 < SZ) :
    malloc_asize n = if n ≤ 12 then 16 else 8 * ((n + 15) / 8) := by
  unfold malloc_asize
  simp only [DSIZE, WSIZE, SZ] at *
  split
  · rfl
  · rw [Nat.mod_eq_of_lt (by omega), Nat.mod_eq_of_lt (by omega)]

theorem malloc_asize_mod (n : Nat) : malloc_asize n % 8 = 0 ∧ malloc_asize n < SZ := by
  unfold malloc_asize
  simp only [DSIZE, WSIZE, SZ]
  split
  · omega
  · omega

theorem malloc_asize_ge (n : Nat) (h : n + 15 < SZ) :
    16 ≤ malloc_asize n ∧ n + 4 ≤ malloc_asize n := by
  rw [malloc_asize_val n h]
  split <;> omega

theorem malloc_extend_size (a : Nat) (h8 : a % 8 = 0) (hlt : a < SZ) :
    (if (max a CHUNKSIZE / WSIZE) % 2 ≠ 0 then ((max a CHUNKSIZE / WSIZE + 1) * WSIZE) % SZ
      else (max a CHUNKSIZE / WSIZE * WSIZE) % SZ) = max a CHUNKSIZE := by
  simp only [CHUNKSIZE, WSIZE, SZ] at *
  have hm : max a 512 % 8 = 0 ∧ max a 512 < 18446744073709551616 := by
    rcases Nat.le_total a 512 with h | h
    · rw [Nat.max_eq_right h]; omega
    · rw [Nat.max_eq_left h]; omega
  generalize max a 512 = m at hm
  rw [if_neg (by omega)]
  omega

theorem malloc_unfold (fuel : Nat) (s : Heap) (n : Nat) (hn : 0 < n) :
    malloc fuel s n
      = match find_fit fuel s (malloc_asize n) with
        | none => none
        | some bp =>
          if bp ≠ 0 then some (bp, place s bp (malloc_asize n))
          else if (extend_heap s (max (malloc_asize n) CHUNKSIZE / WSIZE)).1 = 0
            then some (0, (extend_heap s (max (malloc_asize n) CHUNKSIZE / WSIZE)).2)
            else some ((extend_heap s (max (malloc_asize n) CHUNKSIZE / WSIZE)).1,
              place (extend_heap s (max (malloc_asize n) CHUNKSIZE / WSIZE)).2
                (extend_heap s (max (malloc_asize n) CHUNKSIZE / WSIZE)).1 (malloc_asize n)) := by
  unfold malloc
  rw [if_neg (by omega)]
  try rfl

theorem malloc_zero (fuel : Nat) (s : Heap) : malloc fuel s 0 = some (0, s) := by
  unfold malloc
  rw [if_pos (le_refl _)]

/-- A listed block is not `NULL` and is aligned to eight bytes. -/
theorem fr_ptr {s : Heap} {g : Ghost} (hl : Lists s g) {x : Nat} (hx : g.fr x) :
    x ≠ 0 ∧ x % 8 = 0 := by
  have := hl.fr_lo x hx
  omega

/-- The ways a call of `malloc` with a positive size can return. -/
theorem malloc_cases {s : Heap} {L : List (Nat × Nat)} {g : Ghost} (hI : Inv s L g)
    (n : Nat) (hn : 0 < n) (fuel p : Nat) (s' : Heap) (h : malloc fuel s n = some (p, s')) :
    (find_fit fuel s (malloc_asize n) = some p ∧ p ≠ 0 ∧ g.fr p
        ∧ malloc_asize n ≤ bsize s p ∧ s' = place s p (malloc_asize n))
    ∨ (find_fit fuel s (malloc_asize n) = some 0
        ∧ ¬ s.brk + max (malloc_asize n) CHUNKSIZE ≤ s.max_addr ∧ p = 0 ∧ s' = s)
    ∨ (find_fit fuel s (malloc_asize n) = some 0
        ∧ s.brk + max (malloc_asize n) CHUNKSIZE ≤ s.max_addr
        ∧ p = (extend_heap s (max (malloc_asize n) CHUNKSIZE / WSIZE)).1 ∧ p ≠ 0
        ∧ s' = place (extend_heap s (max (malloc_asize n) CHUNKSIZE / WSIZE)).2 p
            (malloc_asize n)) := by
  have ha := malloc_asize_mod n
  have hsize := malloc_extend_size (malloc_asize n) ha.1 ha.2
  rw [malloc_unfold fuel s n hn] at h
  cases hff : find_fit fuel s (malloc_asize n) with
  | none => rw [hff] at h; exact absurd h (by simp)
  | some bp =>
    rw [hff] at h
    simp only at h
    by_cases hbp : bp ≠ 0
    · rw [if_pos hbp] at h
      have e := Option.some.inj h
      have e1 : bp = p := (Prod.mk.inj e).1
      have e2 : place s bp (malloc_asize n) = s' := (Prod.mk.inj e).2
      subst e1
      rcases find_fit_sound hI.lay hI.lists _ _ _ hff with h0 | h0
      · exact absurd h0 hbp
      · exact Or.inl ⟨rfl, hbp, h0.1, h0.2, e2.symm⟩
    · rw [if_neg hbp] at h
      have hbp0 : bp = 0 := by clear * - hbp; omega
      subst hbp0
      by_cases hfit : s.brk + max (malloc_asize n) CHUNKSIZE ≤ s.max_addr
      · obtain ⟨g', hI', hfr', -⟩ := extend_heap_spec _ _ hI hsize
          (by clear * - ha; simp only [CHUNKSIZE]; omega)
          (by clear * - ha; simp only [CHUNKSIZE]; omega) hfit
        have hne := (fr_ptr hI'.lists hfr').1
        rw [if_neg hne] at h
        have e := Option.some.inj h
        have e1 := (Prod.mk.inj e).1
        have e2 := (Prod.mk.inj e).2
        refine Or.inr (Or.inr ⟨rfl, hfit, e1.symm, by rw [← e1]; exact hne, ?_⟩)
        rw [← e1]; exact e2.symm
      · rw [extend_heap_fail s _ _ hsize hfit] at h
        rw [if_pos rfl] at h
        have e := Option.some.inj h
        exact Or.inr (Or.inl ⟨rfl, hfit, (Prod.mk.inj e).1.symm, (Prod.mk.inj e).2.symm⟩)

/-- With enough fuel for the search `malloc` returns. -/
theorem malloc_total {s : Heap} {L : List (Nat × Nat)} {g : Ghost} (hI : Inv s L g) (n : Nat) :
    ∃ N, ∀ fuel, N ≤ fuel → ∃ r, malloc fuel s n = some r := by
  by_cases hn : 0 < n
  · obtain ⟨N, hN⟩ := find_fit_spec hI.lay hI.lists (malloc_asize n)
    refine ⟨N, fun fuel hf => ?_⟩
    obtain ⟨r, hr, -⟩ := hN fuel hf
    rw [malloc_unfold fuel s n hn, hr]
    simp only
    split
    · exact ⟨_, rfl⟩
    · split
      · exact ⟨_, rfl⟩
      · exact ⟨_, rfl⟩
  · have : n = 0 := by omega
    subst this
    exact ⟨0, fun fuel _ => ⟨_, malloc_zero fuel s⟩⟩

end MM


set_option linter.unusedVariables false
set_option linter.unusedTactic false
set_option linter.unreachableTactic false

namespace MM

theorem allocLive_pos (L : List (Nat × Nat)) (p n : Nat) (hp : p ≠ 0) :
    allocLive L p n = (p, n) :: L := by
  unfold allocLive
  rw [if_neg hp]

theorem allocLive_null (L : List (Nat × Nat)) (n : Nat) : allocLive L 0 n = L := by
  unfold allocLive
  rw [if_pos rfl]

/-- A call of `malloc` for at most `2 ^ 64 - 16` bytes keeps the invariant,
enters the returned pointer in the live table and keeps every live block. -/
theorem malloc_spec {s : Heap} {L : List (Nat × Nat)} {g : Ghost} (hI : Inv s L g)
    (n : Nat) (hlt : n + 15 < SZ) (fuel p : Nat) (s' : Heap)
    (h : malloc fuel s n = some (p, s')) :
    ∃ g', Inv s' (allocLive L p n) g' ∧ Kept s s' L
      ∧ s'.heap_basep = s.heap_basep ∧ s'.max_addr = s.max_addr
      ∧ s'.heap_listp = s.heap_listp
      ∧ (p ≠ 0 → ¬ isLive L p ∧ malloc_asize n ≤ bsize s' p) := by
  by_cases hn : 0 < n
  · have ha := malloc_asize_mod n
    have hge := malloc_asize_ge n hlt
    have hsize := malloc_extend_size (malloc_asize n) ha.1 ha.2
    rcases malloc_cases hI n hn fuel p s' h with ⟨-, hp, hfr, hle, hs'⟩ | ⟨-, -, hp, hs'⟩
      | ⟨-, hfit, hp, hp0, hs'⟩
    · obtain ⟨g', hI', hb, hK, hG⟩ := place_spec hI hfr ha.1 hge.1 hle hge.2
      rw [allocLive_pos L p n hp, hs']
      exact ⟨g', hI', hK, hG.2.2.2, hG.2.1, hG.2.2.1,
        fun _ => ⟨(hI.blocks.fr_blk p hfr).2, hb⟩⟩
    · rw [hp, hs', allocLive_null]
      exact ⟨g, hI, Kept.refl s L, rfl, rfl, rfl, fun h => absurd rfl h⟩
    · obtain ⟨g1, hI1, hfr1, hsz1, hK1, -, hmax1, hlistp1, hbase1⟩ := extend_heap_spec _ _ hI hsize
        (by clear * - ha; simp only [CHUNKSIZE]; omega)
        (by clear * - ha; simp only [CHUNKSIZE]; omega) hfit
      rw [← hp] at hfr1 hsz1
      obtain ⟨g', hI', hb, hK, hG⟩ := place_spec hI1 hfr1 ha.1 hge.1
        (le_trans (le_max_left _ _) hsz1) hge.2
      rw [allocLive_pos L p n hp0, hs']
      refine ⟨g', hI', hK1.trans hK, by rw [hG.2.2.2, hbase1], by rw [hG.2.1, hmax1],
        by rw [hG.2.2.1, hlistp1], fun _ => ⟨?_, hb⟩⟩
      exact (hI1.blocks.fr_blk p hfr1).2
  · have : n = 0 := by omega
    subst this
    rw [malloc_zero] at h
    have e := Option.some.inj h
    have e1 := (Prod.mk.inj e).1
    have e2 := (Prod.mk.inj e).2
    subst e1 e2
    rw [allocLive_null]
    exact ⟨g, hI, Kept.refl s L, rfl, rfl, rfl, fun h => absurd rfl h⟩

/-- Every pointer `malloc` returns is a multiple of eight. -/
theorem malloc_aligned {s : Heap} {L : List (Nat × Nat)} {g : Ghost} (hI : Inv s L g)
    (n fuel p : Nat) (s' : Heap) (h : malloc fuel s n = some (p, s')) : p % 8 = 0 := by
  by_cases hn : 0 < n
  · have ha := malloc_asize_mod n
    have hsize := malloc_extend_size (malloc_asize n) ha.1 ha.2
    rcases malloc_cases hI n hn fuel p s' h with ⟨-, hp, hfr, -⟩ | ⟨-, -, hp, -⟩
      | ⟨-, hfit, hp, -⟩
    · exact (fr_ptr hI.lists hfr).2
    · rw [hp]
    · obtain ⟨g1, hI1, hfr1, -⟩ := extend_heap_spec _ _ hI hsize
        (by clear * - ha; simp only [CHUNKSIZE]; omega)
        (by clear * - ha; simp only [CHUNKSIZE]; omega) hfit
      rw [hp]
      exact (fr_ptr hI1.lists hfr1).2
  · have : n = 0 := by omega
    subst this
    rw [malloc_zero] at h
    rw [← (Prod.mk.inj (Option.some.inj h)).1]

end MM


set_option linter.unusedVariables false
set_option linter.unusedTactic false
set_option linter.unreachableTactic false

namespace MM

/-! ## Stores into the payload of a live block -/

/-- Stores that stay inside the payload of the live block `p` keep the
invariant and every other live block. -/
theorem payload_write {s s' : Heap} {L : List (Nat × Nat)} {g : Ghost} {p : Nat}
    (hI : Inv s L g) (hp : isLive L p) (hG : SameGlobals s s')
    (hframe : ∀ a, (a < p ∨ p + bsize s p ≤ a + 4) → s'.mem a = s.mem a) :
    Inv s' L g ∧ Kept s s' (freeLive L p) ∧ bsize s' p = bsize s p := by
  obtain ⟨lay, hB, hl, full⟩ := hI
  obtain ⟨n, hn⟩ := hp
  have hblk := (hB.live_blk p n hn).1
  have hlo := hB.lo p hblk
  have hF8 := bsize_mod s p
  have hnfr : ¬ g.fr p := fun h => (hB.fr_blk p h).2 ⟨n, hn⟩
  have hnext := hB.next p hblk
  have hfr2 : ∀ a, (a + 4 < p ∨ p + bsize s p ≤ a) → s'.mem a = s.mem a :=
    fun a ha => hframe a (by clear * - ha; omega)
  have w0 : GET s' (p - 4) = GET s (p - 4) :=
    GET_congr_mem (fun k hk => hframe _ (by clear * - hk hlo; omega))
  have w4 : GET s' (p + bsize s p - 4) = GET s (p + bsize s p - 4) :=
    GET_congr_mem (fun k _ => hframe _ (by clear * - hlo; omega))
  have b1 : bsize s' p = bsize s p := bsize_congr w0
  have hinw : ∀ x, g.blk x → p ≤ x → x < p + bsize s p → x = p :=
    fun x hx h1 h2 => hB.inside hx hblk h1 h2
  have hW := @window_step s s' L L g g p (p + bsize s p) lay hB hl
    hG.1 hG.2.1 hG.2.2.1 hG.2.2.2 hfr2 hblk hnext (by clear * - hlo; omega)
    (fun x hx => hB.outside (hB.fr_blk x hx).1 hblk (fun h => hnfr (h ▸ hx)))
    rfl rfl rfl (fun x _ => Iff.rfl) (fun x m _ => Iff.rfl)
    (bsize_congr w4) (GET_ALLOC_congr w4) hblk (GET_PREV_ALLOC_congr w0)
    (by
      intro x hx h1 h2
      have hx' := hinw x hx h1 h2
      subst hx'
      rw [b1]
      exact ⟨hlo.2.1, hlo.2.2.1, le_refl _, Or.inr rfl, Or.inl rfl⟩)
    ⟨p, hblk, by rw [b1]⟩
    (by
      intro a b ha hb h1 h2 h3
      have e1 := hinw a ha h1 (by clear * - h2 h3; omega)
      have e2 := hinw b hb (by clear * - h1 h2; omega) h3
      clear * - e1 e2 h2; omega)
    (by
      intro x m h1 h2 hx
      have hxb := (hB.live_blk x m hx).1
      have hx' := hinw x hxb h1 h2
      subst hx'
      have h3 := hB.live_hdr x ⟨m, hx⟩
      refine ⟨hxb, by rw [b1]; exact (hB.live_blk x m hx).2, ?_, ?_⟩
      · rw [← h3.1]; exact GET_ALLOC_congr w0
      · rw [b1, ← h3.2]; exact GET_PREV_ALLOC_congr w4)
    hB.live_nodup
  obtain ⟨lay2, hl2, hB2⟩ := hW
  refine ⟨⟨lay2, hB2, hl2, full⟩, ?_, b1⟩
  intro x hx
  obtain ⟨⟨m, hm⟩, hne⟩ := (isLive_freeLive L p x).mp hx
  have hxb := (hB.live_blk x m hm).1
  exact window_kept p (p + bsize s p) hB hfr2 hblk (by clear * - hlo hF8; omega)
    (bsize_congr w4) x hxb (hB.outside hxb hblk hne)

/-- The live table after the entry of `p` was replaced by a request of `n`
bytes that still fits the block. -/
theorem relabel {s : Heap} {L : List (Nat × Nat)} {g : Ghost} {p : Nat} (n : Nat)
    (hI : Inv s L g) (hp : isLive L p) (hn : n + 4 ≤ bsize s p) :
    Inv s ((p, n) :: freeLive L p) g := by
  obtain ⟨lay, hB, hl, full⟩ := hI
  have hnl : ¬ isLive (freeLive L p) p := fun h => ((isLive_freeLive L p p).mp h).2 rfl
  have hiff : ∀ x, isLive ((p, n) :: freeLive L p) x ↔ isLive L x := by
    intro x
    rw [isLive_cons, isLive_freeLive]
    constructor
    · rintro (h | h)
      · rw [h]; exact hp
      · exact h.1
    · intro h
      by_cases hx : x = p
      · exact Or.inl hx
      · exact Or.inr ⟨h, hx⟩
  refine ⟨lay, ⟨hB.epi_size, hB.epi_alloc, hB.first, hB.first_pa, hB.lo, hB.next, hB.prev,
    hB.disj, ?_, nodup_cons (nodup_freeLive p hB.live_nodup) hnl, ?_, ?_, hB.fr_hdr⟩, hl, ?_⟩
  · intro x m hx
    rcases List.mem_cons.mp hx with h | h
    · have e1 := (Prod.mk.inj h).1
      have e2 := (Prod.mk.inj h).2
      subst e1 e2
      obtain ⟨k, hk⟩ := hp
      exact ⟨(hB.live_blk x k hk).1, hn⟩
    · exact hB.live_blk x m ((mem_freeLive L p x m).mp h).1
  · intro x hx
    exact hB.live_hdr x ((hiff x).mp hx)
  · intro x hx
    exact ⟨(hB.fr_blk x hx).1, fun h => (hB.fr_blk x hx).2 ((hiff x).mp h)⟩
  · intro x hx
    rcases full x hx with h | h
    · exact Or.inl ((hiff x).mpr h)
    · exact Or.inr h

end MM


set_option linter.unusedVariables false
set_option linter.unusedTactic false
set_option linter.unreachableTactic false

namespace MM

/-! ## `realloc` and `calloc` -/

theorem realloc_newSize_val (n : Nat) (h : n + 15 < SZ) :
    realloc_newSize n = if n ≤ 12 then 16 else 8 * ((n + 11) / 8) := by
  unfold realloc_newSize ALIGN
  simp only [DSIZE, WSIZE, SZ] at *
  split
  · rfl
  · rw [Nat.mod_eq_of_lt (show n + 4 < 18446744073709551616 by omega),
      Nat.mod_eq_of_lt (show n + 4 + (8 - 1) < 18446744073709551616 by omega),
      and_mask8_64 _ (by omega)]

theorem realloc_newSize_ge (n : Nat) (h : n + 15 < SZ) :
    n + 4 ≤ realloc_newSize n ∧ realloc_newSize n % 8 = 0
      ∧ realloc_newSize n ≤ malloc_asize n := by
  rw [realloc_newSize_val n h, malloc_asize_val n h]
  split <;> omega

theorem realloc_null_ptr (fuel : Nat) (s : Heap) (n : Nat) :
    realloc fuel s 0 n = malloc fuel s n := by
  unfold realloc
  rw [if_pos rfl]

theorem realloc_zero_size (fuel : Nat) (s : Heap) (ptr : Nat) (hp : ptr ≠ 0) :
    realloc fuel s ptr 0 = some (0, free s ptr) := by
  unfold realloc
  rw [if_neg hp, if_pos rfl]

theorem realloc_unfold (fuel : Nat) (s : Heap) (ptr n : Nat) (hp : ptr ≠ 0) (hn : n ≠ 0) :
    realloc fuel s ptr n
      = if realloc_newSize n ≤ bsize s ptr then some (ptr, s)
        else match malloc fuel s n with
          | none => none
          | some (p, s1) =>
            if p = 0 then some (0, s1)
            else some (p, free (memcpy s1 p ptr (bsize s ptr)) ptr) := by
  unfold realloc
  rw [if_neg hp, if_neg hn]
  lift_lets
  extract_lets oldSize pav newSize asz
  have ho : oldSize = bsize s ptr := rfl
  have hnw : newSize = realloc_newSize n := rfl
  have hz : asz = 0 := rfl
  clear_value oldSize newSize asz
  subst ho hnw hz
  intro a1 a2 a3 a4 a5 a6 a7
  by_cases h : realloc_newSize n ≤ bsize s ptr
  · rw [if_pos h, if_pos h]
  · rw [if_neg h, if_neg h, if_neg (fun hc => h (le_trans hc.1 (Nat.zero_le _)))]
    try rfl

/-- A live pointer is not `NULL` and is aligned to eight bytes. -/
theorem live_ptr {s : Heap} {L : List (Nat × Nat)} {g : Ghost} (hI : Inv s L g) {p : Nat}
    (hp : isLive L p) : p ≠ 0 ∧ p % 8 = 0 := by
  obtain ⟨n, hn⟩ := hp
  have := hI.blocks.lo p (hI.blocks.live_blk p n hn).1
  omega

/-- Every pointer `realloc` returns is a multiple of eight. -/
theorem realloc_aligned {s : Heap} {L : List (Nat × Nat)} {g : Ghost} (hI : Inv s L g)
    (ptr n fuel q : Nat) (s' : Heap) (hp : ptr = 0 ∨ isLive L ptr)
    (h : realloc fuel s ptr n = some (q, s')) : q % 8 = 0 := by
  rcases hp with hp | hp
  · rw [hp, realloc_null_ptr] at h
    exact malloc_aligned hI n fuel q s' h
  · have hl := live_ptr hI hp
    by_cases hn : n = 0
    · rw [hn, realloc_zero_size fuel s ptr hl.1] at h
      rw [← (Prod.mk.inj (Option.some.inj h)).1]
    · rw [realloc_unfold fuel s ptr n hl.1 hn] at h
      by_cases hsz : realloc_newSize n ≤ bsize s ptr
      · rw [if_pos hsz] at h
        rw [← (Prod.mk.inj (Option.some.inj h)).1]
        exact hl.2
      · rw [if_neg hsz] at h
        cases hm : malloc fuel s n with
        | none => rw [hm] at h; exact absurd h (by simp)
        | some r =>
          obtain ⟨p, s1⟩ := r
          rw [hm] at h
          simp only at h
          have hal := malloc_aligned hI n fuel p s1 hm
          by_cases hp0 : p = 0
          · rw [if_pos hp0] at h
            rw [← (Prod.mk.inj (Option.some.inj h)).1]
          · rw [if_neg hp0] at h
            rw [← (Prod.mk.inj (Option.some.inj h)).1]
            exact hal

/-- With enough fuel for the search `realloc` returns. -/
theorem realloc_total {s : Heap} {L : List (Nat × Nat)} {g : Ghost} (hI : Inv s L g)
    (ptr n : Nat) : ∃ N, ∀ fuel, N ≤ fuel → ∃ r, realloc fuel s ptr n = some r := by
  obtain ⟨N, hN⟩ := malloc_total hI n
  refine ⟨N, fun fuel hf => ?_⟩
  obtain ⟨r, hr⟩ := hN fuel hf
  by_cases hp : ptr = 0
  · rw [hp, realloc_null_ptr]; exact ⟨r, hr⟩
  · by_cases hn : n = 0
    · rw [hn, realloc_zero_size fuel s ptr hp]; exact ⟨_, rfl⟩
    · rw [realloc_unfold fuel s ptr n hp hn, hr]
      split
      · exact ⟨_, rfl⟩
      · simp only
        split
        · exact ⟨_, rfl⟩
        · exact ⟨_, rfl⟩

end MM


set_option linter.unusedVariables false
set_option linter.unusedTactic false
set_option linter.unreachableTactic false

namespace MM

theorem freeLive_cons_ne (L : List (Nat × Nat)) (p q n : Nat) (h : q ≠ p) :
    freeLive ((q, n) :: L) p = (q, n) :: freeLive L p := by
  unfold freeLive
  rw [List.filter_cons]
  simp [h]

theorem memcpy_mem_in (s : Heap) (d src k a : Nat) (h1 : d ≤ a) (h2 : a < d + k) :
    (memcpy s d src k).mem a = s.mem (src + (a - d)) := by
  show (if d ≤ a ∧ a < d + k then _ else _) = _
  rw [if_pos ⟨h1, h2⟩]

theorem memcpy_mem_out (s : Heap) (d src k a : Nat) (h : a < d ∨ d + k ≤ a) :
    (memcpy s d src k).mem a = s.mem a := by
  show (if d ≤ a ∧ a < d + k then _ else _) = _
  rw [if_neg (by omega)]

/-- A call of `realloc` for at most `2 ^ 64 - 16` bytes keeps the invariant
and updates the live table; when it returns a pointer for a live block, the
bytes the caller asked for in both requests are the same as before. -/
theorem realloc_spec {s : Heap} {L : List (Nat × Nat)} {g : Ghost} (hI : Inv s L g)
    (ptr n : Nat) (hp : ptr = 0 ∨ isLive L ptr) (hlt : n + 15 < SZ) (fuel q : Nat) (s' : Heap)
    (h : realloc fuel s ptr n = some (q, s')) :
    (∃ g', Inv s' (reallocLive L ptr n q) g')
      ∧ ∀ m i, (ptr, m) ∈ L → q ≠ 0 → i < m → i < n → s'.mem (q + i) = s.mem (ptr + i) := by
  unfold reallocLive
  rcases hp with hp | hp
  · rw [hp, realloc_null_ptr] at h
    obtain ⟨g', hI', -⟩ := malloc_spec hI n hlt fuel q s' h
    rw [if_pos hp]
    refine ⟨⟨g', hI'⟩, fun m i hm => ?_⟩
    exact absurd hp (live_ptr hI ⟨m, hm⟩).1
  · have hl := live_ptr hI hp
    rw [if_neg hl.1]
    by_cases hn : n = 0
    · rw [hn, realloc_zero_size fuel s ptr hl.1] at h
      have e2 := (Prod.mk.inj (Option.some.inj h)).2
      rw [if_pos hn, ← e2]
      obtain ⟨g', hI', -⟩ := free_spec hI hp
      exact ⟨⟨g', hI'⟩, fun m i _ _ _ hi => absurd hi (by omega)⟩
    · rw [if_neg hn]
      have hge := realloc_newSize_ge n hlt
      rw [realloc_unfold fuel s ptr n hl.1 hn] at h
      by_cases hsz : realloc_newSize n ≤ bsize s ptr
      · rw [if_pos hsz] at h
        have e1 := (Prod.mk.inj (Option.some.inj h)).1
        have e2 := (Prod.mk.inj (Option.some.inj h)).2
        rw [← e1, ← e2, if_neg hl.1]
        exact ⟨⟨g, relabel n hI hp (le_trans hge.1 hsz)⟩, fun _ _ _ _ _ _ => rfl⟩
      · rw [if_neg hsz] at h
        cases hm : malloc fuel s n with
        | none => rw [hm] at h; exact absurd h (by simp)
        | some r =>
          obtain ⟨p, s1⟩ := r
          rw [hm] at h
          simp only at h
          obtain ⟨g1, hI1, hK1, -, -, -, hnew⟩ := malloc_spec hI n hlt fuel p s1 hm
          by_cases hp0 : p = 0
          · rw [if_pos hp0] at h
            have e1 := (Prod.mk.inj (Option.some.inj h)).1
            have e2 := (Prod.mk.inj (Option.some.inj h)).2
            rw [hp0, allocLive_null] at hI1
            rw [← e1, ← e2, if_pos rfl]
            exact ⟨⟨g1, hI1⟩, fun _ _ _ h0 => absurd rfl h0⟩
          · rw [if_neg hp0] at h
            have e1 := (Prod.mk.inj (Option.some.inj h)).1
            have e2 := (Prod.mk.inj (Option.some.inj h)).2
            rw [allocLive_pos L p n hp0] at hI1
            have hnew' := hnew hp0
            have hpq : p ≠ ptr := fun e => hnew'.1 (e ▸ hp)
            have hF8 := bsize_mod s ptr
            have hb1 := bsize_mod s1 p
            have hold : bsize s ptr + 4 ≤ bsize s1 p := by
              have h3 := hnew'.2
              clear * - hsz hge h3 hF8 hb1
              omega
            have hlive1 : isLive ((p, n) :: L) p := (isLive_cons L p n p).mpr (Or.inl rfl)
            obtain ⟨hI2, hK2, hb2⟩ := @payload_write s1 (memcpy s1 p ptr (bsize s ptr))
              ((p, n) :: L) g1 p hI1 hlive1 ⟨rfl, rfl, rfl, rfl⟩
              (fun a ha => memcpy_mem_out s1 p ptr _ a (by clear * - ha hold; omega))
            have hlive2 : isLive ((p, n) :: L) ptr := (isLive_cons L p n ptr).mpr (Or.inr hp)
            obtain ⟨g3, hI3, hK3, -⟩ := free_spec hI2 hlive2
            rw [freeLive_cons_ne L ptr p n hpq] at hI3 hK3
            rw [← e1, ← e2, if_neg hp0]
            refine ⟨⟨g3, hI3⟩, fun m i hm _ him hin => ?_⟩
            have hnb := (hI1.blocks.live_blk p n (List.mem_cons_self _ _)).2
            have hmb := (hI.blocks.live_blk ptr m hm).2
            have k3 := (hK3 p ((isLive_cons _ p n p).mpr (Or.inl rfl))).2 (p + i)
              (Nat.le_add_right _ _) (by rw [hb2]; clear * - hin hnb; omega)
            have k1 := (hK1 ptr hp).2 (ptr + i) (Nat.le_add_right _ _)
              (by clear * - him hmb; omega)
            rw [k3, memcpy_mem_in s1 p ptr _ (p + i) (Nat.le_add_right _ _)
              (by clear * - him hmb; omega), Nat.add_sub_cancel_left, k1]

end MM


set_option linter.unusedVariables false
set_option linter.unusedTactic false
set_option linter.unreachableTactic false

namespace MM

/-! ## `mm_init` -/

theorem heap_ext (s s' : Heap) (h1 : s'.mem = s.mem) (h2 : SameGlobals s s') : s' = s := by
  obtain ⟨m, b, x, l, k⟩ := s
  obtain ⟨m', b', x', l', k'⟩ := s'
  obtain ⟨e1, e2, e3, e4⟩ := h2
  simp only at h1 e1 e2 e3 e4
  subst h1 e1 e2 e3 e4
  rfl

/-- The loop of `mm_init` that writes the sentinels of the first `k` lists. -/
theorem init_loop (s : Heap) (k : Nat) (hk : k ≤ 12) :
    SameGlobals s ((List.range k).foldl
      (fun s i =>
        let s := PUT s (s.heap_listp + i * DSIZE) (PACK (i * DSIZE + DSIZE) 0 0 0)
        PUT s (s.heap_listp + i * DSIZE + WSIZE) (PACK (i * DSIZE + DSIZE) 0 0 0)) s)
    ∧ (∀ i, i < k →
        GET ((List.range k).foldl
          (fun s i =>
            let s := PUT s (s.heap_listp + i * DSIZE) (PACK (i * DSIZE + DSIZE) 0 0 0)
            PUT s (s.heap_listp + i * DSIZE + WSIZE) (PACK (i * DSIZE + DSIZE) 0 0 0)) s)
          (s.heap_listp + 8 * i) = 8 * i + 8
        ∧ GET ((List.range k).foldl
          (fun s i =>
            let s := PUT s (s.heap_listp + i * DSIZE) (PACK (i * DSIZE + DSIZE) 0 0 0)
            PUT s (s.heap_listp + i * DSIZE + WSIZE) (PACK (i * DSIZE + DSIZE) 0 0 0)) s)
          (s.heap_listp + 8 * i + 4) = 8 * i + 8)
    ∧ ∀ a, (a < s.heap_listp ∨ s.heap_listp + 8 * k ≤ a) →
        ((List.range k).foldl
          (fun s i =>
            let s := PUT s (s.heap_listp + i * DSIZE) (PACK (i * DSIZE + DSIZE) 0 0 0)
            PUT s (s.heap_listp + i * DSIZE + WSIZE) (PACK (i * DSIZE + DSIZE) 0 0 0)) s).mem a
          = s.mem a := by
  induction k with
  | zero =>
    refine ⟨⟨rfl, rfl, rfl, rfl⟩, fun i hi => absurd hi (by omega), fun a _ => rfl⟩
  | succ k ih =>
    obtain ⟨hG, hget, hmem⟩ := ih (by omega)
    rw [List.range_succ, List.foldl_append]
    generalize (List.range k).foldl
      (fun s i =>
        let s := PUT s (s.heap_listp + i * DSIZE) (PACK (i * DSIZE + DSIZE) 0 0 0)
        PUT s (s.heap_listp + i * DSIZE + WSIZE) (PACK (i * DSIZE + DSIZE) 0 0 0)) s = sk
      at hG hget hmem ⊢
    have hv : PACK (k * DSIZE + DSIZE) 0 0 0 = 8 * k + 8 := by
      rw [PACK_eq _ 0 0 (by simp only [DSIZE]; omega) (Or.inl rfl) (by omega)]
      simp only [DSIZE]; omega
    have hstep : List.foldl
        (fun s i =>
          let s := PUT s (s.heap_listp + i * DSIZE) (PACK (i * DSIZE + DSIZE) 0 0 0)
          PUT s (s.heap_listp + i * DSIZE + WSIZE) (PACK (i * DSIZE + DSIZE) 0 0 0)) sk [k]
        = PUT (PUT sk (s.heap_listp + 8 * k) (8 * k + 8)) (s.heap_listp + 8 * k + 4)
            (8 * k + 8) := by
      show PUT (PUT sk (sk.heap_listp + k * DSIZE) (PACK (k * DSIZE + DSIZE) 0 0 0))
        ((PUT sk (sk.heap_listp + k * DSIZE) (PACK (k * DSIZE + DSIZE) 0 0 0)).heap_listp
          + k * DSIZE + WSIZE) (PACK (k * DSIZE + DSIZE) 0 0 0) = _
      rw [PUT_heap_listp, hG.2.2.1, hv, show k * DSIZE = 8 * k by simp only [DSIZE]; omega]
    rw [hstep]
    refine ⟨⟨hG.1, hG.2.1, hG.2.2.1, hG.2.2.2⟩, ?_, ?_⟩
    · intro i hi
      by_cases hik : i = k
      · subst hik
        refine ⟨?_, ?_⟩
        · rw [GET_PUT_other _ _ _ _ (by omega), GET_PUT_same]; omega
        · rw [GET_PUT_same]; omega
      · rw [GET_PUT_other _ _ _ _ (by omega), GET_PUT_other _ _ _ _ (by omega),
          GET_PUT_other _ _ _ _ (by omega), GET_PUT_other _ _ _ _ (by omega)]
        exact hget i (by omega)
    · intro a ha
      rw [PUT_mem_other _ _ _ _ (by omega), PUT_mem_other _ _ _ _ (by omega)]
      exact hmem a (by omega)

end MM


set_option linter.unusedVariables false
set_option linter.unusedTactic false
set_option linter.unreachableTactic false

namespace MM

theorem mm_init_fail (s0 : Heap) (hfit : ¬ s0.brk + 112 ≤ s0.max_addr) :
    (mm_init s0).1 = -1 := by
  unfold mm_init
  lift_lets
  extract_lets sz r s1 s2 s3 s4 s5 s6 s7 s8 sE rE
  have hr : r = (SZ - 1, s0) := by
    show mem_sbrk s0 112 = _
    unfold mem_sbrk
    rw [if_neg hfit]
  have h1 : s2.heap_listp = SZ - 1 := by
    show r.1 = _
    rw [hr]
  rw [if_pos h1]

/-- The state `mm_init` builds before it extends the heap for the first
time. -/
theorem mm_init_pre (s0 : Heap) (h0 : 0 < s0.brk) (h8 : s0.brk % 8 = 0)
    (hfit : s0.brk + 112 ≤ s0.max_addr) :
    ∃ sE, mm_init s0
        = (if (extend_heap sE (CHUNKSIZE * 8 / WSIZE)).1 = 0
            then (-1, (extend_heap sE (CHUNKSIZE * 8 / WSIZE)).2)
            else (0, (extend_heap sE (CHUNKSIZE * 8 / WSIZE)).2))
      ∧ sE.brk = s0.brk + 112 ∧ sE.max_addr = s0.max_addr ∧ sE.heap_listp = s0.brk + 8
      ∧ sE.heap_basep = s0.brk
      ∧ GET sE s0.brk = 0 ∧ GET sE (s0.brk + 4) = 107 ∧ GET sE (s0.brk + 108) = 3
      ∧ ∀ i, i < 12 → GET sE (s0.brk + 8 + 8 * i) = 8 * i + 8
          ∧ GET sE (s0.brk + 8 + 8 * i + 4) = 8 * i + 8 := by
  unfold mm_init
  lift_lets
  extract_lets sz r s1 s2 s3 s4 s5 s6 s7 s8 sE rE
  have hr : r = (s0.brk, { s0 with brk := s0.brk + 112 }) := by
    show mem_sbrk s0 112 = _
    unfold mem_sbrk
    rw [if_pos hfit]
  have h2 : s2 = { s0 with brk := s0.brk + 112, heap_listp := s0.brk } := by
    show ({ r.2 with heap_listp := r.1 } : Heap) = _
    rw [hr]
  have hl2 : s2.heap_listp = s0.brk := by rw [h2]
  rw [if_neg (by rw [hl2]; simp only [SZ]; omega)]
  have h6 : s6 = PUT (PUT (PUT (PUT s2 s0.brk 0) (s0.brk + 4) 107) (s0.brk + 104) 107)
      (s0.brk + 108) 3 := by
    show PUT (PUT (PUT (PUT s2 s2.heap_listp 0) (s2.heap_listp + 1 * WSIZE)
      (PACK (112 - DSIZE) 0 2 1)) (s2.heap_listp + 112 - DSIZE) (PACK (112 - DSIZE) 0 2 1))
      (s2.heap_listp + 112 - WSIZE) (PACK 0 0 2 1) = _
    rw [hl2]
    rfl
  have hG6 : s6.brk = s0.brk + 112 ∧ s6.max_addr = s0.max_addr ∧ s6.heap_listp = s0.brk := by
    rw [h6, h2]
    exact ⟨rfl, rfl, rfl⟩
  have w0 : GET s6 s0.brk = 0 := by
    rw [h6, GET_PUT_other _ _ _ _ (by omega), GET_PUT_other _ _ _ _ (by omega),
      GET_PUT_other _ _ _ _ (by omega), GET_PUT_same]
  have w4 : GET s6 (s0.brk + 4) = 107 := by
    rw [h6, GET_PUT_other _ _ _ _ (by omega), GET_PUT_other _ _ _ _ (by omega), GET_PUT_same]
  have w108 : GET s6 (s0.brk + 108) = 3 := by
    rw [h6, GET_PUT_same]
  have h8' : s8.heap_listp = s0.brk + 8 := by
    show s6.heap_listp + DSIZE = _
    rw [hG6.2.2]
  obtain ⟨hGE, hget, hmem⟩ := init_loop s8 12 (le_refl _)
  have hE : (List.range 12).foldl
      (fun s i =>
        let s := PUT s (s.heap_listp + i * DSIZE) (PACK (i * DSIZE + DSIZE) 0 0 0)
        PUT s (s.heap_listp + i * DSIZE + WSIZE) (PACK (i * DSIZE + DSIZE) 0 0 0)) s8 = sE := rfl
  rw [hE, h8'] at hget hmem
  rw [hE] at hGE
  have h86 : ∀ a, s8.mem a = s6.mem a := fun a => rfl
  have hout : ∀ a, (a + 4 ≤ s0.brk + 8 ∨ s0.brk + 104 ≤ a) → GET sE a = GET s6 a := by
    intro a ha
    apply GET_congr_mem
    intro k hk
    rw [hmem (a + k) (by omega), h86]
  have hb8 : s8.brk = s0.brk + 112 := hG6.1
  have hm8 : s8.max_addr = s0.max_addr := hG6.2.1
  have hp8 : s8.heap_basep = s0.brk := hG6.2.2
  clear_value sE s8 s6 s2 r
  refine ⟨sE, rfl, ?_, ?_, ?_, ?_, ?_, ?_, ?_, hget⟩
  · rw [hGE.1]; exact hb8
  · rw [hGE.2.1]; exact hm8
  · rw [hGE.2.2.1]; exact h8'
  · rw [hGE.2.2.2]; exact hp8
  · rw [hout _ (by omega)]; exact w0
  · rw [hout _ (by omega)]; exact w4
  · rw [hout _ (by omega)]; exact w108

end MM


set_option linter.unusedVariables false
set_option linter.unusedTactic false
set_option linter.unreachableTactic false

namespace MM

/-- The heap without any block, as `mm_init` lays it out, satisfies the
invariant. -/
theorem empty_inv (s : Heap) (b : Nat) (h0 : 0 < b) (h8 : b % 8 = 0)
    (hbrk : s.brk = b + 112) (hmax : s.brk ≤ s.max_addr) (hhi : s.max_addr ≤ b + 4294967296)
    (hlistp : s.heap_listp = b + 8) (hbase : s.heap_basep = b)
    (w0 : GET s b = 0) (w4 : GET s (b + 4) = 107) (w108 : GET s (b + 108) = 3)
    (hs : ∀ i, i < 12 → GET s (b + 8 + 8 * i) = 8 * i + 8
      ∧ GET s (b + 8 + 8 * i + 4) = 8 * i + 8) :
    Inv s [] (Ghost.mk (fun _ => False) (fun _ => False) (fun x => (x - (b + 8)) / 8)
      (fun _ => 0)) := by
  have hnode : ∀ x, isNode s (Ghost.mk (fun _ => False) (fun _ => False)
      (fun x => (x - (b + 8)) / 8) (fun _ => 0)) x →
      NEXT_FREE_P s x = x ∧ PREV_FREE_P s x = x := by
    rintro x (⟨i, hi, rfl⟩ | hx)
    · rw [NEXT_FREE_P_def, PREV_FREE_P_def, hbase, (hs i hi).1, (hs i hi).2]
      omega
    · exact absurd hx (fun h => h)
  refine ⟨?_, ?_, ?_, fun x hx => absurd hx (fun h => h)⟩
  · refine ⟨by rw [hbase]; exact h0, by rw [hbase]; exact h8, by rw [hlistp, hbase],
      by rw [hbrk]; omega, by rw [hbase, hbrk], hmax, by rw [hbase]; exact hhi,
      by rw [hbase]; exact w0, ?_⟩
    rw [hbase, GET_SIZE_eq, w4]
  · refine ⟨?_, ?_, ?_, ?_, fun x hx => absurd hx (fun h => h),
      fun x hx => absurd hx (fun h => h), ?_, fun p q hp => absurd hp (fun h => h),
      fun p n hp => absurd hp (List.not_mem_nil _), List.Pairwise.nil, ?_,
      fun x hx => absurd hx (fun h => h), fun x hx => absurd hx (fun h => h)⟩
    · rw [hbrk, GET_SIZE_eq, show b + 112 - 4 = b + 108 by omega, w108]
    · rw [hbrk, GET_ALLOC_eq, show b + 112 - 4 = b + 108 by omega, w108]
    · right; rw [hbase, hbrk]
    · rw [hbase, GET_PREV_ALLOC_eq, w108]
    · rintro x (hx | hx) hne
      · exact absurd hx (fun h => h)
      · rw [hx, hbrk, hbase] at hne
        exact absurd rfl hne
    · rintro p ⟨n, hn⟩
      exact absurd hn (List.not_mem_nil _)
  · refine ⟨?_, fun x hx => absurd hx (fun h => h), fun x hx => absurd hx (fun h => h), ?_, ?_⟩
    · intro i hi
      show (s.heap_basep + 8 + 8 * i - (b + 8)) / 8 = i
      rw [hbase]
      omega
    · intro x hx
      rw [(hnode x hx).1, (hnode x hx).2]
      exact ⟨hx, rfl, rfl, fun h => absurd h (fun h => h)⟩
    · intro x hx
      rw [(hnode x hx).2, (hnode x hx).1]
      exact ⟨hx, rfl⟩

/-- A successful `mm_init` establishes the invariant with an empty live
table. -/
theorem mm_init_spec (s0 s : Heap) (h0 : 0 < s0.brk) (h8 : s0.brk % 8 = 0)
    (hhi : s0.max_addr ≤ s0.brk + 4294967296) (h : mm_init s0 = (0, s)) :
    ∃ g, Inv s [] g := by
  by_cases hfit : s0.brk + 112 ≤ s0.max_addr
  · obtain ⟨sE, heq, hbrk, hmax, hlistp, hbase, w0, w4, w108, hs⟩ :=
      mm_init_pre s0 h0 h8 hfit
    have hI := empty_inv sE s0.brk h0 h8 hbrk (by rw [hbrk, hmax]; exact hfit)
      (by rw [hmax]; exact hhi) hlistp hbase w0 w4 w108 hs
    rw [heq] at h
    have hsize : (if (CHUNKSIZE * 8 / WSIZE) % 2 ≠ 0
        then ((CHUNKSIZE * 8 / WSIZE + 1) * WSIZE) % SZ
        else (CHUNKSIZE * 8 / WSIZE * WSIZE) % SZ) = 4096 := by decide
    by_cases hfit2 : sE.brk + 4096 ≤ sE.max_addr
    · obtain ⟨g', hI', hfr, -⟩ := extend_heap_spec _ _ hI hsize (by omega) (by omega) hfit2
      rw [if_neg (fr_ptr hI'.lists hfr).1] at h
      rw [← (Prod.mk.inj h).2]
      exact ⟨g', hI'⟩
    · rw [extend_heap_fail sE _ _ hsize hfit2, if_pos rfl] at h
      have h1 : (-1 : Int) = 0 := (Prod.mk.inj h).1
      exact absurd h1 (by decide)
  · have := mm_init_fail s0 hfit
    rw [h] at this
    have h1 : (0 : Int) = -1 := this
    exact absurd h1 (by decide)

end MM


set_option linter.unusedVariables false
set_option linter.unusedTactic false
set_option linter.unreachableTactic false

namespace MM

/-! ## `calloc`, caller stores and reachable states -/

theorem memset_some (s : Heap) (dst c n : Nat) (s' : Heap) (h : memset s dst c n = some s') :
    ¬ (dst = 0 ∧ 0 < n) ∧ SameGlobals s s'
      ∧ ∀ a, s'.mem a = if dst ≤ a ∧ a < dst + n then c % 256 else s.mem a := by
  unfold memset at h
  by_cases hc : 0 < n ∧ (dst = 0 ∨ s.max_addr < dst + n)
  · rw [if_pos hc] at h
    exact absurd h (by simp)
  · rw [if_neg hc] at h
    have e := Option.some.inj h
    subst e
    exact ⟨fun h0 => hc ⟨h0.2, Or.inl h0.1⟩, ⟨rfl, rfl, rfl, rfl⟩, fun a => rfl⟩

theorem calloc_some (fuel : Nat) (s : Heap) (nmemb size p : Nat) (s' : Heap)
    (h : calloc fuel s nmemb size = some (p, s')) :
    ∃ s1, malloc fuel s (nmemb * size % SZ) = some (p, s1)
      ∧ memset s1 p 0 (nmemb * size % SZ) = some s' := by
  unfold calloc at h
  simp only at h
  cases hm : malloc fuel s (nmemb * size % SZ) with
  | none => rw [hm] at h; exact absurd h (by simp)
  | some r =>
    obtain ⟨q, s1⟩ := r
    rw [hm] at h
    simp only at h
    cases hs : memset s1 q 0 (nmemb * size % SZ) with
    | none => rw [hs] at h; exact absurd h (by simp)
    | some s2 =>
      rw [hs] at h
      simp only at h
      have e := Option.some.inj h
      have e1 := (Prod.mk.inj e).1
      have e2 := (Prod.mk.inj e).2
      subst e1 e2
      exact ⟨s1, rfl, hs⟩

/-- A call of `calloc` for at most `2 ^ 64 - 16` bytes that returns keeps the
invariant and enters the returned pointer in the live table. -/
theorem calloc_spec {s : Heap} {L : List (Nat × Nat)} {g : Ghost} (hI : Inv s L g)
    (nmemb size : Nat) (hlt : nmemb * size % SZ + 15 < SZ) (fuel p : Nat) (s' : Heap)
    (h : calloc fuel s nmemb size = some (p, s')) :
    ∃ g', Inv s' (allocLive L p (nmemb * size % SZ)) g' := by
  obtain ⟨s1, hm, hs⟩ := calloc_some fuel s nmemb size p s' h
  obtain ⟨g1, hI1, -⟩ := malloc_spec hI _ hlt fuel p s1 hm
  obtain ⟨hc, hG, hmem⟩ := memset_some s1 p 0 _ s' hs
  by_cases hp : p = 0
  · have hb : nmemb * size % SZ = 0 := by
      by_contra hne
      exact hc ⟨hp, by omega⟩
    have e : s' = s1 := by
      apply heap_ext s1 s' _ hG
      funext a
      rw [hmem a, hb, if_neg (by omega)]
    rw [e]
    exact ⟨g1, hI1⟩
  · rw [allocLive_pos L p _ hp] at hI1 ⊢
    have hlive : isLive ((p, nmemb * size % SZ) :: L) p := (isLive_cons L p _ p).mpr (Or.inl rfl)
    have hnb := (hI1.blocks.live_blk p _ (List.mem_cons_self _ _)).2
    obtain ⟨hI2, -⟩ := payload_write hI1 hlive hG
      (fun a ha => by rw [hmem a, if_neg (by clear * - ha hnb; omega)])
    exact ⟨g1, hI2⟩

/-- A store by the caller into bytes it asked for keeps the invariant. -/
theorem store_spec {s : Heap} {L : List (Nat × Nat)} {g : Ghost} (hI : Inv s L g)
    (p n a v : Nat) (hp : (p, n) ∈ L) (h1 : p ≤ a) (h2 : a < p + n) :
    Inv (store s a v) L g := by
  have hnb := (hI.blocks.live_blk p n hp).2
  have h := @payload_write s (store s a v) L g p hI ⟨n, hp⟩ ⟨rfl, rfl, rfl, rfl⟩
    (fun x hx => by
      show (if x = a then v else s.mem x) = s.mem x
      rw [if_neg (by clear * - hx h1 h2 hnb; omega)])
  exact h.1

/-- Every reachable state satisfies the invariant. -/
theorem Reach.inv {s : Heap} {L : List (Nat × Nat)} (h : Reach s L) : ∃ g, Inv s L g := by
  induction h with
  | init s0 s h0 h8 hhi hinit => exact mm_init_spec s0 s h0 h8 hhi hinit
  | malloc fuel s s' L n p _ hn hm ih =>
    obtain ⟨g, hI⟩ := ih
    obtain ⟨g', hI', -⟩ := malloc_spec hI n hn fuel p s' hm
    exact ⟨g', hI'⟩
  | free s L p _ hp ih =>
    obtain ⟨g, hI⟩ := ih
    by_cases h0 : p = 0
    · rw [h0, free_null]
      have e : freeLive L 0 = L := by
        unfold freeLive
        rw [List.filter_eq_self]
        intro a ha
        have := (live_ptr hI ⟨a.2, ha⟩).1
        simpa using this
      rw [e]
      exact ⟨g, hI⟩
    · rcases hp with hp | hp
      · exact absurd hp h0
      · obtain ⟨g', hI', -⟩ := free_spec hI hp
        exact ⟨g', hI'⟩
  | realloc fuel s s' L ptr n q _ hp hn hr ih =>
    obtain ⟨g, hI⟩ := ih
    exact (realloc_spec hI ptr n hp hn fuel q s' hr).1
  | calloc fuel s s' L nmemb size p _ hn hc ih =>
    obtain ⟨g, hI⟩ := ih
    exact calloc_spec hI nmemb size hn fuel p s' hc
  | store s L p n a v _ hp h1 h2 ih =>
    obtain ⟨g, hI⟩ := ih
    exact ⟨g, store_spec hI p n a v hp h1 h2⟩

end MM


set_option linter.unusedVariables false
set_option linter.unusedTactic false
set_option linter.unreachableTactic false

namespace MM

/-! ## Payload bytes and the allocator's own data -/

/-- The bytes a caller asked for hold none of the allocator's own data. -/
theorem payload_not_meta {s : Heap} {L : List (Nat × Nat)} {g : Ghost} (hI : Inv s L g)
    {p n a : Nat} (hp : (p, n) ∈ L) (h1 : p ≤ a) (h2 : a < p + n) : ¬ isMeta s g a := by
  have hB := hI.blocks
  have hblk := (hB.live_blk p n hp).1
  have hnb := (hB.live_blk p n hp).2
  have hlo := hB.lo p hblk
  unfold isMeta
  rintro (h | ⟨x, hx, h3, h4⟩ | ⟨x, hx, h3⟩)
  · clear * - h hlo h1; omega
  · rcases hx with hx | hx
    · have := hB.inside hx hblk (by clear * - h1 h4; omega) (by clear * - h2 h3 hnb; omega)
      clear * - this h1 h4; omega
    · clear * - hx h3 h2 hnb hlo; omega
  · have hxb := (hB.fr_blk x hx).1
    have hne : x ≠ p := fun e => (hB.fr_blk x hx).2 ⟨n, e ▸ hp⟩
    have hxlo := hB.lo x hxb
    rcases hB.outside hxb hblk hne with h | h
    · have := hB.disj x p hxb hblk h
      clear * - this h3 h1 hxlo; omega
    · clear * - h h3 h2 hnb hxlo; omega

/-! ## Reachable example states -/

theorem eq_some_of (r : Option (Nat × Heap)) (p : Nat) (h : r.isSome = true)
    (hp : ptrOf r = p) : r = some (p, stOf r) := by
  cases r with
  | none => simp at h
  | some x => subst hp; rfl

theorem reach_heap1 : Reach heap1 [] :=
  Reach.init heap0 heap1 (by decide) (by decide) (by decide) (Prod.ext (by decide) rfl)

set_option maxRecDepth 100000 in
theorem reach_a : Reach (stOf ex_a) [(8304, 100)] :=
  Reach.malloc 20 heap1 (stOf ex_a) [] 100 8304 reach_heap1 (by decide)
    (eq_some_of _ _ (by decide) (by decide))

set_option maxRecDepth 100000 in
theorem reach_ab : Reach (stOf ex_b) [(8416, 100), (8304, 100)] :=
  Reach.malloc 20 (stOf ex_a) (stOf ex_b) [(8304, 100)] 100 8416 reach_a (by decide)
    (eq_some_of _ _ (by decide) (by decide))

end MM


set_option linter.unusedVariables false
set_option linter.unusedTactic false
set_option linter.unreachableTactic false
namespace MM

/-- C7 (as stated, refuted): for a request of 20 bytes `realloc` computes the
target size 24 while `malloc` computes the adjusted size 32. -/
theorem C7_sizes_differ_at_20 :
    ¬ (realloc_newSize 20 = malloc_asize 20) := by decide

/-- C7 (amended): for every request `n > 0` that does not wrap around,
`realloc` targets 16 bytes for `n ≤ 12` and `n + 4` rounded up to a multiple of
8 otherwise, `malloc` adjusts to 16 bytes for `n ≤ 12` and to `n + 8` rounded up
to a multiple of 8 otherwise; the target of `realloc` is the adjusted size of
`malloc` or 8 bytes less, and the two agree exactly when `n ≤ 12` or
`n mod 8` is 0, 5, 6 or 7. -/
theorem C7_realloc_target_vs_malloc_adjusted (n : Nat) (h0 : 0 < n) (h : n + 15 < SZ) :
    realloc_newSize n = (if n ≤ 12 then 16 else 8 * ((n + 11) / 8))
    ∧ malloc_asize n = (if n ≤ 12 then 16 else 8 * ((n + 15) / 8))
    ∧ realloc_newSize n ≤ malloc_asize n
    ∧ malloc_asize n ≤ realloc_newSize n + 8
    ∧ (realloc_newSize n = malloc_asize n ↔ (n ≤ 12 ∨ n % 8 = 0 ∨ 5 ≤ n % 8)) := by
  rw [malloc_asize_val n h, realloc_newSize_val n h]
  refine ⟨rfl, rfl, ?_, ?_, ?_⟩ <;> split <;> omega

theorem C7_realloc_target_vs_malloc_adjusted_witness :
    0 < 20 ∧ 20 + 15 < SZ
    ∧ realloc_newSize 20 = (if 20 ≤ 12 then 16 else 8 * ((20 + 11) / 8))
    ∧ malloc_asize 20 = (if 20 ≤ 12 then 16 else 8 * ((20 + 15) / 8))
    ∧ realloc_newSize 20 ≤ malloc_asize 20
    ∧ malloc_asize 20 ≤ realloc_newSize 20 + 8
    ∧ (realloc_newSize 20 = malloc_asize 20 ↔ (20 ≤ 12 ∨ 20 % 8 = 0 ∨ 5 ≤ 20 % 8)) :=
  ⟨by decide, by decide, C7_realloc_target_vs_malloc_adjusted 20 (by decide) (by decide)⟩

set_option maxRecDepth 100000 in
/-- C4 (the code at the failing input): after `init; a = malloc(100); free(a)`
the block at `a` (112 bytes, allocation bit clear) is the head of list 3 and
the block right behind it (3984 bytes) is the head of list 8: two adjacent
free blocks, not one block of 4096 bytes. -/
theorem C4_two_adjacent_free_blocks :
    ptrOf ex_a = 8304
    ∧ bsize heapAF 8304 = 112 ∧ GET_ALLOC heapAF (HDRP 8304) = 0
    ∧ NEXT_FREE_P heapAF (heapAF.heap_listp + 3 * DSIZE) = 8304
    ∧ NEXT_BLKP heapAF 8304 = 8416
    ∧ bsize heapAF 8416 = 3984
    ∧ NEXT_FREE_P heapAF (heapAF.heap_listp + 8 * DSIZE) = 8416
    ∧ NEXT_BLKP heapAF 8416 = heapAF.brk := by decide

set_option maxRecDepth 100000 in
/-- C6 (the code at the failing input): in `heapABC` the live block `a` has
112 bytes and the block behind it is free with 112 bytes, so that
`realloc(a, 150)` with target 160 could grow in place; it returns a different
pointer. -/
theorem C6_realloc_moves_the_block :
    ptrOf ex_a = 8304 ∧ bsize heapABC 8304 = 112
    ∧ NEXT_BLKP heapABC 8304 = 8416
    ∧ GET_ALLOC heapABC (HDRP 8416) = 0 ∧ bsize heapABC 8416 = 112
    ∧ NEXT_FREE_P heapABC (heapABC.heap_listp + 3 * DSIZE) = 8416
    ∧ realloc_newSize 150 = 160
    ∧ ptrOf (realloc 20 heapABC 8304 150) = 8640 := by decide

set_option maxRecDepth 100000 in
/-- C9 (the code at the failing input): on a heap that cannot grow, `malloc`
for 5000 bytes returns `NULL`, and `calloc(1, 5000)` then stores through that
null pointer instead of returning it. -/
theorem C9_calloc_stores_through_null :
    (malloc 20 heapFull 5000).isSome = true ∧ ptrOf (malloc 20 heapFull 5000) = 0
    ∧ (calloc 20 heapFull 1 5000).isSome = false := by decide

/-- C10: whenever `calloc(nmemb, size)` returns a non-null pointer `p`, each of
the `nmemb * size` bytes (the product as `calloc` computes it, in `size_t`)
from `p` on is 0 in the state it returns. -/
theorem C10_calloc_zero_fill (fuel : Nat) (s s' : Heap) (nmemb size p : Nat)
    (h : calloc fuel s nmemb size = some (p, s')) (hp : p ≠ 0) :
    ∀ i, i < nmemb * size % SZ → s'.mem (p + i) = 0 := by
  intro i hi
  obtain ⟨s1, -, hs⟩ := calloc_some fuel s nmemb size p s' h
  obtain ⟨-, -, hmem⟩ := memset_some s1 p 0 _ s' hs
  rw [hmem, if_pos ⟨by omega, by omega⟩]

set_option maxRecDepth 100000 in
theorem C10_calloc_zero_fill_witness :
    calloc 20 heap1 3 5 = some (8304, stOf (calloc 20 heap1 3 5)) ∧ 8304 ≠ 0
    ∧ ∀ i, i < 3 * 5 % SZ → (stOf (calloc 20 heap1 3 5)).mem (8304 + i) = 0 :=
  have h : calloc 20 heap1 3 5 = some (8304, stOf (calloc 20 heap1 3 5)) :=
    eq_some_of _ _ (by decide) (by decide)
  ⟨h, by decide, C10_calloc_zero_fill 20 heap1 _ 3 5 8304 h (by decide)⟩

end MM


set_option linter.unusedVariables false
set_option linter.unusedTactic false
set_option linter.unreachableTactic false

namespace MM

/-- C1: in every state reached through `mm_init`, `malloc`, `free`, `realloc`,
`calloc` and stores of the caller into its own bytes (requests of at most
`2 ^ 64 - 16` bytes, a heap of at most `2 ^ 32` bytes, `free` and `realloc`
only on live pointers or `NULL`), the byte ranges `[p, p + n)` of any two
entries of the live table are disjoint. -/
theorem C1_live_payloads_disjoint (s : Heap) (L : List (Nat × Nat)) (h : Reach s L) :
    L.Pairwise (fun a b => a.1 + a.2 ≤ b.1 ∨ b.1 + b.2 ≤ a.1) := by
  obtain ⟨g, hI⟩ := h.inv
  have hB := hI.blocks
  refine List.Pairwise.imp_of_mem ?_ hB.live_nodup
  intro a b ha hb hne
  have ha' := hB.live_blk a.1 a.2 ha
  have hb' := hB.live_blk b.1 b.2 hb
  have := hB.apart ha'.1 hb'.1 hne
  omega

set_option maxRecDepth 100000 in
theorem C1_live_payloads_disjoint_witness :
    Reach (stOf ex_b) [(8416, 100), (8304, 100)]
    ∧ [((8416 : Nat), (100 : Nat)), (8304, 100)].Pairwise
        (fun a b => a.1 + a.2 ≤ b.1 ∨ b.1 + b.2 ≤ a.1) :=
  ⟨reach_ab, C1_live_payloads_disjoint (stOf ex_b) [(8416, 100), (8304, 100)] reach_ab⟩

/-- Requests that do not wrap around: in every state reached with such requests
(`Reach`: a heap of at most `2 ^ 32` bytes, every earlier request with
`n + 15 < 2 ^ 64`) and for every `n > 0` with `n + 15 < 2 ^ 64`, `malloc`
returns once the search has enough fuel, and whenever it returns a non-null
pointer `p`, the adjusted size is a multiple of 8, at least 16 and at least
`n + 4`, the block at `p` is at least that large, and none of the `n` bytes
from `p` on is a byte of the fixed area, of a block header, or of the links or
footer of a listed free block. -/
theorem malloc_usable_size_in_range (s : Heap) (L : List (Nat × Nat)) (h : Reach s L) (n : Nat)
    (hn : 0 < n) (hlt : n + 15 < SZ) :
    (∃ N, ∀ fuel, N ≤ fuel → ∃ r, malloc fuel s n = some r)
    ∧ ∀ fuel p s', malloc fuel s n = some (p, s') → p ≠ 0 →
        malloc_asize n % 8 = 0 ∧ 16 ≤ malloc_asize n ∧ n + 4 ≤ malloc_asize n
        ∧ malloc_asize n ≤ bsize s' p ∧ n ≤ bsize s' p - 4
        ∧ ∃ g', Inv s' ((p, n) :: L) g' ∧ g'.blk p
            ∧ ∀ a, p ≤ a → a < p + n → ¬ isMeta s' g' a := by
  obtain ⟨g, hI⟩ := h.inv
  refine ⟨malloc_total hI n, fun fuel p s' hm hp => ?_⟩
  have ha := malloc_asize_mod n
  have hge := malloc_asize_ge n hlt
  obtain ⟨g', hI', -, -, -, -, hnew⟩ := malloc_spec hI n hlt fuel p s' hm
  rw [allocLive_pos L p n hp] at hI'
  have hmem : (p, n) ∈ (p, n) :: L := List.mem_cons_self _ _
  have hb := hI'.blocks.live_blk p n hmem
  exact ⟨ha.1, hge.1, hge.2, (hnew hp).2, by clear * - hb; omega, g', hI', hb.1,
    fun a h1 h2 => payload_not_meta hI' hmem h1 h2⟩

/-- Histories without a wrapped request: in every state reached with requests
`n + 15 < 2 ^ 64` (`Reach`: the heap starts at an 8-byte aligned break and has
at most `2 ^ 32` bytes), for every size, also one that wraps around, `malloc`
and `realloc` (of `NULL` or a live pointer) return once the search has enough
fuel, and every pointer that `malloc`, `realloc` or `calloc` returns is a
multiple of 8. -/
theorem returned_pointers_aligned_in_range (s : Heap) (L : List (Nat × Nat)) (h : Reach s L)
    (n ptr nmemb size : Nat) (hptr : ptr = 0 ∨ isLive L ptr) :
    (∃ N, ∀ fuel, N ≤ fuel → ∃ r, malloc fuel s n = some r)
    ∧ (∀ fuel p s', malloc fuel s n = some (p, s') → p % 8 = 0)
    ∧ (∃ N, ∀ fuel, N ≤ fuel → ∃ r, realloc fuel s ptr n = some r)
    ∧ (∀ fuel q s', realloc fuel s ptr n = some (q, s') → q % 8 = 0)
    ∧ (∀ fuel p s', calloc fuel s nmemb size = some (p, s') → p % 8 = 0) := by
  obtain ⟨g, hI⟩ := h.inv
  refine ⟨malloc_total hI n, fun fuel p s' hm => malloc_aligned hI n fuel p s' hm,
    realloc_total hI ptr n, fun fuel q s' hr => realloc_aligned hI ptr n fuel q s' hptr hr,
    ?_⟩
  intro fuel p s' hc
  obtain ⟨s1, hm, -⟩ := calloc_some fuel s nmemb size p s' hc
  exact malloc_aligned hI _ fuel p s1 hm

/-- Requests that do not wrap around: in every state reached with such requests
(`Reach`), for every live pointer `p` entered with a request of `m` bytes and
every `n > 0` with `n + 15 < 2 ^ 64`, `realloc(p, n)` returns once the search
has enough fuel, and whenever it returns a non-null pointer `q`, the first
`min m n` bytes at `q` are the first `min m n` bytes that were at `p` before
the call. -/
theorem realloc_keeps_content_in_range (s : Heap) (L : List (Nat × Nat)) (h : Reach s L)
    (p m n : Nat) (hp : (p, m) ∈ L) (hn : 0 < n) (hlt : n + 15 < SZ) :
    (∃ N, ∀ fuel, N ≤ fuel → ∃ r, realloc fuel s p n = some r)
    ∧ ∀ fuel q s', realloc fuel s p n = some (q, s') → q ≠ 0 →
        ∀ i, i < min m n → s'.mem (q + i) = s.mem (p + i) := by
  obtain ⟨g, hI⟩ := h.inv
  refine ⟨realloc_total hI p n, fun fuel q s' hr hq i hi => ?_⟩
  exact (realloc_spec hI p n (Or.inr ⟨m, hp⟩) hlt fuel q s' hr).2 m i hp hq
    (lt_of_lt_of_le hi (min_le_left _ _)) (lt_of_lt_of_le hi (min_le_right _ _))

end MM


set_option linter.unusedVariables false
set_option linter.unusedTactic false
set_option linter.unreachableTactic false

namespace MM

/-- C12 (refuted): in every reachable state `checkHeapStructure` prints the
line about the number of lists, because it compares the size of the prologue,
104, with `(LIST_NUM - 1) * DSIZE = 88`; so whenever `mm_checkheap` returns,
that line is among the lines it printed. -/
theorem C12_checker_always_reports (s : Heap) (L : List (Nat × Nat)) (h : Reach s L) :
    Finding.numberOfLists ∈ checkHeapStructure s
    ∧ ∀ fuel lo r, mm_checkheap fuel lo s = some r → Finding.numberOfLists ∈ r := by
  obtain ⟨g, hI⟩ := h.inv
  have hsz : GET_SIZE s (HDRP s.heap_listp) = 104 := by
    rw [hI.lay.listp]
    exact hI.lay.prol
  have h1 : Finding.numberOfLists ∈ checkHeapStructure s := by
    unfold checkHeapStructure
    apply List.mem_append_right
    rw [hsz, if_pos (by decide)]
    exact List.mem_singleton.mpr rfl
  refine ⟨h1, fun fuel lo r hr => ?_⟩
  unfold mm_checkheap at hr
  cases h2 : checkLists fuel s s.heap_listp LIST_NUM 0 with
  | none => rw [h2] at hr; exact absurd hr (by simp)
  | some r1 =>
    rw [h2] at hr
    simp only at hr
    cases h3 : checkPayload lo s fuel (NEXT_BLKP s s.heap_listp) with
    | none => rw [h3] at hr; exact absurd hr (by simp)
    | some r2 =>
      rw [h3] at hr
      simp only at hr
      rw [← Option.some.inj hr]
      exact List.mem_append_left _ (List.mem_append_left _ h1)

set_option maxRecDepth 100000 in
theorem C12_checker_always_reports_witness :
    Reach heap1 []
    ∧ mm_checkheap 50 8192 heap1 = some [Finding.numberOfLists,
        Finding.listHeaderFooter 8304 8264, Finding.listOutOfRange 8304 8264,
        Finding.allocBits 8304]
    ∧ Finding.numberOfLists ∈ checkHeapStructure heap1
    ∧ ∀ fuel lo r, mm_checkheap fuel lo heap1 = some r → Finding.numberOfLists ∈ r :=
  ⟨reach_heap1, by decide, C12_checker_always_reports heap1 [] reach_heap1⟩

/-- C13: for every state, every non-null pointer `ptr` and every `n > 0`
whose target size is at most the size in the header of `ptr`, `realloc`
returns `ptr` and the state it was called in. -/
theorem C13_realloc_no_shrink (fuel : Nat) (s : Heap) (ptr n : Nat) (hp : ptr ≠ 0)
    (hn : 0 < n) (h : realloc_newSize n ≤ bsize s ptr) :
    realloc fuel s ptr n = some (ptr, s) := by
  rw [realloc_unfold fuel s ptr n hp (by omega), if_pos h]

set_option maxRecDepth 100000 in
theorem C13_realloc_no_shrink_witness :
    (8304 : Nat) ≠ 0 ∧ 0 < 50 ∧ realloc_newSize 50 ≤ bsize (stOf ex_a) 8304
    ∧ realloc 20 (stOf ex_a) 8304 50 = some (8304, stOf ex_a) :=
  ⟨by decide, by decide, by decide,
    C13_realloc_no_shrink 20 (stOf ex_a) 8304 50 (by decide) (by decide) (by decide)⟩

/-- C14: in every state `malloc(0)` returns `NULL` and the state it was
called in, the break included. -/
theorem C14_malloc_zero_is_null (fuel : Nat) (s : Heap) : malloc fuel s 0 = some (0, s) :=
  malloc_zero fuel s

/-- C15: in every state `free(NULL)` returns the state it was called in. -/
theorem C15_free_null_is_noop (s : Heap) : free s 0 = s :=
  free_null s

end MM

namespace Trans

/-- C16 (refuted): for `M = N = 1`, `A = [[7]]` and `B = [[0]]`,
`transpose_submit` leaves `B[0][0] = 0`, and `is_transpose` answers 0. -/
theorem C16_transpose_submit_fails_1x1 :
    mats1.A 0 0 = 7 ∧ (transpose_submit 1 1 mats1).B 0 0 = 0
    ∧ is_transpose 1 1 (transpose_submit 1 1 mats1) = 0 := by decide

end Trans

namespace Csim

/-- C18 (refuted): with three lines per set and the tags 1, 2, 3, 1, 3, 2, 4,
3 from an all-invalid set, `goToCache` answers the last access with 3 (miss
with eviction) where a least-recently-used cache answers 1 (hit): the miss of
tag 4 evicted tag 3 although tag 1 was used least recently. -/
theorem C18_eviction_is_not_lru :
    runSet 3 emptyCache [1, 2, 3, 1, 3, 2, 4, 3] = [2, 2, 2, 1, 1, 1, 3, 3]
    ∧ runLRU 3 [] [1, 2, 3, 1, 3, 2, 4, 3] = [2, 2, 2, 1, 1, 1, 3, 1] := by decide

end Csim

namespace Proxy

/-- C19 (refuted): for `"http://h/x"` and zeroed result arrays `parse_uri`
returns 0 with host `"h"` and suffix `"/x"`, but the port array holds the one
byte 80 (the letter `P`), not the string `"80"`; for `"http://h:81/x"` the
port is `"81"`. -/
theorem C19_default_port_is_one_byte :
    (parse_uri 50 bufsNoPort).isSome = true
    ∧ retOf (parse_uri 50 bufsNoPort) = 0
    ∧ cstr (bufsOf (parse_uri 50 bufsNoPort)).host 50 0 = [104]
    ∧ cstr (bufsOf (parse_uri 50 bufsNoPort)).suffix 50 0 = [47, 120]
    ∧ cstr (bufsOf (parse_uri 50 bufsNoPort)).port 50 0 = [80]
    ∧ cstr (bufsOf (parse_uri 50 bufsNoPort)).port 50 0 ≠ [56, 48]
    ∧ retOf (parse_uri 50 bufsPort) = 0
    ∧ cstr (bufsOf (parse_uri 50 bufsPort)).port 50 0 = [56, 49] := by decide

end Proxy


set_option linter.unusedVariables false
set_option linter.unusedTactic false
set_option linter.unreachableTactic false

namespace Trans

/-! ## The blocked transpose -/

theorem setB_A (m : Mats) (r c : Nat) (v : Int) : (setB m r c v).A = m.A := rfl

theorem setB_B (m : Mats) (r c : Nat) (v : Int) (r' c' : Nat) :
    (setB m r c v).B r' c' = if r' = r ∧ c' = c then v else m.B r' c' := rfl

/-- A loop with step 1 establishes at its upper bound what every round
carries one step further. -/
theorem forLoop1_spec (hi : Nat) (body : Mats → Nat → Mats) (P : Nat → Mats → Prop)
    (hbody : ∀ i m, i < hi → P i m → P (i + 1) (body m i)) :
    ∀ fuel i m, i ≤ hi → hi ≤ i + fuel → P i m → P hi (forLoop hi 1 body fuel i m) := by
  intro fuel
  induction fuel with
  | zero =>
    intro i m h1 h2 hP
    have : i = hi := by omega
    subst this
    exact hP
  | succ f ih =>
    intro i m h1 h2 hP
    unfold forLoop
    by_cases h : i < hi
    · rw [if_pos h]
      exact ih (i + 1) (body m i) h (by omega) (hbody i m h hP)
    · rw [if_neg h]
      have : i = hi := by omega
      subst this
      exact hP

/-- The same for a loop with step 8 between multiples of 8. -/
theorem forLoop8_spec (hi : Nat) (body : Mats → Nat → Mats) (P : Nat → Mats → Prop)
    (h8 : hi % 8 = 0)
    (hbody : ∀ i m, i % 8 = 0 → i < hi → P i m → P (i + 8) (body m i)) :
    ∀ fuel i m, i % 8 = 0 → i ≤ hi → hi ≤ i + 8 * fuel → P i m →
      P hi (forLoop hi 8 body fuel i m) := by
  intro fuel
  induction fuel with
  | zero =>
    intro i m h0 h1 h2 hP
    have : i = hi := by omega
    subst this
    exact hP
  | succ f ih =>
    intro i m h0 h1 h2 hP
    unfold forLoop
    by_cases h : i < hi
    · rw [if_pos h]
      exact ih (i + 8) (body m i) (by omega) (by omega) (by omega) (hbody i m h0 h hP)
    · rw [if_neg h]
      have : i = hi := by omega
      subst this
      exact hP

theorem topHalf_A (i : Nat) (m : Mats) (k : Nat) : (topHalf i m k).A = m.A := rfl

theorem topHalf_B (i : Nat) (m : Mats) (k r c : Nat) :
    (topHalf i m k).B r c
      = if c = k ∧ i ≤ r ∧ r < i + 4 then m.A k r
        else if c = k + 4 ∧ i ≤ r ∧ r < i + 4 then m.A k (r + 4)
        else m.B r c := by
  simp only [topHalf, setB_B, setB_A]
  by_cases hc : c = k
  · subst hc
    by_cases h0 : r = i
    · subst h0; simp
    by_cases h1 : r = i + 1
    · subst h1; simp
    by_cases h2 : r = i + 2
    · subst h2; simp
    by_cases h3 : r = i + 3
    · subst h3; simp
    rw [if_neg (by omega), if_neg (by omega), if_neg (by omega), if_neg (by omega)]
    rw [if_neg (by omega), if_neg (by omega), if_neg (by omega), if_neg (by omega)]
    rw [if_neg (by omega), if_neg (by omega)]
  by_cases hc4 : c = k + 4
  · subst hc4
    by_cases h0 : r = i
    · subst h0; simp
    by_cases h1 : r = i + 1
    · subst h1; simp
    by_cases h2 : r = i + 2
    · subst h2; simp
    by_cases h3 : r = i + 3
    · subst h3; simp
    rw [if_neg (by omega), if_neg (by omega), if_neg (by omega), if_neg (by omega)]
    rw [if_neg (by omega), if_neg (by omega), if_neg (by omega), if_neg (by omega)]
    rw [if_neg (by omega), if_neg (by omega)]
  rw [if_neg (by omega), if_neg (by omega), if_neg (by omega), if_neg (by omega)]
  rw [if_neg (by omega), if_neg (by omega), if_neg (by omega), if_neg (by omega)]
  rw [if_neg (by omega), if_neg (by omega)]

end Trans


set_option linter.unusedVariables false
set_option linter.unusedTactic false
set_option linter.unreachableTactic false

namespace Trans

theorem moveParked_A (j : Nat) (m : Mats) (k : Nat) : (moveParked j m k).A = m.A := rfl

theorem moveParked_B (j : Nat) (m : Mats) (k r c : Nat) :
    (moveParked j m k).B r c
      = if r = k ∧ j + 4 ≤ c ∧ c < j + 8 then m.A c k
        else if r = k + 4 ∧ j ≤ c ∧ c < j + 4 then m.B k (c + 4)
        else m.B r c := by
  simp only [moveParked, setB_B, setB_A]
  by_cases hr : r = k
  · subst hr
    by_cases h0 : c = j + 4
    · subst h0; simp
    by_cases h1 : c = j + 5
    · subst h1; simp
    by_cases h2 : c = j + 6
    · subst h2; simp
    by_cases h3 : c = j + 7
    · subst h3; simp
    rw [if_neg (by omega), if_neg (by omega), if_neg (by omega), if_neg (by omega)]
    rw [if_neg (by omega), if_neg (by omega), if_neg (by omega), if_neg (by omega)]
    rw [if_neg (by omega), if_neg (by omega)]
  by_cases hr4 : r = k + 4
  · subst hr4
    by_cases h0 : c = j
    · subst h0; simp
    by_cases h1 : c = j + 1
    · subst h1; simp
    by_cases h2 : c = j + 2
    · subst h2; simp
    by_cases h3 : c = j + 3
    · subst h3; simp
    rw [if_neg (by omega), if_neg (by omega), if_neg (by omega), if_neg (by omega)]
    rw [if_neg (by omega), if_neg (by omega), if_neg (by omega), if_neg (by omega)]
    rw [if_neg (by omega), if_neg (by omega)]
  rw [if_neg (by omega), if_neg (by omega), if_neg (by omega), if_neg (by omega)]
  rw [if_neg (by omega), if_neg (by omega), if_neg (by omega), if_neg (by omega)]
  rw [if_neg (by omega), if_neg (by omega)]

theorem lastQuarter_A (j : Nat) (m : Mats) (k : Nat) : (lastQuarter j m k).A = m.A := rfl

theorem lastQuarter_B (j : Nat) (m : Mats) (k r c : Nat) :
    (lastQuarter j m k).B r c
      = if r = k ∧ j + 4 ≤ c ∧ c < j + 8 then m.A c k else m.B r c := by
  simp only [lastQuarter, setB_B, setB_A]
  by_cases hr : r = k
  · subst hr
    by_cases h0 : c = j + 4
    · subst h0; simp
    by_cases h1 : c = j + 5
    · subst h1; simp
    by_cases h2 : c = j + 6
    · subst h2; simp
    by_cases h3 : c = j + 7
    · subst h3; simp
    rw [if_neg (by omega), if_neg (by omega), if_neg (by omega), if_neg (by omega),
      if_neg (by omega)]
  rw [if_neg (by omega), if_neg (by omega), if_neg (by omega), if_neg (by omega),
    if_neg (by omega)]

theorem copyOne_A (i : Nat) (m : Mats) (j : Nat) : (copyOne i m j).A = m.A := rfl

theorem copyOne_B (i : Nat) (m : Mats) (j r c : Nat) :
    (copyOne i m j).B r c = if r = j ∧ c = i then m.A i j else m.B r c := rfl

/-- The first inner loop: the top left quarter is in place, the top right
quarter is parked four columns to the right of its rows. -/
theorem topLoop_spec (i j : Nat) (m : Mats) :
    (forLoop (j + 4) 1 (topHalf i) 4 j m).A = m.A
    ∧ ∀ r c, (forLoop (j + 4) 1 (topHalf i) 4 j m).B r c
        = if i ≤ r ∧ r < i + 4 ∧ j ≤ c ∧ c < j + 4 then m.A c r
          else if i ≤ r ∧ r < i + 4 ∧ j + 4 ≤ c ∧ c < j + 8 then m.A (c - 4) (r + 4)
          else m.B r c := by
  have h := forLoop1_spec (j + 4) (topHalf i)
    (fun k x => j ≤ k ∧ x.A = m.A ∧ ∀ r c, x.B r c
      = if i ≤ r ∧ r < i + 4 ∧ j ≤ c ∧ c < k then m.A c r
        else if i ≤ r ∧ r < i + 4 ∧ j + 4 ≤ c ∧ c < k + 4 then m.A (c - 4) (r + 4)
        else m.B r c)
    (by
      intro k x hk ⟨hjk, hA, hB⟩
      refine ⟨by omega, by rw [topHalf_A, hA], fun r c => ?_⟩
      rw [topHalf_B, hA, hB]
      by_cases h1 : c = k ∧ i ≤ r ∧ r < i + 4
      · rw [if_pos h1, if_pos (by omega), h1.1]
      · rw [if_neg h1]
        by_cases h2 : c = k + 4 ∧ i ≤ r ∧ r < i + 4
        · rw [if_pos h2, if_neg (by omega), if_pos (by omega), h2.1, Nat.add_sub_cancel]
        · rw [if_neg h2]
          by_cases h3 : i ≤ r ∧ r < i + 4 ∧ j ≤ c ∧ c < k
          · rw [if_pos h3, if_pos (by omega)]
          · rw [if_neg h3]
            by_cases h4 : i ≤ r ∧ r < i + 4 ∧ j + 4 ≤ c ∧ c < k + 4
            · rw [if_pos h4, if_neg (by omega), if_pos (by omega)]
            · rw [if_neg h4, if_neg (by omega), if_neg (by omega)])
    4 j m (by omega) (by omega)
    ⟨le_refl _, rfl, fun r c => by rw [if_neg (by omega), if_neg (by omega)]⟩
  exact ⟨h.2.1, h.2.2⟩

/-- The second inner loop: the top right quarter is in place, and the parked
values have moved to the bottom left quarter. -/
theorem moveLoop_spec (i j : Nat) (m : Mats) :
    (forLoop (i + 4) 1 (moveParked j) 4 i m).A = m.A
    ∧ ∀ r c, (forLoop (i + 4) 1 (moveParked j) 4 i m).B r c
        = if i ≤ r ∧ r < i + 4 ∧ j + 4 ≤ c ∧ c < j + 8 then m.A c r
          else if i + 4 ≤ r ∧ r < i + 8 ∧ j ≤ c ∧ c < j + 4 then m.B (r - 4) (c + 4)
          else m.B r c := by
  have h := forLoop1_spec (i + 4) (moveParked j)
    (fun k x => i ≤ k ∧ x.A = m.A ∧ ∀ r c, x.B r c
      = if i ≤ r ∧ r < k ∧ j + 4 ≤ c ∧ c < j + 8 then m.A c r
        else if i + 4 ≤ r ∧ r < k + 4 ∧ j ≤ c ∧ c < j + 4 then m.B (r - 4) (c + 4)
        else m.B r c)
    (by
      intro k x hk ⟨hik, hA, hB⟩
      refine ⟨by omega, by rw [moveParked_A, hA], fun r c => ?_⟩
      rw [moveParked_B, hA, hB, hB]
      by_cases h1 : r = k ∧ j + 4 ≤ c ∧ c < j + 8
      · rw [if_pos h1, if_pos (by omega), h1.1]
      · rw [if_neg h1]
        by_cases h2 : r = k + 4 ∧ j ≤ c ∧ c < j + 4
        · rw [if_pos h2, if_neg (by omega), if_neg (by omega), if_neg (by omega),
            if_pos (by omega), h2.1, Nat.add_sub_cancel]
        · rw [if_neg h2]
          by_cases h3 : i ≤ r ∧ r < k ∧ j + 4 ≤ c ∧ c < j + 8
          · rw [if_pos h3, if_pos (by omega)]
          · rw [if_neg h3]
            by_cases h4 : i + 4 ≤ r ∧ r < k + 4 ∧ j ≤ c ∧ c < j + 4
            · rw [if_pos h4, if_neg (by omega), if_pos (by omega)]
            · rw [if_neg h4, if_neg (by omega), if_neg (by omega)])
    4 i m (by omega) (by omega)
    ⟨le_refl _, rfl, fun r c => by rw [if_neg (by omega), if_neg (by omega)]⟩
  exact ⟨h.2.1, h.2.2⟩

/-- The third inner loop: the bottom right quarter is in place. -/
theorem lastLoop_spec (i j : Nat) (m : Mats) :
    (forLoop (i + 8) 1 (lastQuarter j) 4 (i + 4) m).A = m.A
    ∧ ∀ r c, (forLoop (i + 8) 1 (lastQuarter j) 4 (i + 4) m).B r c
        = if i + 4 ≤ r ∧ r < i + 8 ∧ j + 4 ≤ c ∧ c < j + 8 then m.A c r else m.B r c := by
  have h := forLoop1_spec (i + 8) (lastQuarter j)
    (fun k x => i + 4 ≤ k ∧ x.A = m.A ∧ ∀ r c, x.B r c
      = if i + 4 ≤ r ∧ r < k ∧ j + 4 ≤ c ∧ c < j + 8 then m.A c r else m.B r c)
    (by
      intro k x hk ⟨hik, hA, hB⟩
      refine ⟨by omega, by rw [lastQuarter_A, hA], fun r c => ?_⟩
      rw [lastQuarter_B, hA, hB]
      by_cases h1 : r = k ∧ j + 4 ≤ c ∧ c < j + 8
      · rw [if_pos h1, if_pos (by omega), h1.1]
      · rw [if_neg h1]
        by_cases h3 : i + 4 ≤ r ∧ r < k ∧ j + 4 ≤ c ∧ c < j + 8
        · rw [if_pos h3, if_pos (by omega)]
        · rw [if_neg h3, if_neg (by omega)])
    4 (i + 4) m (by omega) (by omega)
    ⟨le_refl _, rfl, fun r c => by rw [if_neg (by omega)]⟩
  exact ⟨h.2.1, h.2.2⟩

/-- One block: its 64 entries are transposed, nothing else changes. -/
theorem block8_spec (i j : Nat) (m : Mats) :
    (block8 i m j).A = m.A
    ∧ ∀ r c, (block8 i m j).B r c
        = if i ≤ r ∧ r < i + 8 ∧ j ≤ c ∧ c < j + 8 then m.A c r else m.B r c := by
  unfold block8
  simp only []
  obtain ⟨a1, b1⟩ := topLoop_spec i j m
  obtain ⟨a2, b2⟩ := moveLoop_spec i j (forLoop (j + 4) 1 (topHalf i) 4 j m)
  obtain ⟨a3, b3⟩ := lastLoop_spec i j
    (forLoop (i + 4) 1 (moveParked j) 4 i (forLoop (j + 4) 1 (topHalf i) 4 j m))
  refine ⟨by rw [a3, a2, a1], fun r c => ?_⟩
  rw [b3, a2, a1, b2, a1, b1, b1]
  by_cases q4 : i + 4 ≤ r ∧ r < i + 8 ∧ j + 4 ≤ c ∧ c < j + 8
  · rw [if_pos q4, if_pos (by omega)]
  rw [if_neg q4]
  by_cases q2 : i ≤ r ∧ r < i + 4 ∧ j + 4 ≤ c ∧ c < j + 8
  · rw [if_pos q2, if_pos (by omega)]
  rw [if_neg q2]
  by_cases q3 : i + 4 ≤ r ∧ r < i + 8 ∧ j ≤ c ∧ c < j + 4
  · rw [if_pos q3, if_neg (by omega), if_pos (by omega), if_pos (by omega),
      Nat.add_sub_cancel, Nat.sub_add_cancel (by omega)]
  rw [if_neg q3]
  by_cases q1 : i ≤ r ∧ r < i + 4 ∧ j ≤ c ∧ c < j + 4
  · rw [if_pos q1, if_pos (by omega)]
  rw [if_neg q1, if_neg (by omega), if_neg (by omega)]

end Trans


set_option linter.unusedVariables false
set_option linter.unusedTactic false
set_option linter.unreachableTactic false

namespace Trans

/-- The loop over `j`: one row of blocks. -/
theorem rowLoop_spec (i mn : Nat) (m : Mats) (h8 : mn % 8 = 0) :
    (forLoop mn 8 (block8 i) mn 0 m).A = m.A
    ∧ ∀ r c, (forLoop mn 8 (block8 i) mn 0 m).B r c
        = if i ≤ r ∧ r < i + 8 ∧ c < mn then m.A c r else m.B r c := by
  have h := forLoop8_spec mn (block8 i)
    (fun j x => x.A = m.A ∧ ∀ r c, x.B r c
      = if i ≤ r ∧ r < i + 8 ∧ c < j then m.A c r else m.B r c) h8
    (by
      intro j x hj8 hj ⟨hA, hB⟩
      obtain ⟨a1, b1⟩ := block8_spec i j x
      refine ⟨by rw [a1, hA], fun r c => ?_⟩
      rw [b1, hA, hB]
      by_cases h1 : i ≤ r ∧ r < i + 8 ∧ j ≤ c ∧ c < j + 8
      · rw [if_pos h1, if_pos (by omega)]
      · rw [if_neg h1]
        by_cases h2 : i ≤ r ∧ r < i + 8 ∧ c < j
        · rw [if_pos h2, if_pos (by omega)]
        · rw [if_neg h2, if_neg (by omega)])
    mn 0 m (by omega) (by omega) (by omega)
    ⟨rfl, fun r c => by rw [if_neg (by omega)]⟩
  exact h

/-- The two loops over the blocks: the square part is transposed. -/
theorem squareLoop_spec (mn : Nat) (m : Mats) (h8 : mn % 8 = 0) :
    (forLoop mn 8 (fun m i => forLoop mn 8 (block8 i) mn 0 m) mn 0 m).A = m.A
    ∧ ∀ r c, (forLoop mn 8 (fun m i => forLoop mn 8 (block8 i) mn 0 m) mn 0 m).B r c
        = if r < mn ∧ c < mn then m.A c r else m.B r c := by
  have h := forLoop8_spec mn (fun m i => forLoop mn 8 (block8 i) mn 0 m)
    (fun i x => x.A = m.A ∧ ∀ r c, x.B r c
      = if r < i ∧ c < mn then m.A c r else m.B r c) h8
    (by
      intro i x hi8 hi ⟨hA, hB⟩
      obtain ⟨a1, b1⟩ := rowLoop_spec i mn x h8
      refine ⟨by rw [a1, hA], fun r c => ?_⟩
      rw [b1, hA, hB]
      by_cases h1 : i ≤ r ∧ r < i + 8 ∧ c < mn
      · rw [if_pos h1, if_pos (by omega)]
      · rw [if_neg h1]
        by_cases h2 : r < i ∧ c < mn
        · rw [if_pos h2, if_pos (by omega)]
        · rw [if_neg h2, if_neg (by omega)])
    mn 0 m (by omega) (by omega) (by omega)
    ⟨rfl, fun r c => by rw [if_neg (by omega)]⟩
  exact h

/-- The loop over `j` of the plain copy: one column of `B`. -/
theorem colLoop_spec (i lo M : Nat) (m : Mats) (hlo : lo ≤ M) :
    (forLoop M 1 (copyOne i) M lo m).A = m.A
    ∧ ∀ r c, (forLoop M 1 (copyOne i) M lo m).B r c
        = if c = i ∧ lo ≤ r ∧ r < M then m.A c r else m.B r c := by
  have h := forLoop1_spec M (copyOne i)
    (fun j x => lo ≤ j ∧ x.A = m.A ∧ ∀ r c, x.B r c
      = if c = i ∧ lo ≤ r ∧ r < j then m.A c r else m.B r c)
    (by
      intro j x hj ⟨hlj, hA, hB⟩
      refine ⟨by omega, by rw [copyOne_A, hA], fun r c => ?_⟩
      rw [copyOne_B, hA, hB]
      by_cases h1 : r = j ∧ c = i
      · rw [if_pos h1, if_pos (by omega), h1.1, h1.2]
      · rw [if_neg h1]
        by_cases h2 : c = i ∧ lo ≤ r ∧ r < j
        · rw [if_pos h2, if_pos (by omega)]
        · rw [if_neg h2, if_neg (by omega)])
    M lo m hlo (by omega)
    ⟨le_refl _, rfl, fun r c => by rw [if_neg (by omega)]⟩
  exact ⟨h.2.1, h.2.2⟩

/-- The plain copy of the columns `i0 ≤ c < hi` of `B`, rows from `lo`. -/
theorem copyLoop_spec (i0 hi lo M : Nat) (m : Mats) (hlo : lo ≤ M) (hi0 : i0 ≤ hi) :
    (forLoop hi 1 (fun m i => forLoop M 1 (copyOne i) M lo m) hi i0 m).A = m.A
    ∧ ∀ r c, (forLoop hi 1 (fun m i => forLoop M 1 (copyOne i) M lo m) hi i0 m).B r c
        = if i0 ≤ c ∧ c < hi ∧ lo ≤ r ∧ r < M then m.A c r else m.B r c := by
  have h := forLoop1_spec hi (fun m i => forLoop M 1 (copyOne i) M lo m)
    (fun i x => i0 ≤ i ∧ x.A = m.A ∧ ∀ r c, x.B r c
      = if i0 ≤ c ∧ c < i ∧ lo ≤ r ∧ r < M then m.A c r else m.B r c)
    (by
      intro i x hi' ⟨hii, hA, hB⟩
      obtain ⟨a1, b1⟩ := colLoop_spec i lo M x hlo
      refine ⟨by omega, by rw [a1, hA], fun r c => ?_⟩
      rw [b1, hA, hB]
      by_cases h1 : c = i ∧ lo ≤ r ∧ r < M
      · rw [if_pos h1, if_pos (by omega)]
      · rw [if_neg h1]
        by_cases h2 : i0 ≤ c ∧ c < i ∧ lo ≤ r ∧ r < M
        · rw [if_pos h2, if_pos (by omega)]
        · rw [if_neg h2, if_neg (by omega)])
    hi i0 m hi0 (by omega)
    ⟨le_refl _, rfl, fun r c => by rw [if_neg (by omega)]⟩
  exact ⟨h.2.1, h.2.2⟩

/-- `trans_NxM` transposes `A` into `B` when the matrix is square with a side
that is a multiple of 8, or not square. -/
theorem trans_NxM_spec (M N : Nat) (m : Mats) (hd : (M = N ∧ M % 8 = 0) ∨ M ≠ N) :
    (trans_NxM M N m).A = m.A
    ∧ ∀ i j, i < N → j < M → (trans_NxM M N m).B j i = m.A i j := by
  unfold trans_NxM
  simp only []
  obtain ⟨mn, hmn⟩ : ∃ mn, mn = 8 * ((if N < M then N else M) / 8) := ⟨_, rfl⟩
  rw [← hmn]
  have h8 : mn % 8 = 0 := by omega
  have hle : mn ≤ M ∧ mn ≤ N := by
    have : (if N < M then N else M) ≤ M ∧ (if N < M then N else M) ≤ N := by
      split <;> omega
    omega
  obtain ⟨a1, b1⟩ := squareLoop_spec mn m h8
  by_cases hMN : M ≠ N
  · rw [if_pos hMN]
    obtain ⟨a2, b2⟩ := copyLoop_spec 0 mn mn M
      (forLoop mn 8 (fun m i => forLoop mn 8 (block8 i) mn 0 m) mn 0 m) hle.1 (Nat.zero_le _)
    obtain ⟨a3, b3⟩ := copyLoop_spec mn N 0 M
      (forLoop mn 1 (fun m i => forLoop M 1 (copyOne i) M mn m) mn 0
        (forLoop mn 8 (fun m i => forLoop mn 8 (block8 i) mn 0 m) mn 0 m))
      (Nat.zero_le _) hle.2
    refine ⟨by rw [a3, a2, a1], fun i j hi hj => ?_⟩
    rw [b3, a2, a1, b2, a1, b1]
    by_cases h3 : mn ≤ i ∧ i < N ∧ 0 ≤ j ∧ j < M
    · rw [if_pos h3]
    · rw [if_neg h3]
      by_cases h2 : 0 ≤ i ∧ i < mn ∧ mn ≤ j ∧ j < M
      · rw [if_pos h2]
      · rw [if_neg h2, if_pos (by omega)]
  · rw [if_neg hMN]
    refine ⟨a1, fun i j hi hj => ?_⟩
    have hsq : M = N ∧ M % 8 = 0 := by
      rcases hd with h | h
      · exact h
      · exact absurd h hMN
    have hmnM : mn = M := by
      rw [hmn, if_neg (by omega)]
      omega
    rw [b1, if_pos (by omega)]

end Trans


set_option linter.unusedVariables false
set_option linter.unusedTactic false
set_option linter.unreachableTactic false

namespace Trans

/-- Claim C17.  On the documented domain (`M = N` a multiple of 8, or
`M ≠ N`) `trans_NxM` leaves `A` as it was and ends with `B[j][i] = A[i][j]`
for all `i < N`, `j < M`; and the first inner loop of a block leaves the top
right quarter of the block of `A` parked in `B` four columns to the right of
the rows it was read from, not at its final place. -/
theorem C17_trans_NxM_correct_on_domain (M N : Nat) (m : Mats)
    (hd : (M = N ∧ M % 8 = 0) ∨ M ≠ N) :
    (trans_NxM M N m).A = m.A
    ∧ (∀ i j, i < N → j < M → (trans_NxM M N m).B j i = m.A i j)
    ∧ ∀ i j r c, i ≤ r → r < i + 4 → j + 4 ≤ c → c < j + 8 →
        (forLoop (j + 4) 1 (topHalf i) 4 j m).B r c = m.A (c - 4) (r + 4) := by
  obtain ⟨h1, h2⟩ := trans_NxM_spec M N m hd
  refine ⟨h1, h2, fun i j r c hr1 hr2 hc1 hc2 => ?_⟩
  rw [(topLoop_spec i j m).2 r c, if_neg (by omega), if_pos ⟨hr1, hr2, hc1, hc2⟩]

set_option maxRecDepth 100000 in
/-- Witness for C17: the `8 x 8` example. -/
theorem C17_trans_NxM_correct_on_domain_witness :
    ((8 = 8 ∧ 8 % 8 = 0) ∨ 8 ≠ 8)
    ∧ (trans_NxM 8 8 mats8).A = mats8.A
    ∧ (∀ i j, i < 8 → j < 8 → (trans_NxM 8 8 mats8).B j i = mats8.A i j)
    ∧ (∀ i j r c, i ≤ r → r < i + 4 → j + 4 ≤ c → c < j + 8 →
        (forLoop (j + 4) 1 (topHalf i) 4 j mats8).B r c = mats8.A (c - 4) (r + 4))
    ∧ mats8.A 2 5 = 21 ∧ (trans_NxM 8 8 mats8).B 5 2 = 21
    ∧ (forLoop 4 1 (topHalf 0) 4 0 mats8).B 2 5 = 14 :=
  ⟨Or.inl ⟨rfl, rfl⟩, (C17_trans_NxM_correct_on_domain 8 8 mats8 (Or.inl ⟨rfl, rfl⟩)).1,
    (C17_trans_NxM_correct_on_domain 8 8 mats8 (Or.inl ⟨rfl, rfl⟩)).2.1,
    (C17_trans_NxM_correct_on_domain 8 8 mats8 (Or.inl ⟨rfl, rfl⟩)).2.2,
    by decide, by decide, by decide⟩

end Trans


set_option linter.unusedVariables false
set_option linter.unusedTactic false
set_option linter.unreachableTactic false

namespace MM

/-! ## The heap right after `mm_init` -/

/-- `coalesce` when both neighbours are allocated. -/
theorem coalesce_both_alloc (s : Heap) (bp : Nat) (hpa : GET_PREV_ALLOC s (HDRP bp) ≠ 0)
    (hna : GET_ALLOC s (HDRP (NEXT_BLKP s bp)) ≠ 0) :
    coalesce s bp
      = (bp, insert_block (SET_PREV_FREE s (HDRP (NEXT_BLKP s bp))) bp
          (get_index (bsize s bp))) := by
  unfold coalesce
  simp only []
  rw [if_pos ⟨hpa, hna⟩]
  rfl

/-- `insert_block` into an empty list. -/
theorem insert_block_empty (s : Heap) (b bp i : Nat) (hbase : s.heap_basep = b)
    (hlistp : s.heap_listp = b + 8) (hS : GET s (b + 8 + 8 * i) = 8 * i + 8)
    (hS4 : GET s (b + 8 + 8 * i + 4) = 8 * i + 8) (hbp : b + 8 + 8 * i + 8 ≤ bp)
    (hlt : bp < b + 4294967296) (hi : i < 12) :
    insert_block s bp i
      = PUT (PUT (PUT (PUT s bp (8 * i + 8)) (bp + 4) (8 * i + 8)) (b + 8 + 8 * i) (bp - b))
          (b + 8 + 8 * i + 4) (bp - b) := by
  have eS : s.heap_listp + i * DSIZE = b + 8 + 8 * i := by
    rw [hlistp]; simp only [DSIZE]; omega
  have e0 : (bp - b) % SZ = bp - b := by
    apply Nat.mod_eq_of_lt
    simp only [SZ]; omega
  have e1 : NEXT_FREE_P (PUT s bp (8 * i + 8)) bp = b + 8 + 8 * i := by
    rw [NEXT_FREE_P_def, PUT_heap_basep, hbase, GET_PUT_same, Nat.mod_eq_of_lt (by omega)]
    omega
  have e2 : GET (PUT s bp (8 * i + 8)) (b + 8 + 8 * i + 4) = 8 * i + 8 := by
    rw [GET_PUT_other _ _ _ _ (by omega), hS4]
  have e3 : NEXT_FREE_P (PUT (PUT (PUT s bp (8 * i + 8)) (bp + 4) (8 * i + 8)) (b + 8 + 8 * i)
      (bp - b)) bp = b + 8 + 8 * i := by
    simp only [NEXT_FREE_P_def, PUT_heap_basep]
    rw [hbase, GET_PUT_other _ _ _ bp (by omega), GET_PUT_other _ _ _ bp (by omega),
      GET_PUT_same, Nat.mod_eq_of_lt (by omega)]
    omega
  unfold insert_block
  simp only [PREV_P, NEXT_P, WSIZE, PUT_heap_listp, PUT_heap_basep, eS, hbase]
  rw [e0, hS, e1, e2, e3]

end MM


set_option linter.unusedVariables false
set_option linter.unusedTactic false
set_option linter.unreachableTactic false

namespace MM

/-- The first extension of the heap, in the state `mm_init` has built: the
new block goes to list 8 as it is. -/
theorem first_extend (sE : Heap) (b : Nat) (h0 : 0 < b) (h8 : b % 8 = 0)
    (hbrk : sE.brk = b + 112) (hlistp : sE.heap_listp = b + 8) (hbase : sE.heap_basep = b)
    (hfit : b + 4208 ≤ sE.max_addr) (hhi : sE.max_addr ≤ b + 4294967296)
    (w108 : GET sE (b + 108) = 3)
    (hs : ∀ i, i < 12 → GET sE (b + 8 + 8 * i) = 8 * i + 8
      ∧ GET sE (b + 8 + 8 * i + 4) = 8 * i + 8) :
    extend_heap sE (CHUNKSIZE * 8 / WSIZE)
      = (b + 112,
          PUT (PUT (PUT (PUT (PUT (PUT (PUT (PUT { sE with brk := b + 4208 } (b + 108) 4098)
            (b + 4200) 4096) (b + 4204) 3) (b + 4204) 1) (b + 112) 72) (b + 116) 72)
            (b + 72) 112) (b + 76) 112) := by
  have hsize : (if (CHUNKSIZE * 8 / WSIZE) % 2 ≠ 0
      then ((CHUNKSIZE * 8 / WSIZE + 1) * WSIZE) % SZ
      else (CHUNKSIZE * 8 / WSIZE * WSIZE) % SZ) = 4096 := by decide
  have hpa : GET_PREV_ALLOC sE (sE.brk - 4) = 2 := by
    rw [hbrk, GET_PREV_ALLOC_eq, show b + 112 - 4 = b + 108 by omega, w108]
  rw [extend_heap_eq sE _ 4096 2 hsize (by rw [hbrk]; omega) (by rw [hbrk]; omega)
    (by rw [hbrk]; omega) hpa (by omega) (by omega) (by omega)]
  rw [hbrk, show b + 112 - 4 = b + 108 by omega, show b + 112 + 4096 = b + 4208 by omega,
    show b + 4208 - 8 = b + 4200 by omega, show b + 4208 - 4 = b + 4204 by omega]
  obtain ⟨s3, hs3⟩ : ∃ s3, s3 = PUT (PUT (PUT { sE with brk := b + 4208 } (b + 108) (4096 + 2))
      (b + 4200) 4096) (b + 4204) (2 + 1) := ⟨_, rfl⟩
  rw [← hs3]
  have g108 : GET s3 (b + 108) = 4098 := by
    rw [hs3, GET_PUT_other _ _ _ _ (by omega), GET_PUT_other _ _ _ _ (by omega), GET_PUT_same]
  have g4204 : GET s3 (b + 4204) = 3 := by
    rw [hs3, GET_PUT_same]
  have gS : ∀ a, a + 4 ≤ b + 108 → GET s3 a = GET sE a := by
    intro a ha
    rw [hs3, GET_PUT_other _ _ _ _ (by omega), GET_PUT_other _ _ _ _ (by omega),
      GET_PUT_other _ _ _ _ (by omega)]
    rfl
  have hb3 : s3.heap_basep = b := by rw [hs3]; exact hbase
  have hl3 : s3.heap_listp = b + 8 := by rw [hs3]; exact hlistp
  have hsz : bsize s3 (b + 112) = 4096 := by
    show GET_SIZE s3 (b + 112 - 4) = _
    rw [show b + 112 - 4 = b + 108 by omega, GET_SIZE_eq, g108]
  have hnx : NEXT_BLKP s3 (b + 112) = b + 4208 := by
    rw [NEXT_BLKP_eq, hsz]
  have hpa3 : GET_PREV_ALLOC s3 (HDRP (b + 112)) ≠ 0 := by
    show GET_PREV_ALLOC s3 (b + 112 - 4) ≠ 0
    rw [show b + 112 - 4 = b + 108 by omega, GET_PREV_ALLOC_eq, g108]
    decide
  have hna3 : GET_ALLOC s3 (HDRP (NEXT_BLKP s3 (b + 112))) ≠ 0 := by
    rw [hnx]
    show GET_ALLOC s3 (b + 4208 - 4) ≠ 0
    rw [show b + 4208 - 4 = b + 4204 by omega, GET_ALLOC_eq, g4204]
    decide
  rw [coalesce_both_alloc s3 (b + 112) hpa3 hna3, hnx, hsz, SET_PREV_FREE_eq]
  have e1 : HDRP (b + 4208) = b + 4204 := by
    show b + 4208 - 4 = _
    omega
  rw [e1, g4204, show get_index 4096 = 8 by decide,
    show 3 - 2 * (3 / 2 % 2) = 1 by decide]
  obtain ⟨s4, hs4⟩ : ∃ s4, s4 = PUT s3 (b + 4204) 1 := ⟨_, rfl⟩
  rw [← hs4]
  have gS4 : ∀ a, a + 4 ≤ b + 108 → GET s4 a = GET sE a := by
    intro a ha
    rw [hs4, GET_PUT_other _ _ _ _ (by omega)]
    exact gS a ha
  rw [insert_block_empty s4 b (b + 112) 8 (by rw [hs4]; exact hb3) (by rw [hs4]; exact hl3)
    (by rw [gS4 _ (by omega)]; exact (hs 8 (by omega)).1)
    (by rw [gS4 _ (by omega)]; exact (hs 8 (by omega)).2) (by omega) (by omega) (by omega)]
  rw [hs4, hs3, show b + 112 - b = 112 by omega]

end MM


set_option linter.unusedVariables false
set_option linter.unusedTactic false
set_option linter.unreachableTactic false

namespace MM

/-- The words of the heap after the first extension. -/
theorem init_words (sE : Heap) (b a : Nat) (h8 : b % 8 = 0) (ha : a % 4 = 0) :
    GET (PUT (PUT (PUT (PUT (PUT (PUT (PUT (PUT { sE with brk := b + 4208 } (b + 108) 4098)
        (b + 4200) 4096) (b + 4204) 3) (b + 4204) 1) (b + 112) 72) (b + 116) 72)
        (b + 72) 112) (b + 76) 112) a
      = if a = b + 76 then 112 else if a = b + 72 then 112 else if a = b + 116 then 72
        else if a = b + 112 then 72 else if a = b + 4204 then 1
        else if a = b + 4200 then 4096 else if a = b + 108 then 4098 else GET sE a := by
  rw [GET_PUT _ _ _ _ (by omega) ha, GET_PUT _ _ _ _ (by omega) ha,
    GET_PUT _ _ _ _ (by omega) ha, GET_PUT _ _ _ _ (by omega) ha,
    GET_PUT _ _ _ _ (by omega) ha, GET_PUT _ _ _ _ (by omega) ha,
    GET_PUT _ _ _ _ (by omega) ha, GET_PUT _ _ _ _ (by omega) ha]
  by_cases h1 : a = b + 76
  · rw [if_pos h1, if_pos h1]
  rw [if_neg h1, if_neg h1]
  by_cases h2 : a = b + 72
  · rw [if_pos h2, if_pos h2]
  rw [if_neg h2, if_neg h2]
  by_cases h3 : a = b + 116
  · rw [if_pos h3, if_pos h3]
  rw [if_neg h3, if_neg h3]
  by_cases h4 : a = b + 112
  · rw [if_pos h4, if_pos h4]
  rw [if_neg h4, if_neg h4]
  by_cases h5 : a = b + 4204
  · rw [if_pos h5, if_pos h5]
  rw [if_neg h5, if_neg h5, if_neg h5]
  by_cases h6 : a = b + 4200
  · rw [if_pos h6, if_pos h6]
  rw [if_neg h6, if_neg h6]
  by_cases h7 : a = b + 108
  · rw [if_pos h7, if_pos h7]
  rw [if_neg h7, if_neg h7]
  rfl

/-- `mm_init` returns `-1` exactly when the heap cannot grow by 112 and then
by 4096 bytes. -/
theorem mm_init_ret (s0 : Heap) (h0 : 0 < s0.brk) (h8 : s0.brk % 8 = 0)
    (hhi : s0.max_addr ≤ s0.brk + 4294967296) :
    (¬ s0.brk + 4208 ≤ s0.max_addr → (mm_init s0).1 = -1)
    ∧ (s0.brk + 4208 ≤ s0.max_addr →
        ∃ sE, sE.heap_listp = s0.brk + 8 ∧ sE.heap_basep = s0.brk
          ∧ GET sE s0.brk = 0 ∧ GET sE (s0.brk + 4) = 107
          ∧ (∀ i, i < 12 → GET sE (s0.brk + 8 + 8 * i) = 8 * i + 8
              ∧ GET sE (s0.brk + 8 + 8 * i + 4) = 8 * i + 8)
          ∧ mm_init s0 = (0,
            PUT (PUT (PUT (PUT (PUT (PUT (PUT (PUT { sE with brk := s0.brk + 4208 }
              (s0.brk + 108) 4098) (s0.brk + 4200) 4096) (s0.brk + 4204) 3)
              (s0.brk + 4204) 1) (s0.brk + 112) 72) (s0.brk + 116) 72)
              (s0.brk + 72) 112) (s0.brk + 76) 112)) := by
  have hsize : (if (CHUNKSIZE * 8 / WSIZE) % 2 ≠ 0
      then ((CHUNKSIZE * 8 / WSIZE + 1) * WSIZE) % SZ
      else (CHUNKSIZE * 8 / WSIZE * WSIZE) % SZ) = 4096 := by decide
  refine ⟨fun hno => ?_, fun hfit => ?_⟩
  · by_cases hfit1 : s0.brk + 112 ≤ s0.max_addr
    · obtain ⟨sE, heq, hbrk, hmax, -⟩ := mm_init_pre s0 h0 h8 hfit1
      rw [heq, extend_heap_fail sE _ _ hsize (by rw [hbrk, hmax]; omega), if_pos rfl]
    · exact mm_init_fail s0 hfit1
  · obtain ⟨sE, heq, hbrk, hmax, hlistp, hbase, w0, w4, w108, hs⟩ :=
      mm_init_pre s0 h0 h8 (by omega)
    refine ⟨sE, hlistp, hbase, w0, w4, hs, ?_⟩
    rw [heq, first_extend sE s0.brk h0 h8 hbrk hlistp hbase (by rw [hmax]; exact hfit)
      (by rw [hmax]; exact hhi) w108 hs]
    rw [if_neg (by show ¬ (s0.brk + 112 = 0); omega)]

end MM


set_option linter.unusedVariables false
set_option linter.unusedTactic false
set_option linter.unreachableTactic false

namespace MM

/-- C11: on a heap that starts at a non-null, 8-byte aligned break and can
hold at most `2 ^ 32` bytes, `mm_init` returns `-1` exactly when `mem_sbrk`
refuses the request of 112 bytes or the following request of 4096 bytes;
otherwise it returns 0, and the heap is: the padding word 0, the allocated
prologue of 104 bytes that holds the 12 sentinels, every sentinel linked to
itself in both directions except sentinel 8 (the class of 4096), whose list
holds the one free block of 4096 bytes right behind the prologue, and the
allocated epilogue of size 0 behind that block. -/
theorem C11_init_postcondition (s0 : Heap) (h0 : 0 < s0.brk) (h8 : s0.brk % 8 = 0)
    (hhi : s0.max_addr ≤ s0.brk + 4294967296) :
    ((mm_init s0).1 = -1
      ↔ ((mem_sbrk s0 112).1 = SZ - 1 ∨ (mem_sbrk (mem_sbrk s0 112).2 4096).1 = SZ - 1))
    ∧ ((mm_init s0).1 ≠ -1 →
        (mm_init s0).1 = 0
        ∧ (mm_init s0).2.heap_basep = s0.brk ∧ (mm_init s0).2.heap_listp = s0.brk + 8
        ∧ (mm_init s0).2.brk = s0.brk + 4208
        ∧ GET (mm_init s0).2 s0.brk = 0
        ∧ GET_SIZE (mm_init s0).2 (s0.brk + 4) = 104
        ∧ GET_ALLOC (mm_init s0).2 (s0.brk + 4) = 1
        ∧ NEXT_BLKP (mm_init s0).2 (s0.brk + 8) = s0.brk + 112
        ∧ (∀ i, i < 12 → i ≠ 8 →
            NEXT_FREE_P (mm_init s0).2 (s0.brk + 8 + 8 * i) = s0.brk + 8 + 8 * i
            ∧ PREV_FREE_P (mm_init s0).2 (s0.brk + 8 + 8 * i) = s0.brk + 8 + 8 * i)
        ∧ get_index 4096 = 8
        ∧ NEXT_FREE_P (mm_init s0).2 (s0.brk + 72) = s0.brk + 112
        ∧ PREV_FREE_P (mm_init s0).2 (s0.brk + 72) = s0.brk + 112
        ∧ NEXT_FREE_P (mm_init s0).2 (s0.brk + 112) = s0.brk + 72
        ∧ PREV_FREE_P (mm_init s0).2 (s0.brk + 112) = s0.brk + 72
        ∧ GET_SIZE (mm_init s0).2 (HDRP (s0.brk + 112)) = 4096
        ∧ GET_ALLOC (mm_init s0).2 (HDRP (s0.brk + 112)) = 0
        ∧ NEXT_BLKP (mm_init s0).2 (s0.brk + 112) = s0.brk + 4208
        ∧ GET_SIZE (mm_init s0).2 (HDRP (s0.brk + 4208)) = 0
        ∧ GET_ALLOC (mm_init s0).2 (HDRP (s0.brk + 4208)) = 1
        ∧ ∀ fuel i, 2 ≤ fuel → i < 12 →
            listBlocks fuel (mm_init s0).2 i = some (if i = 8 then [s0.brk + 112] else [])) := by
  obtain ⟨hfail, hok⟩ := mm_init_ret s0 h0 h8 hhi
  have hsb : ((mem_sbrk s0 112).1 = SZ - 1 ∨ (mem_sbrk (mem_sbrk s0 112).2 4096).1 = SZ - 1)
      ↔ ¬ s0.brk + 4208 ≤ s0.max_addr := by
    unfold mem_sbrk
    by_cases h1 : s0.brk + 112 ≤ s0.max_addr
    · rw [if_pos h1]
      simp only []
      by_cases h2 : s0.brk + 112 + 4096 ≤ s0.max_addr
      · rw [if_pos h2]
        simp only [SZ]
        constructor
        · rintro (h | h) <;> omega
        · intro h; omega
      · rw [if_neg h2]
        simp only [SZ]
        constructor
        · intro _; omega
        · intro _; right; trivial
    · rw [if_neg h1]
      constructor
      · intro _; omega
      · intro _; left; trivial
  by_cases hfit : s0.brk + 4208 ≤ s0.max_addr
  · obtain ⟨sE, hlistp, hbase, w0, w4, hs, heq⟩ := hok hfit
    have hne : (mm_init s0).1 ≠ -1 := by
      rw [heq]
      show (0 : Int) ≠ -1
      decide
    refine ⟨⟨fun h => absurd h hne, fun h => absurd hfit (hsb.mp h)⟩, fun _ => ?_⟩
    rw [heq]
    simp only []
    obtain ⟨s, hsdef⟩ : ∃ s, s = PUT (PUT (PUT (PUT (PUT (PUT (PUT (PUT
        { sE with brk := s0.brk + 4208 } (s0.brk + 108) 4098) (s0.brk + 4200) 4096)
        (s0.brk + 4204) 3) (s0.brk + 4204) 1) (s0.brk + 112) 72) (s0.brk + 116) 72)
        (s0.brk + 72) 112) (s0.brk + 76) 112 := ⟨_, rfl⟩
    rw [← hsdef]
    have hw : ∀ a, a % 4 = 0 → GET s a
        = if a = s0.brk + 76 then 112 else if a = s0.brk + 72 then 112
          else if a = s0.brk + 116 then 72 else if a = s0.brk + 112 then 72
          else if a = s0.brk + 4204 then 1 else if a = s0.brk + 4200 then 4096
          else if a = s0.brk + 108 then 4098 else GET sE a := by
      intro a ha
      rw [hsdef]
      exact init_words sE s0.brk a h8 ha
    have hlow : ∀ a, a % 4 = 0 → a + 4 ≤ s0.brk + 72 → GET s a = GET sE a := by
      intro a ha h
      rw [hw a ha, if_neg (by omega), if_neg (by omega), if_neg (by omega), if_neg (by omega),
        if_neg (by omega), if_neg (by omega), if_neg (by omega)]
    have hmid : ∀ a, a % 4 = 0 → s0.brk + 80 ≤ a → a + 4 ≤ s0.brk + 108 →
        GET s a = GET sE a := by
      intro a ha h1 h2
      rw [hw a ha, if_neg (by omega), if_neg (by omega), if_neg (by omega), if_neg (by omega),
        if_neg (by omega), if_neg (by omega), if_neg (by omega)]
    have hb : s.heap_basep = s0.brk := by rw [hsdef]; exact hbase
    have hl : s.heap_listp = s0.brk + 8 := by rw [hsdef]; exact hlistp
    have g4 : GET s (s0.brk + 4) = 107 := by rw [hlow _ (by omega) (by omega), w4]
    have g72 : GET s (s0.brk + 72) = 112 := by
      rw [hw _ (by omega), if_neg (by omega), if_pos rfl]
    have g76 : GET s (s0.brk + 76) = 112 := by
      rw [hw _ (by omega), if_pos rfl]
    have g112 : GET s (s0.brk + 112) = 72 := by
      rw [hw _ (by omega), if_neg (by omega), if_neg (by omega), if_neg (by omega), if_pos rfl]
    have g116 : GET s (s0.brk + 116) = 72 := by
      rw [hw _ (by omega), if_neg (by omega), if_neg (by omega), if_pos rfl]
    have g108 : GET s (s0.brk + 108) = 4098 := by
      rw [hw _ (by omega), if_neg (by omega), if_neg (by omega), if_neg (by omega),
        if_neg (by omega), if_neg (by omega), if_neg (by omega), if_pos rfl]
    have g4204 : GET s (s0.brk + 4204) = 1 := by
      rw [hw _ (by omega), if_neg (by omega), if_neg (by omega), if_neg (by omega),
        if_neg (by omega), if_pos rfl]
    have hsent : ∀ i, i < 12 → i ≠ 8 →
        NEXT_FREE_P s (s0.brk + 8 + 8 * i) = s0.brk + 8 + 8 * i
        ∧ PREV_FREE_P s (s0.brk + 8 + 8 * i) = s0.brk + 8 + 8 * i := by
      intro i hi hne8
      rw [NEXT_FREE_P_def, PREV_FREE_P_def, hb]
      by_cases hlt : i < 8
      · rw [hlow _ (by omega) (by omega), hlow _ (by omega) (by omega), (hs i hi).1,
          (hs i hi).2]
        omega
      · rw [hmid _ (by omega) (by omega) (by omega), hmid _ (by omega) (by omega) (by omega),
          (hs i hi).1, (hs i hi).2]
        omega
    have n72 : NEXT_FREE_P s (s0.brk + 72) = s0.brk + 112 := by
      rw [NEXT_FREE_P_def, hb, g72]
    have n112 : NEXT_FREE_P s (s0.brk + 112) = s0.brk + 72 := by
      rw [NEXT_FREE_P_def, hb, g112]
    have h108 : HDRP (s0.brk + 112) = s0.brk + 108 := by
      show s0.brk + 112 - 4 = _
      omega
    have h4204 : HDRP (s0.brk + 4208) = s0.brk + 4204 := by
      show s0.brk + 4208 - 4 = _
      omega
    refine ⟨trivial, hb, hl, by rw [hsdef]; rfl, ?_, ?_, ?_, ?_, hsent, by decide, n72, ?_, n112, ?_,
      ?_, ?_, ?_, ?_, ?_, ?_⟩
    · rw [hlow _ (by omega) (by omega), w0]
    · rw [GET_SIZE_eq, g4]
    · rw [GET_ALLOC_eq, g4]
    · show s0.brk + 8 + GET_SIZE s (s0.brk + 8 - 4) = _
      rw [show s0.brk + 8 - 4 = s0.brk + 4 by omega, GET_SIZE_eq, g4]
    · rw [PREV_FREE_P_def, hb, show s0.brk + 72 + 4 = s0.brk + 76 by omega, g76]
    · rw [PREV_FREE_P_def, hb, show s0.brk + 112 + 4 = s0.brk + 116 by omega, g116]
    · rw [h108, GET_SIZE_eq, g108]
    · rw [h108, GET_ALLOC_eq, g108]
    · show s0.brk + 112 + GET_SIZE s (s0.brk + 112 - 4) = _
      rw [show s0.brk + 112 - 4 = s0.brk + 108 by omega, GET_SIZE_eq, g108]
    · rw [h4204, GET_SIZE_eq, g4204]
    · rw [h4204, GET_ALLOC_eq, g4204]
    · intro fuel i hf hi
      obtain ⟨f, rfl⟩ : ∃ f, fuel = f + 2 := ⟨fuel - 2, by omega⟩
      have eS : s.heap_listp + i * DSIZE = s0.brk + 8 + 8 * i := by
        rw [hl]; simp only [DSIZE]; omega
      unfold listBlocks
      rw [eS]
      by_cases hi8 : i = 8
      · subst hi8
        rw [if_pos rfl, show s0.brk + 8 + 8 * 8 = s0.brk + 72 by omega, n72]
        unfold listWalk
        rw [if_neg (by omega), n112]
        unfold listWalk
        rw [if_pos rfl]
      · rw [if_neg hi8, (hsent i hi hi8).1]
        unfold listWalk
        rw [if_pos rfl]
  · have hm := hfail hfit
    refine ⟨⟨fun _ => hsb.mpr hfit, fun _ => hm⟩, fun h => absurd hm h⟩

theorem C11_init_postcondition_witness :
    0 < heap0.brk ∧ heap0.brk % 8 = 0 ∧ heap0.max_addr ≤ heap0.brk + 4294967296
    ∧ (mm_init heap0).1 ≠ -1 ∧ (mm_init heap0).2.brk = heap0.brk + 4208
    ∧ GET_SIZE (mm_init heap0).2 (HDRP (heap0.brk + 112)) = 4096 :=
  have h := C11_init_postcondition heap0 (by decide) (by decide) (by decide)
  have hne : (mm_init heap0).1 ≠ -1 := by decide
  ⟨by decide, by decide, by decide, hne, (h.2 hne).2.2.2.1,
    (h.2 hne).2.2.2.2.2.2.2.2.2.2.2.2.2.2.1⟩

end MM


set_option linter.unusedVariables false
set_option linter.unusedTactic false
set_option linter.unreachableTactic false

namespace MM

/-! ## First fit -/

/-- The size class of `a` and the bounds that go with it. -/
theorem get_index_cases (a : Nat) :
    (a ≤ 16 ∧ get_index a = 0)
    ∨ (16 < a ∧ a ≤ 32 ∧ get_index a = 1)
    ∨ (32 < a ∧ a ≤ 64 ∧ get_index a = 2)
    ∨ (64 < a ∧ a ≤ 128 ∧ get_index a = 3)
    ∨ (128 < a ∧ a ≤ 256 ∧ get_index a = 4)
    ∨ (256 < a ∧ a ≤ 512 ∧ get_index a = 5)
    ∨ (512 < a ∧ a ≤ 1024 ∧ get_index a = 6)
    ∨ (1024 < a ∧ a ≤ 2048 ∧ get_index a = 7)
    ∨ (2048 < a ∧ a ≤ 4096 ∧ get_index a = 8)
    ∨ (4096 < a ∧ a ≤ 8192 ∧ get_index a = 9)
    ∨ (8192 < a ∧ a ≤ 16384 ∧ get_index a = 10)
    ∨ (16384 < a ∧ get_index a = 11) := by
  unfold get_index
  simp only [SIZE1, SIZE2, SIZE3, SIZE4, SIZE5, SIZE6, SIZE7, SIZE8, SIZE9, SIZE10, SIZE11]
  by_cases h0 : a ≤ 16
  · exact Or.inl ⟨h0, by rw [if_pos h0]⟩
  refine Or.inr ?_
  by_cases h1 : a ≤ 32
  · exact Or.inl ⟨by omega, h1, by rw [if_neg h0, if_pos h1]⟩
  refine Or.inr ?_
  by_cases h2 : a ≤ 64
  · exact Or.inl ⟨by omega, h2, by rw [if_neg h0, if_neg h1, if_pos h2]⟩
  refine Or.inr ?_
  by_cases h3 : a ≤ 128
  · exact Or.inl ⟨by omega, h3, by rw [if_neg h0, if_neg h1, if_neg h2, if_pos h3]⟩
  refine Or.inr ?_
  by_cases h4 : a ≤ 256
  · exact Or.inl ⟨by omega, h4, by rw [if_neg h0, if_neg h1, if_neg h2, if_neg h3, if_pos h4]⟩
  refine Or.inr ?_
  by_cases h5 : a ≤ 512
  · exact Or.inl ⟨by omega, h5, by rw [if_neg h0, if_neg h1, if_neg h2, if_neg h3, if_neg h4, if_pos h5]⟩
  refine Or.inr ?_
  by_cases h6 : a ≤ 1024
  · exact Or.inl ⟨by omega, h6, by rw [if_neg h0, if_neg h1, if_neg h2, if_neg h3, if_neg h4, if_neg h5, if_pos h6]⟩
  refine Or.inr ?_
  by_cases h7 : a ≤ 2048
  · exact Or.inl ⟨by omega, h7, by rw [if_neg h0, if_neg h1, if_neg h2, if_neg h3, if_neg h4, if_neg h5, if_neg h6, if_pos h7]⟩
  refine Or.inr ?_
  by_cases h8 : a ≤ 4096
  · exact Or.inl ⟨by omega, h8, by rw [if_neg h0, if_neg h1, if_neg h2, if_neg h3, if_neg h4, if_neg h5, if_neg h6, if_neg h7, if_pos h8]⟩
  refine Or.inr ?_
  by_cases h9 : a ≤ 8192
  · exact Or.inl ⟨by omega, h9, by rw [if_neg h0, if_neg h1, if_neg h2, if_neg h3, if_neg h4, if_neg h5, if_neg h6, if_neg h7, if_neg h8, if_pos h9]⟩
  refine Or.inr ?_
  by_cases h10 : a ≤ 16384
  · exact Or.inl ⟨by omega, h10, by rw [if_neg h0, if_neg h1, if_neg h2, if_neg h3, if_neg h4, if_neg h5, if_neg h6, if_neg h7, if_neg h8, if_neg h9, if_pos h10]⟩
  refine Or.inr ?_
  exact ⟨by omega, by rw [if_neg h0, if_neg h1, if_neg h2, if_neg h3, if_neg h4, if_neg h5, if_neg h6, if_neg h7, if_neg h8, if_neg h9, if_neg h10]⟩

theorem get_index_mono (a b : Nat) (h : a ≤ b) : get_index a ≤ get_index b := by
  have ha := get_index_cases a
  have hb := get_index_cases b
  omega

end MM


set_option linter.unusedVariables false
set_option linter.unusedTactic false
set_option linter.unreachableTactic false

namespace MM

/-- More fuel does not change a walk that has returned. -/
theorem listWalk_mono (s : Heap) (cur : Nat) :
    ∀ f x l, listWalk s cur f x = some l → ∀ f', f ≤ f' → listWalk s cur f' x = some l := by
  intro f
  induction f with
  | zero =>
    intro x l h
    exact absurd h (by simp [listWalk])
  | succ f ih =>
    intro x l h f' hf
    obtain ⟨g, rfl⟩ : ∃ g, f' = g + 1 := ⟨f' - 1, by omega⟩
    unfold listWalk at h ⊢
    by_cases hx : x = cur
    · rw [if_pos hx] at h ⊢
      exact h
    · rw [if_neg hx] at h ⊢
      cases hr : listWalk s cur f (NEXT_FREE_P s x) with
      | none => rw [hr] at h; exact absurd h (by simp)
      | some l' =>
        rw [hr] at h
        rw [ih _ l' hr g (by omega)]
        exact h

/-- The walk from a node of bucket `j` returns, and it meets listed blocks of
bucket `j` only. -/
theorem listWalk_total {s : Heap} {g : Ghost} (hl : Lists s g) (j : Nat) (hj : j < 12) :
    ∀ n x, isNode s g x → g.bkt x = j → (g.fr x → g.rk x < n) →
      ∃ l, listWalk s (s.heap_basep + 8 + 8 * j) (n + 1) x = some l
        ∧ ∀ y, y ∈ l → g.fr y ∧ g.bkt y = j := by
  intro n
  induction n with
  | zero =>
    intro x hx hbk hrk
    have hnf : ¬ g.fr x := fun h => absurd (hrk h) (Nat.not_lt_zero _)
    have hs : isSent s x := by
      rcases hx with h | h
      · exact h
      · exact absurd h hnf
    obtain ⟨k, hk, rfl⟩ := hs
    rw [hl.sent_bkt k hk] at hbk
    subst hbk
    refine ⟨[], ?_, fun y hy => absurd hy (List.not_mem_nil _)⟩
    unfold listWalk
    rw [if_pos rfl]
  | succ n ih =>
    intro x hx hbk hrk
    by_cases hxS : x = s.heap_basep + 8 + 8 * j
    · refine ⟨[], ?_, fun y hy => absurd hy (List.not_mem_nil _)⟩
      unfold listWalk
      rw [if_pos hxS]
    · have hfr : g.fr x := by
        rcases hx with h | h
        · obtain ⟨k, hk, rfl⟩ := h
          rw [hl.sent_bkt k hk] at hbk
          subst hbk
          exact absurd rfl hxS
        · exact h
      have hxn := hl.next x hx
      obtain ⟨l, hw, hmem⟩ := ih (NEXT_FREE_P s x) hxn.1 (by rw [hxn.2.2.1, hbk])
        (fun h => by have := hxn.2.2.2 h; have := hrk hfr; omega)
      refine ⟨x :: l, ?_, ?_⟩
      · rw [listWalk, if_neg hxS, hw]
      · intro y hy
        rcases List.mem_cons.mp hy with h | h
        · rw [h]; exact ⟨hfr, hbk⟩
        · exact hmem y h

/-- With enough fuel every list can be read, and it holds listed blocks of
its own size class only. -/
theorem listBlocks_total {s : Heap} {g : Ghost} (lay : Layout s) (hl : Lists s g) :
    ∃ N, ∀ fuel, N ≤ fuel → ∀ j, j < 12 →
      ∃ l, listBlocks fuel s j = some l ∧ ∀ y, y ∈ l → g.fr y ∧ g.bkt y = j := by
  obtain ⟨B, hB⟩ := exists_bound
    (fun j => g.rk (NEXT_FREE_P s (s.heap_basep + 8 + 8 * j))) 12
  refine ⟨B + 2, fun fuel hfuel j hj => ?_⟩
  have hS : isNode s g (s.heap_basep + 8 + 8 * j) := Or.inl ⟨j, hj, rfl⟩
  have hSn := hl.next _ hS
  obtain ⟨l, hw, hmem⟩ := listWalk_total hl j hj (B + 1)
    (NEXT_FREE_P s (s.heap_basep + 8 + 8 * j)) hSn.1
    (by rw [hSn.2.2.1]; exact hl.sent_bkt j hj)
    (fun _ => by have := hB j hj; omega)
  have eS : s.heap_listp + j * DSIZE = s.heap_basep + 8 + 8 * j := by
    rw [lay.listp]; simp only [DSIZE]; omega
  refine ⟨l, ?_, hmem⟩
  unfold listBlocks
  rw [eS]
  exact listWalk_mono s _ _ _ l hw fuel (by omega)

end MM


set_option linter.unusedVariables false
set_option linter.unusedTactic false
set_option linter.unreachableTactic false

namespace MM

end MM


set_option linter.unusedVariables false
set_option linter.unusedTactic false
set_option linter.unreachableTactic false

namespace MM

end MM


set_option linter.unusedVariables false
set_option linter.unusedTactic false
set_option linter.unreachableTactic false

namespace MM

theorem place_brk (s : Heap) (bp size : Nat) : (place s bp size).brk = s.brk := by
  unfold place
  simp only []
  split <;> rfl

set_option maxRecDepth 100000 in
theorem reach_a200 : Reach heapA200 [(8416, 200)] := by
  have h1 : Reach (stOf ex_b200) [(8416, 200), (8304, 100)] :=
    Reach.malloc 20 (stOf ex_a) (stOf ex_b200) [(8304, 100)] 200 8416 reach_a (by decide)
      (eq_some_of _ _ (by decide) (by decide))
  have h2 := Reach.free _ _ 8304 h1 (Or.inr ⟨100, by decide⟩)
  have e : ptrOf ex_a = 8304 := by decide
  unfold heapA200
  rw [e]
  exact h2

end MM


set_option linter.unusedVariables false
set_option linter.unusedTactic false
set_option linter.unreachableTactic false

namespace MM

/-! ## Size classes, placement and the header bits -/

/-- Claim C28.  `get_index size` is below 12; for `size ≤ 16384` it is the
least `i ≤ 10` with `size ≤ 2 ^ (i + 4)`; for larger sizes it is 11; and it is
monotone: `size ≤ b` gives `get_index size ≤ get_index b`. -/
theorem C28_get_index_least_class (size b : Nat) (h : size ≤ b) :
    get_index size < 12
    ∧ (size ≤ 16384 → get_index size ≤ 10 ∧ size ≤ 2 ^ (get_index size + 4)
        ∧ ∀ j, j < get_index size → 2 ^ (j + 4) < size)
    ∧ (16384 < size → get_index size = 11)
    ∧ get_index size ≤ get_index b := by
  refine ⟨get_index_lt size, fun hs => ?_, fun hs => ?_, get_index_mono size b h⟩
  · have hc := get_index_cases size
    have hp : ∀ j, j < 11 → 2 ^ (j + 4) = 16 ∨ 2 ^ (j + 4) = 32 ∨ 2 ^ (j + 4) = 64
        ∨ 2 ^ (j + 4) = 128 ∨ 2 ^ (j + 4) = 256 ∨ 2 ^ (j + 4) = 512 ∨ 2 ^ (j + 4) = 1024
        ∨ 2 ^ (j + 4) = 2048 ∨ 2 ^ (j + 4) = 4096 ∨ 2 ^ (j + 4) = 8192
        ∨ 2 ^ (j + 4) = 16384 := by
      intro j hj
      interval_cases j <;> simp
    have hq : ∀ j k, j < k → k < 11 → 2 * 2 ^ (j + 4) ≤ 2 ^ (k + 4) := by
      intro j k hjk hk
      have : 2 ^ (j + 1 + 4) ≤ 2 ^ (k + 4) := Nat.pow_le_pow_right (by omega) (by omega)
      rw [show j + 1 + 4 = (j + 4) + 1 by omega, Nat.pow_succ] at this
      omega
    rcases hc with h0 | h0 | h0 | h0 | h0 | h0 | h0 | h0 | h0 | h0 | h0 | h0
    all_goals first
      | (exfalso; omega)
      | (obtain ⟨hlo, hhi, he⟩ := h0
         rw [he]
         refine ⟨by omega, by norm_num; omega, fun j hj => ?_⟩
         have h1 := hq j _ hj (by omega)
         norm_num at h1
         omega)
      | (obtain ⟨hhi, he⟩ := h0
         rw [he]
         refine ⟨by omega, by norm_num; omega, fun j hj => absurd hj (Nat.not_lt_zero _)⟩)
  · rcases get_index_cases size with h0 | h0 | h0 | h0 | h0 | h0 | h0 | h0 | h0 | h0 | h0 | h0
    all_goals first
      | exact h0.2
      | (exfalso; omega)

/-- Witness for C28: sizes 100 and 5000. -/
theorem C28_get_index_least_class_witness :
    100 ≤ 5000
    ∧ (get_index 100 < 12
    ∧ (100 ≤ 16384 → get_index 100 ≤ 10 ∧ 100 ≤ 2 ^ (get_index 100 + 4)
        ∧ ∀ j, j < get_index 100 → 2 ^ (j + 4) < 100)
    ∧ (16384 < 100 → get_index 100 = 11)
    ∧ get_index 100 ≤ get_index 5000)
    ∧ get_index 100 = 3 ∧ get_index 5000 = 9 ∧ get_index 16384 = 10 ∧ get_index 16385 = 11 :=
  ⟨by decide, C28_get_index_least_class 100 5000 (by decide), by decide, by decide,
    by decide, by decide⟩

set_option maxRecDepth 100000 in
/-- Claim C21 fails: after `mm_init` the block at 8304 is on list 8 with size
4096; `place` of 112 bytes there splits it, and the tail at 8416 (size 3984,
on list 8) has its allocation bit set, not clear. -/
theorem C21_split_tail_marked_allocated :
    listBlocks 20 heap1 8 = some [8304] ∧ bsize heap1 8304 = 4096
    ∧ bsize (place heap1 8304 112) 8304 = 112
    ∧ GET_ALLOC (place heap1 8304 112) (HDRP 8304) = 1
    ∧ NEXT_BLKP (place heap1 8304 112) 8304 = 8416
    ∧ bsize (place heap1 8304 112) 8416 = 3984
    ∧ GET (place heap1 8304 112) (HDRP 8416)
        = GET (place heap1 8304 112) (FTRP (place heap1 8304 112) 8416)
    ∧ get_index 3984 = 8
    ∧ listBlocks 20 (place heap1 8304 112) 8 = some [8416]
    ∧ GET_ALLOC (place heap1 8304 112) (HDRP 8416) = 1 := by
  decide

set_option maxRecDepth 100000 in
/-- Claim C23 fails: after `mm_init` and `malloc(100)` the blocks are 8304 and
8416, followed by the epilogue at 12400; the block at 8416 has its allocation
bit set, and the epilogue header has the flag of its predecessor clear. -/
theorem C23_flag_differs_from_bit :
    ptrOf ex_a = 8304
    ∧ heapBlocks 20 (stOf ex_a) = some ([8304, 8416], 12400)
    ∧ (stOf ex_a).brk = 12400
    ∧ GET_ALLOC (stOf ex_a) (HDRP 8416) = 1
    ∧ NEXT_BLKP (stOf ex_a) 8416 = 12400
    ∧ GET_PREV_ALLOC (stOf ex_a) (HDRP 12400) = 0 := by
  decide

set_option maxRecDepth 100000 in
/-- Claim C24 fails: right after `mm_init` the block at 8304 is on list 8, its
header word is 4098 and its footer word is 4096. -/
theorem C24_footer_differs_after_init :
    (mm_init heap0).1 = 0
    ∧ listBlocks 20 heap1 8 = some [8304]
    ∧ GET heap1 (HDRP 8304) = 4098
    ∧ GET heap1 (FTRP heap1 8304) = 4096 := by
  decide

/-- Claim C25.  In every reachable state, with enough fuel the walk along the
next links from the sentinel of each list `i < 12` comes back to that
sentinel, and every block it meets has a size whose class is `i`. -/
theorem C25_bucket_invariant (s : Heap) (L : List (Nat × Nat)) (h : Reach s L) :
    ∃ N, ∀ fuel, N ≤ fuel → ∀ i, i < 12 →
      ∃ l, listBlocks fuel s i = some l ∧ ∀ x, x ∈ l → get_index (bsize s x) = i := by
  obtain ⟨g, hI⟩ := Reach.inv h
  obtain ⟨N, hN⟩ := listBlocks_total hI.lay hI.lists
  refine ⟨N, fun fuel hf i hi => ?_⟩
  obtain ⟨l, hl, hm⟩ := hN fuel hf i hi
  refine ⟨l, hl, fun x hx => ?_⟩
  have h1 := hm x hx
  rw [(hI.blocks.fr_hdr x h1.1).2.2, h1.2]

set_option maxRecDepth 100000 in
/-- Witness for C25: the state after `init; a = malloc(100); b = malloc(200);
free(a)`, whose lists 3 and 8 hold one block each. -/
theorem C25_bucket_invariant_witness :
    Reach heapA200 [(8416, 200)]
    ∧ (∃ N, ∀ fuel, N ≤ fuel → ∀ i, i < 12 →
      ∃ l, listBlocks fuel heapA200 i = some l
        ∧ ∀ x, x ∈ l → get_index (bsize heapA200 x) = i)
    ∧ listBlocks 20 heapA200 3 = some [8304] ∧ listBlocks 20 heapA200 8 = some [8624]
    ∧ get_index (bsize heapA200 8304) = 3 ∧ get_index (bsize heapA200 8624) = 8 :=
  ⟨reach_a200, C25_bucket_invariant heapA200 [(8416, 200)] reach_a200,
    by decide, by decide, by decide, by decide⟩

end MM


set_option linter.unusedVariables false
set_option linter.unusedTactic false
set_option linter.unreachableTactic false

namespace MM

/-! ## The blocks tile the heap, and the break never moves down -/

theorem coalesce_brk (s : Heap) (bp : Nat) : (coalesce s bp).2.brk = s.brk := by
  unfold coalesce
  simp only []
  split
  · rfl
  · split
    · rfl
    · split
      · rfl
      · rfl

theorem free_brk (s : Heap) (p : Nat) : (free s p).brk = s.brk := by
  unfold free
  split
  · rfl
  · simp only []
    rw [coalesce_brk]
    rfl

theorem extend_heap_brk (s : Heap) (words : Nat) : s.brk ≤ (extend_heap s words).2.brk := by
  have hm : ∀ n, s.brk ≤ (mem_sbrk s n).2.brk := by
    intro n
    unfold mem_sbrk
    split
    · exact Nat.le_add_right _ _
    · exact le_refl _
  unfold extend_heap
  lift_lets
  extract_lets sz r bp s0 pav s1 s2 s3
  have h0 : s.brk ≤ s0.brk := hm sz
  split
  · exact h0
  · rw [coalesce_brk]
    exact h0

theorem malloc_brk (fuel : Nat) (s : Heap) (n p : Nat) (s' : Heap)
    (h : malloc fuel s n = some (p, s')) : s.brk ≤ s'.brk := by
  by_cases hn : 0 < n
  · rw [malloc_unfold fuel s n hn] at h
    cases hff : find_fit fuel s (malloc_asize n) with
    | none => rw [hff] at h; exact absurd h (by simp)
    | some bp =>
      rw [hff] at h
      simp only at h
      split at h
      · have e := (Prod.mk.inj (Option.some.inj h)).2
        rw [← e, place_brk]
      · split at h
        · have e := (Prod.mk.inj (Option.some.inj h)).2
          rw [← e]
          exact extend_heap_brk _ _
        · have e := (Prod.mk.inj (Option.some.inj h)).2
          rw [← e, place_brk]
          exact extend_heap_brk _ _
  · have : n = 0 := by omega
    subst this
    rw [malloc_zero] at h
    have e := (Prod.mk.inj (Option.some.inj h)).2
    rw [← e]

theorem realloc_brk (fuel : Nat) (s : Heap) (ptr n q : Nat) (s' : Heap)
    (h : realloc fuel s ptr n = some (q, s')) : s.brk ≤ s'.brk := by
  by_cases hp : ptr = 0
  · rw [hp, realloc_null_ptr] at h
    exact malloc_brk fuel s n q s' h
  · by_cases hn : n = 0
    · rw [hn, realloc_zero_size fuel s ptr hp] at h
      have e := (Prod.mk.inj (Option.some.inj h)).2
      rw [← e, free_brk]
    · rw [realloc_unfold fuel s ptr n hp hn] at h
      split at h
      · have e := (Prod.mk.inj (Option.some.inj h)).2
        rw [← e]
      · cases hm : malloc fuel s n with
        | none => rw [hm] at h; exact absurd h (by simp)
        | some r =>
          obtain ⟨p, s1⟩ := r
          have hb := malloc_brk fuel s n p s1 hm
          rw [hm] at h
          simp only at h
          split at h
          · have e := (Prod.mk.inj (Option.some.inj h)).2
            rw [← e]; exact hb
          · have e := (Prod.mk.inj (Option.some.inj h)).2
            rw [← e, free_brk]
            exact hb

theorem calloc_brk (fuel : Nat) (s : Heap) (nmemb size p : Nat) (s' : Heap)
    (h : calloc fuel s nmemb size = some (p, s')) : s.brk ≤ s'.brk := by
  obtain ⟨s1, hm, hs⟩ := calloc_some fuel s nmemb size p s' h
  have hb := malloc_brk fuel s _ p s1 hm
  obtain ⟨-, hG, -⟩ := memset_some s1 p 0 _ s' hs
  have := hG.1
  omega

/-- The walk over the blocks from a block start reaches the break. -/
theorem blockWalk_total {s : Heap} {L : List (Nat × Nat)} {g : Ghost} (lay : Layout s)
    (hB : Blocks s L g) :
    ∀ n bp, (g.blk bp ∨ bp = s.brk) → s.brk < bp + n → ∀ fuel, n ≤ fuel →
      ∃ l, blockWalk s fuel bp = some (l, s.brk) ∧ ∀ b, b ∈ l → g.blk b := by
  intro n
  induction n with
  | zero =>
    intro bp hbp hn
    rcases hbp with h | h
    · have := hB.lo bp h
      omega
    · omega
  | succ n ih =>
    intro bp hbp hn fuel hfuel
    obtain ⟨f, rfl⟩ : ∃ f, fuel = f + 1 := ⟨fuel - 1, by omega⟩
    rcases hbp with h | h
    · have hlo := hB.lo bp h
      have hsz : GET_SIZE s (HDRP bp) ≠ 0 := by
        show bsize s bp ≠ 0
        omega
      obtain ⟨l, hl, hm⟩ := ih (bp + bsize s bp) (hB.next bp h) (by omega) f (by omega)
      refine ⟨bp :: l, ?_, ?_⟩
      · rw [blockWalk, if_neg hsz, NEXT_BLKP_eq, hl]
      · intro b hb
        rcases List.mem_cons.mp hb with e | e
        · rw [e]; exact h
        · exact hm b e
    · refine ⟨[], ?_, fun b hb => absurd hb (List.not_mem_nil b)⟩
      have hlo := lay.brk_lo
      have : GET_SIZE s (HDRP bp) = 0 := by
        rw [h]
        exact hB.epi_size
      rw [blockWalk, if_pos this, h]

/-- Claim C26.  In every reachable state, with enough fuel the walk from the
first block after the prologue, adding the size of each header, visits blocks
whose sizes are multiples of 8 and at least 16 and stops at the break, where
the header (the last word of the heap) has size 0 and the allocation bit; and
no call of `malloc`, `free`, `realloc` or `calloc` that returns moves the
break down. -/
theorem C26_block_tiling (s : Heap) (L : List (Nat × Nat)) (h : Reach s L) :
    (∃ N, ∀ fuel, N ≤ fuel →
      ∃ l, heapBlocks fuel s = some (l, s.brk)
        ∧ ∀ b, b ∈ l → bsize s b % 8 = 0 ∧ 16 ≤ bsize s b)
    ∧ HDRP s.brk + 4 = s.brk ∧ GET_SIZE s (HDRP s.brk) = 0 ∧ GET_ALLOC s (HDRP s.brk) = 1
    ∧ (∀ fuel n p s', malloc fuel s n = some (p, s') → s.brk ≤ s'.brk)
    ∧ (∀ p, (free s p).brk = s.brk)
    ∧ (∀ fuel ptr n q s', realloc fuel s ptr n = some (q, s') → s.brk ≤ s'.brk)
    ∧ (∀ fuel nmemb size p s', calloc fuel s nmemb size = some (p, s') → s.brk ≤ s'.brk) := by
  obtain ⟨g, hI⟩ := Reach.inv h
  have lay := hI.lay
  have hB := hI.blocks
  have hlo := lay.brk_lo
  have hstart : NEXT_BLKP s s.heap_listp = s.heap_basep + 112 := by
    unfold NEXT_BLKP
    rw [lay.listp]
    simp only [WSIZE]
    rw [show s.heap_basep + 8 - 4 = s.heap_basep + 4 by omega, lay.prol]
  refine ⟨⟨s.brk + 1, fun fuel hf => ?_⟩, ?_, ?_, ?_, fun fuel => malloc_brk fuel s,
    free_brk s, fun fuel => realloc_brk fuel s, fun fuel => calloc_brk fuel s⟩
  · obtain ⟨l, hl, hm⟩ := blockWalk_total lay hB (s.brk + 1) (s.heap_basep + 112)
      hB.first (by omega) fuel hf
    refine ⟨l, ?_, fun b hb => ⟨bsize_mod s b, (hB.lo b (hm b hb)).2.2.1⟩⟩
    unfold heapBlocks
    rw [hstart]
    exact hl
  · unfold HDRP
    simp only [WSIZE]
    omega
  · exact hB.epi_size
  · exact hB.epi_alloc

set_option maxRecDepth 100000 in
/-- Witness for C26: the state after `init; a = malloc(100); b = malloc(200);
free(a)` with its three blocks. -/
theorem C26_block_tiling_witness :
    Reach heapA200 [(8416, 200)]
    ∧ ((∃ N, ∀ fuel, N ≤ fuel →
      ∃ l, heapBlocks fuel heapA200 = some (l, heapA200.brk)
        ∧ ∀ b, b ∈ l → bsize heapA200 b % 8 = 0 ∧ 16 ≤ bsize heapA200 b)
    ∧ HDRP heapA200.brk + 4 = heapA200.brk ∧ GET_SIZE heapA200 (HDRP heapA200.brk) = 0
    ∧ GET_ALLOC heapA200 (HDRP heapA200.brk) = 1
    ∧ (∀ fuel n p s', malloc fuel heapA200 n = some (p, s') → heapA200.brk ≤ s'.brk)
    ∧ (∀ p, (free heapA200 p).brk = heapA200.brk)
    ∧ (∀ fuel ptr n q s', realloc fuel heapA200 ptr n = some (q, s') → heapA200.brk ≤ s'.brk)
    ∧ (∀ fuel nmemb size p s', calloc fuel heapA200 nmemb size = some (p, s') →
        heapA200.brk ≤ s'.brk))
    ∧ heapBlocks 20 heapA200 = some ([8304, 8416, 8624], 12400)
    ∧ heapA200.brk = 12400 :=
  ⟨reach_a200, C26_block_tiling heapA200 [(8416, 200)] reach_a200, by decide, by decide⟩

end MM


set_option linter.unusedVariables false
set_option linter.unusedTactic false
set_option linter.unreachableTactic false

namespace MM

/-! ## Splicing a block into a list and out of it -/

/-- `insert_block` as four stores, for a block whose link words lie apart from
those of the sentinel `S` and of the head `F` of the list. -/
theorem insert_block_pure (s : Heap) (b i S F : Nat)
    (hS : S = s.heap_listp + i * DSIZE) (hF : F = NEXT_FREE_P s S)
    (hbS : b + 8 ≤ S ∨ S + 8 ≤ b) (hbF : b + 8 ≤ F ∨ F + 8 ≤ b)
    (hlo : s.heap_basep ≤ b) (hhi : b < s.heap_basep + 4294967296) :
    insert_block s b i
      = PUT (PUT (PUT (PUT s b (GET s S)) (b + 4) (GET s (F + 4))) S (b - s.heap_basep))
          (F + 4) (b - s.heap_basep) := by
  subst hS
  unfold insert_block
  simp only [PREV_P, NEXT_P, WSIZE, PUT_heap_listp, PUT_heap_basep]
  have e0 : (b - s.heap_basep) % SZ = b - s.heap_basep := by
    apply Nat.mod_eq_of_lt
    simp only [SZ]; omega
  rw [e0]
  have e1 : NEXT_FREE_P (PUT s b (GET s (s.heap_listp + i * DSIZE))) b = F := by
    rw [hF, NEXT_FREE_P_def, NEXT_FREE_P_def, PUT_heap_basep, GET_PUT_same,
      Nat.mod_eq_of_lt (GET_lt _ _)]
  rw [e1]
  have e2 : GET (PUT s b (GET s (s.heap_listp + i * DSIZE))) (F + 4) = GET s (F + 4) :=
    GET_PUT_other _ _ _ _ (by omega)
  rw [e2]
  have e3 : NEXT_FREE_P (PUT (PUT (PUT s b (GET s (s.heap_listp + i * DSIZE))) (b + 4)
      (GET s (F + 4))) (s.heap_listp + i * DSIZE) (b - s.heap_basep)) b = F := by
    rw [← e1]
    simp only [NEXT_FREE_P_def, PUT_heap_basep]
    rw [GET_PUT_other _ _ _ b (by omega), GET_PUT_other _ _ _ b (by omega)]
  rw [e3]

/-- The words of the heap after `insert_block`. -/
theorem insert_block_words (s : Heap) (b i S F : Nat)
    (hS : S = s.heap_listp + i * DSIZE) (hF : F = NEXT_FREE_P s S)
    (hbS : b + 8 ≤ S ∨ S + 8 ≤ b) (hbF : b + 8 ≤ F ∨ F + 8 ≤ b)
    (hFS : F = S ∨ F + 8 ≤ S ∨ S + 8 ≤ F)
    (hlo : s.heap_basep ≤ b) (hhi : b < s.heap_basep + 4294967296) :
    GET (insert_block s b i) S = b - s.heap_basep
    ∧ GET (insert_block s b i) b = GET s S
    ∧ GET (insert_block s b i) (b + 4) = GET s (F + 4)
    ∧ GET (insert_block s b i) (F + 4) = b - s.heap_basep
    ∧ ∀ q, (q + 4 ≤ b ∨ b + 8 ≤ q) → (q + 4 ≤ S ∨ S + 4 ≤ q) →
        (q ≤ F ∨ F + 8 ≤ q) → GET (insert_block s b i) q = GET s q := by
  rw [insert_block_pure s b i S F hS hF hbS hbF hlo hhi]
  have hv : (b - s.heap_basep) % 4294967296 = b - s.heap_basep :=
    Nat.mod_eq_of_lt (by omega)
  refine ⟨?_, ?_, ?_, ?_, ?_⟩
  · rw [GET_PUT_other _ _ _ _ (by omega), GET_PUT_same, hv]
  · rw [GET_PUT_other _ _ _ _ (by omega), GET_PUT_other _ _ _ _ (by omega),
      GET_PUT_other _ _ _ _ (by omega), GET_PUT_same, Nat.mod_eq_of_lt (GET_lt _ _)]
  · rw [GET_PUT_other _ _ _ _ (by omega), GET_PUT_other _ _ _ _ (by omega),
      GET_PUT_same, Nat.mod_eq_of_lt (GET_lt _ _)]
  · rw [GET_PUT_same, hv]
  · intro q h1 h2 h3
    rw [GET_PUT_other _ _ _ _ (by omega), GET_PUT_other _ _ _ _ (by omega),
      GET_PUT_other _ _ _ _ (by omega), GET_PUT_other _ _ _ _ (by omega)]

/-- `delete_block` as two stores, and the words of the heap after it, for a
block `b` whose next link leads to `F` and whose previous link leads to `S`. -/
theorem delete_block_words (s1 : Heap) (b S F : Nat)
    (hN : NEXT_FREE_P s1 b = F) (hP : PREV_FREE_P s1 b = S)
    (hbS : b + 8 ≤ S ∨ S + 8 ≤ b) (hbF : b + 8 ≤ F ∨ F + 8 ≤ b)
    (hFS : F = S ∨ F + 8 ≤ S ∨ S + 8 ≤ F) :
    GET (delete_block s1 b) S = GET s1 b
    ∧ GET (delete_block s1 b) (F + 4) = GET s1 (b + 4)
    ∧ ∀ q, (q + 4 ≤ S ∨ S + 4 ≤ q) → (q ≤ F ∨ F + 8 ≤ q) →
        GET (delete_block s1 b) q = GET s1 q := by
  have e : delete_block s1 b = PUT (PUT s1 (F + 4) (GET s1 (b + 4))) S (GET s1 b) := by
    unfold delete_block
    simp only [PREV_P, NEXT_P, WSIZE]
    rw [hN]
    have e1 : PREV_FREE_P (PUT s1 (F + 4) (GET s1 (b + 4))) b = S := by
      rw [← hP, PREV_FREE_P_def, PREV_FREE_P_def, PUT_heap_basep,
        GET_PUT_other _ _ _ _ (by omega)]
    have e2 : GET (PUT s1 (F + 4) (GET s1 (b + 4))) b = GET s1 b :=
      GET_PUT_other _ _ _ _ (by omega)
    rw [e1, e2]
  rw [e]
  refine ⟨?_, ?_, ?_⟩
  · rw [GET_PUT_same, Nat.mod_eq_of_lt (GET_lt _ _)]
  · rw [GET_PUT_other _ _ _ _ (by omega), GET_PUT_same, Nat.mod_eq_of_lt (GET_lt _ _)]
  · intro q h1 h2
    rw [GET_PUT_other _ _ _ _ (by omega), GET_PUT_other _ _ _ _ (by omega)]

end MM


set_option linter.unusedVariables false
set_option linter.unusedTactic false
set_option linter.unreachableTactic false

namespace MM

/-- The walk along a list reads only the next links of the blocks it meets. -/
theorem listWalk_frame (s s' : Heap) (cur : Nat) :
    ∀ f x l, listWalk s cur f x = some l →
      (∀ y, y ∈ l → NEXT_FREE_P s' y = NEXT_FREE_P s y) → listWalk s' cur f x = some l := by
  intro f
  induction f with
  | zero =>
    intro x l h
    exact absurd h (by simp [listWalk])
  | succ f ih =>
    intro x l h hfr
    rw [listWalk] at h ⊢
    by_cases hx : x = cur
    · rw [if_pos hx] at h ⊢
      exact h
    · rw [if_neg hx] at h ⊢
      cases hr : listWalk s cur f (NEXT_FREE_P s x) with
      | none => rw [hr] at h; exact absurd h (by simp)
      | some l2 =>
        rw [hr] at h
        simp only at h
        have e := Option.some.inj h
        subst e
        rw [hfr x (List.mem_cons_self _ _),
          ih _ l2 hr (fun y hy => hfr y (List.mem_cons_of_mem _ hy))]

/-- How the blocks of a walk are linked: no block is the sentinel, the next
link of a block leads to a block of the walk or to the sentinel, every block
but the first is the successor of a block of the walk, and so is the sentinel
unless the walk is empty. -/
theorem listWalk_links (s : Heap) (cur : Nat) :
    ∀ f x l, listWalk s cur f x = some l →
      (∀ y, y ∈ l → y ≠ cur ∧ NEXT_FREE_P s y ∈ cur :: l)
      ∧ (∀ y, y ∈ l → y = x ∨ ∃ z, z ∈ l ∧ NEXT_FREE_P s z = y)
      ∧ ((x = cur ∧ l = []) ∨ (x ≠ cur ∧ x ∈ l ∧ ∃ z, z ∈ l ∧ NEXT_FREE_P s z = cur)) := by
  intro f
  induction f with
  | zero =>
    intro x l h
    exact absurd h (by simp [listWalk])
  | succ f ih =>
    intro x l h
    rw [listWalk] at h
    by_cases hx : x = cur
    · rw [if_pos hx] at h
      have e := Option.some.inj h
      subst e
      exact ⟨fun y hy => absurd hy (List.not_mem_nil y),
        fun y hy => absurd hy (List.not_mem_nil y), Or.inl ⟨hx, rfl⟩⟩
    · rw [if_neg hx] at h
      cases hr : listWalk s cur f (NEXT_FREE_P s x) with
      | none => rw [hr] at h; exact absurd h (by simp)
      | some l2 =>
        rw [hr] at h
        simp only at h
        have e := Option.some.inj h
        subst e
        obtain ⟨ha, hb, hc⟩ := ih _ l2 hr
        refine ⟨fun y hy => ?_, fun y hy => ?_, Or.inr ⟨hx, List.mem_cons_self _ _, ?_⟩⟩
        · rcases List.mem_cons.mp hy with e | e
          · subst e
            refine ⟨hx, ?_⟩
            rcases hc with ⟨h1, h2⟩ | ⟨h1, h2, h3⟩
            · rw [h1]; exact List.mem_cons_self _ _
            · exact List.mem_cons_of_mem _ (List.mem_cons_of_mem _ h2)
          · refine ⟨(ha y e).1, ?_⟩
            rcases List.mem_cons.mp (ha y e).2 with h1 | h1
            · rw [h1]; exact List.mem_cons_self _ _
            · exact List.mem_cons_of_mem _ (List.mem_cons_of_mem _ h1)
        · rcases List.mem_cons.mp hy with e | e
          · exact Or.inl e
          · right
            rcases hb y e with h1 | ⟨z, hz, h1⟩
            · exact ⟨x, List.mem_cons_self _ _, h1.symm⟩
            · exact ⟨z, List.mem_cons_of_mem _ hz, h1⟩
        · rcases hc with ⟨h1, h2⟩ | ⟨h1, h2, z, hz, h3⟩
          · exact ⟨x, List.mem_cons_self _ _, h1⟩
          · exact ⟨z, List.mem_cons_of_mem _ hz, h3⟩

end MM


set_option linter.unusedVariables false
set_option linter.unusedTactic false
set_option linter.unreachableTactic false

namespace MM

/-- Splicing `b` in after the sentinel `S` and out again, with the sentinel
and the head of the list named. -/
theorem splice_round_trip (s : Heap) (b i fuel S F : Nat) (l : List Nat)
    (hS : S = s.heap_listp + i * DSIZE) (hF : F = NEXT_FREE_P s S)
    (hw : listWalk s S fuel F = some l)
    (hwf : ∀ x, x ∈ S :: l →
      PREV_FREE_P s (NEXT_FREE_P s x) = x ∧ NEXT_FREE_P s (PREV_FREE_P s x) = x)
    (hb : ∀ y, y ∈ S :: l → b + 8 ≤ y ∨ y + 8 ≤ b)
    (hall : ∀ x y, x ∈ S :: l → y ∈ S :: l → x ≠ y → x + 8 ≤ y ∨ y + 8 ≤ x)
    (hlo : s.heap_basep ≤ b) (hhi : b < s.heap_basep + 4294967296) :
    listWalk (insert_block s b i) S (fuel + 1) (NEXT_FREE_P (insert_block s b i) S)
      = some (b :: l)
    ∧ (∀ x, x ∈ S :: b :: l →
        PREV_FREE_P (insert_block s b i) (NEXT_FREE_P (insert_block s b i) x) = x
        ∧ NEXT_FREE_P (insert_block s b i) (PREV_FREE_P (insert_block s b i) x) = x)
    ∧ listWalk (delete_block (insert_block s b i) b) S fuel
        (NEXT_FREE_P (delete_block (insert_block s b i) b) S) = some l
    ∧ ∀ x, x ∈ S :: l →
        GET (delete_block (insert_block s b i) b) x = GET s x
        ∧ GET (delete_block (insert_block s b i) b) (x + 4) = GET s (x + 4) := by
  obtain ⟨hk1, hk2, hk3⟩ := listWalk_links s S fuel F l hw
  have hSS : S ∈ S :: l := List.mem_cons_self _ _
  have hFm : F ∈ S :: l := by
    rcases hk3 with ⟨h1, -⟩ | ⟨-, h1, -⟩
    · rw [h1]; exact hSS
    · exact List.mem_cons_of_mem _ h1
  have hbS := hb S hSS
  have hbF := hb F hFm
  have hFS : F = S ∨ F + 8 ≤ S ∨ S + 8 ≤ F := by
    by_cases h : F = S
    · exact Or.inl h
    · exact Or.inr (hall F S hFm hSS h)
  have hxF : ∀ x, x ∈ S :: l → x = F ∨ x + 8 ≤ F ∨ F + 8 ≤ x := by
    intro x hx
    by_cases h : x = F
    · exact Or.inl h
    · exact Or.inr (hall x F hx hFm h)
  have hxS : ∀ x, x ∈ S :: l → x = S ∨ x + 8 ≤ S ∨ S + 8 ≤ x := by
    intro x hx
    by_cases h : x = S
    · exact Or.inl h
    · exact Or.inr (hall x S hx hSS h)
  obtain ⟨w1, w2, w3, w4, wo⟩ := insert_block_words s b i S F hS hF hbS hbF hFS hlo hhi
  obtain ⟨s1, hs1⟩ : ∃ s1, s1 = insert_block s b i := ⟨_, rfl⟩
  have hbase1 : s1.heap_basep = s.heap_basep := by rw [hs1]; rfl
  rw [← hs1] at w1 w2 w3 w4 wo ⊢
  -- the links after the insertion
  have n1S : NEXT_FREE_P s1 S = b := by
    rw [NEXT_FREE_P_def, hbase1, w1]; omega
  have n1b : NEXT_FREE_P s1 b = F := by
    rw [NEXT_FREE_P_def, hbase1, w2, hF, NEXT_FREE_P_def]
  have p1b : PREV_FREE_P s1 b = S := by
    rw [PREV_FREE_P_def, hbase1, w3, ← PREV_FREE_P_def, hF]
    exact (hwf S hSS).1
  have p1F : PREV_FREE_P s1 F = b := by
    rw [PREV_FREE_P_def, hbase1, w4]; omega
  have g1x : ∀ x, x ∈ l → GET s1 x = GET s x := by
    intro x hx
    have hm := List.mem_cons_of_mem S hx
    have h1 := hb x hm
    have h2 := hxS x hm
    have h3 := hxF x hm
    have h4 := (hk1 x hx).1
    exact wo x (by omega) (by omega) (by omega)
  have g1p : ∀ x, x ∈ S :: l → x ≠ F → GET s1 (x + 4) = GET s (x + 4) := by
    intro x hm hne
    have h1 := hb x hm
    have h2 := hxS x hm
    have h3 := hxF x hm
    exact wo (x + 4) (by omega) (by omega) (by omega)
  have n1x : ∀ x, x ∈ l → NEXT_FREE_P s1 x = NEXT_FREE_P s x := by
    intro x hx
    rw [NEXT_FREE_P_def, NEXT_FREE_P_def, hbase1, g1x x hx]
  have p1x : ∀ x, x ∈ S :: l → x ≠ F → PREV_FREE_P s1 x = PREV_FREE_P s x := by
    intro x hx hne
    rw [PREV_FREE_P_def, PREV_FREE_P_def, hbase1, g1p x hx hne]
  -- the predecessor of a node other than the head is a block of the list
  have hpred : ∀ x, x ∈ S :: l → x ≠ F →
      PREV_FREE_P s x ∈ l ∧ NEXT_FREE_P s (PREV_FREE_P s x) = x := by
    intro x hx hne
    have hz : ∃ z, z ∈ l ∧ NEXT_FREE_P s z = x := by
      rcases List.mem_cons.mp hx with e | e
      · rcases hk3 with ⟨h1, -⟩ | ⟨-, -, h1⟩
        · exact absurd (e.trans h1.symm) hne
        · rw [e]; exact h1
      · rcases hk2 x e with h1 | h1
        · exact absurd h1 hne
        · exact h1
    obtain ⟨z, hz, hzx⟩ := hz
    have := (hwf z (List.mem_cons_of_mem _ hz)).1
    rw [hzx] at this
    rw [this]
    exact ⟨hz, hzx⟩
  obtain ⟨d1, d2, dother⟩ := delete_block_words s1 b S F n1b p1b hbS hbF hFS
  obtain ⟨s2, hs2⟩ : ∃ s2, s2 = delete_block s1 b := ⟨_, rfl⟩
  have hbase2 : s2.heap_basep = s.heap_basep := by rw [hs2, ← hbase1]; rfl
  rw [← hs2] at d1 d2 dother ⊢
  have hrest : ∀ x, x ∈ S :: l → GET s2 x = GET s x ∧ GET s2 (x + 4) = GET s (x + 4) := by
    intro x hx
    have h1 := hb x hx
    have h2 := hxS x hx
    have h3 := hxF x hx
    constructor
    · rcases List.mem_cons.mp hx with e | e
      · rw [e, d1, w2]
      · have h4 := (hk1 x e).1
        rw [dother x (by omega) (by omega), g1x x e]
    · by_cases hne : x = F
      · rw [hne, d2, w3]
      · rw [dother (x + 4) (by omega) (by omega), g1p x hx hne]
  refine ⟨?_, ?_, ?_, hrest⟩
  · have hbne : b ≠ S := by omega
    rw [n1S, listWalk, if_neg hbne, n1b, listWalk_frame s s1 S fuel F l hw n1x]
  · intro x hx
    rcases List.mem_cons.mp hx with e | e
    · -- the sentinel
      subst e
      refine ⟨by rw [n1S, p1b], ?_⟩
      by_cases hFx : x = F
      · rw [hFx, p1F, n1b]
      · obtain ⟨hz, hzx⟩ := hpred x hSS hFx
        rw [p1x x hSS hFx, n1x _ hz, hzx]
    · rcases List.mem_cons.mp e with e | e
      · -- the new block
        subst e
        exact ⟨by rw [n1b, p1F], by rw [p1b, n1S]⟩
      · -- a block of the old list
        have hm := List.mem_cons_of_mem S e
        constructor
        · have hy := (hk1 x e).2
          have hyF : NEXT_FREE_P s x ≠ F := by
            intro h
            have h1 := (hwf x hm).1
            rw [h, hF, (hwf S hSS).1] at h1
            exact (hk1 x e).1 h1.symm
          rw [n1x x e, p1x _ hy hyF]
          exact (hwf x hm).1
        · by_cases hFx : x = F
          · rw [hFx, p1F, n1b]
          · obtain ⟨hz, hzx⟩ := hpred x hm hFx
            rw [p1x x hm hFx, n1x _ hz, hzx]
  · have e : NEXT_FREE_P s2 S = F := by
      rw [NEXT_FREE_P_def, hbase2, d1, w2, hF, NEXT_FREE_P_def]
    rw [e]
    apply listWalk_frame s s2 S fuel F l hw
    intro y hy
    rw [NEXT_FREE_P_def, NEXT_FREE_P_def, hbase2, (hrest y (List.mem_cons_of_mem _ hy)).1]

end MM


set_option linter.unusedVariables false
set_option linter.unusedTactic false
set_option linter.unreachableTactic false

namespace MM

/-- Claim C27.  Let the walk along list `i` come back to its sentinel with
the blocks `l`, let the sentinel and every block of `l` satisfy
`prev (next x) = x = next (prev x)`, and let `b` be a block whose two link
words lie apart from those of the sentinel and of the blocks of `l` (which lie
apart from each other), at an offset from the heap base that fits in 32 bits.
Then after `insert_block b i` the walk gives `b :: l` and the sentinel, `b`
and the blocks of `l` are again linked both ways; and `delete_block b` applied
next gives back the walk `l` and the next and previous words of the sentinel
and of every block of `l`. -/
theorem C27_splice_round_trip (s : Heap) (b i fuel : Nat) (l : List Nat)
    (hw : listBlocks fuel s i = some l)
    (hwf : ∀ x, x ∈ (s.heap_listp + i * DSIZE) :: l →
      PREV_FREE_P s (NEXT_FREE_P s x) = x ∧ NEXT_FREE_P s (PREV_FREE_P s x) = x)
    (hsep : (b :: (s.heap_listp + i * DSIZE) :: l).Pairwise
      (fun x y => x + 8 ≤ y ∨ y + 8 ≤ x))
    (hlo : s.heap_basep ≤ b) (hhi : b < s.heap_basep + 4294967296) :
    listBlocks (fuel + 1) (insert_block s b i) i = some (b :: l)
    ∧ (∀ x, x ∈ (s.heap_listp + i * DSIZE) :: b :: l →
        PREV_FREE_P (insert_block s b i) (NEXT_FREE_P (insert_block s b i) x) = x
        ∧ NEXT_FREE_P (insert_block s b i) (PREV_FREE_P (insert_block s b i) x) = x)
    ∧ listBlocks fuel (delete_block (insert_block s b i) b) i = some l
    ∧ ∀ x, x ∈ (s.heap_listp + i * DSIZE) :: l →
        GET (delete_block (insert_block s b i) b) x = GET s x
        ∧ GET (delete_block (insert_block s b i) b) (x + 4) = GET s (x + 4) := by
  have hsym : Symmetric (fun x y : Nat => x + 8 ≤ y ∨ y + 8 ≤ x) := fun x y h => h.symm
  rw [List.pairwise_cons] at hsep
  exact splice_round_trip s b i fuel (s.heap_listp + i * DSIZE)
    (NEXT_FREE_P s (s.heap_listp + i * DSIZE)) l rfl rfl hw hwf hsep.1
    (fun x y hx hy hne => hsep.2.forall hsym hx hy hne) hlo hhi

set_option maxRecDepth 100000 in
/-- Witness for C27: in the state after `init; a = malloc(100);
b = malloc(200); free(a)` list 8 holds the block 8624; the block 8416 is
spliced in and out again. -/
theorem C27_splice_round_trip_witness :
    (listBlocks 20 heapA200 8 = some [8624]
    ∧ (∀ x, x ∈ (heapA200.heap_listp + 8 * DSIZE) :: [8624] →
      PREV_FREE_P heapA200 (NEXT_FREE_P heapA200 x) = x
        ∧ NEXT_FREE_P heapA200 (PREV_FREE_P heapA200 x) = x)
    ∧ (8416 :: (heapA200.heap_listp + 8 * DSIZE) :: [8624]).Pairwise
      (fun x y => x + 8 ≤ y ∨ y + 8 ≤ x)
    ∧ heapA200.heap_basep ≤ 8416 ∧ 8416 < heapA200.heap_basep + 4294967296)
    ∧ (listBlocks (20 + 1) (insert_block heapA200 8416 8) 8 = some (8416 :: [8624])
    ∧ (∀ x, x ∈ (heapA200.heap_listp + 8 * DSIZE) :: 8416 :: [8624] →
        PREV_FREE_P (insert_block heapA200 8416 8)
            (NEXT_FREE_P (insert_block heapA200 8416 8) x) = x
        ∧ NEXT_FREE_P (insert_block heapA200 8416 8)
            (PREV_FREE_P (insert_block heapA200 8416 8) x) = x)
    ∧ listBlocks 20 (delete_block (insert_block heapA200 8416 8) 8416) 8 = some [8624]
    ∧ ∀ x, x ∈ (heapA200.heap_listp + 8 * DSIZE) :: [8624] →
        GET (delete_block (insert_block heapA200 8416 8) 8416) x = GET heapA200 x
        ∧ GET (delete_block (insert_block heapA200 8416 8) 8416) (x + 4)
            = GET heapA200 (x + 4)) :=
  ⟨⟨by decide, by decide, by decide, by decide, by decide⟩,
    C27_splice_round_trip heapA200 8416 8 20 [8624] (by decide) (by decide) (by decide)
      (by decide) (by decide)⟩

end MM


set_option linter.unusedVariables false
set_option linter.unusedTactic false
set_option linter.unreachableTactic false

namespace MM

/-! ## The walk along a list meets every block of the list once -/

/-- The blocks of a walk are listed, their ranks are at most the rank of the
first one, and no block is met twice. -/
theorem listWalk_nodup {s : Heap} {g : Ghost} (hl : Lists s g) (hb : s.heap_basep % 8 = 0)
    (j : Nat) (hj : j < 12) :
    ∀ f x l, isNode s g x → g.bkt x = j →
      listWalk s (s.heap_basep + 8 + 8 * j) f x = some l →
      (∀ y, y ∈ l → g.fr y ∧ g.bkt y = j ∧ g.rk y ≤ g.rk x) ∧ l.Nodup := by
  intro f
  induction f with
  | zero =>
    intro x l _ _ h
    exact absurd h (by simp [listWalk])
  | succ f ih =>
    intro x l hx hbk h
    have hlk := listWalk_links s _ (f + 1) x l h
    rw [listWalk] at h
    by_cases hxS : x = s.heap_basep + 8 + 8 * j
    · rw [if_pos hxS] at h
      have e := Option.some.inj h
      subst e
      exact ⟨fun y hy => absurd hy (List.not_mem_nil y), List.nodup_nil⟩
    · rw [if_neg hxS] at h
      have hfr : g.fr x := by
        rcases hx with h1 | h1
        · obtain ⟨k, hk, rfl⟩ := h1
          rw [hl.sent_bkt k hk] at hbk
          subst hbk
          exact absurd rfl hxS
        · exact h1
      have hxn := hl.next x hx
      cases hr : listWalk s (s.heap_basep + 8 + 8 * j) f (NEXT_FREE_P s x) with
      | none => rw [hr] at h; exact absurd h (by simp)
      | some l2 =>
        rw [hr] at h
        simp only at h
        have e := Option.some.inj h
        subst e
        obtain ⟨hm, hnd⟩ := ih _ l2 hxn.1 (by rw [hxn.2.2.1, hbk]) hr
        obtain ⟨-, -, hk3⟩ := listWalk_links s _ f _ l2 hr
        have hlt : ∀ y, y ∈ l2 → g.rk y < g.rk x := by
          intro y hy
          rcases hk3 with ⟨-, h2⟩ | ⟨-, h2, -⟩
          · rw [h2] at hy
            exact absurd hy (List.not_mem_nil y)
          · have h3 := hxn.2.2.2 (hm _ h2).1
            have h4 := (hm y hy).2.2
            omega
        refine ⟨fun y hy => ?_, ?_⟩
        · rcases List.mem_cons.mp hy with e | e
          · rw [e]; exact ⟨hfr, hbk, le_refl _⟩
          · have h1 := hm y e
            have h2 := hlt y e
            exact ⟨h1.1, h1.2.1, by omega⟩
        · rw [List.nodup_cons]
          refine ⟨fun hin => ?_, hnd⟩
          have := hlt x hin
          omega

/-- Every listed block of bucket `j` is met by the walk along list `j`. -/
theorem listWalk_complete {s : Heap} {g : Ghost} (hl : Lists s g) (hb : s.heap_basep % 8 = 0)
    (j : Nat) (hj : j < 12) (f : Nat) (l : List Nat)
    (hw : listWalk s (s.heap_basep + 8 + 8 * j) f
      (NEXT_FREE_P s (s.heap_basep + 8 + 8 * j)) = some l) :
    ∀ x, g.fr x → g.bkt x = j → x ∈ l := by
  have hS : isNode s g (s.heap_basep + 8 + 8 * j) := Or.inl ⟨j, hj, rfl⟩
  have hSn := hl.next _ hS
  obtain ⟨hm, -⟩ := listWalk_nodup hl hb j hj f _ l hSn.1
    (by rw [hSn.2.2.1]; exact hl.sent_bkt j hj) hw
  obtain ⟨hk1, hk2, hk3⟩ := listWalk_links s _ f _ l hw
  have hprev : ∀ y, y ∈ (s.heap_basep + 8 + 8 * j) :: l →
      PREV_FREE_P s y ∈ (s.heap_basep + 8 + 8 * j) :: l := by
    intro y hy
    rcases List.mem_cons.mp hy with e | e
    · rcases hk3 with ⟨h1, -⟩ | ⟨-, -, z, hz, h1⟩
      · have := hSn.2.1
        rw [h1] at this
        rw [e, this]
        exact List.mem_cons_self _ _
      · have := (hl.next z (Or.inr (hm z hz).1)).2.1
        rw [h1] at this
        rw [e, this]
        exact List.mem_cons_of_mem _ hz
    · rcases hk2 y e with h1 | ⟨z, hz, h1⟩
      · rw [h1, hSn.2.1]
        exact List.mem_cons_self _ _
      · have := (hl.next z (Or.inr (hm z hz).1)).2.1
        rw [h1] at this
        rw [this]
        exact List.mem_cons_of_mem _ hz
  have key : ∀ n x, isNode s g x → g.bkt x = j → (g.fr x → g.rk x < n) →
      x ∈ (s.heap_basep + 8 + 8 * j) :: l := by
    intro n
    induction n with
    | zero =>
      intro x hx hbk hrk
      rcases hx with h1 | h1
      · obtain ⟨k, hk, rfl⟩ := h1
        rw [hl.sent_bkt k hk] at hbk
        subst hbk
        exact List.mem_cons_self _ _
      · exact absurd (hrk h1) (Nat.not_lt_zero _)
    | succ n ih =>
      intro x hx hbk hrk
      rcases hx with h1 | h1
      · obtain ⟨k, hk, rfl⟩ := h1
        rw [hl.sent_bkt k hk] at hbk
        subst hbk
        exact List.mem_cons_self _ _
      · have hxn := hl.next x (Or.inr h1)
        have h2 := ih _ hxn.1 (by rw [hxn.2.2.1, hbk])
          (fun hf => by have := hxn.2.2.2 hf; have := hrk h1; omega)
        have h3 := hprev _ h2
        rw [hxn.2.1] at h3
        exact h3
  intro x hx hbk
  have h1 := key (g.rk x + 1) x (Or.inr hx) hbk (fun _ => Nat.lt_succ_self _)
  rcases List.mem_cons.mp h1 with e | e
  · exact absurd ⟨j, hj, e⟩ (not_sent_of_fr hl hx hb)
  · exact e

end MM


set_option linter.unusedVariables false
set_option linter.unusedTactic false
set_option linter.unreachableTactic false

namespace MM

/-! ## The block that `free` leaves -/

/-- The block in front of `p` and the survivor of `free(p)`, in a state that
satisfies the invariant. -/
theorem survivor_facts {s : Heap} {L : List (Nat × Nat)} {g : Ghost} {p : Nat}
    (hI : Inv s L g) (hp : isLive L p) :
    survivor s p = (if GET_PREV_ALLOC s (HDRP p) = 0 then PREV_BLKP s p else p)
    ∧ survivor s p + mergedBefore s p = p
    ∧ 16 ≤ bsize s p
    ∧ mergedAfter s p
        = (if GET_ALLOC s (HDRP (NEXT_BLKP s p)) = 0 then bsize s (NEXT_BLKP s p) else 0)
    ∧ mergedBefore s p
        = (if GET_PREV_ALLOC s (HDRP p) = 0 then bsize s (PREV_BLKP s p) else 0) := by
  obtain ⟨n, hn⟩ := hp
  have hblk := (hI.blocks.live_blk p n hn).1
  have hlo := hI.blocks.lo p hblk
  refine ⟨?_, ?_, hlo.2.2.1, rfl, rfl⟩
  · unfold survivor mergedBefore
    by_cases h0 : GET_PREV_ALLOC s (HDRP p) = 0
    · obtain ⟨q, hq, hqp, hqf⟩ := prev_free_facts
        (⟨hI.lay, hI.blocks, hI.lists, fun x hx _ => hI.full x hx⟩ : InvT s L g p) hblk
        (by omega)
      have hq1 := hI.blocks.lo q (hI.blocks.fr_blk q hq).1
      have hPq : PREV_BLKP s p = q := by
        unfold PREV_BLKP
        simp only [DSIZE]
        rw [hqf]
        omega
      rw [if_pos h0, if_pos h0, hPq, if_pos (by omega)]
    · rw [if_neg h0, if_neg h0, if_neg (by omega)]
  · unfold survivor mergedBefore
    by_cases h0 : GET_PREV_ALLOC s (HDRP p) = 0
    · obtain ⟨q, hq, hqp, hqf⟩ := prev_free_facts
        (⟨hI.lay, hI.blocks, hI.lists, fun x hx _ => hI.full x hx⟩ : InvT s L g p) hblk
        (by omega)
      have hq1 := hI.blocks.lo q (hI.blocks.fr_blk q hq).1
      have hPq : PREV_BLKP s p = q := by
        unfold PREV_BLKP
        simp only [DSIZE]
        rw [hqf]
        omega
      rw [if_pos h0, hPq, if_pos (by omega)]
      exact hqp
    · rw [if_neg h0, if_neg (by omega)]
      exact Nat.add_zero p

/-- The result of `free` on a live pointer, in a state that satisfies the
invariant. -/
theorem free_result {s : Heap} {L : List (Nat × Nat)} {g : Ghost} {p : Nat}
    (hI : Inv s L g) (hp : isLive L p) :
    bsize (free s p) (survivor s p) = mergedBefore s p + bsize s p + mergedAfter s p
    ∧ GET_SIZE (free s p) (FTRP (free s p) (survivor s p))
        = mergedBefore s p + bsize s p + mergedAfter s p
    ∧ GET_ALLOC (free s p) (HDRP (survivor s p)) = 0
    ∧ ∃ N, ∀ fuel, N ≤ fuel → ∀ i, i < 12 →
        ∃ l, listBlocks fuel (free s p) i = some l
          ∧ l.count (survivor s p)
              = (if i = get_index (mergedBefore s p + bsize s p + mergedAfter s p)
                  then 1 else 0)
          ∧ (0 < mergedBefore s p → p ∉ l)
          ∧ (0 < mergedAfter s p → NEXT_BLKP s p ∉ l) := by
  obtain ⟨hsv, hsum, hp16, hma, hmb⟩ := survivor_facts hI hp
  obtain ⟨g', hI', -, -, hfr, hsz, hal⟩ := free_spec_full hI hp
  rw [← hsv] at hfr hsz hal
  rw [← hma, ← hmb] at hsz
  obtain ⟨r, hr⟩ : ∃ r, r = survivor s p := ⟨_, rfl⟩
  obtain ⟨a, ha⟩ : ∃ a, a = mergedBefore s p := ⟨_, rfl⟩
  obtain ⟨c, hc⟩ : ∃ c, c = mergedAfter s p := ⟨_, rfl⟩
  rw [← hr] at hfr hsz hal hsum ⊢
  rw [← ha] at hsz hsum ⊢
  rw [← hc] at hsz ⊢
  obtain ⟨s', hs'⟩ : ∃ s', s' = free s p := ⟨_, rfl⟩
  rw [← hs'] at hI' hsz hal ⊢
  have hB' := hI'.blocks
  have hrh := hB'.fr_hdr r hfr
  have hrb := (hB'.fr_blk r hfr).1
  refine ⟨hsz, ?_, ?_, ?_⟩
  · unfold FTRP
    simp only [DSIZE]
    have : GET_SIZE s' (HDRP r) = bsize s' r := rfl
    rw [this, hrh.2.1, hsz]
  · unfold HDRP
    simp only [WSIZE]
    exact hal
  · obtain ⟨N, hN⟩ := listBlocks_total hI'.lay hI'.lists
    refine ⟨N, fun fuel hf i hi => ?_⟩
    obtain ⟨l, hl, hm⟩ := hN fuel hf i hi
    have eS : s'.heap_listp + i * DSIZE = s'.heap_basep + 8 + 8 * i := by
      rw [hI'.lay.listp]; simp only [DSIZE]; omega
    have hw : listWalk s' (s'.heap_basep + 8 + 8 * i) fuel
        (NEXT_FREE_P s' (s'.heap_basep + 8 + 8 * i)) = some l := by
      have := hl
      unfold listBlocks at this
      rw [eS] at this
      exact this
    have hS : isNode s' g' (s'.heap_basep + 8 + 8 * i) := Or.inl ⟨i, hi, rfl⟩
    have hSn := hI'.lists.next _ hS
    obtain ⟨-, hnd⟩ := listWalk_nodup hI'.lists hI'.lay.base_al i hi fuel _ l hSn.1
      (by rw [hSn.2.2.1]; exact hI'.lists.sent_bkt i hi) hw
    have hcomp := listWalk_complete hI'.lists hI'.lay.base_al i hi fuel l hw
    have hapart : ∀ x, x ∈ l → x ≠ r → x + bsize s' x ≤ r ∨ r + bsize s' r ≤ x :=
      fun x hx hne => hB'.apart (hB'.fr_blk x (hm x hx).1).1 hrb hne
    refine ⟨l, hl, ?_, fun h0 hin => ?_, fun h0 hin => ?_⟩
    · rw [List.count_eq_of_nodup hnd]
      by_cases hi2 : i = get_index (a + bsize s p + c)
      · rw [if_pos hi2, if_pos]
        apply hcomp r hfr
        rw [← hrh.2.2, hsz, hi2]
      · rw [if_neg hi2, if_neg]
        intro hin
        have := (hm r hin).2
        rw [← hrh.2.2, hsz] at this
        exact hi2 this.symm
    · have := hapart p hin (by omega)
      omega
    · rw [NEXT_BLKP_eq] at hin
      have := hapart _ hin (by omega)
      omega

end MM


set_option linter.unusedVariables false
set_option linter.unusedTactic false
set_option linter.unreachableTactic false

namespace MM

set_option maxRecDepth 100000 in
theorem reach_abc : Reach (stOf ex_c) [(8528, 100), (8416, 100), (8304, 100)] :=
  Reach.malloc 20 (stOf ex_b) (stOf ex_c) [(8416, 100), (8304, 100)] 100 8528 reach_ab
    (by decide) (eq_some_of _ _ (by decide) (by decide))

set_option maxRecDepth 100000 in
theorem reach_ac : Reach heapAC [(8416, 100)] := by
  have h1 := Reach.free _ _ 8304 reach_abc (Or.inr ⟨100, by decide⟩)
  have h2 := Reach.free _ _ 8528 h1 (Or.inr ⟨100, by decide⟩)
  have e1 : ptrOf ex_a = 8304 := by decide
  have e2 : ptrOf ex_c = 8528 := by decide
  unfold heapAC
  rw [e1, e2]
  exact h2

/-- Claim C22.  In every reachable state and for every live pointer `p`, with
`a` the size of the block in front of `p` when the predecessor bit of `p` is
clear (else 0) and `c` the size of the block behind `p` when its allocation
bit is clear (else 0): after `free p` the block that starts at the block in
front when `a > 0`, and at `p` otherwise, has size `a + s + c` in its header
and in its footer and a clear allocation bit; with enough fuel every list is
walked to its end, that block is met exactly once on the list of the class of
`a + s + c` and on no other list, and neither `p` (when `a > 0`) nor the block
behind `p` (when `c > 0`) is on any list. -/
theorem C22_free_coalesces (s : Heap) (L : List (Nat × Nat)) (h : Reach s L) (p : Nat)
    (hp : isLive L p) :
    bsize (free s p) (survivor s p) = mergedBefore s p + bsize s p + mergedAfter s p
    ∧ GET_SIZE (free s p) (FTRP (free s p) (survivor s p))
        = mergedBefore s p + bsize s p + mergedAfter s p
    ∧ GET_ALLOC (free s p) (HDRP (survivor s p)) = 0
    ∧ ∃ N, ∀ fuel, N ≤ fuel → ∀ i, i < 12 →
        ∃ l, listBlocks fuel (free s p) i = some l
          ∧ l.count (survivor s p)
              = (if i = get_index (mergedBefore s p + bsize s p + mergedAfter s p)
                  then 1 else 0)
          ∧ (0 < mergedBefore s p → p ∉ l)
          ∧ (0 < mergedAfter s p → NEXT_BLKP s p ∉ l) := by
  obtain ⟨g, hI⟩ := Reach.inv h
  exact free_result hI hp

set_option maxRecDepth 100000 in
/-- Witness for C22: after `init; a = malloc(100); b = malloc(100);
c = malloc(100); free(a); free(c)` the call `free(b)` merges the three blocks
into one of 336 bytes at `a`, which is the only block of list 5. -/
theorem C22_free_coalesces_witness :
    (Reach heapAC [(8416, 100)] ∧ isLive [(8416, 100)] 8416)
    ∧ (bsize (free heapAC 8416) (survivor heapAC 8416)
        = mergedBefore heapAC 8416 + bsize heapAC 8416 + mergedAfter heapAC 8416
    ∧ GET_SIZE (free heapAC 8416) (FTRP (free heapAC 8416) (survivor heapAC 8416))
        = mergedBefore heapAC 8416 + bsize heapAC 8416 + mergedAfter heapAC 8416
    ∧ GET_ALLOC (free heapAC 8416) (HDRP (survivor heapAC 8416)) = 0
    ∧ ∃ N, ∀ fuel, N ≤ fuel → ∀ i, i < 12 →
        ∃ l, listBlocks fuel (free heapAC 8416) i = some l
          ∧ l.count (survivor heapAC 8416)
              = (if i = get_index
                    (mergedBefore heapAC 8416 + bsize heapAC 8416 + mergedAfter heapAC 8416)
                  then 1 else 0)
          ∧ (0 < mergedBefore heapAC 8416 → 8416 ∉ l)
          ∧ (0 < mergedAfter heapAC 8416 → NEXT_BLKP heapAC 8416 ∉ l))
    ∧ ptrOf ex_a = 8304 ∧ ptrOf ex_b = 8416 ∧ ptrOf ex_c = 8528
    ∧ survivor heapAC 8416 = 8304
    ∧ mergedBefore heapAC 8416 = 112 ∧ bsize heapAC 8416 = 112
    ∧ mergedAfter heapAC 8416 = 112
    ∧ bsize (free heapAC 8416) 8304 = 336
    ∧ get_index 336 = 5
    ∧ listBlocks 20 (free heapAC 8416) 5 = some [8304]
    ∧ listBlocks 20 (free heapAC 8416) 3 = some []
    ∧ heapBlocks 20 (free heapAC 8416) = some ([8304, 8640], 12400) :=
  ⟨⟨reach_ac, ⟨100, List.mem_singleton.mpr rfl⟩⟩,
    C22_free_coalesces heapAC [(8416, 100)] reach_ac 8416 ⟨100, List.mem_singleton.mpr rfl⟩,
    by decide, by decide, by decide, by decide, by decide, by decide, by decide, by decide,
    by decide, by decide, by decide, by decide⟩

end MM


set_option linter.unusedVariables false
set_option linter.unusedTactic false
set_option linter.unreachableTactic false

namespace MM

/-! ## Requests that wrap around, and failure of `realloc` in any state -/

set_option maxRecDepth 100000 in
/-- C2 (the code at the failing inputs): right after `mm_init`,
`malloc(2^64 - 1)` computes the adjusted size 8 (below 16 and below the
request) and returns the pointer 8304, a block of 8 bytes; `malloc(2^64 - 15)`
computes the adjusted size 0 and also returns 8304, a block of 4096 bytes; on
its way `place` changes the prologue's footer word at 8296 from 107 to 3 and
puts a node at the break 12400, outside the heap, on list 8. -/
theorem C2_wrapped_request_returns :
    ptrOf (malloc 20 heap1 18446744073709551615) = 8304
    ∧ malloc_asize 18446744073709551615 = 8
    ∧ ¬ (16 ≤ malloc_asize 18446744073709551615)
    ∧ bsize (stOf (malloc 20 heap1 18446744073709551615)) 8304 = 8
    ∧ exW.isSome = true ∧ ptrOf exW = 8304
    ∧ malloc_asize 18446744073709551601 = 0
    ∧ bsize (stOf exW) 8304 = 4096
    ∧ GET heap1 8296 = 107 ∧ GET (stOf exW) 8296 = 3
    ∧ (stOf exW).brk = 12400 ∧ NEXT_FREE_P (stOf exW) 8264 = 12400 := by decide

set_option maxRecDepth 100000 in
/-- C3 (the code at the failing input): after `mm_init` on a heap whose break
8192 is a multiple of 8, `p = malloc(2^64 - 15)` returns 8304; the caller
stores 125 at `p[4096]` and 20 at `p[10]`, both among the bytes it asked for;
then `malloc(5000)` returns 8317, which is not a multiple of 8. -/
theorem C3_misaligned_after_wrapped_request :
    heap0.brk % 8 = 0 ∧ (mm_init heap0).1 = 0
    ∧ exW.isSome = true ∧ ptrOf exW = 8304
    ∧ 4096 < 18446744073709551601
    ∧ (malloc 20 heapWrap 5000).isSome = true
    ∧ ptrOf (malloc 20 heapWrap 5000) = 8317
    ∧ 8317 % 8 = 5 := by decide

set_option maxRecDepth 100000 in
/-- C5 (the code at the failing input): in `heapAB` the live block `b` was
obtained by `malloc(100)` and holds 255 in its first byte.  For the request
`2^64 - 12` `realloc` computes the target size `2^64 - 8`, larger than the
block, and falls back to `malloc`, whose adjusted size for that request is 0:
`realloc(b, 2^64 - 12)` returns the non-null pointer `a`, whose first byte is
32.  One byte more, `2^64 - 11`, makes the target size itself wrap to 0 and
`realloc` hands back `b`. -/
theorem C5_wrapped_request_loses_content :
    ptrOf ex_b = 8416 ∧ heapAB.mem 8416 = 255
    ∧ realloc_newSize 18446744073709551604 = 18446744073709551608
    ∧ malloc_asize 18446744073709551604 = 0
    ∧ ptrOf (realloc 20 heapAB 8416 18446744073709551604) = 8304
    ∧ (stOf (realloc 20 heapAB 8416 18446744073709551604)).mem 8304 = 32
    ∧ realloc_newSize 18446744073709551605 = 0
    ∧ ptrOf (realloc 20 heapAB 8416 18446744073709551605) = 8416 := by decide

set_option maxRecDepth 100000 in
/-- The fill of `calloc` runs off the heap when the byte count wraps: right
after `mm_init`, `calloc(1, 2^64 - 1)` gets the 8-byte block 8304 from `malloc`
and `memset` of `2^64 - 1` bytes from there faults. -/
theorem calloc_wrapped_faults :
    ptrOf (malloc 20 heap1 18446744073709551615) = 8304
    ∧ (malloc 20 heap1 18446744073709551615).isSome = true
    ∧ (calloc 20 heap1 1 18446744073709551615).isSome = false := by decide

end MM
